import Mathlib

/-! # Groot behaviour-tree editor: main window document registry and undo/redo manager

A shallow embedding of `bt_editor/mainwindow.cpp` and `bt_editor/mainwindow.h`.

* `std::map<QString, V>` is `StdMap V`: a list of entries kept in strictly ascending key
  order, so iteration order and key uniqueness are those of the C++ container.
* `std::deque<SavedState>` is a `List`; `back()` is the last element.
* A member function of `MainWindow` is a function on the record `MainWindow`.  A function
  that can throw returns a `Res`, which keeps the window state reached at the throw.
* Slots are modelled as operations.  Widgets hold data only: the delivery of Qt signals
  (for instance `currentChanged` of the tab widget) is not part of an operation.
* Widgets that only display something (icons of tool buttons, the validity semaphore,
  message boxes) are not part of the state.
-/

set_option autoImplicit false

/-! ## Strings, ordered maps -/

abbrev QString := String

/-- The order of `QString` keys in a `std::map`: lexicographic on the characters. -/
def QString.lt (a b : QString) : Prop := a.data < b.data

instance QString.decLt : DecidableRel QString.lt :=
  fun a b => inferInstanceAs (Decidable (a.data < b.data))

/-- The container `std::map<QString, V>`: entries in strictly ascending key order. -/
structure StdMap (V : Type) where
  entries : List (QString × V)
  sorted : entries.Pairwise (fun a b => QString.lt a.1 b.1)

namespace StdMap

variable {V : Type}

instance [DecidableEq V] : DecidableEq (StdMap V) := fun a b =>
  match a, b with
  | ⟨ea, _⟩, ⟨eb, _⟩ =>
    if h : ea = eb then isTrue (by subst h; rfl)
    else isFalse (by intro h2; cases h2; exact h rfl)

instance [Repr V] : Repr (StdMap V) := ⟨fun m n => reprPrec m.entries n⟩

/-- The empty map; also the result of `clear()`. -/
def empty : StdMap V := ⟨[], List.Pairwise.nil⟩

instance : Inhabited (StdMap V) := ⟨empty⟩

/-- The keys in iteration order. -/
def keys (m : StdMap V) : List QString := m.entries.map Prod.fst

/-- The member `size()`. -/
def size (m : StdMap V) : Nat := m.entries.length

/-- Lookup in a list of entries. -/
def findEntry (k : QString) : List (QString × V) → Option V
  | [] => none
  | e :: rest => if e.1 = k then some e.2 else findEntry k rest

/-- The member `find(k)`: `none` stands for `end()`. -/
def find (m : StdMap V) (k : QString) : Option V := findEntry k m.entries

/-- The member `count(k)`. -/
def count (m : StdMap V) (k : QString) : Nat := if (m.find k).isSome then 1 else 0

/-- Insertion of a fresh key at its place; an existing key keeps its value. -/
def insertEntry (k : QString) (v : V) : List (QString × V) → List (QString × V)
  | [] => [(k, v)]
  | e :: rest =>
    if QString.lt k e.1 then (k, v) :: e :: rest
    else if k = e.1 then e :: rest
    else e :: insertEntry k v rest

/-- The member `insert({k, v})`: nothing happens when the key is present. -/
def insert (m : StdMap V) (k : QString) (v : V) : StdMap V :=
  ⟨insertEntry k v m.entries, by
    have mem : ∀ (l : List (QString × V)) (x : QString × V),
        x ∈ insertEntry k v l → x = (k, v) ∨ x ∈ l := by
      intro l
      induction l with
      | nil => intro x hx; simpa [insertEntry] using hx
      | cons e rest ih =>
        intro x hx
        unfold insertEntry at hx
        split at hx
        · simpa using hx
        · split at hx
          · exact Or.inr hx
          · rcases List.mem_cons.1 hx with h | h
            · exact Or.inr (by simp [h])
            · rcases ih x h with h2 | h2
              · exact Or.inl h2
              · exact Or.inr (List.mem_cons_of_mem _ h2)
    have key : ∀ (l : List (QString × V)),
        l.Pairwise (fun a b => QString.lt a.1 b.1) →
        (insertEntry k v l).Pairwise (fun a b => QString.lt a.1 b.1) := by
      intro l
      induction l with
      | nil => intro _; simp [insertEntry]
      | cons e rest ih =>
        intro hl
        have hl2 := List.pairwise_cons.1 hl
        unfold insertEntry
        split
        · rename_i hlt
          refine List.pairwise_cons.2 ⟨?_, hl⟩
          intro x hx
          rcases List.mem_cons.1 hx with h | h
          · simpa [h] using hlt
          · exact @lt_trans (List Char) _ _ _ _ hlt (hl2.1 x h)
        · split
          · exact hl
          · rename_i hnlt hne
            refine List.pairwise_cons.2 ⟨?_, ih hl2.2⟩
            intro x hx
            rcases mem rest x hx with h | h
            · subst h
              have hne2 : k.data ≠ e.1.data := fun hd => hne (String.ext hd)
              rcases @lt_trichotomy (List Char) _ k.data e.1.data with h3 | h3 | h3
              · exact absurd h3 hnlt
              · exact absurd h3 hne2
              · exact h3
            · exact hl2.1 x h
    exact key m.entries m.sorted⟩

/-- The member `erase(k)`. -/
def erase (m : StdMap V) (k : QString) : StdMap V :=
  ⟨m.entries.filter (fun e => !decide (e.1 = k)),
    m.sorted.sublist (List.filter_sublist _)⟩

/-- Assignment through `operator[]`: `m[k] = v` overwrites or inserts. -/
def assign (m : StdMap V) (k : QString) (v : V) : StdMap V := (m.erase k).insert k v

/-- Reading through `operator[]`: a missing key is first inserted with the default value. -/
def index [Inhabited V] (m : StdMap V) (k : QString) : V × StdMap V :=
  match m.find k with
  | some v => (v, m)
  | none => (default, m.insert k default)

/-- Every value is replaced by its image; keys are untouched. -/
def mapValues {W : Type} (f : V → W) (m : StdMap V) : StdMap W :=
  ⟨m.entries.map (fun e => (e.1, f e.2)), by
    have h := m.sorted
    rw [List.pairwise_map]
    exact h⟩

end StdMap

/-! ## Node models, scenes and documents -/

/-- The kind of a node model (`NodeType`, with the `Root` kind of the data model). -/
inductive NodeType where
  | UNDEFINED
  | ACTION
  | CONDITION
  | CONTROL
  | DECORATOR
  | SUBTREE
  | ROOT
deriving DecidableEq, Repr

/-- The name of a node kind, `toStr(NodeType)`; it is the category of the model registry. -/
def toStr : NodeType → QString
  | .UNDEFINED => "Undefined"
  | .ACTION => "Action"
  | .CONDITION => "Condition"
  | .CONTROL => "Control"
  | .DECORATOR => "Decorator"
  | .SUBTREE => "SubTree"
  | .ROOT => "Root"

inductive PortDirection where
  | INPUT
  | OUTPUT
  | INOUT
deriving DecidableEq, Repr

/-- Modelled from the spec: the type `PortModel` (declared outside this source file),
`{ direction, required, default_value }`. -/
structure PortModel where
  direction : PortDirection
  required : Bool
  default_value : QString
deriving DecidableEq, Repr

instance : Inhabited PortModel := ⟨⟨.INPUT, false, ""⟩⟩

/-- Modelled from the spec: the type `NodeModel` (declared outside this source file),
`{ kind, registration_id, ports }`, in the field order of its aggregate initialisation
`{ NodeType::SUBTREE, new_name, {} }`. -/
structure NodeModel where
  type : NodeType
  registration_ID : QString
  ports : StdMap PortModel
deriving DecidableEq, Repr

instance : Inhabited NodeModel := ⟨⟨.UNDEFINED, "", StdMap.empty⟩⟩

abbrev NodeModels := StdMap NodeModel

inductive PortLayout where
  | Horizontal
  | Vertical
deriving DecidableEq, Repr

inductive GraphicMode where
  | EDITOR
  | MONITOR
  | REPLAY
deriving DecidableEq, Repr

/-- Modelled from the spec: a node of a document graph, as seen through the Graph Scene
Adapter: its model, instance name and port values, the expansion flag of a subtree
reference, the number of output ports and the lock set by the expansion engine. -/
structure Node where
  uid : Nat
  model : NodeModel
  instance_name : QString
  ports_mapping : StdMap QString
  expanded : Bool
  out_ports : Nat
  locked : Bool
deriving DecidableEq, Repr

/-- Modelled from the spec: a connection from the output port of `out_node` to the input port
of `in_node` (both are node handles). -/
structure Connection where
  out_node : Nat
  in_node : Nat
deriving DecidableEq, Repr

/-- Modelled from the spec: the graph of one document: nodes and connections in authoring
order. -/
structure FlowScene where
  nodes : List Node
  connections : List Connection
  layout : PortLayout
deriving DecidableEq, Repr

/-- Modelled from the spec: the opaque blob of the serialization collaborator; a document's
full state serializes to it and deserializes from it, so it is represented by the scene
it encodes. -/
structure QByteArray where
  content : FlowScene
deriving DecidableEq, Repr

/-- The Qt value type `QTransform` (a 3x3 matrix); entries are taken as integers and compared
component-wise. -/
structure QTransform where
  m : List Int
deriving DecidableEq, Repr

/-- The Qt value type `QRectF`; coordinates are taken as integers and compared
component-wise. -/
structure QRectF where
  x : Int
  y : Int
  w : Int
  h : Int
deriving DecidableEq, Repr

namespace FlowScene

/-- A scene without nodes, as a new `GraphicContainer` owns it. -/
def empty : FlowScene := ⟨[], [], .Vertical⟩

/-- A handle not used by any node of the scene. -/
def freshUid (s : FlowScene) : Nat := (s.nodes.map Node.uid).foldl max 0 + 1

/-- The model of the root node, registered under the ID `Root`. -/
def RootNodeModel : NodeModel := ⟨.ROOT, "Root", StdMap.empty⟩

/-- Modelled from the spec: `createNodeAtPos("Root", "Root", pos)`, the adapter's
`createNode(model, position)` for the root model; positions are not part of the model. -/
def createRootNode (s : FlowScene) : FlowScene :=
  { s with nodes := s.nodes ++
      [⟨s.freshUid, RootNodeModel, "Root", StdMap.empty, false, 1, false⟩] }

/-- Modelled from the spec: `saveToMemory()`, the document state as an opaque blob. -/
def saveToMemory (s : FlowScene) : QByteArray := ⟨s⟩

end FlowScene

/-- Modelled from the spec: `AbstractTreeNode`, one node of a derived logical tree;
`graphic_node` is the handle of the graph node it was derived from. -/
structure AbstractTreeNode where
  model : NodeModel
  instance_name : QString
  ports_mapping : StdMap QString
  children_index : List Nat
  graphic_node : Nat
deriving DecidableEq, Repr

/-- Modelled from the spec: `AbsBehaviorTree`, the nodes in visiting order; the root has
index `0`. -/
structure AbsBehaviorTree where
  nodes : List AbstractTreeNode
deriving DecidableEq, Repr

namespace FlowScene

/-- The node behind a handle. -/
def findNode (s : FlowScene) (uid : Nat) : Option Node :=
  s.nodes.find? fun n => n.uid == uid

/-- The nodes connected to the output of `uid`, in authoring order. -/
def childrenOf (s : FlowScene) (uid : Nat) : List Nat :=
  (s.connections.filter fun c => c.out_node == uid).map Connection.in_node

/-- Whether some connection enters the node. -/
def hasParent (s : FlowScene) (uid : Nat) : Bool :=
  s.connections.any fun c => c.in_node == uid

/-- Modelled from the spec: the unique node with no incoming connection, if there is exactly
one. -/
def findRoot (s : FlowScene) : Option Node :=
  match s.nodes.filter fun n => !s.hasParent n.uid with
  | [r] => some r
  | _ => none

/-- Modelled from the spec: a node has more output connections than its child-port capacity
(a control node takes any number of children on its port). -/
def overCapacity (s : FlowScene) (n : Node) : Bool :=
  match n.model.type with
  | .CONTROL => false
  | _ => decide (n.out_ports < (s.childrenOf n.uid).length)

/-- Modelled from the spec: depth-first traversal along output connections in authoring order;
`todo` is the stack of nodes to visit, `visited` the nodes in visiting order.  It fails when
a node is reached twice or is over capacity. -/
def visit (s : FlowScene) : Nat → List Nat → List Nat → Option (List Nat)
  | 0, _, _ => none
  | _ + 1, [], visited => some visited
  | fuel + 1, u :: todo, visited =>
    if u ∈ visited then none
    else
      match s.findNode u with
      | none => none
      | some n =>
        if s.overCapacity n then none
        else visit s fuel (s.childrenOf u ++ todo) (visited ++ [u])

/-- Modelled from the spec: the Tree Builder, `build(document)`: `none` is a
`ValidityError::Structural`.  Every node gets its index in visiting order and the indices
of its direct successors. -/
def build (s : FlowScene) : Option AbsBehaviorTree :=
  match s.findRoot with
  | none => none
  | some r =>
    match s.visit (s.nodes.length + 1) [r.uid] [] with
    | none => none
    | some order =>
      if order.length ≠ s.nodes.length then none
      else
        some ⟨order.filterMap fun u =>
          (s.findNode u).map fun n =>
            { model := n.model
              instance_name := n.instance_name
              ports_mapping := n.ports_mapping
              children_index := (s.childrenOf u).map fun c => order.indexOf c
              graphic_node := u }⟩

/-- The nodes reachable from the nodes in `todo` along output connections. -/
def reachable (s : FlowScene) : Nat → List Nat → List Nat → List Nat
  | 0, _, acc => acc
  | _ + 1, [], acc => acc
  | fuel + 1, u :: todo, acc =>
    if u ∈ acc then reachable s fuel todo acc
    else reachable s fuel (s.childrenOf u ++ todo) (acc ++ [u])

/-- A bound on the number of steps of a traversal that visits no node twice: every step takes
one node from the stack, and the stack receives the start nodes and, for every visited
node, its children. -/
def fuel (s : FlowScene) : Nat := s.nodes.length + 2 * s.connections.length + 2

/-- All nodes below `uid`: the nodes reachable from its children. -/
def descendants (s : FlowScene) (uid : Nat) : List Nat :=
  s.reachable s.fuel (s.childrenOf uid) []

/-- Every connection joins two nodes of the scene. -/
def connectionsJoinNodes (s : FlowScene) : Prop :=
  ∀ c ∈ s.connections, (s.findNode c.out_node).isSome ∧ (s.findNode c.in_node).isSome

instance (s : FlowScene) : Decidable s.connectionsJoinNodes :=
  inferInstanceAs (Decidable (∀ c ∈ s.connections, _))

/-- Modelled from the spec: the adapter's `deleteNode` for a set of nodes, with the connections
that touch them. -/
def removeNodes (s : FlowScene) (uids : List Nat) : FlowScene :=
  { s with
    nodes := s.nodes.filter fun n => !(uids.contains n.uid)
    connections := s.connections.filter fun c =>
      !(uids.contains c.out_node) && !(uids.contains c.in_node) }

/-- A change of the node behind a handle. -/
def updateNode (s : FlowScene) (uid : Nat) (f : Node → Node) : FlowScene :=
  { s with nodes := s.nodes.map fun n => if n.uid = uid then f n else n }

end FlowScene

/-- Modelled from the spec: `BuildTreeFromScene`; no partial tree is produced for a document
that is not a valid tree. -/
def BuildTreeFromScene (s : FlowScene) : AbsBehaviorTree :=
  match s.build with
  | some tree => tree
  | none => ⟨[]⟩

/-- Modelled from the spec: a document (`GraphicContainer`, declared outside this source file):
its graph, the transform and scene rectangle of its view, and whether editing is locked. -/
structure GraphicContainer where
  scene : FlowScene
  view_transform : QTransform
  view_area : QRectF
  editing_locked : Bool
deriving DecidableEq, Repr

namespace GraphicContainer

/-- The identity matrix, the transform of a new view. -/
def identityTransform : QTransform := ⟨[1, 0, 0, 0, 1, 0, 0, 0, 1]⟩

/-- Modelled from the spec: `new GraphicContainer(registry, parent)`, an empty document. -/
def create : GraphicContainer := ⟨FlowScene.empty, identityTransform, ⟨0, 0, 0, 0⟩, false⟩

/-- Modelled from the spec: `loadFromJson(blob)`, the document is repopulated from the
blob. -/
def loadFromJson (c : GraphicContainer) (blob : QByteArray) : GraphicContainer :=
  { c with scene := blob.content }

/-- Modelled from the spec: `lockEditing(locked)` of one document. -/
def lockEditing (c : GraphicContainer) (locked : Bool) : GraphicContainer :=
  { c with editing_locked := locked }

/-- Modelled from the spec: `containsValidTree()`, whether `build` succeeds. -/
def containsValidTree (c : GraphicContainer) : Bool := c.scene.build.isSome

/-- Modelled from the spec: `nodeReorder()`, the re-layout of the document; positions are not
part of the model. -/
def nodeReorder (c : GraphicContainer) : GraphicContainer := c

/-- Modelled from the spec: `deleteSubTreeRecursively(child)`, every node reachable from
`child` is deleted. -/
def deleteSubTreeRecursively (c : GraphicContainer) (child : Nat) : GraphicContainer :=
  { c with scene := c.scene.removeNodes (c.scene.reachable c.scene.fuel [child] []) }

/-- The copy of one tree node, under the handle `uid`.  A copied subtree reference is expanded
when it has children. -/
def copyNode (uid : Nat) (a : AbstractTreeNode) : Node :=
  { uid := uid
    model := a.model
    instance_name := a.instance_name
    ports_mapping := a.ports_mapping
    expanded := decide (a.model.type = .SUBTREE) && !a.children_index.isEmpty
    out_ports :=
      match a.model.type with
      | .ACTION => 0
      | .CONDITION => 0
      | .SUBTREE => if a.children_index.isEmpty then 0 else 1
      | _ => 1
    locked := false }

/-- The copies of the tree nodes from index `i` on: tree node `j` gets the handle
`base + j`. -/
def copyNodes (base : Nat) : Nat → List AbstractTreeNode → List Node
  | _, [] => []
  | i, a :: rest => copyNode (base + i) a :: copyNodes base (i + 1) rest

/-- The connections of the copy, for the tree nodes from index `i` on: one connection from the
copy of a node to the copy of each of its children, in order. -/
def copyConnections (base : Nat) : Nat → List AbstractTreeNode → List Connection
  | _, [] => []
  | i, a :: rest =>
    (a.children_index.map fun j => (⟨base + i, base + j⟩ : Connection)) ++
      copyConnections base (i + 1) rest

/-- Modelled from the spec: `appendTreeToNode(node, tree)`, a deep, independent copy of the
tree is appended below `node`: one new node per tree node, connected as the tree is, the
copy of the root connected to `node`. -/
def appendTreeToNode (c : GraphicContainer) (node : Nat) (tree : AbsBehaviorTree) :
    GraphicContainer :=
  let base := c.scene.freshUid
  let top : List Connection := if tree.nodes.isEmpty then [] else [⟨node, base⟩]
  { c with scene := { c.scene with
      nodes := c.scene.nodes ++ copyNodes base 0 tree.nodes
      connections := c.scene.connections ++ top ++ copyConnections base 0 tree.nodes } }

/-- Modelled from the spec: `loadSceneFromTree(tree)`, the graph is replaced by the nodes and
connections of the tree. -/
def loadSceneFromTree (c : GraphicContainer) (tree : AbsBehaviorTree) : GraphicContainer :=
  { c with scene := { c.scene with
      nodes := copyNodes 1 0 tree.nodes
      connections := copyConnections 1 0 tree.nodes } }

/-- Modelled from the spec: `lockSubtreeEditing(node, locked, change_style)`, the body below
`node` is locked or unlocked; the style is display only. -/
def lockSubtreeEditing (c : GraphicContainer) (node : Nat) (locked : Bool) : GraphicContainer :=
  let body := c.scene.descendants node
  { c with scene := { c.scene with
      nodes := c.scene.nodes.map fun n => if body.contains n.uid then { n with locked := locked } else n } }

/-- The document `c` with the locked copy of `tree` attached below `node`: tree node `j` is
the node `freshUid + j`, and one connection leads from `node` to the copy of the root. -/
def withBody (c : GraphicContainer) (node : Nat) (tree : AbsBehaviorTree) : GraphicContainer :=
  { c with scene := { c.scene with
      nodes := c.scene.nodes ++
        (copyNodes c.scene.freshUid 0 tree.nodes).map fun m => { m with locked := true }
      connections := c.scene.connections ++ [⟨node, c.scene.freshUid⟩] ++
        copyConnections c.scene.freshUid 0 tree.nodes } }

/-- Modelled from the spec: `substituteNode(node, new_ID)`, the node is replaced by a new node
of the model registered as `new_ID` (given here as `model`), which takes over its
connections; the handle of the new node is returned, `none` when no such model is
registered. -/
def substituteNode (c : GraphicContainer) (node : Nat) (model : Option NodeModel) :
    GraphicContainer × Option Nat :=
  match model with
  | none => (c, none)
  | some m =>
    let fresh := c.scene.freshUid
    ({ c with scene := { c.scene with
        nodes := c.scene.nodes.map fun n =>
          if n.uid = node then
            { n with uid := fresh, model := m, instance_name := m.registration_ID,
                     expanded := false }
          else n
        connections := c.scene.connections.map fun k =>
          { out_node := if k.out_node = node then fresh else k.out_node
            in_node := if k.in_node = node then fresh else k.in_node } } },
     some fresh)

/-- Modelled from the spec: `onSmartRemove(node)`, the node itself is removed and its body
stays: the children of the node are connected to its parent, in its place. -/
def onSmartRemove (c : GraphicContainer) (node : Nat) : GraphicContainer :=
  let children := c.scene.childrenOf node
  { c with scene := { c.scene with
      nodes := c.scene.nodes.filter fun n => !decide (n.uid = node)
      connections := (c.scene.connections.map fun k =>
        if k.in_node = node then children.map fun child => (⟨k.out_node, child⟩ : Connection)
        else if k.out_node = node then []
        else [k]).flatten } }

end GraphicContainer

/-! ### Ancestors of a node, and the branches of `subTreeExpand`

Devices for the statements about `refreshExpandedSubtrees` and `onTreeNodeEdited`. -/

namespace FlowScene

/-- The nodes of `P` are nodes of the scene, `Q` is part of `P`, and every connection that
enters a node of `P` leaves a node of `Q`: `Q` holds every ancestor of every node of
`P`. -/
def guarded (s : FlowScene) (P Q : List Nat) : Prop :=
  (∀ u ∈ P, (s.findNode u).isSome) ∧ (∀ q ∈ Q, q ∈ P) ∧
    ∀ k ∈ s.connections, k.in_node ∈ P → k.out_node ∈ Q

instance (s : FlowScene) (P Q : List Nat) : Decidable (s.guarded P Q) :=
  inferInstanceAs (Decidable ((∀ u ∈ P, _) ∧ (∀ q ∈ Q, _) ∧ ∀ k ∈ s.connections, _))

/-- The scene `s2` keeps the nodes of `P` as they are in `s`: the nodes themselves, the
connections that enter them, their children up to children outside `P` that are gone, and
the connections between them. -/
def keeps (s s2 : FlowScene) (P : List Nat) : Prop :=
  (∀ u ∈ P, s2.findNode u = s.findNode u) ∧
  (∀ k ∈ s2.connections, k.in_node ∈ P → k ∈ s.connections) ∧
  (∀ u ∈ P, ∃ keep : Nat → Bool, (∀ x ∈ P, keep x = true) ∧
    s2.childrenOf u = (s.childrenOf u).filter keep) ∧
  ∀ k ∈ s.connections, k.in_node ∈ P → k.out_node ∈ P → k ∈ s2.connections

/-- The nodes from which a connection enters `uid`. -/
def parentsOf (s : FlowScene) (uid : Nat) : List Nat :=
  (s.connections.filter fun c => c.in_node == uid).map Connection.out_node

/-- The scene `s2` keeps the nodes of `P`, the connections that enter them and the
connections between them as they are in `s`, and the children of the nodes of `C` up to
children outside `P` that are gone. -/
def keepsOn (s s2 : FlowScene) (P C : List Nat) : Prop :=
  (∀ u ∈ P, s2.findNode u = s.findNode u) ∧
  (∀ k ∈ s2.connections, k.in_node ∈ P → k ∈ s.connections) ∧
  (∀ u ∈ C, ∃ keep : Nat → Bool, (∀ x ∈ P, keep x = true) ∧
    s2.childrenOf u = (s.childrenOf u).filter keep) ∧
  ∀ k ∈ s.connections, k.in_node ∈ P → k.out_node ∈ P → k ∈ s2.connections

end FlowScene

namespace GraphicContainer

/-- The locked copy of `tree` stands in the scene from the handle `base` on: tree node `j`
is the node `base + j`, and its children are the copies of the children of the tree
node. -/
def holdsBody (s : FlowScene) (base : Nat) (tree : AbsBehaviorTree) : Prop :=
  ∀ (j : Nat) (a : AbstractTreeNode), tree.nodes[j]? = some a →
    s.findNode (base + j) = some { copyNode (base + j) a with locked := true } ∧
    s.childrenOf (base + j) = a.children_index.map fun k => base + k

/-- The document after the `SUBTREE_COLLAPSE` branch of `subTreeExpand` for `node`. -/
def collapsed (c : GraphicContainer) (node : Nat) : GraphicContainer :=
  let child_node : Option Nat :=
    match c.scene.childrenOf node with
    | [child] => some child
    | _ => none
  let c1 :=
    match child_node with
    | some child => c.deleteSubTreeRecursively child
    | none => c
  let c2 := { c1 with scene :=
    c1.scene.updateNode node fun m => { m with expanded := false, out_ports := 0 } }
  let c3 := c2.lockSubtreeEditing node false
  if child_node.isSome then c3.nodeReorder else c3

/-- The document after the `SUBTREE_REFRESH` branch of `subTreeExpand` for `node`, whose
single child is `child_node`. -/
def refreshed (c : GraphicContainer) (node child_node : Nat) (subtree : AbsBehaviorTree) :
    GraphicContainer :=
  (((c.deleteSubTreeRecursively child_node).appendTreeToNode node subtree).nodeReorder
    ).lockSubtreeEditing node true

/-- The document after the `SUBTREE_EXPAND` branch of `subTreeExpand` for `node`. -/
def expandedWith (c : GraphicContainer) (node : Nat) (abs_subtree : AbsBehaviorTree) :
    GraphicContainer :=
  let c1 := { c with scene :=
    c.scene.updateNode node fun m => { m with expanded := true, out_ports := 1 } }
  let c2 := c1.appendTreeToNode node abs_subtree
  let c3 := c2.lockSubtreeEditing node true
  if abs_subtree.nodes.length > 1 then c3.nodeReorder else c3

/-- The document after one round of the second loop of `onTreeNodeEdited` for the node `g`,
when `m` is the model registered under the new ID and `tree` is the tree of the document
of that name, if it is a valid tree: an expanded subtree is collapsed, the node is
substituted, and what was an expanded subtree is expanded again. -/
def renamedAt (c : GraphicContainer) (g : Nat) (m : NodeModel)
    (tree : Option AbsBehaviorTree) : GraphicContainer :=
  match c.scene.findNode g with
  | none => c
  | some bt_node =>
    if bt_node.model.type = .SUBTREE ∧ bt_node.expanded = true then
      match tree with
      | some t =>
        ((c.collapsed g).substituteNode g (some m)).1.expandedWith (c.collapsed g).scene.freshUid t
      | none => ((c.collapsed g).substituteNode g (some m)).1
    else (c.substituteNode g (some m)).1

end GraphicContainer

/-! ## The tab widget -/

/-- One page of the tab widget: its label and whether it carries the star icon of the main
tree. -/
structure Tab where
  text : QString
  star : Bool
deriving DecidableEq, Repr

/-- The data of `QTabWidget` used by the main window: the pages in order and the current
index (`-1` when there is no page). -/
structure QTabWidget where
  tabs : List Tab
  currentIndex : Int
deriving DecidableEq, Repr

namespace QTabWidget

def count (w : QTabWidget) : Int := w.tabs.length

/-- The page at an index of type `int`, if the index is in range. -/
def tabAt (w : QTabWidget) (i : Int) : Option Tab :=
  if 0 ≤ i then w.tabs.get? i.toNat else none

/-- The function `tabText(i)`: the empty string when the index is out of range. -/
def tabText (w : QTabWidget) (i : Int) : QString :=
  match w.tabAt i with
  | some t => t.text
  | none => ""

/-- The function `setTabText(i, text)`: nothing happens when the index is out of range. -/
def setTabText (w : QTabWidget) (i : Int) (text : QString) : QTabWidget :=
  { w with tabs := w.tabs.mapIdx fun j t => if (j : Int) = i then { t with text := text } else t }

/-- The function `setTabIcon(i, icon)`; `star` tells whether the icon is the star. -/
def setTabIcon (w : QTabWidget) (i : Int) (star : Bool) : QTabWidget :=
  { w with tabs := w.tabs.mapIdx fun j t => if (j : Int) = i then { t with star := star } else t }

/-- The function `addTab(page, label)`: the page is appended; the first page of an empty
widget becomes the current one. -/
def addTab (w : QTabWidget) (label : QString) : QTabWidget :=
  { tabs := w.tabs ++ [⟨label, false⟩],
    currentIndex := if w.tabs.isEmpty then 0 else w.currentIndex }

/-- The function `clear()`. -/
def clear (_w : QTabWidget) : QTabWidget := ⟨[], -1⟩

/-- The function `setCurrentIndex(i)`: ignored when the index is out of range. -/
def setCurrentIndex (w : QTabWidget) (i : Int) : QTabWidget :=
  if 0 ≤ i ∧ i < w.count then { w with currentIndex := i } else w

/-- The function `removeTab(index)`: nothing happens when the index is out of range.  When
the current page is removed, the page to its right becomes current, or the new last page
if there is none. -/
def removeTab (w : QTabWidget) (index : Int) : QTabWidget :=
  if 0 ≤ index ∧ index < w.count then
    { tabs := w.tabs.eraseIdx index.toNat
      currentIndex :=
        if index < w.currentIndex then w.currentIndex - 1
        else if index = w.currentIndex ∧ index = w.count - 1 then w.count - 2
        else w.currentIndex }
  else w

/-- The function `QTabBar::moveTab(from, to)`: nothing happens when an index is out of range;
the current page stays the current page. -/
def moveTab (w : QTabWidget) (fromIdx toIdx : Int) : QTabWidget :=
  if fromIdx = toIdx ∨ ¬ (0 ≤ fromIdx ∧ fromIdx < w.count) ∨ ¬ (0 ≤ toIdx ∧ toIdx < w.count) then w
  else
    match w.tabs[fromIdx.toNat]? with
    | none => w
    | some t =>
      { tabs := (w.tabs.eraseIdx fromIdx.toNat).insertIdx toIdx.toNat t
        currentIndex :=
          if w.currentIndex = fromIdx then toIdx
          else if fromIdx < w.currentIndex ∧ w.currentIndex ≤ toIdx then w.currentIndex - 1
          else if toIdx ≤ w.currentIndex ∧ w.currentIndex < fromIdx then w.currentIndex + 1
          else w.currentIndex }

end QTabWidget

/-! ## XML documents -/

/-- The Qt type `QDomNode`, as far as this file looks at it: an element with its tag name,
its attributes in the order of `attributes().item(i)` and its child nodes in document
order; a comment; a text; or a node of another kind. -/
inductive QDomNode where
  | element (tagName : QString) (attributes : List (QString × QString))
      (children : List QDomNode)
  | comment (nodeValue : QString)
  | text (nodeValue : QString)
  | other

namespace QDomNode

/-- The function `tagName()`; the tag of a null element is empty. -/
def tagName : QDomNode → QString
  | element t _ _ => t
  | _ => ""

/-- The function `attributes()`, in the order of `item(i)`. -/
def attributes : QDomNode → List (QString × QString)
  | element _ a _ => a
  | _ => []

/-- The child nodes, from `firstChild()` along `nextSibling()`. -/
def childNodes : QDomNode → List QDomNode
  | element _ _ c => c
  | _ => []

/-- The function `hasAttribute(name)`. -/
def hasAttribute (n : QDomNode) (name : QString) : Bool :=
  n.attributes.any fun a => a.1 = name

/-- The function `attribute(name)`: the empty string when there is no such attribute. -/
def attributeOf (n : QDomNode) (name : QString) : QString :=
  match n.attributes.find? fun a => a.1 = name with
  | some a => a.2
  | none => ""

/-- The function `setAttribute(name, value)`: the value of an existing attribute is
replaced, a new attribute is added. -/
def setAttribute (n : QDomNode) (name value : QString) : QDomNode :=
  match n with
  | element t a c =>
    if a.any fun p => p.1 = name then
      element t (a.map fun p => if p.1 = name then (name, value) else p) c
    else element t (a ++ [(name, value)]) c
  | other => other
  | comment v => comment v
  | text v => text v

/-- The function `appendChild(child)`. -/
def appendChild (n : QDomNode) (child : QDomNode) : QDomNode :=
  match n with
  | element t a c => element t a (c ++ [child])
  | other => other
  | comment v => comment v
  | text v => text v

/-- Whether the node is an element with the given tag. -/
def isElementNamed (tag : QString) : QDomNode → Bool
  | element t _ _ => t = tag
  | _ => false

/-- The elements that the loop `firstChildElement(tag)`, `nextSiblingElement(tag)` visits. -/
def childElements (n : QDomNode) (tag : QString) : List QDomNode :=
  n.childNodes.filter (isElementNamed tag)

end QDomNode

/-- The Qt type `QDomDocument`, given by its root element `documentElement()`. -/
structure QDomDocument where
  documentElement : QDomNode

/-- A call of `QXmlStreamWriter`. -/
inductive XmlWrite where
  | writeStartDocument
  | writeStartElement (name : QString)
  | writeAttribute (name value : QString)
  | writeEndElement
  | writeComment (text : QString)
  | writeCharacters (text : QString)
  | writeEndDocument
deriving DecidableEq, Repr

/-- The Qt type `QXmlStreamWriter` on a string: the calls made so far, which determine the
string, and the error flag, which no call on a string sets. -/
structure QXmlStreamWriter where
  calls : List XmlWrite
  hasError : Bool
deriving DecidableEq, Repr

/-- One more call on the writer. -/
def QXmlStreamWriter.write (stream : QXmlStreamWriter) (call : XmlWrite) : QXmlStreamWriter :=
  { stream with calls := stream.calls ++ [call] }

/-- What a function of the main window can throw; `null_pointer` stands for the dereference
of a null pointer or of an `end()` iterator. -/
inductive Error where
  | runtime_error (what : String)
  | logic_error (what : String)
  | out_of_range
  | null_pointer
deriving DecidableEq, Repr

/-- What the functions of this file get from code that is declared elsewhere: the XML parser
and writer of Qt, the XML codec (`XML_utilities.hpp`) and the table of builtin models.  A
hook that throws, throws a `std::exception`. -/
structure External where
  /-- The function `QDomDocument::setContent(text)`: `none` when the text does not parse. -/
  setContent : QString → Option QDomDocument
  /-- The string that the writer makes of its calls. -/
  toString : List XmlWrite → QString
  ReadTreeNodesModel : QDomNode → Except Error NodeModels
  BuildTreeFromXML : QDomNode → NodeModels → Except Error AbsBehaviorTree
  /-- The function `GetModelsToRemove(parent, prev_models, workspace_models, new_models)`. -/
  GetModelsToRemove : NodeModels → NodeModels → NodeModels → List QString
  BuiltinNodeModels : NodeModels
  /-- The function `RecursivelyCreateXml(scene, doc, parent, node)`, by the children it
  appends to the parent element. -/
  RecursivelyCreateXml : FlowScene → Nat → List QDomNode
  writePortModel : QString → PortModel → QDomNode

/-- The answers of the user and of the file system during `saveCurrentTree`. -/
structure SaveEnvironment where
  /-- The answer of `QFileDialog::getSaveFileName`, empty when the dialog is cancelled. -/
  getSaveFileName : QString
  /-- Whether `QFile(path).open(WriteOnly)` succeeds. -/
  canOpen : QString → Bool
  /-- The function `QFileInfo(fileName).absolutePath()`. -/
  absolutePath : QString → QString
  workspace_dir : QString → QString
  workspace_path : QString → QString
  /-- The function `QDir(path).exists()`. -/
  dirExists : QString → Bool
  readFileToString : QString → QString
  /-- Whether the question "Conflicting Ports" about a model is answered with "No". -/
  conflictNo : QString → Bool
  /-- Whether the question "Add nodes to workspace?" is answered with "Yes". -/
  addToWorkspaceYes : Bool

/-- What `saveCurrentTree` does to the file system. -/
inductive FileAction where
  | write (path text : QString)
  | mkdir (path : QString)
deriving DecidableEq, Repr

/-! ## Snapshots and the main window -/

namespace StdMap

variable {V : Type}

/-- Mutation of the value stored under `k` through the pointer held by the map. -/
def modify (m : StdMap V) (k : QString) (f : V → V) : StdMap V :=
  ⟨m.entries.map (fun e => (e.1, if e.1 = k then f e.2 else e.2)), by
    have h := m.sorted
    rw [List.pairwise_map]
    exact h⟩

end StdMap

/-- The struct `MainWindow::SavedState`. -/
structure MainWindow.SavedState where
  main_tree : QString
  current_tab_name : QString
  view_transform : QTransform
  view_area : QRectF
  json_states : StdMap QByteArray
deriving DecidableEq, Repr

namespace MainWindow.SavedState

/-- The comparison `SavedState::operator==`. -/
def operator_eq (self other : MainWindow.SavedState) : Bool :=
  if self.current_tab_name ≠ other.current_tab_name ∨
      self.json_states.size ≠ other.json_states.size then
    false
  else if !(self.json_states.entries.all fun it =>
      match other.json_states.find it.1 with
      | none => false
      | some blob => decide (it.2 = blob)) then
    false
  else if self.view_area ≠ other.view_area ∨
      self.view_transform ≠ other.view_transform then
    false
  else
    true

/-- The comparison `SavedState::operator!=`. -/
def operator_ne (self other : MainWindow.SavedState) : Bool := !(self.operator_eq other)

end MainWindow.SavedState

/-- An entry of `QtNodes::DataModelRegistry`: the category and the node model captured by
the creator registered under an ID. -/
structure RegistryItem where
  category : QString
  model : NodeModel
deriving DecidableEq, Repr

/-- The enumeration `SubtreeExpandOption`. -/
inductive SubtreeExpandOption where
  | SUBTREE_EXPAND
  | SUBTREE_COLLAPSE
  | SUBTREE_CHANGE
  | SUBTREE_REFRESH
deriving DecidableEq, Repr

/-- The members of `MainWindow` that hold data. -/
structure MainWindow where
  tabWidget : QTabWidget
  _current_mode : GraphicMode
  _model_registry : StdMap RegistryItem
  _tab_info : StdMap GraphicContainer
  _undo_stack : List MainWindow.SavedState
  _redo_stack : List MainWindow.SavedState
  _current_state : MainWindow.SavedState
  _current_layout : PortLayout
  _treenode_models : NodeModels
  _workspace_models : NodeModels
  _main_tree : QString
  _current_file_name : QString
  saved : Bool
deriving DecidableEq, Repr

/-- The outcome of a function of the main window: it returns a value, or it throws; either
way the window is left in a state. -/
inductive Res (α : Type) where
  | ok (value : α) (st : MainWindow)
  | thrown (e : Error) (st : MainWindow)
deriving DecidableEq, Repr

instance {ε α : Type} [DecidableEq ε] [DecidableEq α] : DecidableEq (Except ε α) := fun a b =>
  match a, b with
  | .ok x, .ok y =>
    if h : x = y then isTrue (by rw [h]) else isFalse (by intro h2; cases h2; exact h rfl)
  | .error x, .error y =>
    if h : x = y then isTrue (by rw [h]) else isFalse (by intro h2; cases h2; exact h rfl)
  | .ok _, .error _ => isFalse (by intro h; cases h)
  | .error _, .ok _ => isFalse (by intro h; cases h)

namespace Res

variable {α β : Type}

/-- The window state in which the call ended. -/
def state : Res α → MainWindow
  | ok _ st => st
  | thrown _ st => st

/-- Whether the call returned. -/
def isOk : Res α → Bool
  | ok _ _ => true
  | thrown _ _ => false

/-- Sequencing: an exception of the first call leaves through the second. -/
def bind (r : Res α) (f : α → MainWindow → Res β) : Res β :=
  match r with
  | ok a st => f a st
  | thrown e st => thrown e st

end Res

namespace MainWindow

/-- The function `getTabByName`: `none` is the null pointer. -/
def getTabByName (st : MainWindow) (tab_name : QString) : Option GraphicContainer :=
  st._tab_info.find tab_name

/-- The function `currentTabInfo`. -/
def currentTabInfo (st : MainWindow) : Option GraphicContainer :=
  st.getTabByName (st.tabWidget.tabText st.tabWidget.currentIndex)

/-- The container that `createTab` builds: a new document with the current layout and a root
node (`zoomHomeView` only moves the view, whose geometry is not computed). -/
def newTabContainer (layout : PortLayout) : GraphicContainer :=
  { GraphicContainer.create with
    scene := ({ FlowScene.empty with layout := layout }).createRootNode }

/-- The function `createTab`.  The container is inserted into `_tab_info` by pointer and
filled afterwards; here it is filled first. -/
def createTab (name : QString) (st : MainWindow) : Res GraphicContainer :=
  if st._tab_info.count name > 0 then
    .thrown (.runtime_error ("There is already a Tab named " ++ name)) st
  else
    let ti : GraphicContainer := newTabContainer st._current_layout
    .ok ti { st with
      _tab_info := st._tab_info.insert name ti
      tabWidget := st.tabWidget.addTab name }

/-- The function `onTabSetMainTree`: in one pass over the tabs, tab `tab_index` gets the star
and names the main tree, every other tab loses its icon. -/
def onTabSetMainTree (tab_index : Int) (st : MainWindow) : MainWindow :=
  { st with
    tabWidget := { st.tabWidget with
      tabs := st.tabWidget.tabs.mapIdx fun i t => { t with star := decide ((i : Int) = tab_index) } }
    _main_tree :=
      if 0 ≤ tab_index ∧ tab_index < st.tabWidget.count then st.tabWidget.tabText tab_index
      else st._main_tree }

/-- The function `updateTreeInfo`; the window title and the save icon are display only. -/
def updateTreeInfo (saved : Bool) (fileName : QString) (st : MainWindow) : MainWindow :=
  { st with saved := saved, _current_file_name := fileName }

/-- The function `lockEditing`. -/
def lockEditing (locked : Bool) (st : MainWindow) : MainWindow :=
  { st with _tab_info := st._tab_info.mapValues fun c => c.lockEditing locked }

/-- The function `onSceneChanged`.  The validity of the current tab only drives the semaphore
and the enabled state of buttons, which are display only. -/
def onSceneChanged (st : MainWindow) : MainWindow :=
  let st1 := st.updateTreeInfo false st._current_file_name
  st1.lockEditing (decide (st1._current_mode ≠ GraphicMode.EDITOR))

/-- The function `saveCurrentState`. -/
def saveCurrentState (st : MainWindow) : Except Error SavedState :=
  let index := st.tabWidget.currentIndex
  let current_tab_name := st.tabWidget.tabText index
  match st.getTabByName current_tab_name with
  | none => .error .null_pointer
  | some current_view =>
    .ok { main_tree := st._main_tree
          current_tab_name := current_tab_name
          view_transform := current_view.view_transform
          view_area := current_view.view_area
          json_states := st._tab_info.mapValues fun c => c.scene.saveToMemory }

/-- The body of `onPushUndo` once the snapshot `saved` is captured. -/
def pushSnapshot (saved : SavedState) (st : MainWindow) : MainWindow :=
  let push : Bool :=
    match st._undo_stack.getLast? with
    | none => true
    | some back => saved.operator_ne st._current_state && back.operator_ne st._current_state
  let st1 :=
    if push then
      { st with _undo_stack := st._undo_stack ++ [st._current_state], _redo_stack := [] }
    else st
  { st1 with _current_state := saved }

/-- The function `onPushUndo`. -/
def onPushUndo (st : MainWindow) : Res Unit :=
  match st.saveCurrentState with
  | .error e => .thrown e st
  | .ok saved => .ok () (st.pushSnapshot saved)

/-- First loop of `loadSavedStateFromJson` over `json_states`: one `createTab` per key. -/
def loadSavedStateFromJson.createTabs :
    List (QString × QByteArray) → MainWindow → Res Unit
  | [], st => .ok () st
  | it :: rest, st =>
    (createTab it.1 st).bind fun ti st1 =>
      createTabs rest { st1 with _tab_info := st1._tab_info.insert it.1 ti }

/-- Second loop of `loadSavedStateFromJson` over `json_states`: every container is loaded
from its blob and gets the saved view. -/
def loadSavedStateFromJson.loadTabs (saved_state : SavedState) :
    List (QString × QByteArray) → MainWindow → Res Unit
  | [], st => .ok () st
  | it :: rest, st =>
    match st.getTabByName it.1 with
    | none => .thrown .null_pointer st
    | some _ =>
      loadTabs saved_state rest { st with
        _tab_info := st._tab_info.modify it.1 fun container =>
          { container.loadFromJson it.2 with
            view_transform := saved_state.view_transform
            view_area := saved_state.view_area } }

/-- What the second loop makes of a container `c` and the blob stored under its name. -/
def restoredContainer (saved_state : SavedState) (c : GraphicContainer) (blob : QByteArray) :
    GraphicContainer :=
  { c.loadFromJson blob with
    view_transform := saved_state.view_transform
    view_area := saved_state.view_area }

/-- One round of the last loop of `loadSavedStateFromJson`, for tab index `i`. -/
def loadSavedStateFromJson.selectTab (saved_state : SavedState) (st : MainWindow) (i : Nat) :
    MainWindow :=
  let st1 :=
    if st.tabWidget.tabText i = saved_state.current_tab_name then
      { st with tabWidget := st.tabWidget.setCurrentIndex i }
    else st
  if st1.tabWidget.tabText i = st1._main_tree then st1.onTabSetMainTree i else st1

/-- The end of `loadSavedStateFromJson`: the loop over the tabs that selects the saved
current tab and marks the main tree, the case of a single tab, and `onSceneChanged`. -/
def loadSavedStateFromJson.selectTabs (saved_state : SavedState) (st : MainWindow) :
    MainWindow :=
  let st5 := (List.range st.tabWidget.tabs.length).foldl
    (loadSavedStateFromJson.selectTab saved_state) st
  let st6 := if st5.tabWidget.count = 1 then st5.onTabSetMainTree 0 else st5
  st6.onSceneChanged

/-- The function `loadSavedStateFromJson`. -/
def loadSavedStateFromJson (saved_state : SavedState) (st : MainWindow) : Res Unit :=
  let st1 := { st with _tab_info := StdMap.empty, tabWidget := st.tabWidget.clear }
  let st2 := { st1 with _main_tree := saved_state.main_tree }
  (loadSavedStateFromJson.createTabs saved_state.json_states.entries st2).bind fun _ st3 =>
  (loadSavedStateFromJson.loadTabs saved_state saved_state.json_states.entries st3).bind
    fun _ st4 => .ok () (loadSavedStateFromJson.selectTabs saved_state st4)

/-- The function `onUndoInvoked`. -/
def onUndoInvoked (st : MainWindow) : Res Unit :=
  if st._current_mode ≠ GraphicMode.EDITOR then .ok () st
  else
    match st._undo_stack.getLast? with
    | none => .ok () st
    | some back =>
      let st1 := { st with
        _redo_stack := st._redo_stack ++ [st._current_state]
        _current_state := back
        _undo_stack := st._undo_stack.dropLast }
      loadSavedStateFromJson st1._current_state st1

/-- The function `onRedoInvoked`. -/
def onRedoInvoked (st : MainWindow) : Res Unit :=
  if st._current_mode ≠ GraphicMode.EDITOR then .ok () st
  else
    match st._redo_stack.getLast? with
    | none => .ok () st
    | some back =>
      let st1 := { st with
        _undo_stack := st._undo_stack ++ [st._current_state]
        _current_state := back
        _redo_stack := st._redo_stack.dropLast }
      loadSavedStateFromJson st1._current_state st1

/-- The function `clearUndoStacks`. -/
def clearUndoStacks (st : MainWindow) : Res Unit :=
  let st1 := { st with _undo_stack := [], _redo_stack := [] }
  st1.onSceneChanged.onPushUndo

/-- A step in the life of the undo manager: any change of the window that leaves the two
stacks and the current snapshot alone (an edit of the documents, after which `onPushUndo`
captures another snapshot), or one of `onPushUndo`, `onUndoInvoked`, `onRedoInvoked`. -/
inductive ManagerStep where
  | edit (window : MainWindow)
  | push
  | undo
  | redo

/-- The window after a step; a call that throws leaves the state reached at the throw. -/
def ManagerStep.apply : ManagerStep → MainWindow → MainWindow
  | .edit window, st =>
    { window with
      _undo_stack := st._undo_stack
      _redo_stack := st._redo_stack
      _current_state := st._current_state }
  | .push, st => st.onPushUndo.state
  | .undo, st => st.onUndoInvoked.state
  | .redo, st => st.onRedoInvoked.state

/-- The window after a sequence of steps. -/
def runManager (steps : List ManagerStep) (st : MainWindow) : MainWindow :=
  steps.foldl (fun st step => step.apply st) st

/-- No two adjacent snapshots of a stack are equal under `operator==`. -/
def noAdjacentDuplicates (stack : List SavedState) : Prop :=
  stack.Chain' fun a b => a.operator_eq b = false

instance (stack : List SavedState) : Decidable (noAdjacentDuplicates stack) :=
  inferInstanceAs (Decidable (List.Chain' _ stack))

/-- What the three operations of the undo manager keep true: neither stack holds adjacent
duplicates; when the top of the undo stack equals the current snapshot, it is the only
entry and the redo stack is empty; when the top of the redo stack equals the current
snapshot, it is the only entry and the undo stack is empty. -/
def managerInvariant (st : MainWindow) : Prop :=
  noAdjacentDuplicates st._undo_stack ∧
  noAdjacentDuplicates st._redo_stack ∧
  (∀ back, st._undo_stack.getLast? = some back → back.operator_eq st._current_state = true →
    st._undo_stack.length = 1 ∧ st._redo_stack = []) ∧
  (∀ top, st._redo_stack.getLast? = some top → top.operator_eq st._current_state = true →
    st._undo_stack = [] ∧ st._redo_stack.length = 1)

/-- The registry call `registerModel(category, creator, ID)`; the creator captures `model`. -/
def registerModel (category : QString) (model : NodeModel) (ID : QString) (st : MainWindow) :
    MainWindow :=
  { st with _model_registry := st._model_registry.assign ID ⟨category, model⟩ }

/-- The registry call `unregisterModel(ID)`. -/
def unregisterModel (ID : QString) (st : MainWindow) : MainWindow :=
  { st with _model_registry := st._model_registry.erase ID }

/-- The registry call `registeredModelsByCategory(category).count(ID)`. -/
def registeredModelsByCategory_count (category ID : QString) (st : MainWindow) : Nat :=
  match st._model_registry.find ID with
  | some item => if item.category = category then 1 else 0
  | none => 0

/-- The function `onAddToModelRegistry`; `updateTreeView` of the side panel is display
only. -/
def onAddToModelRegistry (model : NodeModel) (st : MainWindow) : MainWindow :=
  let ID := model.registration_ID
  let st1 := st.registerModel (toStr model.type) model ID
  let st2 :=
    if (st1._treenode_models.find ID).isSome then
      { st1 with _treenode_models := st1._treenode_models.erase ID }
    else st1
  { st2 with _treenode_models := st2._treenode_models.insert ID model }

/-- The container of tab `tab` is replaced, as a mutation through its pointer does. -/
def setContainer (tab : QString) (c : GraphicContainer) (st : MainWindow) : MainWindow :=
  { st with _tab_info := st._tab_info.modify tab fun _ => c }

/-- The function `subTreeExpand`.  The container is named by its tab, the node by its handle;
the result is the handle of the node, `none` for `nullptr`. -/
def subTreeExpand (tab : QString) (node : Nat) (option : SubtreeExpandOption)
    (st : MainWindow) : Res (Option Nat) :=
  match st.getTabByName tab with
  | none => .thrown .null_pointer st
  | some container =>
    match container.scene.findNode node with
    | none => .thrown .null_pointer st
    | some n =>
      -- the cast to `SubtreeNodeModel*` gives null for any other model
      if n.model.type ≠ .SUBTREE then .thrown .null_pointer st
      else
        let subtree_name := n.model.registration_ID
        if option = .SUBTREE_EXPAND ∧ n.expanded = false then
          match st.getTabByName subtree_name with
          | none => .thrown .null_pointer st
          | some subtree_container =>
            if !subtree_container.containsValidTree then .ok (some node) st
            else
              let abs_subtree := BuildTreeFromScene subtree_container.scene
              let c1 := { container with scene :=
                container.scene.updateNode node fun m => { m with expanded := true, out_ports := 1 } }
              let c2 := c1.appendTreeToNode node abs_subtree
              let c3 := c2.lockSubtreeEditing node true
              let c4 := if abs_subtree.nodes.length > 1 then c3.nodeReorder else c3
              .ok (some node) (st.setContainer tab c4)
        else if option = .SUBTREE_COLLAPSE ∧ n.expanded = true then
          let conn_out := container.scene.childrenOf node
          let child_node : Option Nat :=
            match conn_out with
            | [child] => some child
            | _ => none
          let c1 :=
            match child_node with
            | some child => container.deleteSubTreeRecursively child
            | none => container
          let c2 := { c1 with scene :=
            c1.scene.updateNode node fun m => { m with expanded := false, out_ports := 0 } }
          let c3 := c2.lockSubtreeEditing node false
          let c4 := if child_node.isSome then c3.nodeReorder else c3
          .ok (some node) (st.setContainer tab c4)
        else if option = .SUBTREE_REFRESH ∧ n.expanded = true then
          match container.scene.childrenOf node with
          | [child_node] =>
            match st.getTabByName subtree_name with
            | none => .thrown .null_pointer st
            | some subtree_container =>
              let subtree := BuildTreeFromScene subtree_container.scene
              let c1 := container.deleteSubTreeRecursively child_node
              let c2 := c1.appendTreeToNode node subtree
              let c3 := c2.nodeReorder
              let c4 := c3.lockSubtreeEditing node true
              .ok (some node) (st.setContainer tab c4)
          | _ =>
            .thrown (.logic_error
              "subTreeExpand with SUBTREE_REFRESH, but not an expanded SubTree") st
        else .ok none st

/-- A sequence of transitions of one node: `subTreeExpand` is called with each option in
turn; a call that throws ends the sequence. -/
def subTreeExpand.run (tab : QString) (node : Nat) :
    List SubtreeExpandOption → MainWindow → Res Unit
  | [], st => .ok () st
  | option :: rest, st =>
    (subTreeExpand tab node option st).bind fun _ st1 => subTreeExpand.run tab node rest st1

/-- The expansion invariant of the subtree node `node` of the document `tab`, in the words of
the specification: a collapsed node has no output port and no output connection; an
expanded node has one output port and one output connection, which leads to the copy of
the root of the referenced tree, and every node below it is locked. -/
def expansionInvariant (tab : QString) (node : Nat) (st : MainWindow) : Bool :=
  match st.getTabByName tab with
  | none => false
  | some container =>
    match container.scene.findNode node with
    | none => false
    | some n =>
      if n.expanded then
        n.out_ports == 1 &&
        (match container.scene.childrenOf node, st.getTabByName n.model.registration_ID with
          | [child], some subtree_container =>
            (match (BuildTreeFromScene subtree_container.scene).nodes.head?,
                container.scene.findNode child with
              | some root, some m =>
                decide (m = { GraphicContainer.copyNode child root with locked := true })
              | _, _ => false) &&
            (container.scene.descendants node).all fun u =>
              match container.scene.findNode u with
              | some m => m.locked
              | none => false
          | _, _ => false)
      else n.out_ports == 0 && (container.scene.childrenOf node).isEmpty

/-- The two shapes of the document `tab` between the transitions of its node `node`, a
reference to the document `R`: the node is collapsed, without port and child; or the node is
expanded with one port and the locked copy of the tree of `R` is attached below it. -/
def expansionShape (tab : QString) (node : Nat) (R : QString) (st : MainWindow) : Prop :=
  (∃ (c : GraphicContainer) (n : Node), st.getTabByName tab = some c ∧
      c.scene.connectionsJoinNodes ∧
      c.scene.findNode node = some n ∧ n.model.type = .SUBTREE ∧
      n.model.registration_ID = R ∧ n.expanded = false ∧ n.out_ports = 0 ∧
      c.scene.childrenOf node = []) ∨
  (∃ (c0 : GraphicContainer) (n0 : Node) (cR : GraphicContainer) (tree : AbsBehaviorTree),
      st.getTabByName tab = some (c0.withBody node tree) ∧
      c0.scene.connectionsJoinNodes ∧
      c0.scene.findNode node = some n0 ∧ n0.model.type = .SUBTREE ∧
      n0.model.registration_ID = R ∧ n0.expanded = true ∧ n0.out_ports = 1 ∧
      c0.scene.childrenOf node = [] ∧
      st.getTabByName R = some cR ∧ cR.scene.build = some tree)

/-- The part of the window that an edit of a scene leaves alone: the names of the open
documents, the tab bar and the name of the main tree. -/
def tabState (st : MainWindow) : List QString × QTabWidget × QString :=
  (st._tab_info.keys, st.tabWidget, st._main_tree)

/-- Modelled from the spec: `isInNodeModels(models, ID)` (declared outside this source file),
whether a model is stored under the ID. -/
def isInNodeModels (models : NodeModels) (ID : QString) : Bool := (models.find ID).isSome

/-- One round of the second loop of `onTreeNodeEdited`: the node is collapsed if it is an
expanded subtree, substituted by a node of the model `new_ID`, and expanded again. -/
def onTreeNodeEdited.renameNode (tab new_ID : QString) (graphic_node : Nat)
    (st : MainWindow) : Res Unit :=
  match st.getTabByName tab with
  | none => .thrown .null_pointer st
  | some container =>
    match container.scene.findNode graphic_node with
    | none => .thrown .null_pointer st
    | some bt_node =>
      let is_expanded_subtree :=
        decide (bt_node.model.type = .SUBTREE) && bt_node.expanded
      (if is_expanded_subtree then
          (subTreeExpand tab graphic_node .SUBTREE_COLLAPSE st).bind fun _ st1 => .ok () st1
        else .ok () st).bind fun _ st1 =>
      match st1.getTabByName tab with
      | none => .thrown .null_pointer st1
      | some container1 =>
        let sub := container1.substituteNode graphic_node
          ((st1._model_registry.find new_ID).map RegistryItem.model)
        let st2 := st1.setContainer tab sub.1
        if is_expanded_subtree then
          match sub.2 with
          | none => .thrown .null_pointer st2
          | some new_node =>
            (subTreeExpand tab new_node .SUBTREE_EXPAND st2).bind fun _ st3 => .ok () st3
        else .ok () st2

/-- A node `r` that `onTreeNodeEdited` has still to rename, a device for the proof: it is a
node of the model `prev_ID`; the list `ancestors r` holds its ancestors, none of which is
a node of the model `prev_ID`; and if it is an expanded subtree it has at most one
child. -/
def onTreeNodeEdited.pending (s : FlowScene) (prev_ID : QString)
    (ancestors : Nat → List Nat) (r : Nat) : Prop :=
  ∃ n : Node, s.findNode r = some n ∧ n.model.registration_ID = prev_ID ∧
    s.guarded (r :: ancestors r) (ancestors r) ∧
    (∀ q ∈ ancestors r, ∀ x, s.findNode q = some x → x.model.registration_ID ≠ prev_ID) ∧
    (n.model.type = .SUBTREE → n.expanded = true → (s.childrenOf r).length ≤ 1)

/-- A node `g2` that `onTreeNodeEdited` has put in the place of a node of the model
`prev_ID`, a device for the proof: it is a node of the model `m`, every node of `parents`
is connected to it, and it is not expanded, unless the old node was an expanded subtree
and `tree` is the valid tree of the new document: then it is expanded and the locked copy
of `tree` is its body.  The list `P` holds the node, its body and its ancestors, and none
of them is a node of the model `prev_ID`. -/
def onTreeNodeEdited.renamed (s : FlowScene) (prev_ID : QString) (m : NodeModel)
    (tree : Option AbsBehaviorTree) (wasExpanded : Bool) (parents : List Nat) (g2 : Nat) :
    Prop :=
  ∃ (n2 : Node) (P : List Nat) (base : Nat),
    s.findNode g2 = some n2 ∧ n2.model = m ∧ g2 ∈ P ∧ s.guarded P P ∧
    (∀ u ∈ P, ∀ x, s.findNode u = some x → x.model.registration_ID ≠ prev_ID) ∧
    (∀ q ∈ parents, q ∈ P ∧ (⟨q, g2⟩ : Connection) ∈ s.connections) ∧
    (wasExpanded = false → n2.expanded = false) ∧
    (wasExpanded = true → tree = none →
      n2.expanded = false ∧ n2.out_ports = 0 ∧ s.childrenOf g2 = []) ∧
    (wasExpanded = true → ∀ t, tree = some t →
      n2.expanded = true ∧ n2.out_ports = 1 ∧ s.childrenOf g2 = [base] ∧
      GraphicContainer.holdsBody s base t ∧ ∀ j, j < t.nodes.length → base + j ∈ P)

/-- Second loop of `onTreeNodeEdited` for one tab, over the collected nodes. -/
def onTreeNodeEdited.renameNodes (tab new_ID : QString) :
    List Nat → MainWindow → Res Unit
  | [], st => .ok () st
  | graphic_node :: rest, st =>
    (onTreeNodeEdited.renameNode tab new_ID graphic_node st).bind fun _ st1 =>
      renameNodes tab new_ID rest st1

/-- The loop of `onTreeNodeEdited` over the tabs. -/
def onTreeNodeEdited.renameTabs (prev_ID new_ID : QString) :
    List QString → MainWindow → Res Unit
  | [], st => .ok () st
  | tab :: rest, st =>
    match st.getTabByName tab with
    | none => .thrown .null_pointer st
    | some container =>
      let nodes_to_rename :=
        (container.scene.nodes.filter fun n => n.model.registration_ID = prev_ID).map Node.uid
      (onTreeNodeEdited.renameNodes tab new_ID nodes_to_rename st).bind fun _ st1 =>
        renameTabs prev_ID new_ID rest st1

/-- The function `onTreeNodeEdited`. -/
def onTreeNodeEdited (prev_ID new_ID : QString) (st : MainWindow) : Res Unit :=
  let oldIdInWorkspace := isInNodeModels st._workspace_models prev_ID
  let newIdInWorkspace := isInNodeModels st._workspace_models new_ID
  let st1 :=
    if newIdInWorkspace then
      { st with _workspace_models := st._workspace_models.erase new_ID }
    else st
  let st2 :=
    if oldIdInWorkspace then
      { st1 with _workspace_models := st1._workspace_models.erase prev_ID }
    else st1
  let st3 :=
    if oldIdInWorkspace || newIdInWorkspace then
      let model := st2._treenode_models.index new_ID
      { st2 with
        _treenode_models := model.2
        _workspace_models := st2._workspace_models.insert new_ID model.1 }
    else st2
  onTreeNodeEdited.renameTabs prev_ID new_ID st3._tab_info.keys st3

/-- The function `onTabRenameRequested`.  `dialog` is the answer of the input dialog, asked
only when `new_name` is empty: `none` when the user cancels it. -/
def onTabRenameRequested (tab_index : Int) (new_name : QString) (dialog : Option QString)
    (st : MainWindow) : Res Unit :=
  let old_name := st.tabWidget.tabText tab_index
  match (if new_name = "" then dialog else some new_name) with
  | none => .ok () st
  | some new_name =>
    if new_name = old_name then .ok () st
    else if (st.getTabByName new_name).isSome then .ok () st
    else
      let st1 := { st with tabWidget := st.tabWidget.setTabText tab_index new_name }
      match st1._tab_info.find old_name with
      | none => .thrown .null_pointer st1
      | some container =>
        let st2 := { st1 with
          _tab_info := (st1._tab_info.insert new_name container).erase old_name }
        let st3 := if st2._main_tree = old_name then { st2 with _main_tree := new_name } else st2
        (if st3.registeredModelsByCategory_count "SubTree" old_name ≠ 0 then
            let st4 := st3.unregisterModel old_name
            let st5 := { st4 with _treenode_models := st4._treenode_models.erase old_name }
            let model : NodeModel := ⟨.SUBTREE, new_name, StdMap.empty⟩
            let st6 := st5.onAddToModelRegistry model
            let st7 := { st6 with _treenode_models := st6._treenode_models.insert new_name model }
            st7.onTreeNodeEdited old_name new_name
          else .ok () st3).bind fun _ st8 =>
        st8.clearUndoStacks

/-- The search of the handler of `renameSubtree` for the first tab labelled `prev_ID`. -/
def renameSubtree.loop (prev_ID new_ID : QString) : List Nat → MainWindow → Res Unit
  | [], st => .ok () st
  | index :: rest, st =>
    if st.tabWidget.tabText index = prev_ID then
      let st1 := { st with tabWidget := st.tabWidget.setTabText index new_ID }
      match st1._tab_info.find prev_ID with
      | none => .thrown .out_of_range st1
      | some container =>
        .ok () { st1 with
          _tab_info := (st1._tab_info.insert new_ID container).erase prev_ID }
    else loop prev_ID new_ID rest st

/-- The handler of the side panel signal `renameSubtree`, installed by the constructor. -/
def renameSubtree (prev_ID new_ID : QString) (st : MainWindow) : Res Unit :=
  if prev_ID = new_ID then .ok () st
  else renameSubtree.loop prev_ID new_ID (List.range st.tabWidget.tabs.length) st

/-- One round of the inner loop of `onDestroySubTree` for a node of the tree of tab `tab`: a
subtree node whose instance name is `ID` is expanded if it is collapsed, its body is
unlocked and the node itself is removed. -/
def onDestroySubTree.destroyNode (ID tab : QString) (abs_node : AbstractTreeNode)
    (st : MainWindow) : Res Unit :=
  match st.getTabByName tab with
  | none => .thrown .null_pointer st
  | some container =>
    match container.scene.findNode abs_node.graphic_node with
    | none => .thrown .null_pointer st
    | some bt_node =>
      if bt_node.model.type = .SUBTREE ∧ bt_node.instance_name = ID then
        (if bt_node.expanded = false then
            subTreeExpand tab abs_node.graphic_node .SUBTREE_EXPAND st
          else .ok (some abs_node.graphic_node) st).bind fun new_node st1 =>
        match new_node, st1.getTabByName tab with
        | some new_node, some container1 =>
          let c2 := container1.lockSubtreeEditing new_node false
          let c3 := c2.onSmartRemove new_node
          .ok () (st1.setContainer tab c3)
        | _, _ => .thrown .null_pointer st1
      else .ok () st

/-- The inner loop of `onDestroySubTree` over the nodes of the tree of tab `tab`. -/
def onDestroySubTree.destroyNodes (ID tab : QString) :
    List AbstractTreeNode → MainWindow → Res Unit
  | [], st => .ok () st
  | abs_node :: rest, st =>
    (onDestroySubTree.destroyNode ID tab abs_node st).bind fun _ st1 =>
      destroyNodes ID tab rest st1

/-- The first loop of `onDestroySubTree`, over the tabs other than `ID`. -/
def onDestroySubTree.destroyReferences (ID : QString) : List QString → MainWindow → Res Unit
  | [], st => .ok () st
  | tab :: rest, st =>
    if tab = ID then destroyReferences ID rest st
    else
      match st.getTabByName tab with
      | none => .thrown .null_pointer st
      | some container =>
        let tree := BuildTreeFromScene container.scene
        (onDestroySubTree.destroyNodes ID tab tree.nodes st).bind fun _ st1 =>
          match st1.getTabByName tab with
          | none => .thrown .null_pointer st1
          | some container1 =>
            destroyReferences ID rest (st1.setContainer tab container1.nodeReorder)

/-- The second loop of `onDestroySubTree`: the first tab labelled `ID` is removed with its
document. -/
def onDestroySubTree.removeDocument (ID : QString) : List Nat → MainWindow → Res Unit
  | [], st => .ok () st
  | index :: rest, st =>
    if st.tabWidget.tabText index = ID then
      match st.getTabByName ID with
      | none => .thrown .null_pointer st
      | some _ =>
        .ok () { st with
          tabWidget := st.tabWidget.removeTab index
          _tab_info := st._tab_info.erase ID }
    else removeDocument ID rest st

/-- The function `onDestroySubTree`. -/
def onDestroySubTree (ID : QString) (st : MainWindow) : Res Unit :=
  (onDestroySubTree.destroyReferences ID st._tab_info.keys st).bind fun _ st1 =>
  (onDestroySubTree.removeDocument ID (List.range st1.tabWidget.tabs.length) st1).bind
    fun _ st2 =>
  let st3 := if st2.tabWidget.count = 1 then st2.onTabSetMainTree 0 else st2
  st3.clearUndoStacks

/-- The function `onRequestSubTreeExpand`. -/
def onRequestSubTreeExpand (tab : QString) (node : Nat) (st : MainWindow) : Res Unit :=
  match st.getTabByName tab with
  | none => .thrown .null_pointer st
  | some container =>
    match container.scene.findNode node with
    | none => .thrown .null_pointer st
    | some n =>
      if n.model.type ≠ .SUBTREE then
        .thrown (.logic_error
          "passing to onRequestSubTreeExpand something that is not a SubTree") st
      else if n.expanded then
        (subTreeExpand tab node .SUBTREE_COLLAPSE st).bind fun _ st1 => .ok () st1
      else
        (subTreeExpand tab node .SUBTREE_EXPAND st).bind fun _ st1 => .ok () st1

/-- The recursion `selectRecursively` of `refreshExpandedSubtrees`, with the nodes still to
visit on a stack: an expanded subtree node is collected, the children of any other node
are visited in order. -/
def refreshExpandedSubtrees.selectRecursively (scene : FlowScene) :
    Nat → List Nat → List Nat → List Nat
  | 0, _, subtree_nodes => subtree_nodes
  | _ + 1, [], subtree_nodes => subtree_nodes
  | fuel + 1, node :: todo, subtree_nodes =>
    match scene.findNode node with
    | none => selectRecursively scene fuel todo subtree_nodes
    | some n =>
      if n.model.type = .SUBTREE ∧ n.expanded = true then
        selectRecursively scene fuel todo (subtree_nodes ++ [node])
      else selectRecursively scene fuel (scene.childrenOf node ++ todo) subtree_nodes

/-- One round of the loop of `refreshExpandedSubtrees`: an expanded subtree whose document is
not a valid tree is collapsed; then the node is refreshed. -/
def refreshExpandedSubtrees.refreshNode (tab : QString) (subtree_node : Nat)
    (st : MainWindow) : Res Unit :=
  match st.getTabByName tab with
  | none => .thrown .null_pointer st
  | some container =>
    match container.scene.findNode subtree_node with
    | none => .thrown .null_pointer st
    | some n =>
      if n.model.type ≠ .SUBTREE then .thrown .null_pointer st
      else
        match st.getTabByName n.model.registration_ID with
        | none => .thrown .null_pointer st
        | some subtree_container =>
          (if n.expanded ∧ subtree_container.containsValidTree = false then
              (subTreeExpand tab subtree_node .SUBTREE_COLLAPSE st).bind fun _ st1 =>
                .ok () st1
            else .ok () st).bind fun _ st1 =>
          (subTreeExpand tab subtree_node .SUBTREE_REFRESH st1).bind fun _ st2 => .ok () st2

/-- The loop of `refreshExpandedSubtrees` over the collected nodes. -/
def refreshExpandedSubtrees.refreshNodes (tab : QString) : List Nat → MainWindow → Res Unit
  | [], st => .ok () st
  | subtree_node :: rest, st =>
    (refreshExpandedSubtrees.refreshNode tab subtree_node st).bind fun _ st1 =>
      refreshNodes tab rest st1

/-- The function `refreshExpandedSubtrees`. -/
def refreshExpandedSubtrees (st : MainWindow) : Res Unit :=
  let tab := st.tabWidget.tabText st.tabWidget.currentIndex
  match st.currentTabInfo with
  | none => .ok () st
  | some container =>
    match container.scene.findRoot with
    | none => .ok () st
    | some root_node =>
      let subtree_nodes := refreshExpandedSubtrees.selectRecursively container.scene
        container.scene.fuel [root_node.uid] []
      refreshExpandedSubtrees.refreshNodes tab subtree_nodes st

/-- The subtree node `A` of the document `tab` while the loop of `refreshExpandedSubtrees`
runs, a device for its proof: the node is there with its model, the list `Q` holds its
ancestors, none of which is an expanded subtree, it has at most one child, and once it
is collapsed it has no output port and no child; `done` says that it is collapsed.  `cR`
is the document that the node refers to. -/
def refreshExpandedSubtrees.tracked (tab : QString) (A : Nat) (Q : List Nat)
    (model : NodeModel) (cR : GraphicContainer) (done : Bool) (st : MainWindow) : Prop :=
  ∃ (c : GraphicContainer) (nA : Node),
    st.getTabByName tab = some c ∧ st.getTabByName model.registration_ID = some cR ∧
    c.scene.guarded (A :: Q) Q ∧
    (∀ q ∈ Q, ∀ m, c.scene.findNode q = some m →
      ¬ (m.model.type = .SUBTREE ∧ m.expanded = true)) ∧
    c.scene.findNode A = some nA ∧ nA.model = model ∧
    (c.scene.childrenOf A).length ≤ 1 ∧
    (nA.expanded = false → nA.out_ports = 0 ∧ c.scene.childrenOf A = []) ∧
    (done = true → nA.expanded = false)

/-- The entries of the context menu of the tab bar. -/
inductive TabMenuAction where
  | rename
  | set_main
deriving DecidableEq, Repr

/-- The function `onTabCustomContextMenuRequested`.  `tab_index` is the result of
`tabAt(pos)`, which is `-1` when the position is outside every tab; `action` is the entry
the user picks, `none` when the menu is dismissed; `dialog` is the answer to the rename
dialog. -/
def onTabCustomContextMenuRequested (tab_index : Int) (action : Option TabMenuAction)
    (dialog : Option QString) (st : MainWindow) : Res Unit :=
  match action with
  | some .rename => st.onTabRenameRequested tab_index "" dialog
  | some .set_main => .ok () (st.onTabSetMainTree tab_index)
  | none => .ok () st

/-- The members before the body of the constructor runs. -/
def blank (initial_mode : GraphicMode) : MainWindow :=
  { tabWidget := ⟨[], -1⟩
    _current_mode := initial_mode
    _model_registry := StdMap.empty
    _tab_info := StdMap.empty
    _undo_stack := []
    _redo_stack := []
    _current_state := ⟨"", "", GraphicContainer.identityTransform, ⟨0, 0, 0, 0⟩, StdMap.empty⟩
    _current_layout := .Vertical
    _treenode_models := StdMap.empty
    _workspace_models := StdMap.empty
    _main_tree := ""
    _current_file_name := ""
    saved := false }

/-- The constructor.  `layout` is the layout read from the settings, `builtin` the table
`BuiltinNodeModels()`, which is declared outside this source file. -/
def constructor (initial_mode : GraphicMode) (layout : PortLayout) (builtin : NodeModels) :
    Res Unit :=
  let st0 := { blank initial_mode with _current_layout := layout }
  let st1 := builtin.entries.foldl (fun st model =>
    let category := if model.1 = "Root" then "Root" else toStr model.2.type
    let st := st.registerModel category model.2 model.1
    { st with _treenode_models := st._treenode_models.insert model.1 model.2 }) st0
  (createTab "BehaviorTree" st1).bind fun _ st2 =>
    let st3 := (st2.onTabSetMainTree 0).onSceneChanged
    match st3.saveCurrentState with
    | .error e => .thrown e st3
    | .ok saved => .ok () { st3 with _current_state := saved }

/-! ### Serialisation -/

/-- The function `streamElementAttributes`: the attributes are collected in a `QMap`, whose
`insert` replaces the value of a key that is present, and written in the order of the
map. -/
def streamElementAttributes (stream : QXmlStreamWriter) (element : QDomNode) :
    QXmlStreamWriter :=
  if element.attributes.isEmpty then stream
  else
    let attributes : StdMap QString :=
      element.attributes.foldl (fun m item => m.assign item.1 item.2) StdMap.empty
    attributes.entries.foldl (fun s i => s.write (.writeAttribute i.1 i.2)) stream

mutual
/-- The function `recursivelySaveNodeCanonically`. -/
def recursivelySaveNodeCanonically (stream : QXmlStreamWriter) :
    QDomNode → QXmlStreamWriter
  | .element tagName attributes children =>
    if stream.hasError then stream
    else
      let s1 := stream.write (.writeStartElement tagName)
      let s2 := streamElementAttributes s1 (.element tagName attributes children)
      let s3 := recursivelySaveNodeCanonically.children s2 children
      s3.write .writeEndElement
  | .comment nodeValue =>
    if stream.hasError then stream else stream.write (.writeComment nodeValue)
  | .text nodeValue =>
    if stream.hasError then stream else stream.write (.writeCharacters nodeValue)
  | .other => stream
/-- The loop of `recursivelySaveNodeCanonically` over the children of an element. -/
def recursivelySaveNodeCanonically.children (stream : QXmlStreamWriter) :
    List QDomNode → QXmlStreamWriter
  | [] => stream
  | child :: rest =>
    recursivelySaveNodeCanonically.children (recursivelySaveNodeCanonically stream child) rest
end

/-- The loop of `xmlDocumentToString` over the children of the root, which stops when the
stream has an error. -/
def xmlDocumentToString.children (stream : QXmlStreamWriter) :
    List QDomNode → QXmlStreamWriter
  | [] => stream
  | next_node :: rest =>
    let s1 := recursivelySaveNodeCanonically stream next_node
    if s1.hasError then s1 else xmlDocumentToString.children s1 rest

/-- The calls that `xmlDocumentToString` makes on its writer. -/
def xmlDocumentToString.stream (document : QDomDocument) : QXmlStreamWriter :=
  let stream : QXmlStreamWriter := ⟨[], false⟩
  let s1 := stream.write .writeStartDocument
  let root_element := document.documentElement
  let s2 := s1.write (.writeStartElement root_element.tagName)
  let s3 := streamElementAttributes s2 root_element
  let s4 := xmlDocumentToString.children s3 root_element.childNodes
  (s4.write .writeEndElement).write .writeEndDocument

/-- The function `xmlDocumentToString`. -/
def xmlDocumentToString (ext : External) (document : QDomDocument) : QString :=
  ext.toString (xmlDocumentToString.stream document).calls

/-- The order of two attributes by name: the name of the first is not after the name of the
second. -/
def attributeNameLe (a b : QString × QString) : Prop := ¬ QString.lt b.1 a.1

instance attributeNameLe.decLe : DecidableRel attributeNameLe :=
  fun a b => inferInstanceAs (Decidable (¬ QString.lt b.1 a.1))

instance attributeNameLe.isTotal : IsTotal (QString × QString) attributeNameLe :=
  ⟨fun a b => by
    unfold attributeNameLe QString.lt
    rcases @lt_trichotomy (List Char) _ a.1.data b.1.data with h | h | h
    · exact Or.inl (not_lt.2 (le_of_lt h))
    · exact Or.inl (not_lt.2 (le_of_eq h))
    · exact Or.inr (not_lt.2 (le_of_lt h))⟩

instance attributeNameLe.isTrans : IsTrans (QString × QString) attributeNameLe :=
  ⟨fun a b c hab hbc => by
    unfold attributeNameLe QString.lt at *
    exact not_lt.2 (le_trans (not_lt.1 hab) (not_lt.1 hbc))⟩

/-- The attributes of an element in ascending order of their names. -/
def ascendingAttributes (attributes : List (QString × QString)) : List (QString × QString) :=
  attributes.insertionSort attributeNameLe

mutual
/-- The canonical form of a node, in the words of the specification: an element is written
as its start tag, its attributes once each in ascending order of their names, its children
in document order and its end tag; a comment and a text are written as they are. -/
def canonicalWrites : QDomNode → List XmlWrite
  | .element tagName attributes children =>
    [.writeStartElement tagName] ++
      (ascendingAttributes attributes).map (fun a => XmlWrite.writeAttribute a.1 a.2) ++
      canonicalWrites.children children ++ [.writeEndElement]
  | .comment nodeValue => [.writeComment nodeValue]
  | .text nodeValue => [.writeCharacters nodeValue]
  | .other => []
/-- The canonical forms of the nodes of a list, in the order of the list. -/
def canonicalWrites.children : List QDomNode → List XmlWrite
  | [] => []
  | child :: rest => canonicalWrites child ++ canonicalWrites.children rest
end

/-- The canonical form of a document, in the words of the specification: the root element
between the start and the end of the document. -/
def canonicalWrites.document (document : QDomDocument) : List XmlWrite :=
  [.writeStartDocument, .writeStartElement document.documentElement.tagName] ++
    (ascendingAttributes document.documentElement.attributes).map
      (fun a => XmlWrite.writeAttribute a.1 a.2) ++
    canonicalWrites.children document.documentElement.childNodes ++
    [.writeEndElement, .writeEndDocument]

mutual
/-- Whether no element of the tree has two attributes of the same name, as in every
`QDomNamedNodeMap`. -/
def distinctAttributeNames : QDomNode → Bool
  | .element _ attributes children =>
    decide (attributes.map Prod.fst).Nodup && distinctAttributeNames.children children
  | _ => true
/-- Whether `distinctAttributeNames` holds of every node of a list. -/
def distinctAttributeNames.children : List QDomNode → Bool
  | [] => true
  | child :: rest => distinctAttributeNames child && distinctAttributeNames.children rest
end

mutual
/-- Whether two trees differ only in the order of the attributes inside their elements:
the same tags, the same attributes up to their order, and children that correspond one
by one in document order. -/
def sameUpToAttributeOrder : QDomNode → QDomNode → Bool
  | .element t1 a1 c1, .element t2 a2 c2 =>
    decide (t1 = t2) && decide (a1.Perm a2) && sameUpToAttributeOrder.children c1 c2
  | .comment v1, .comment v2 => decide (v1 = v2)
  | .text v1, .text v2 => decide (v1 = v2)
  | .other, .other => true
  | _, _ => false
/-- Whether `sameUpToAttributeOrder` holds of two lists of nodes, one by one. -/
def sameUpToAttributeOrder.children : List QDomNode → List QDomNode → Bool
  | [], [] => true
  | n1 :: rest1, n2 :: rest2 =>
    sameUpToAttributeOrder n1 n2 && sameUpToAttributeOrder.children rest1 rest2
  | _, _ => false
end

/-- The function `encodeSubtree(ID, doc, root, container)`, by the new root element. -/
def encodeSubtree (ext : External) (ID : QString) (root : QDomNode)
    (container : GraphicContainer) : Except Error QDomNode :=
  let abs_tree := BuildTreeFromScene container.scene
  -- `rootNode()` of a tree without nodes is null
  match abs_tree.nodes.head? with
  | none => .error .null_pointer
  | some first =>
    let abs_root : Option AbstractTreeNode :=
      if first.children_index.length = 1 ∧ first.model.registration_ID = "Root" then
        match first.children_index.head? with
        | some child => abs_tree.nodes[child]?
        | none => none
      else some first
    match abs_root with
    | none => .error .out_of_range
    | some abs_root =>
      let root_element :=
        (QDomNode.element "BehaviorTree" [] []).setAttribute "ID" ID
      let children := ext.RecursivelyCreateXml container.scene abs_root.graphic_node
      .ok (root.appendChild (children.foldl QDomNode.appendChild root_element))

/-- The function `encodeSubtree(ID, doc, root)`: nothing is encoded when no document is named
`ID`. -/
def encodeSubtreeByName (ext : External) (ID : QString) (root : QDomNode) (st : MainWindow) :
    Except Error QDomNode :=
  match st._tab_info.entries.find? fun it => it.1 = ID with
  | none => .ok root
  | some it => encodeSubtree ext ID root it.2

/-- The function `encodeNodeModel`, by the new node element. -/
def encodeNodeModel (ext : External) (model : NodeModel) (id : QString) (node : QDomNode) :
    QDomNode :=
  model.ports.entries.foldl
    (fun n port_it => n.appendChild (ext.writePortModel port_it.1 port_it.2))
    (node.setAttribute "ID" id)

/-- The loop of `saveDocToXML` over the documents. -/
def saveDocToXML.subtrees (ext : External) :
    List (QString × GraphicContainer) → QDomNode → Except Error QDomNode
  | [], root => .ok root
  | it :: rest, root =>
    match encodeSubtree ext it.1 root it.2 with
    | .error e => .error e
    | .ok root1 => saveDocToXML.subtrees ext rest root1

/-- The loop of `saveDocToXML` over the registered models that are not builtin. -/
def saveDocToXML.models (ext : External) (models : List (QString × NodeModel))
    (root_models : QDomNode) : QDomNode :=
  models.foldl (fun r tree_it =>
    if ext.BuiltinNodeModels.count tree_it.1 ≠ 0 then r
    else
      r.appendChild
        (encodeNodeModel ext tree_it.2 tree_it.1 (.element (toStr tree_it.2.type) [] [])))
    root_models

/-- The function `saveDocToXML`. -/
def saveDocToXML (ext : External) (st : MainWindow) : Except Error QString :=
  let COMMENT_SEPARATOR := " ////////// "
  let root := QDomNode.element "root" [] []
  let root1 :=
    if st._main_tree ≠ "" then root.setAttribute "main_tree_to_execute" st._main_tree
    else root
  match saveDocToXML.subtrees ext st._tab_info.entries root1 with
  | .error e => .error e
  | .ok root2 =>
    let root3 := root2.appendChild (.comment COMMENT_SEPARATOR)
    let root_models :=
      saveDocToXML.models ext st._treenode_models.entries (.element "TreeNodesModel" [] [])
    let root4 := (root3.appendChild root_models).appendChild (.comment COMMENT_SEPARATOR)
    .ok (xmlDocumentToString ext ⟨root4⟩)

/-- The loop of `saveWorkspaceToXML` over the workspace models: the root element and the
element `TreeNodesModel`. -/
def saveWorkspaceToXML.models (ext : External) (st : MainWindow) :
    List (QString × NodeModel) → QDomNode → QDomNode → Except Error (QDomNode × QDomNode)
  | [], root, models => .ok (root, models)
  | it :: rest, root, models =>
    if ext.BuiltinNodeModels.count it.1 ≠ 0 then saveWorkspaceToXML.models ext st rest root models
    else
      match (if it.2.type = .SUBTREE then encodeSubtreeByName ext it.1 root st
             else .ok root) with
      | .error e => .error e
      | .ok root1 =>
        saveWorkspaceToXML.models ext st rest root1
          (models.appendChild
            (encodeNodeModel ext it.2 it.1 (.element (toStr it.2.type) [] [])))

/-- The function `saveWorkspaceToXML`. -/
def saveWorkspaceToXML (ext : External) (st : MainWindow) : Except Error QString :=
  let COMMENT_SEPARATOR := " ////////// "
  match saveWorkspaceToXML.models ext st st._workspace_models.entries
      (.element "root" [] []) (.element "TreeNodesModel" [] []) with
  | .error e => .error e
  | .ok (root, models) =>
    .ok (xmlDocumentToString ext
      ⟨(root.appendChild models).appendChild (.comment COMMENT_SEPARATOR)⟩)

/-! ### Loading -/

/-- The function `documentFromText`; the message box of a parse error is display only. -/
def documentFromText (ext : External) (text : QString) : Option QDomDocument :=
  if text = "" then none else ext.setContent text

/-- The function `onClearRequested`; the side panels hold no data of the window. -/
def onClearRequested (create_new : Bool) (st : MainWindow) : Res Unit :=
  let st1 := { st with _tab_info := StdMap.empty, tabWidget := st.tabWidget.clear }
  if create_new then (createTab "BehaviorTree" st1).bind fun _ st2 => .ok () st2
  else .ok () st1

/-- The loop of `onCreateAbsBehaviorTree` that opens a document for every subtree the tree
refers to. -/
def onCreateAbsBehaviorTree.secondaryTabs : List AbstractTreeNode → MainWindow → Res Unit
  | [], st => .ok () st
  | node :: rest, st =>
    if node.model.type = .SUBTREE ∧ (st.getTabByName node.model.registration_ID).isNone then
      (createTab node.model.registration_ID st).bind fun _ st1 =>
        onCreateAbsBehaviorTree.secondaryTabs rest st1
    else onCreateAbsBehaviorTree.secondaryTabs rest st

/-- The function `onCreateAbsBehaviorTree`. -/
def onCreateAbsBehaviorTree (tree : AbsBehaviorTree) (bt_name : QString)
    (secondary_tabs : Bool) (st : MainWindow) : Res Unit :=
  (match st.getTabByName bt_name with
    | some _ => Res.ok () st
    | none => (createTab bt_name st).bind fun _ st1 => .ok () st1).bind fun _ st1 =>
  let st2 := { st1 with
    _tab_info := st1._tab_info.modify bt_name fun container =>
      (container.loadSceneFromTree tree).nodeReorder }
  (if secondary_tabs then onCreateAbsBehaviorTree.secondaryTabs tree.nodes st2
    else .ok () st2).bind fun _ st3 =>
  st3.clearUndoStacks

/-- Modelled from the spec: `onRemoveModel(ID)` of the palette (declared outside this source
file), the removal of a model from the registered set and from the registry. -/
def onRemoveModel (ID : QString) (st : MainWindow) : MainWindow :=
  { st.unregisterModel ID with _treenode_models := st._treenode_models.erase ID }

/-- The search of `onModelRemoveRequested`: the first node, over the documents in name order,
whose model is registered as `ID`, with the name of its document. -/
def onModelRemoveRequested.findNode (ID : QString) :
    List (QString × GraphicContainer) → Option (Node × QString)
  | [] => none
  | it :: rest =>
    match it.2.scene.nodes.find? fun bt_node => bt_node.model.registration_ID = ID with
    | some node_found => some (node_found, it.1)
    | none => onModelRemoveRequested.findNode ID rest

/-- The function `onModelRemoveRequested`.  `reply_yes` tells whether the question of the
message box is answered with "Yes"; the result tells whether the removal was passed on to
`onRemoveModel`. -/
def onModelRemoveRequested (ID : QString) (reply_yes : Bool) (st : MainWindow) : Res Bool :=
  match onModelRemoveRequested.findNode ID st._tab_info.entries with
  | none => .ok true (st.onRemoveModel ID)
  | some _ =>
    -- `_treenode_models.at(ID)`
    match st._treenode_models.find ID with
    | none => .thrown .out_of_range st
    | some model =>
      if model.type ≠ .SUBTREE then .ok false st
      else if reply_yes then
        (st.onRemoveModel ID).clearUndoStacks.bind fun _ st1 => .ok true st1
      else .ok false st

/-- The check "ports match" of `tryLoadWorkspace`. -/
def tryLoadWorkspace.portsMatch (treenodeModel workspaceModel : NodeModel) : Bool :=
  if treenodeModel.ports.size = workspaceModel.ports.size then
    treenodeModel.ports.entries.all fun wsPortPair =>
      (treenodeModel.ports.find wsPortPair.1).isSome
  else false

/-- The loop of `tryLoadWorkspace` over the workspace models.  `conflict_no` tells whether the
question "Conflicting Ports" about a model is answered with "No"; the result lists the
models the question was asked about. -/
def tryLoadWorkspace.models (conflict_no : QString → Bool) :
    List (QString × NodeModel) → MainWindow → MainWindow × List QString
  | [], st => (st, [])
  | workspaceModelPair :: rest, st =>
    let workspaceModel := workspaceModelPair.2
    if !isInNodeModels st._treenode_models workspaceModelPair.1 then
      tryLoadWorkspace.models conflict_no rest (st.onAddToModelRegistry workspaceModel)
    else
      let treenodeModel := st._treenode_models.index workspaceModelPair.1
      let st1 := { st with _treenode_models := treenodeModel.2 }
      if !tryLoadWorkspace.portsMatch treenodeModel.1 workspaceModel then
        let st2 :=
          if conflict_no treenodeModel.1.registration_ID then
            st1.onAddToModelRegistry workspaceModel
          else st1
        let r := tryLoadWorkspace.models conflict_no rest st2
        (r.1, treenodeModel.1.registration_ID :: r.2)
      else tryLoadWorkspace.models conflict_no rest st1

/-- The loop of `tryLoadWorkspace` over the subtree definitions. -/
def tryLoadWorkspace.trees (ext : External) : List QDomNode → MainWindow → Res Unit
  | [], st => .ok () st
  | bt_root :: rest, st =>
    match ext.BuildTreeFromXML bt_root st._treenode_models with
    | .error e => .thrown e st
    | .ok tree =>
      (if bt_root.hasAttribute "ID" then
          st.onCreateAbsBehaviorTree tree (bt_root.attributeOf "ID") true
        else .ok () st).bind fun _ st1 =>
      tryLoadWorkspace.trees ext rest st1

/-- The function `tryLoadWorkspace`; the result lists the models about which the question
"Conflicting Ports" was asked. -/
def tryLoadWorkspace (ext : External) (conflict_no : QString → Bool)
    (workspace_text : QString) (overwriteOldWorkspace : Bool) (st : MainWindow) :
    Res (List QString) :=
  let st1 :=
    if overwriteOldWorkspace then { st with _workspace_models := StdMap.empty } else st
  match documentFromText ext workspace_text with
  | none => .ok [] st1
  | some workspaceDoc =>
    let workspace_root := workspaceDoc.documentElement
    match ext.ReadTreeNodesModel workspace_root with
    | .error e => .thrown e st1
    | .ok models =>
      let st2 := { st1 with _workspace_models := models }
      let r := tryLoadWorkspace.models conflict_no st2._workspace_models.entries st2
      (tryLoadWorkspace.trees ext (workspace_root.childElements "BehaviorTree") r.1).bind
        fun _ st3 => .ok r.2 st3

/-- The loop of `loadFromXML` over the trees of the file. -/
def loadFromXML.trees (ext : External) : List QDomNode → MainWindow → Res Unit
  | [], st => .ok () st
  | bt_root :: rest, st =>
    match ext.BuildTreeFromXML bt_root st._treenode_models with
    | .error e => .thrown e st
    | .ok tree =>
      let has_ID := bt_root.hasAttribute "ID"
      let tree_name := if has_ID then bt_root.attributeOf "ID" else "BehaviorTree"
      let st1 :=
        if has_ID ∧ st._main_tree = "" then { st with _main_tree := tree_name } else st
      (st1.onCreateAbsBehaviorTree tree tree_name true).bind fun _ st2 =>
      loadFromXML.trees ext rest st2

/-- The loop of `loadFromXML` that moves the tab of the main tree to the front; it stops at
the first tab with the name. -/
def loadFromXML.selectMainTree : List Nat → MainWindow → MainWindow
  | [], st => st
  | i :: rest, st =>
    if st.tabWidget.tabText i = st._main_tree then
      { st with tabWidget := (((st.tabWidget.moveTab i 0).setCurrentIndex 0).setTabIcon 0 true) }
    else loadFromXML.selectMainTree rest st

/-- The loop of `loadFromXML` over the models to remove; `remove_yes` tells whether the
question about a model is answered with "Yes". -/
def loadFromXML.removeModels (remove_yes : QString → Bool) :
    List QString → MainWindow → Res Unit
  | [], st => .ok () st
  | model_name :: rest, st =>
    (st.onModelRemoveRequested model_name (remove_yes model_name)).bind fun _ st1 =>
    loadFromXML.removeModels remove_yes rest st1

/-- The `try` block of `loadFromXML`. -/
def loadFromXML.tryBlock (ext : External) (conflict_no remove_yes : QString → Bool)
    (docToLoad : QDomDocument) (workspace_text : QString) (st : MainWindow) : Res Unit :=
  let document_root := docToLoad.documentElement
  let st1 :=
    if document_root.hasAttribute "main_tree_to_execute" then
      { st with _main_tree := document_root.attributeOf "main_tree_to_execute" }
    else st
  match ext.ReadTreeNodesModel document_root with
  | .error e => .thrown e st1
  | .ok custom_models =>
    let st2 := custom_models.entries.foldl
      (fun st model => st.onAddToModelRegistry model.2) st1
    (st2.onClearRequested false).bind fun _ st3 =>
    (loadFromXML.trees ext (document_root.childElements "BehaviorTree") st3).bind
      fun _ st4 =>
    let st5 :=
      if st4._main_tree ≠ "" then
        loadFromXML.selectMainTree (List.range st4.tabWidget.tabs.length) st4
      else st4
    (match st5.currentTabInfo with
      | none =>
        (createTab "BehaviorTree" st5).bind fun _ st6 =>
          .ok () { st6 with _main_tree := "BehaviorTree" }
      | some container =>
        .ok () (st5.setContainer (st5.tabWidget.tabText st5.tabWidget.currentIndex)
          container.nodeReorder)).bind
      fun _ st6 =>
    (st6.tryLoadWorkspace ext conflict_no workspace_text true).bind fun _ st7 =>
    let models_to_remove :=
      ext.GetModelsToRemove st7._treenode_models st7._workspace_models custom_models
    loadFromXML.removeModels remove_yes models_to_remove st7

/-- The function `loadFromXML`.  The handler catches what derives from `std::exception`; the
dereference of a null pointer is not caught. -/
def loadFromXML (ext : External) (conflict_no remove_yes : QString → Bool)
    (xml_text workspace_text : QString) (st : MainWindow) : Res Bool :=
  match documentFromText ext xml_text with
  | none => .ok false st
  | some docToLoad =>
    let saved_state := st._current_state
    let prev_tree_model := st._treenode_models
    match loadFromXML.tryBlock ext conflict_no remove_yes docToLoad workspace_text st with
    | .thrown .null_pointer st1 => .thrown .null_pointer st1
    | .thrown _ st1 =>
      let st2 := { st1 with _treenode_models := prev_tree_model }
      (st2.loadSavedStateFromJson saved_state).bind fun _ st3 => .ok false st3
    | .ok _ st1 =>
      st1.onSceneChanged.onPushUndo.bind fun _ st2 => .ok true st2

/-! ### Saving -/

/-- The struct `InvalidPortMapping`. -/
structure InvalidPortMapping where
  sub_tree : QString
  node_id : QString
  port : QString
deriving DecidableEq, Repr

/-- The loop of `checkRequiredPorts` over the port mapping of one node; `port_models` is the
local copy of the ports of the model, which `operator[]` extends by a default entry for a
key it does not hold. -/
def checkRequiredPorts.ports (sub_tree node_id : QString) :
    List (QString × QString) → StdMap PortModel → List InvalidPortMapping
  | [], _ => []
  | mapping :: rest, port_models =>
    let key := mapping.1
    let port := port_models.index key
    (if port.1.required ∧ mapping.2 = "" then [⟨sub_tree, node_id, key⟩] else []) ++
      checkRequiredPorts.ports sub_tree node_id rest port.2

/-- The function `checkRequiredPorts`. -/
def checkRequiredPorts (st : MainWindow) : List InvalidPortMapping :=
  st._tab_info.entries.flatMap fun i =>
    (BuildTreeFromScene i.2.scene).nodes.flatMap fun node =>
      checkRequiredPorts.ports i.1 node.model.registration_ID node.ports_mapping.entries
        node.model.ports

/-- The first loop of `saveCurrentTree`: the name of the first document without a valid tree,
in name order. -/
def saveCurrentTree.firstInvalid : List (QString × GraphicContainer) → Option QString
  | [] => none
  | it :: rest => if !it.2.containsValidTree then some it.1 else firstInvalid rest

/-- The part of `saveCurrentTree` that brings the workspace up to date when the file is saved
under a new name. -/
def saveCurrentTree.saveAs (ext : External) (env : SaveEnvironment)
    (directory_path work_dir : QString) (st : MainWindow) : Res Unit :=
  let old_workspace := st._workspace_models
  (if env.dirExists work_dir then
      (st.tryLoadWorkspace ext env.conflictNo
        (env.readFileToString (env.workspace_path directory_path)) true).bind
        fun _ st1 => .ok () st1
    else .ok () st).bind fun _ st1 =>
  let unworkspacedModels :=
    old_workspace.entries.filter fun it => !isInNodeModels st1._workspace_models it.1
  if unworkspacedModels.length > 0 ∧ env.addToWorkspaceYes then
    .ok () { st1 with
      _workspace_models :=
        unworkspacedModels.foldl (fun m it => m.insert it.1 it.2) st1._workspace_models }
  else .ok () st1

/-- The function `saveCurrentTree`.  The result lists what a call that returns did to the file
system; the warnings are display only. -/
def saveCurrentTree (ext : External) (env : SaveEnvironment) (forceSaveAs : Bool)
    (st : MainWindow) : Res (List FileAction) :=
  match saveCurrentTree.firstInvalid st._tab_info.entries with
  | some _ => .ok [] st
  | none =>
    let st1 :=
      if st._tab_info.size = 1 then
        match st._tab_info.entries.head? with
        | some first => { st with _main_tree := first.1 }
        | none => st
      else st
    let invalid_mappings := st1.checkRequiredPorts
    if invalid_mappings.length > 0 then .ok [] st1
    else
      let save_as : Bool := decide (st1._current_file_name = "") || forceSaveAs
      let fileName1 := if save_as then env.getSaveFileName else st1._current_file_name
      if fileName1 = "" then .ok [] st1
      else
        let fileName :=
          if !(".xml".data.isSuffixOf fileName1.data) then fileName1 ++ ".xml" else fileName1
        match st1.saveDocToXML ext with
        | .error e => .thrown e st1
        | .ok xml_text =>
          let tree_file :=
            if env.canOpen fileName then [FileAction.write fileName xml_text] else []
          let directory_path := env.absolutePath fileName
          let work_dir := env.workspace_dir directory_path
          (if save_as then saveCurrentTree.saveAs ext env directory_path work_dir st1
            else .ok () st1).bind fun _ st2 =>
          match st2.saveWorkspaceToXML ext with
          | .error e => .thrown e st2
          | .ok workspace_text =>
            let new_dir := if !env.dirExists work_dir then [FileAction.mkdir work_dir] else []
            let workspace_file :=
              if env.canOpen (env.workspace_path directory_path) then
                [FileAction.write (env.workspace_path directory_path) workspace_text]
              else []
            .ok (tree_file ++ new_dir ++ workspace_file) (st2.updateTreeInfo true fileName)

end MainWindow

/-! ## Sample states -/

namespace Sample

/-- An editor window right after construction, with an empty table of builtin models: one
tab `BehaviorTree`, which is the main tree. -/
def window : MainWindow := (MainWindow.constructor .EDITOR .Vertical StdMap.empty).state

/-- The snapshot the constructor captured. -/
def snapshot : MainWindow.SavedState := window._current_state

/-- The sample window after one more tab `A` was created. -/
def twoTabs : MainWindow := (MainWindow.createTab "A" window).state

/-- The sample window with one snapshot on the undo stack. -/
def withUndo : MainWindow := { window with _undo_stack := [snapshot] }

/-- A window whose current snapshot differs from the top of the undo stack, while its
documents are those of the top. -/
def reverted : MainWindow :=
  { window with
    _undo_stack := [snapshot]
    _current_state := { snapshot with current_tab_name := "Other" } }

/-- A snapshot with one tab, whose main tree and current tab name no tab. -/
def staleSnapshot : MainWindow.SavedState :=
  { snapshot with main_tree := "A", current_tab_name := "C" }

/-- The model of the subtree `Sub`. -/
def subModel : NodeModel := ⟨.SUBTREE, "Sub", StdMap.empty⟩

/-- The model of an action `Act`. -/
def actModel : NodeModel := ⟨.ACTION, "Act", StdMap.empty⟩

/-- A main document: the root node with one child, a collapsed reference to `Sub`. -/
def mainScene : FlowScene :=
  { nodes := [⟨1, FlowScene.RootNodeModel, "Root", StdMap.empty, false, 1, false⟩,
              ⟨2, subModel, "Sub", StdMap.empty, false, 0, false⟩]
    connections := [⟨1, 2⟩]
    layout := .Vertical }

/-- The document of `Sub`: the root node with one child, an action. -/
def subScene : FlowScene :=
  { nodes := [⟨1, FlowScene.RootNodeModel, "Root", StdMap.empty, false, 1, false⟩,
              ⟨2, actModel, "Act", StdMap.empty, false, 0, false⟩]
    connections := [⟨1, 2⟩]
    layout := .Vertical }

/-- A document that is not a valid tree: the action is not connected, so there are two
roots. -/
def brokenScene : FlowScene := { subScene with connections := [] }

/-- The sample window with the subtree `Sub` registered and open in a second tab; the main
document refers to it. -/
def project : MainWindow :=
  let st := (MainWindow.createTab "Sub" (window.onAddToModelRegistry subModel)).state
  (st.setContainer "BehaviorTree" { MainWindow.newTabContainer .Vertical with scene := mainScene }
    ).setContainer "Sub" { MainWindow.newTabContainer .Vertical with scene := subScene }

/-- The project with the document of `Sub` broken. -/
def brokenProject : MainWindow :=
  project.setContainer "Sub" { MainWindow.newTabContainer .Vertical with scene := brokenScene }

/-- The project after the reference to `Sub` in the main document was expanded. -/
def expandedProject : MainWindow :=
  (MainWindow.subTreeExpand "BehaviorTree" 2 .SUBTREE_EXPAND project).state

/-- The project with the reference expanded and the document of `Sub` broken afterwards. -/
def staleProject : MainWindow :=
  expandedProject.setContainer "Sub"
    { MainWindow.newTabContainer .Vertical with scene := brokenScene }

/-- A main document whose reference to `Sub` carries the instance name `helper`. -/
def aliasScene : FlowScene :=
  { nodes := [⟨1, FlowScene.RootNodeModel, "Root", StdMap.empty, false, 1, false⟩,
              ⟨2, subModel, "helper", StdMap.empty, false, 0, false⟩]
    connections := [⟨1, 2⟩]
    layout := .Vertical }

/-- The project with the aliased reference in the main document. -/
def aliasProject : MainWindow :=
  project.setContainer "BehaviorTree"
    { MainWindow.newTabContainer .Vertical with scene := aliasScene }

/-- A main document that is not a valid tree: the reference to `Sub` is not connected to the
root. -/
def looseScene : FlowScene := { mainScene with connections := [] }

/-- The project with the loose reference in the main document. -/
def looseProject : MainWindow :=
  project.setContainer "BehaviorTree"
    { MainWindow.newTabContainer .Vertical with scene := looseScene }

/-- The model of the subtree `Tools`. -/
def toolsModel : NodeModel := ⟨.SUBTREE, "Tools", StdMap.empty⟩

/-- A main document with two references below a sequence: one to `Sub`, one to `Tools`. -/
def forkScene : FlowScene :=
  { nodes := [⟨1, FlowScene.RootNodeModel, "Root", StdMap.empty, false, 1, false⟩,
              ⟨2, ⟨.CONTROL, "Sequence", StdMap.empty⟩, "Sequence", StdMap.empty, false, 1,
                false⟩,
              ⟨3, subModel, "Sub", StdMap.empty, false, 0, false⟩,
              ⟨4, toolsModel, "Tools", StdMap.empty, false, 0, false⟩]
    connections := [⟨1, 2⟩, ⟨2, 3⟩, ⟨2, 4⟩]
    layout := .Vertical }

/-- The project with the documents `Sub` and `Tools` and the two references in the main
document, both expanded. -/
def forkProject : MainWindow :=
  let st := (MainWindow.createTab "Tools" (project.onAddToModelRegistry toolsModel)).state
  let st1 := (st.setContainer "BehaviorTree"
    { MainWindow.newTabContainer .Vertical with scene := forkScene }).setContainer "Tools"
    { MainWindow.newTabContainer .Vertical with scene := subScene }
  let st2 := (MainWindow.subTreeExpand "BehaviorTree" 3 .SUBTREE_EXPAND st1).state
  (MainWindow.subTreeExpand "BehaviorTree" 4 .SUBTREE_EXPAND st2).state

/-- The project with the two expanded references, and the document of `Sub` broken
afterwards. -/
def forkStale : MainWindow :=
  forkProject.setContainer "Sub"
    { MainWindow.newTabContainer .Vertical with scene := brokenScene }

/-- The main document of the project `forkStale`. -/
def forkStaleMain : GraphicContainer :=
  (forkStale.getTabByName "BehaviorTree").getD GraphicContainer.create

/-- A main document with two references to `Sub` below a sequence. -/
def pairScene : FlowScene :=
  { nodes := [⟨1, FlowScene.RootNodeModel, "Root", StdMap.empty, false, 1, false⟩,
              ⟨2, ⟨.CONTROL, "Sequence", StdMap.empty⟩, "Sequence", StdMap.empty, false, 1,
                false⟩,
              ⟨3, subModel, "Sub", StdMap.empty, false, 0, false⟩,
              ⟨4, subModel, "Sub", StdMap.empty, false, 0, false⟩]
    connections := [⟨1, 2⟩, ⟨2, 3⟩, ⟨2, 4⟩]
    layout := .Vertical }

/-- The project with the two references to `Sub` in the main document, the second one
expanded. -/
def pairProject : MainWindow :=
  (MainWindow.subTreeExpand "BehaviorTree" 4 .SUBTREE_EXPAND
    (project.setContainer "BehaviorTree"
      { MainWindow.newTabContainer .Vertical with scene := pairScene })).state

/-- The main document of the project `pairProject`. -/
def pairMain : GraphicContainer :=
  (pairProject.getTabByName "BehaviorTree").getD GraphicContainer.create

/-- The project with the expanded reference, when the document of `Sub` was edited
afterwards and holds a reference to itself: it is the root node with a collapsed
reference to `Sub`. -/
def selfProject : MainWindow :=
  expandedProject.setContainer "Sub"
    { MainWindow.newTabContainer .Vertical with scene := mainScene }

/-! ### Samples for loading and saving -/

/-- The kind of a model element of the sample files. -/
def nodeTypeOfTag (tag : QString) : Option NodeType :=
  if tag = "Action" then some .ACTION
  else if tag = "Condition" then some .CONDITION
  else if tag = "Control" then some .CONTROL
  else if tag = "Decorator" then some .DECORATOR
  else if tag = "SubTree" then some .SUBTREE
  else none

/-- A port of a model element of the sample files: `<input_port name=".." required=".."/>`. -/
def readPort : QDomNode → Option (QString × PortModel)
  | .element tag attributes children =>
    if tag = "input_port" then
      some ((QDomNode.element tag attributes children).attributeOf "name",
        ⟨.INPUT, (QDomNode.element tag attributes children).attributeOf "required" = "true", ""⟩)
    else none
  | _ => none

/-- A model element of the sample files: `<Action ID=".."> ports </Action>`. -/
def readModel : QDomNode → Option (QString × NodeModel)
  | .element tag attributes children =>
    match nodeTypeOfTag tag with
    | none => none
    | some type =>
      some ((QDomNode.element tag attributes children).attributeOf "ID",
        ⟨type, (QDomNode.element tag attributes children).attributeOf "ID",
          (children.filterMap readPort).foldl (fun m p => m.insert p.1 p.2) StdMap.empty⟩)
  | _ => none

/-- The models of the element `TreeNodesModel` of a sample file. -/
def readTreeNodesModel (root : QDomNode) : Except Error NodeModels :=
  .ok ((((root.childElements "TreeNodesModel").flatMap QDomNode.childNodes).filterMap
    readModel).foldl (fun m p => m.insert p.1 p.2) StdMap.empty)

/-- The port values of a node element of the sample files: the attributes other than `ID` and
`name`. -/
def readPortsMapping (attributes : List (QString × QString)) : StdMap QString :=
  (attributes.filter fun a => a.1 ≠ "ID" ∧ a.1 ≠ "name").foldl
    (fun m a => m.insert a.1 a.2) StdMap.empty

mutual
/-- The tree nodes of a node element of the sample files and of the elements below it, in
document order; the first one gets the index `start`.  A model that is not registered is
an error. -/
def readTreeNode (models : NodeModels) (start : Nat) :
    QDomNode → Except Error (List AbstractTreeNode)
  | .element tag attributes children =>
    let modelID :=
      if (QDomNode.element tag attributes children).hasAttribute "ID" then
        (QDomNode.element tag attributes children).attributeOf "ID"
      else tag
    match models.find modelID with
    | none => .error (.runtime_error ("This model has not been registered: " ++ modelID))
    | some model =>
      match readTreeNodes models (start + 1) children with
      | .error e => .error e
      | .ok below =>
        .ok ({ model := model
               instance_name :=
                 if (QDomNode.element tag attributes children).hasAttribute "name" then
                   (QDomNode.element tag attributes children).attributeOf "name"
                 else modelID
               ports_mapping := readPortsMapping attributes
               children_index := below.2
               graphic_node := 0 } :: below.1)
  | _ => .ok []
/-- The tree nodes of a list of sibling elements, with the indices of the siblings. -/
def readTreeNodes (models : NodeModels) (start : Nat) :
    List QDomNode → Except Error (List AbstractTreeNode × List Nat)
  | [] => .ok ([], [])
  | child :: rest =>
    match readTreeNode models start child with
    | .error e => .error e
    | .ok nodes =>
      match readTreeNodes models (start + nodes.length) rest with
      | .error e => .error e
      | .ok others =>
        .ok (nodes ++ others.1, if nodes.isEmpty then others.2 else start :: others.2)
end

/-- The tree of an element `BehaviorTree` of a sample file. -/
def buildTreeFromXML (bt_root : QDomNode) (models : NodeModels) :
    Except Error AbsBehaviorTree :=
  match readTreeNodes models 0 bt_root.childNodes with
  | .error e => .error e
  | .ok nodes => .ok ⟨nodes.1⟩

/-- A file with one tree `A`, a single action `Act`, and the model of `Act`; the root names
no main tree. -/
def treeFile : QDomDocument :=
  ⟨.element "root" []
    [.element "BehaviorTree" [("ID", "A")] [.element "Action" [("ID", "Act")] []],
     .element "TreeNodesModel" [] [.element "Action" [("ID", "Act")] []]]⟩

/-- A file whose root names the main tree `Main`, which the file does not define. -/
def strayMainFile : QDomDocument :=
  ⟨.element "root" [("main_tree_to_execute", "Main")]
    [.element "BehaviorTree" [("ID", "A")] [.element "Action" [("ID", "Act")] []],
     .element "TreeNodesModel" [] [.element "Action" [("ID", "Act")] []]]⟩

/-- A file whose second tree uses a model that is not registered. -/
def brokenFile : QDomDocument :=
  ⟨.element "root" []
    [.element "BehaviorTree" [("ID", "A")] [.element "Action" [("ID", "Act")] []],
     .element "BehaviorTree" [("ID", "B")] [.element "Action" [("ID", "Unknown")] []],
     .element "TreeNodesModel" [] [.element "Action" [("ID", "Act")] []]]⟩

/-- A workspace file with the model `Move`, which has the port `target`. -/
def workspaceFile : QDomDocument :=
  ⟨.element "root" []
    [.element "TreeNodesModel" []
      [.element "Action" [("ID", "Move")] [.element "input_port" [("name", "target")] []]]]⟩

/-- The text of a call of the writer, for the samples. -/
def showWrite : XmlWrite → QString
  | .writeStartDocument => "<?xml?>"
  | .writeStartElement name => "<" ++ name ++ ">"
  | .writeAttribute name value => "@" ++ name ++ "=" ++ value
  | .writeEndElement => "</>"
  | .writeComment text => "<!--" ++ text ++ "-->"
  | .writeCharacters text => text
  | .writeEndDocument => ""

/-- The external world of the samples: the texts `tree`, `stray`, `broken` and `workspace`
parse to the sample files, nothing else parses; the codec reads the models and trees of
the sample format; no model is builtin and none is proposed for removal. -/
def ext : External :=
  { setContent := fun text =>
      if text = "tree" then some treeFile
      else if text = "stray" then some strayMainFile
      else if text = "broken" then some brokenFile
      else if text = "workspace" then some workspaceFile
      else none
    toString := fun calls => String.join (calls.map showWrite)
    ReadTreeNodesModel := readTreeNodesModel
    BuildTreeFromXML := buildTreeFromXML
    GetModelsToRemove := fun _ _ _ => []
    BuiltinNodeModels := StdMap.empty
    RecursivelyCreateXml := fun _ _ => []
    writePortModel := fun name _ => .element "input_port" [("name", name)] [] }

/-- A save environment: the dialog answers `out`, every file opens, the directory of a file
is `dir`, no workspace directory exists, and every question is answered with "No". -/
def saveEnvironment : SaveEnvironment :=
  { getSaveFileName := "out"
    canOpen := fun _ => true
    absolutePath := fun _ => "dir"
    workspace_dir := fun d => d ++ "/workspace"
    workspace_path := fun d => d ++ "/workspace/workspace.xml"
    dirExists := fun _ => false
    readFileToString := fun _ => ""
    conflictNo := fun _ => true
    addToWorkspaceYes := false }

/-- The model `Move` with the required port `goal`. -/
def moveModel : NodeModel :=
  ⟨.ACTION, "Move", (StdMap.empty : StdMap PortModel).insert "goal" ⟨.INPUT, true, ""⟩⟩

/-- A document with one `Move` node below the root, whose port mapping is `mapping`. -/
def moveScene (mapping : StdMap QString) : FlowScene :=
  { nodes := [⟨1, FlowScene.RootNodeModel, "Root", StdMap.empty, false, 1, false⟩,
              ⟨2, moveModel, "Move", mapping, false, 0, false⟩]
    connections := [⟨1, 2⟩]
    layout := .Vertical }

/-- The window whose document holds a `Move` node with the given port mapping; the model is
registered. -/
def portsWindow (mapping : StdMap QString) : MainWindow :=
  (window.onAddToModelRegistry moveModel).setContainer "BehaviorTree"
    { MainWindow.newTabContainer .Vertical with scene := moveScene mapping }

/-- The project with the model `Act` registered; the document `Sub` uses it. -/
def usedModelProject : MainWindow := project.onAddToModelRegistry actModel

/-- The window with the workspace model `Old`. -/
def workspaceWindow : MainWindow :=
  { window with _workspace_models := (StdMap.empty : NodeModels).insert "Old" actModel }

/-- The window in which the model `Move`, with the port `goal`, is registered. -/
def moveWindow : MainWindow := window.onAddToModelRegistry moveModel

/-- A document with attributes, a comment and a text. -/
def document : QDomDocument :=
  ⟨.element "root" [("main_tree_to_execute", "A"), ("BTCPP_format", "4")]
    [.comment "trees",
     .element "BehaviorTree" [("ID", "A")]
       [.element "Action" [("name", "go"), ("ID", "Act"), ("goal", "x")] [], .text "end"]]⟩

/-- The sample document with the attributes of every element in another order. -/
def reorderedDocument : QDomDocument :=
  ⟨.element "root" [("BTCPP_format", "4"), ("main_tree_to_execute", "A")]
    [.comment "trees",
     .element "BehaviorTree" [("ID", "A")]
       [.element "Action" [("goal", "x"), ("name", "go"), ("ID", "Act")] [], .text "end"]]⟩

/-- The load of a sample text into the window right after construction, without a workspace;
every question is answered with "No". -/
def load (xml_text : QString) : Res Bool :=
  MainWindow.loadFromXML ext (fun _ => true) (fun _ => false) xml_text "" window

end Sample

/-! ## Facts about ordered maps -/

namespace StdMap

variable {V : Type}

theorem ext_entries {a b : StdMap V} (h : a.entries = b.entries) : a = b := by
  cases a; cases b; cases h; rfl

theorem keyLt_irrefl (k : QString) : ¬ QString.lt k k :=
  fun h => @lt_irrefl (List Char) _ k.data h

theorem keyLt_asymm {a b : QString} (h : QString.lt a b) : ¬ QString.lt b a :=
  fun h2 => @lt_asymm (List Char) _ a.data b.data h h2

theorem ne_of_keyLt {a b : QString} (h : QString.lt a b) : a ≠ b := by
  intro hab; subst hab; exact keyLt_irrefl a h

theorem insertEntry_of_all_lt (k : QString) (v : V) (l : List (QString × V))
    (h : ∀ e ∈ l, QString.lt e.1 k) : insertEntry k v l = l ++ [(k, v)] := by
  induction l with
  | nil => rfl
  | cons e rest ih =>
    have he := h e (List.mem_cons_self _ _)
    have hne : k ≠ e.1 := fun hk => ne_of_keyLt he hk.symm
    simp [insertEntry, keyLt_asymm he, hne, ih (fun x hx => h x (List.mem_cons_of_mem _ hx))]

theorem findEntry_eq_none_iff (k : QString) (l : List (QString × V)) :
    findEntry k l = none ↔ k ∉ l.map Prod.fst := by
  induction l with
  | nil => simp [findEntry]
  | cons e rest ih =>
    unfold findEntry
    by_cases h : e.1 = k
    · simp [h]
    · simp [h, ih, Ne.symm h]

theorem findEntry_eq_some_iff (k : QString) (v : V) (l : List (QString × V))
    (hl : l.Pairwise (fun a b => QString.lt a.1 b.1)) :
    findEntry k l = some v ↔ (k, v) ∈ l := by
  induction l with
  | nil => simp [findEntry]
  | cons e rest ih =>
    have hl2 := List.pairwise_cons.1 hl
    unfold findEntry
    by_cases h : e.1 = k
    · simp only [h, if_true, List.mem_cons]
      constructor
      · intro hv
        left
        cases hv
        exact Prod.ext h.symm rfl
      · rintro (hv | hv)
        · rw [← hv]
        · exact absurd h (ne_of_keyLt (hl2.1 _ hv))
    · simp only [h, if_false, List.mem_cons, ih hl2.2]
      constructor
      · exact Or.inr
      · rintro (hv | hv)
        · exact absurd (by rw [← hv]) h
        · exact hv

theorem find_eq_some_iff (m : StdMap V) (k : QString) (v : V) :
    m.find k = some v ↔ (k, v) ∈ m.entries :=
  findEntry_eq_some_iff k v m.entries m.sorted

theorem keys_nodup (m : StdMap V) : m.keys.Nodup := by
  unfold keys
  rw [List.Nodup, List.pairwise_map]
  exact m.sorted.imp (fun h => ne_of_keyLt h)

theorem count_pos_iff (m : StdMap V) (k : QString) : m.count k > 0 ↔ k ∈ m.keys := by
  unfold count find keys
  cases h : findEntry k m.entries with
  | none => simpa using (findEntry_eq_none_iff k m.entries).1 h
  | some v =>
    have : ¬ findEntry k m.entries = none := by simp [h]
    rw [findEntry_eq_none_iff] at this
    simpa using this

end StdMap

namespace StdMap

variable {V : Type}

theorem insertEntry_of_mem (k : QString) (v : V) (l : List (QString × V))
    (hl : l.Pairwise (fun a b => QString.lt a.1 b.1)) (hk : k ∈ l.map Prod.fst) :
    insertEntry k v l = l := by
  induction l with
  | nil => simp at hk
  | cons e rest ih =>
    have hl2 := List.pairwise_cons.1 hl
    unfold insertEntry
    by_cases hke : k = e.1
    · subst hke
      simp [keyLt_irrefl]
    · have hk2 : k ∈ rest.map Prod.fst := by
        simpa [hke] using hk
      obtain ⟨x, hx, hxk⟩ := List.mem_map.1 hk2
      have hlt : QString.lt e.1 k := by
        rw [← hxk]; exact hl2.1 x hx
      simp [keyLt_asymm hlt, hke, ih hl2.2 hk2]

theorem insert_entries_of_all_lt (m : StdMap V) (k : QString) (v : V)
    (h : ∀ e ∈ m.entries, QString.lt e.1 k) : (m.insert k v).entries = m.entries ++ [(k, v)] :=
  insertEntry_of_all_lt k v m.entries h

theorem insert_of_mem (m : StdMap V) (k : QString) (v : V) (hk : k ∈ m.keys) :
    m.insert k v = m :=
  ext_entries (insertEntry_of_mem k v m.entries m.sorted hk)

end StdMap

namespace MainWindow

theorem createTabs_spec (l pre : List (QString × QByteArray)) (st : MainWindow)
    (hs : (pre ++ l).Pairwise (fun a b => QString.lt a.1 b.1))
    (hst : st._tab_info.entries =
      pre.map fun it => (it.1, newTabContainer st._current_layout)) :
    ∃ st', loadSavedStateFromJson.createTabs l st = .ok () st' ∧
      st'._tab_info.entries =
        (pre ++ l).map (fun it => (it.1, newTabContainer st._current_layout)) ∧
      st'.tabWidget.tabs = st.tabWidget.tabs ++ l.map (fun it => ⟨it.1, false⟩) ∧
      st'.tabWidget.currentIndex =
        (if st.tabWidget.tabs = [] ∧ l ≠ [] then 0 else st.tabWidget.currentIndex) ∧
      { st' with _tab_info := st._tab_info, tabWidget := st.tabWidget } = st := by
  induction l generalizing pre st with
  | nil =>
    refine ⟨st, rfl, by simpa using hst, by simp, by simp, rfl⟩
  | cons it rest ih =>
    have hlt : ∀ e ∈ st._tab_info.entries, QString.lt e.1 it.1 := by
      intro e he
      rw [hst] at he
      obtain ⟨x, hx, rfl⟩ := List.mem_map.1 he
      exact (List.pairwise_append.1 hs).2.2 x hx it (List.mem_cons_self _ _)
    have hcount : ¬ st._tab_info.count it.1 > 0 := by
      rw [StdMap.count_pos_iff]
      intro hk
      obtain ⟨e, he, hek⟩ := List.mem_map.1 hk
      exact StdMap.keyLt_irrefl it.1 (by simpa [hek] using hlt e he)
    have hins : (st._tab_info.insert it.1 (newTabContainer st._current_layout)).entries =
        (pre ++ [it]).map fun it => (it.1, newTabContainer st._current_layout) := by
      rw [StdMap.insert_entries_of_all_lt _ _ _ hlt, hst]; simp
    have hmem : it.1 ∈ (st._tab_info.insert it.1 (newTabContainer st._current_layout)).keys := by
      unfold StdMap.keys; rw [hins]; simp
    unfold loadSavedStateFromJson.createTabs
    simp only [createTab, hcount, if_false, Res.bind]
    rw [StdMap.insert_of_mem _ _ _ hmem]
    obtain ⟨st', h1, h2, h3, h4, h5⟩ := ih (pre ++ [it])
      { st with
        _tab_info := st._tab_info.insert it.1 (newTabContainer st._current_layout)
        tabWidget := st.tabWidget.addTab it.1 }
      (by simpa using hs) hins
    refine ⟨st', h1, by simpa using h2, ?_, ?_, ?_⟩
    · simpa [QTabWidget.addTab] using h3
    · rw [h4]
      by_cases ht : st.tabWidget.tabs = [] <;> simp [QTabWidget.addTab, ht]
    · cases st; cases st'
      simp only [MainWindow.mk.injEq] at h5 ⊢
      simp [h5]

end MainWindow

namespace MainWindow

theorem loadTabs_spec (s : SavedState) (c0 : GraphicContainer)
    (l pre : List (QString × QByteArray)) (st : MainWindow)
    (hs : (pre ++ l).Pairwise (fun a b => QString.lt a.1 b.1))
    (hst : st._tab_info.entries =
      pre.map (fun it => (it.1, restoredContainer s c0 it.2)) ++ l.map (fun it => (it.1, c0))) :
    ∃ st', loadSavedStateFromJson.loadTabs s l st = .ok () st' ∧
      st'._tab_info.entries = (pre ++ l).map (fun it => (it.1, restoredContainer s c0 it.2)) ∧
      { st' with _tab_info := st._tab_info } = st := by
  induction l generalizing pre st with
  | nil =>
    refine ⟨st, rfl, by simpa using hst, rfl⟩
  | cons it rest ih =>
    have hp := List.pairwise_append.1 hs
    have hfind : st.getTabByName it.1 = some c0 := by
      unfold getTabByName
      rw [StdMap.find_eq_some_iff, hst]
      simp
    have hpre : ∀ x ∈ pre, x.1 ≠ it.1 := fun x hx =>
      StdMap.ne_of_keyLt (hp.2.2 x hx it (List.mem_cons_self _ _))
    have hrest : ∀ x ∈ rest, x.1 ≠ it.1 := fun x hx =>
      (StdMap.ne_of_keyLt ((List.pairwise_cons.1 hp.2.1).1 x hx)).symm
    have hmod : (st._tab_info.modify it.1 fun container =>
          { container.loadFromJson it.2 with
            view_transform := s.view_transform
            view_area := s.view_area }).entries =
        (pre ++ [it]).map (fun it => (it.1, restoredContainer s c0 it.2)) ++
          rest.map (fun it => (it.1, c0)) := by
      have e1 : pre.map (fun x : QString × QByteArray =>
            (x.1, if x.1 = it.1 then restoredContainer s (restoredContainer s c0 x.2) it.2
              else restoredContainer s c0 x.2)) =
          pre.map (fun x => (x.1, restoredContainer s c0 x.2)) :=
        List.map_congr_left fun x hx => by simp [hpre x hx]
      have e2 : rest.map (fun x : QString × QByteArray =>
            (x.1, if x.1 = it.1 then restoredContainer s c0 it.2 else c0)) =
          rest.map (fun x => (x.1, c0)) :=
        List.map_congr_left fun x hx => by simp [hrest x hx]
      simp only [StdMap.modify, hst, List.map_append, List.map_map, List.map_cons, List.map_nil,
        List.append_assoc, List.singleton_append, Function.comp_def, if_true]
      exact congrArg₂ (· ++ ·) e1 (congrArg₂ List.cons rfl e2)
    unfold loadSavedStateFromJson.loadTabs
    simp only [hfind]
    obtain ⟨st', h1, h2, h3⟩ := ih (pre ++ [it])
      { st with
        _tab_info := st._tab_info.modify it.1 fun container =>
          { container.loadFromJson it.2 with
            view_transform := s.view_transform
            view_area := s.view_area } }
      (by simpa using hs) hmod
    refine ⟨st', h1, by simpa using h2, ?_⟩
    cases st; cases st'
    simp only [MainWindow.mk.injEq] at h3 ⊢
    simp [h3]

end MainWindow

namespace QTabWidget

theorem tabText_eq (w : QTabWidget) (i : Int) :
    w.tabText i = if 0 ≤ i then ((w.tabs.map Tab.text)[i.toNat]?).getD "" else "" := by
  unfold tabText tabAt
  by_cases h : 0 ≤ i
  · simp only [h, if_true, List.get?_eq_getElem?, List.getElem?_map]
    cases w.tabs[i.toNat]? <;> rfl
  · simp [h]

theorem tabText_congr {w w' : QTabWidget}
    (h : w.tabs.map Tab.text = w'.tabs.map Tab.text) (i : Int) : w.tabText i = w'.tabText i := by
  rw [tabText_eq, tabText_eq, h]

theorem count_congr {w w' : QTabWidget}
    (h : w.tabs.map Tab.text = w'.tabs.map Tab.text) : w.count = w'.count := by
  have := congrArg List.length h
  simp only [List.length_map] at this
  simp [count, this]

theorem setCurrentIndex_tabs (w : QTabWidget) (i : Int) : (w.setCurrentIndex i).tabs = w.tabs := by
  unfold setCurrentIndex; split <;> rfl

end QTabWidget

namespace MainWindow

theorem onTabSetMainTree_texts (i : Int) (st : MainWindow) :
    (st.onTabSetMainTree i).tabWidget.tabs.map Tab.text = st.tabWidget.tabs.map Tab.text := by
  apply List.ext_getElem?
  intro n
  simp only [onTabSetMainTree, List.getElem?_map, List.getElem?_mapIdx]
  cases st.tabWidget.tabs[n]? <;> rfl

theorem onTabSetMainTree_frame (i : Int) (st : MainWindow)
    (h : 0 ≤ i ∧ i < st.tabWidget.count → st.tabWidget.tabText i = st._main_tree) :
    st.onTabSetMainTree i = { st with tabWidget := (st.onTabSetMainTree i).tabWidget } := by
  unfold onTabSetMainTree
  by_cases h3 : 0 ≤ i ∧ i < st.tabWidget.count
  · simp only [if_pos h3, h h3]
  · simp only [if_neg h3]

/-- What `selectTab` keeps: everything but the tab widget, and the labels of the tabs. -/
theorem selectTab_frame (s : SavedState) (st : MainWindow) (i : Nat) :
    { loadSavedStateFromJson.selectTab s st i with tabWidget := st.tabWidget } = st ∧
    (loadSavedStateFromJson.selectTab s st i).tabWidget.tabs.map Tab.text =
      st.tabWidget.tabs.map Tab.text := by
  unfold loadSavedStateFromJson.selectTab
  by_cases h1 : st.tabWidget.tabText i = s.current_tab_name
  · rw [if_pos h1]
    by_cases h2 : (st.tabWidget.setCurrentIndex i).tabText i = st._main_tree
    · rw [if_pos h2]
      refine ⟨?_, ?_⟩
      · rw [onTabSetMainTree_frame i { st with tabWidget := st.tabWidget.setCurrentIndex i }
          (fun _ => h2)]
      · rw [onTabSetMainTree_texts, QTabWidget.setCurrentIndex_tabs]
    · rw [if_neg h2]
      exact ⟨rfl, by rw [QTabWidget.setCurrentIndex_tabs]⟩
  · rw [if_neg h1]
    by_cases h2 : st.tabWidget.tabText i = st._main_tree
    · rw [if_pos h2]
      exact ⟨by rw [onTabSetMainTree_frame i st (fun _ => h2)], onTabSetMainTree_texts _ _⟩
    · rw [if_neg h2]
      exact ⟨rfl, rfl⟩

theorem selectTab_currentIndex (s : SavedState) (st : MainWindow) (i : Nat) :
    (loadSavedStateFromJson.selectTab s st i).tabWidget.currentIndex =
      if st.tabWidget.tabText i = s.current_tab_name ∧ (i : Int) < st.tabWidget.count
      then (i : Int) else st.tabWidget.currentIndex := by
  unfold loadSavedStateFromJson.selectTab
  by_cases h1 : st.tabWidget.tabText i = s.current_tab_name
  · by_cases h3 : (i : Int) < st.tabWidget.count
    · have h4 : (st.tabWidget.setCurrentIndex i).currentIndex = i := by
        simp [QTabWidget.setCurrentIndex, h3]
      rw [if_pos h1, if_pos (And.intro h1 h3)]
      dsimp only
      split
      · exact h4
      · exact h4
    · have h4 : st.tabWidget.setCurrentIndex i = st.tabWidget := by
        simp [QTabWidget.setCurrentIndex, h3]
      rw [if_pos h1, if_neg (fun h => h3 (And.right h)), h4]
      dsimp only
      split <;> rfl
  · rw [if_neg h1, if_neg (fun h => h1 (And.left h))]
    dsimp only
    split <;> rfl

/-- The loop over the first `n` tab indices. -/
theorem selectTab_fold (s : SavedState) (st : MainWindow) (n : Nat)
    (hn : n ≤ st.tabWidget.tabs.length) :
    { (List.range n).foldl (loadSavedStateFromJson.selectTab s) st with
        tabWidget := st.tabWidget } = st ∧
    ((List.range n).foldl (loadSavedStateFromJson.selectTab s) st).tabWidget.tabs.map Tab.text =
      st.tabWidget.tabs.map Tab.text ∧
    ((∃ i : Nat, i < n ∧ st.tabWidget.tabText i = s.current_tab_name) →
      st.tabWidget.tabText
        ((List.range n).foldl (loadSavedStateFromJson.selectTab s) st).tabWidget.currentIndex =
        s.current_tab_name) ∧
    ((¬ ∃ i : Nat, i < n ∧ st.tabWidget.tabText i = s.current_tab_name) →
      ((List.range n).foldl (loadSavedStateFromJson.selectTab s) st).tabWidget.currentIndex =
        st.tabWidget.currentIndex) := by
  induction n with
  | zero => simp
  | succ n ih =>
    obtain ⟨h1, h2, h3, h4⟩ := ih (Nat.le_of_succ_le hn)
    rw [List.range_succ, List.foldl_append]
    simp only [List.foldl_cons, List.foldl_nil]
    generalize (List.range n).foldl (loadSavedStateFromJson.selectTab s) st = stn at h1 h2 h3 h4
    obtain ⟨f1, f2⟩ := selectTab_frame s stn n
    have hc := selectTab_currentIndex s stn n
    have ht : ∀ j : Int, stn.tabWidget.tabText j = st.tabWidget.tabText j :=
      QTabWidget.tabText_congr h2
    have hcount : stn.tabWidget.count = st.tabWidget.count := QTabWidget.count_congr h2
    have hlt : (n : Int) < st.tabWidget.count := by
      simp only [QTabWidget.count]; exact_mod_cast hn
    rw [ht, hcount] at hc
    refine ⟨?_, by rw [f2, h2], ?_, ?_⟩
    · cases st; cases stn
      generalize loadSavedStateFromJson.selectTab s _ n = r at f1 ⊢
      cases r
      simp only [MainWindow.mk.injEq] at h1 f1 ⊢
      simp [h1, f1]
    · rintro ⟨i, hi, hti⟩
      rw [hc]
      by_cases hnn : st.tabWidget.tabText n = s.current_tab_name
      · simp [hnn, hlt]
      · simp only [hnn, false_and, if_false]
        have hi2 : i < n := by
          rcases Nat.lt_succ_iff_lt_or_eq.1 hi with h | h
          · exact h
          · subst h; exact absurd hti hnn
        exact h3 ⟨i, hi2, hti⟩
    · intro hno
      rw [hc]
      have hnn : ¬ st.tabWidget.tabText n = s.current_tab_name :=
        fun h => hno ⟨n, Nat.lt_succ_self n, h⟩
      simp only [hnn, false_and, if_false]
      exact h4 (fun ⟨i, hi, hti⟩ => hno ⟨i, Nat.lt_succ_of_lt hi, hti⟩)

end MainWindow

namespace MainWindow

/-- The first two loops of `loadSavedStateFromJson` never throw; they leave one fresh
container per key of the snapshot, loaded from the blob of that key. -/
theorem loadSavedStateFromJson_eq (s : SavedState) (st : MainWindow) :
    ∃ st4, loadSavedStateFromJson s st = .ok () (loadSavedStateFromJson.selectTabs s st4) ∧
      st4._tab_info.entries = s.json_states.entries.map (fun it =>
        (it.1, restoredContainer s (newTabContainer st._current_layout) it.2)) ∧
      st4.tabWidget.tabs = s.json_states.entries.map (fun it => ⟨it.1, false⟩) ∧
      st4.tabWidget.currentIndex = (if s.json_states.entries = [] then -1 else 0) ∧
      st4._main_tree = s.main_tree ∧
      { st4 with _tab_info := st._tab_info, tabWidget := st.tabWidget,
                 _main_tree := st._main_tree } = st := by
  obtain ⟨st3, a1, a2, a3, a4, a5⟩ := createTabs_spec s.json_states.entries []
    { st with _tab_info := StdMap.empty, tabWidget := st.tabWidget.clear,
              _main_tree := s.main_tree }
    (by simpa using s.json_states.sorted) rfl
  obtain ⟨st4, b1, b2, b3⟩ := loadTabs_spec s (newTabContainer st._current_layout)
    s.json_states.entries [] st3 (by simpa using s.json_states.sorted) (by simpa using a2)
  refine ⟨st4, ?_, by simpa using b2, ?_, ?_, ?_, ?_⟩
  · unfold loadSavedStateFromJson
    simp only [a1, Res.bind, b1]
  · have : st4.tabWidget = st3.tabWidget := by rw [← b3]
    rw [this, a3]; simp [QTabWidget.clear]
  · have : st4.tabWidget = st3.tabWidget := by rw [← b3]
    rw [this, a4]
    by_cases h : s.json_states.entries = [] <;> simp [QTabWidget.clear, h]
  · have h1 : st4._main_tree = st3._main_tree := by rw [← b3]
    have h2 : st3._main_tree = s.main_tree := by
      have := congrArg MainWindow._main_tree a5
      simpa using this
    rw [h1, h2]
  · cases st; cases st3; cases st4
    simp only [MainWindow.mk.injEq] at a5 b3 ⊢
    simp [a5, b3]

/-- The end of `loadSavedStateFromJson`: what it keeps and what it sets. -/
theorem selectTabs_spec (s : SavedState) (st : MainWindow) :
    (loadSavedStateFromJson.selectTabs s st)._tab_info =
      st._tab_info.mapValues (fun c => c.lockEditing (decide (st._current_mode ≠ .EDITOR))) ∧
    (loadSavedStateFromJson.selectTabs s st).tabWidget.tabs.map Tab.text =
      st.tabWidget.tabs.map Tab.text ∧
    (loadSavedStateFromJson.selectTabs s st)._main_tree =
      (if st.tabWidget.count = 1 then st.tabWidget.tabText 0 else st._main_tree) ∧
    ((∃ i : Nat, i < st.tabWidget.tabs.length ∧ st.tabWidget.tabText i = s.current_tab_name) →
      st.tabWidget.tabText (loadSavedStateFromJson.selectTabs s st).tabWidget.currentIndex =
        s.current_tab_name) ∧
    ((¬ ∃ i : Nat, i < st.tabWidget.tabs.length ∧
        st.tabWidget.tabText i = s.current_tab_name) →
      (loadSavedStateFromJson.selectTabs s st).tabWidget.currentIndex =
        st.tabWidget.currentIndex) ∧
    { loadSavedStateFromJson.selectTabs s st with
        _tab_info := st._tab_info, tabWidget := st.tabWidget,
        _main_tree := st._main_tree, saved := st.saved } = st := by
  obtain ⟨h1, h2, h3, h4⟩ := selectTab_fold s st st.tabWidget.tabs.length (Nat.le_refl _)
  unfold loadSavedStateFromJson.selectTabs
  generalize (List.range st.tabWidget.tabs.length).foldl
    (loadSavedStateFromJson.selectTab s) st = st5 at h1 h2 h3 h4
  have hcount : st5.tabWidget.count = st.tabWidget.count := QTabWidget.count_congr h2
  have e5 : st5 = { st with tabWidget := st5.tabWidget } := by
    cases st; cases st5
    simp only [MainWindow.mk.injEq] at h1 ⊢
    simp [h1]
  dsimp only
  rw [hcount]
  by_cases hc : st.tabWidget.count = 1
  · simp only [if_pos hc]
    refine ⟨?_, ?_, ?_, ?_, ?_, ?_⟩
    · rw [e5]; rfl
    · show (st5.onTabSetMainTree 0).tabWidget.tabs.map Tab.text = _
      rw [onTabSetMainTree_texts, h2]
    · show (st5.onTabSetMainTree 0)._main_tree = _
      simp only [onTabSetMainTree, hcount, hc]
      simp [QTabWidget.tabText_congr h2]
    · exact h3
    · exact h4
    · rw [e5]; rfl
  · simp only [if_neg hc]
    refine ⟨?_, ?_, ?_, ?_, ?_, ?_⟩
    · rw [e5]; rfl
    · exact h2
    · rw [e5]; rfl
    · exact h3
    · exact h4
    · rw [e5]; rfl

end MainWindow

namespace StdMap

variable {V : Type}

theorem findEntry_insertEntry (k k' : QString) (v : V) (l : List (QString × V))
    (hl : l.Pairwise (fun a b => QString.lt a.1 b.1)) :
    findEntry k' (insertEntry k v l) =
      if k' = k then (match findEntry k l with
        | some x => some x
        | none => some v)
      else findEntry k' l := by
  induction l with
  | nil =>
    by_cases h : k' = k
    · simp [insertEntry, findEntry, h]
    · simp [insertEntry, findEntry, h, Ne.symm h]
  | cons e rest ih =>
    have hl2 := List.pairwise_cons.1 hl
    unfold insertEntry
    by_cases h1 : QString.lt k e.1
    · have hke : e.1 ≠ k := fun h => keyLt_irrefl k (by simpa [h] using h1)
      have hnone : findEntry k rest = none := by
        rw [findEntry_eq_none_iff]
        intro hk
        obtain ⟨x, hx, hxk⟩ := List.mem_map.1 hk
        exact keyLt_asymm h1 (by rw [← hxk]; exact hl2.1 x hx)
      by_cases h : k' = k
      · subst h; simp [h1, findEntry, hke, hnone]
      · simp [h1, findEntry, h, Ne.symm h]
    · by_cases h2 : k = e.1
      · subst h2
        by_cases h : k' = e.1
        · subst h; simp [keyLt_irrefl, findEntry]
        · simp [keyLt_irrefl, findEntry, h]
      · by_cases h : k' = k
        · subst h
          simp only [h1, h2, if_false, findEntry, Ne.symm h2, ih hl2.2, if_true]
        · simp only [h1, h2, if_false, findEntry, ih hl2.2, h]

theorem find_insert (m : StdMap V) (k k' : QString) (v : V) :
    (m.insert k v).find k' =
      if k' = k then (match m.find k with
        | some x => some x
        | none => some v)
      else m.find k' :=
  findEntry_insertEntry k k' v m.entries m.sorted

theorem find_eq_none_iff (m : StdMap V) (k : QString) : m.find k = none ↔ k ∉ m.keys :=
  findEntry_eq_none_iff k m.entries

theorem find_isSome_iff (m : StdMap V) (k : QString) : (m.find k).isSome = true ↔ k ∈ m.keys := by
  rw [← not_iff_not, ← find_eq_none_iff]
  cases m.find k <;> simp

end StdMap

namespace MainWindow

theorem operator_eq_refl (s : SavedState) : s.operator_eq s = true := by
  have h : (s.json_states.entries.all fun it =>
      match s.json_states.find it.1 with
      | none => false
      | some blob => decide (it.2 = blob)) = true := by
    rw [List.all_eq_true]
    intro it hit
    have : s.json_states.find it.1 = some it.2 := (StdMap.find_eq_some_iff _ _ _).2 hit
    simp [this]
  simp [SavedState.operator_eq, h]

/-- Restoration returns; it keeps the undo manager and the mode, and the documents it leaves
serialize to the blobs of the snapshot. -/
theorem loadSavedStateFromJson_manager (s : SavedState) (st : MainWindow) :
    ∃ st', loadSavedStateFromJson s st = .ok () st' ∧
      st'._undo_stack = st._undo_stack ∧ st'._redo_stack = st._redo_stack ∧
      st'._current_state = st._current_state ∧ st'._current_mode = st._current_mode ∧
      (st'._tab_info.mapValues fun c => c.scene.saveToMemory) = s.json_states := by
  obtain ⟨st4, h1, h2, _, _, _, h6⟩ := loadSavedStateFromJson_eq s st
  obtain ⟨t1, _, _, _, _, t6⟩ := selectTabs_spec s st4
  refine ⟨_, h1, ?_, ?_, ?_, ?_, ?_⟩
  · have a := congrArg MainWindow._undo_stack t6
    have b := congrArg MainWindow._undo_stack h6
    exact a.trans b
  · have a := congrArg MainWindow._redo_stack t6
    have b := congrArg MainWindow._redo_stack h6
    exact a.trans b
  · have a := congrArg MainWindow._current_state t6
    have b := congrArg MainWindow._current_state h6
    exact a.trans b
  · have a := congrArg MainWindow._current_mode t6
    have b := congrArg MainWindow._current_mode h6
    exact a.trans b
  · apply StdMap.ext_entries
    rw [t1]
    simp only [StdMap.mapValues, h2, List.map_map]
    conv_rhs => rw [← List.map_id s.json_states.entries]
    apply List.map_congr_left
    intro it _
    rfl

end MainWindow

/-! ## The undo/redo manager -/

namespace MainWindow

/-- C2: when two consecutive calls of `onPushUndo` capture the same snapshot `s`, the second
one leaves the undo stack as the first one left it; if the undo stack was empty before the
first call, it holds exactly one entry afterwards. -/
theorem push_same_snapshot_twice (st st1 w : MainWindow) (s : SavedState)
    (hs : st.saveCurrentState = .ok s) (hst1 : st.onPushUndo = .ok () st1)
    (hw : w.saveCurrentState = .ok s)
    (hu : w._undo_stack = st1._undo_stack) (hc : w._current_state = st1._current_state) :
    ∃ st2, w.onPushUndo = .ok () st2 ∧ st2._undo_stack = st1._undo_stack ∧
      (st._undo_stack = [] → st2._undo_stack = [st._current_state]) := by
  have e1 : st1 = st.pushSnapshot s := by
    unfold onPushUndo at hst1
    rw [hs] at hst1
    cases hst1; rfl
  have hcur : st1._current_state = s := by rw [e1]; rfl
  have hne : ∃ back, st1._undo_stack.getLast? = some back := by
    rw [e1]
    unfold pushSnapshot
    cases hl : st._undo_stack.getLast? with
    | none => exact ⟨st._current_state, by simp⟩
    | some b =>
      dsimp only
      split
      · exact ⟨st._current_state, by simp⟩
      · exact ⟨b, hl⟩
  obtain ⟨back, hback⟩ := hne
  have hpush : (w.pushSnapshot s)._undo_stack = w._undo_stack := by
    unfold pushSnapshot
    simp [hu, hback, hc, hcur, SavedState.operator_ne, operator_eq_refl]
  refine ⟨w.pushSnapshot s, ?_, by rw [hpush, hu], ?_⟩
  · unfold onPushUndo; rw [hw]
  · intro hempty
    rw [hpush, hu, e1]
    simp [pushSnapshot, hempty]

/-- Witness for C2: two pushes on the sample window, whose undo stack is empty. -/
theorem push_same_snapshot_twice_witness :
    ∃ st2, (Sample.window.pushSnapshot Sample.snapshot).onPushUndo = .ok () st2 ∧
      st2._undo_stack = (Sample.window.pushSnapshot Sample.snapshot)._undo_stack ∧
      (Sample.window._undo_stack = [] → st2._undo_stack = [Sample.window._current_state]) :=
  push_same_snapshot_twice Sample.window (Sample.window.pushSnapshot Sample.snapshot)
    (Sample.window.pushSnapshot Sample.snapshot) Sample.snapshot
    (by decide) (by decide) (by decide) rfl rfl

/-- C3, as stated, fails: with an empty undo stack a push that captures the current snapshot
is not discarded, and a push that captures the top of the undo stack is not discarded when
the current snapshot differs from both. -/
theorem onPushUndo_not_discarded :
    (Sample.window.saveCurrentState = .ok Sample.snapshot ∧
      Sample.snapshot.operator_eq Sample.window._current_state = true ∧
      Sample.window.onPushUndo.state._undo_stack ≠ Sample.window._undo_stack) ∧
    (Sample.reverted.saveCurrentState = .ok Sample.snapshot ∧
      Sample.reverted._undo_stack.getLast? = some Sample.snapshot ∧
      Sample.snapshot.operator_eq Sample.snapshot = true ∧
      Sample.reverted.onPushUndo.state._undo_stack ≠ Sample.reverted._undo_stack) := by
  decide

/-- C3, amended: when the undo stack is not empty, `onPushUndo` leaves the undo stack and the
redo stack unchanged whenever the captured snapshot equals the current snapshot or the
current snapshot equals the top of the undo stack. -/
theorem onPushUndo_discards (st : MainWindow) (s back : SavedState)
    (hs : st.saveCurrentState = .ok s) (hback : st._undo_stack.getLast? = some back)
    (h : s.operator_eq st._current_state = true ∨
      back.operator_eq st._current_state = true) :
    ∃ st', st.onPushUndo = .ok () st' ∧ st'._undo_stack = st._undo_stack ∧
      st'._redo_stack = st._redo_stack ∧ st'._current_state = s := by
  refine ⟨st.pushSnapshot s, by unfold onPushUndo; rw [hs], ?_, ?_, rfl⟩ <;>
  · unfold pushSnapshot
    rcases h with h | h <;> simp [hback, SavedState.operator_ne, h]

/-- Witness for C3, amended: the sample window with its own snapshot on the undo stack. -/
theorem onPushUndo_discards_witness :
    ∃ st', Sample.withUndo.onPushUndo = .ok () st' ∧
      st'._undo_stack = Sample.withUndo._undo_stack ∧
      st'._redo_stack = Sample.withUndo._redo_stack ∧ st'._current_state = Sample.snapshot :=
  onPushUndo_discards Sample.withUndo Sample.snapshot Sample.snapshot
    (by decide) (by decide) (Or.inl (by decide))

/-- C5 on the code: two snapshots that differ in the name of the main tree compare equal
under `operator==`, which never reads `main_tree`. -/
theorem operator_eq_ignores_main_tree :
    Sample.snapshot.operator_eq { Sample.snapshot with main_tree := "Other" } = true ∧
    Sample.snapshot.main_tree ≠ "Other" ∧
    Sample.snapshot ≠ { Sample.snapshot with main_tree := "Other" } := by
  decide

end MainWindow

/-! ## Restoration and the document registry -/

namespace MainWindow

/-- C8: `createTab(name)` throws exactly when a document named `name` is open, and then the
whole window, the registry included, is as before; otherwise it returns, the registry
holds the new container under `name`, and every other name maps to what it mapped to
before. -/
theorem createTab_spec (name : QString) (st : MainWindow) :
    ((createTab name st).isOk = false ↔ name ∈ st._tab_info.keys) ∧
    (name ∈ st._tab_info.keys →
      createTab name st =
        .thrown (.runtime_error ("There is already a Tab named " ++ name)) st) ∧
    (name ∉ st._tab_info.keys →
      ∃ ti st', createTab name st = .ok ti st' ∧
        (∀ k, st'._tab_info.find k = if k = name then some ti else st._tab_info.find k) ∧
        (∀ k, k ∈ st'._tab_info.keys ↔ k = name ∨ k ∈ st._tab_info.keys)) := by
  have hthrow : name ∈ st._tab_info.keys →
      createTab name st =
        .thrown (.runtime_error ("There is already a Tab named " ++ name)) st := by
    intro h
    unfold createTab
    rw [if_pos ((StdMap.count_pos_iff _ _).2 h)]
  have hfind : name ∉ st._tab_info.keys →
      ∀ k, (st._tab_info.insert name (newTabContainer st._current_layout)).find k =
        if k = name then some (newTabContainer st._current_layout)
        else st._tab_info.find k := by
    intro h k
    rw [StdMap.find_insert, (StdMap.find_eq_none_iff _ _).2 h]
  have hok : name ∉ st._tab_info.keys →
      createTab name st = .ok (newTabContainer st._current_layout)
        { st with
          _tab_info := st._tab_info.insert name (newTabContainer st._current_layout)
          tabWidget := st.tabWidget.addTab name } := by
    intro h
    unfold createTab
    rw [if_neg (fun hc => h ((StdMap.count_pos_iff _ _).1 hc))]
  refine ⟨?_, hthrow, ?_⟩
  · constructor
    · intro h
      by_contra hn
      rw [hok hn] at h
      simp [Res.isOk] at h
    · intro h
      rw [hthrow h]; rfl
  · intro h
    refine ⟨_, _, hok h, hfind h, ?_⟩
    intro k
    rw [← StdMap.find_isSome_iff, ← StdMap.find_isSome_iff]
    show ((st._tab_info.insert name (newTabContainer st._current_layout)).find k).isSome = true ↔ _
    rw [hfind h k]
    by_cases hk : k = name <;> simp [hk]

/-- C9: a non-empty `new_name` that is the name of an open document, or the current label of
the tab, makes `onTabRenameRequested` return with the whole window unchanged: tab
labels, registry, main tree, models and both stacks. -/
theorem onTabRenameRequested_rejects (st : MainWindow) (tab_index : Int) (new_name : QString)
    (dialog : Option QString) (hne : new_name ≠ "")
    (h : new_name ∈ st._tab_info.keys ∨ new_name = st.tabWidget.tabText tab_index) :
    st.onTabRenameRequested tab_index new_name dialog = .ok () st := by
  unfold onTabRenameRequested
  simp only [if_neg hne]
  by_cases h1 : new_name = st.tabWidget.tabText tab_index
  · rw [if_pos h1]
  · rw [if_neg h1]
    have h2 : (st.getTabByName new_name).isSome = true := by
      unfold getTabByName
      rw [StdMap.find_isSome_iff]
      exact h.resolve_right h1
    rw [if_pos h2]

/-- Witness for C9: renaming the first tab of the two-tab sample window to `A`, the name of
the second one. -/
theorem onTabRenameRequested_rejects_witness :
    Sample.twoTabs.onTabRenameRequested 0 "A" none = .ok () Sample.twoTabs :=
  onTabRenameRequested_rejects Sample.twoTabs 0 "A" none (by decide) (Or.inl (by decide))

/-- C10 on the code: in the two-tab sample window the handler of `renameSubtree` renames `A`
to the name of the other open document without rejecting: the tab is relabelled, and the
registry loses the entry `A`, so that one document is dropped. -/
theorem renameSubtree_drops_document :
    Sample.twoTabs._tab_info.keys = ["A", "BehaviorTree"] ∧
    (renameSubtree "A" "BehaviorTree" Sample.twoTabs).isOk = true ∧
    (renameSubtree "A" "BehaviorTree" Sample.twoTabs).state._tab_info.keys =
      ["BehaviorTree"] ∧
    (renameSubtree "A" "BehaviorTree" Sample.twoTabs).state.tabWidget.tabs.map Tab.text =
      ["BehaviorTree", "BehaviorTree"] := by
  decide

/-- What `clearUndoStacks` leaves: the redo stack is empty, the undo stack holds the snapshot
that was current before the call. -/
theorem clearUndoStacks_stacks (st st' : MainWindow) (h : st.clearUndoStacks = .ok () st') :
    st'._undo_stack = [st._current_state] ∧ st'._redo_stack = [] := by
  unfold clearUndoStacks onPushUndo at h
  dsimp only at h
  split at h
  · cases h
  · cases h
    constructor <;> rfl

/-- C4 on the code: renaming the tab of the sample window ends in `clearUndoStacks`, after
which the undo stack holds the snapshot taken before the rename; a later undo restores
the document under its old name. -/
theorem rename_leaves_stale_snapshot :
    (onTabRenameRequested 0 "B" none Sample.window).isOk = true ∧
    (onTabRenameRequested 0 "B" none Sample.window).state._tab_info.keys = ["B"] ∧
    (onTabRenameRequested 0 "B" none Sample.window).state._undo_stack = [Sample.snapshot] ∧
    (onTabRenameRequested 0 "B" none Sample.window).state.onUndoInvoked.state._tab_info.keys =
      ["BehaviorTree"] := by
  decide

end MainWindow

/-! ## The main tree and the subtree state machine -/

namespace MainWindow

/-- C11: for a valid tab index `i`, after `onTabSetMainTree(i)` the main tree is named after tab
`i`, whose label is unchanged, tab `i` carries the flag and no other tab does. -/
theorem onTabSetMainTree_spec (st : MainWindow) (i : Int) (h0 : 0 ≤ i)
    (h1 : i < st.tabWidget.count) :
    (st.onTabSetMainTree i)._main_tree = st.tabWidget.tabText i ∧
    (st.onTabSetMainTree i).tabWidget.tabText i = st.tabWidget.tabText i ∧
    (∃ t, (st.onTabSetMainTree i).tabWidget.tabAt i = some t ∧ t.star = true) ∧
    (∀ (j : Nat) (t : Tab), (st.onTabSetMainTree i).tabWidget.tabs[j]? = some t →
      (t.star = true ↔ (j : Int) = i)) := by
  have hi : i.toNat < st.tabWidget.tabs.length := by
    have : i < (st.tabWidget.tabs.length : Int) := h1
    omega
  refine ⟨?_, QTabWidget.tabText_congr (onTabSetMainTree_texts i st) i, ?_, ?_⟩
  · simp only [onTabSetMainTree]
    rw [if_pos ⟨h0, h1⟩]
  · refine ⟨{ st.tabWidget.tabs[i.toNat] with star := true }, ?_, rfl⟩
    simp only [onTabSetMainTree, QTabWidget.tabAt, if_pos h0, List.get?_eq_getElem?,
      List.getElem?_mapIdx, List.getElem?_eq_getElem hi, Option.map_some']
    have : ((i.toNat : Nat) : Int) = i := Int.toNat_of_nonneg h0
    simp [this]
  · intro j t hj
    simp only [onTabSetMainTree, List.getElem?_mapIdx] at hj
    cases hs : st.tabWidget.tabs[j]? with
    | none => simp [hs] at hj
    | some t0 =>
      simp only [hs, Option.map_some', Option.some.injEq] at hj
      rw [← hj]
      simp

/-- Witness for C11: the second tab of the two-tab sample window. -/
theorem onTabSetMainTree_spec_witness :
    (Sample.twoTabs.onTabSetMainTree 1)._main_tree = Sample.twoTabs.tabWidget.tabText 1 ∧
    (Sample.twoTabs.onTabSetMainTree 1).tabWidget.tabText 1 =
      Sample.twoTabs.tabWidget.tabText 1 ∧
    (∃ t, (Sample.twoTabs.onTabSetMainTree 1).tabWidget.tabAt 1 = some t ∧ t.star = true) ∧
    (∀ (j : Nat) (t : Tab), (Sample.twoTabs.onTabSetMainTree 1).tabWidget.tabs[j]? = some t →
      (t.star = true ↔ (j : Int) = 1)) :=
  onTabSetMainTree_spec Sample.twoTabs 1 (by decide) (by decide)

/-- C13 on the code: in the window right after construction, "Set as main tree" from the
context menu at a position outside every tab calls `onTabSetMainTree(-1)`, after which no
tab carries the main flag; and the handler of `renameSubtree` renames the main document
without `_main_tree`, which then names no open document. -/
theorem main_tree_flag_lost :
    (onTabCustomContextMenuRequested (-1) (some .set_main) none Sample.window).isOk = true ∧
    (onTabCustomContextMenuRequested (-1) (some .set_main) none
      Sample.window).state.tabWidget.tabs = [⟨"BehaviorTree", false⟩] ∧
    (renameSubtree "BehaviorTree" "Tree2" Sample.window).isOk = true ∧
    (renameSubtree "BehaviorTree" "Tree2" Sample.window).state._tab_info.keys = ["Tree2"] ∧
    (renameSubtree "BehaviorTree" "Tree2" Sample.window).state._main_tree = "BehaviorTree" := by
  decide

/-- C14: `SUBTREE_EXPAND` on a collapsed subtree node whose document is not a valid tree returns
the node and leaves the whole window as it was: the node stays collapsed with its output
ports, and its document gains no node and no lock. -/
theorem subTreeExpand_invalid_subtree (st : MainWindow) (tab : QString) (node : Nat)
    (container subtree_container : GraphicContainer) (n : Node)
    (hc : st.getTabByName tab = some container)
    (hn : container.scene.findNode node = some n)
    (ht : n.model.type = .SUBTREE) (he : n.expanded = false)
    (hs : st.getTabByName n.model.registration_ID = some subtree_container)
    (hv : subtree_container.containsValidTree = false) :
    st.subTreeExpand tab node .SUBTREE_EXPAND = .ok (some node) st := by
  unfold subTreeExpand
  simp [hc, hn, ht, he, hs, hv]

/-- Witness for C14: the reference to `Sub` in the project whose document `Sub` is broken. -/
theorem subTreeExpand_invalid_subtree_witness :
    Sample.brokenProject.subTreeExpand "BehaviorTree" 2 .SUBTREE_EXPAND =
      .ok (some 2) Sample.brokenProject :=
  subTreeExpand_invalid_subtree Sample.brokenProject "BehaviorTree" 2
    { MainWindow.newTabContainer .Vertical with scene := Sample.mainScene }
    { MainWindow.newTabContainer .Vertical with scene := Sample.brokenScene }
    ⟨2, Sample.subModel, "Sub", StdMap.empty, false, 0, false⟩
    (by decide) (by decide) (by decide) (by decide) (by decide) (by decide)

/-- C17, as stated, fails: `SUBTREE_REFRESH` on the collapsed reference of the sample project
returns normally, with `nullptr`, and changes nothing. -/
theorem subTreeExpand_refresh_collapsed_returns :
    (Sample.project.getTabByName "BehaviorTree").map
      (fun c => (c.scene.findNode 2).map Node.expanded) = some (some false) ∧
    Sample.project.subTreeExpand "BehaviorTree" 2 .SUBTREE_REFRESH = .ok none Sample.project := by
  decide

/-- C17, amended: `SUBTREE_REFRESH` on a collapsed subtree node returns `nullptr` and leaves
the window unchanged; no error is raised. -/
theorem subTreeExpand_refresh_collapsed (st : MainWindow) (tab : QString) (node : Nat)
    (container : GraphicContainer) (n : Node)
    (hc : st.getTabByName tab = some container)
    (hn : container.scene.findNode node = some n)
    (ht : n.model.type = .SUBTREE) (he : n.expanded = false) :
    st.subTreeExpand tab node .SUBTREE_REFRESH = .ok none st := by
  unfold subTreeExpand
  simp [hc, hn, ht, he]

/-- Witness for C17, amended: the collapsed reference of the sample project. -/
theorem subTreeExpand_refresh_collapsed_witness :
    Sample.project.subTreeExpand "BehaviorTree" 2 .SUBTREE_REFRESH = .ok none Sample.project :=
  subTreeExpand_refresh_collapsed Sample.project "BehaviorTree" 2
    { MainWindow.newTabContainer .Vertical with scene := Sample.mainScene }
    ⟨2, Sample.subModel, "Sub", StdMap.empty, false, 0, false⟩
    (by decide) (by decide) (by decide) (by decide)

/-- C20 on the code: `onDestroySubTree("Sub")` leaves a reference to `Sub` in the main document
when the reference carries another instance name, and when the main document is not a
valid tree; the document `Sub` is gone in both cases. -/
theorem onDestroySubTree_leaves_reference :
    (onDestroySubTree "Sub" Sample.aliasProject).isOk = true ∧
    (onDestroySubTree "Sub" Sample.aliasProject).state._tab_info.keys = ["BehaviorTree"] ∧
    ((onDestroySubTree "Sub" Sample.aliasProject).state.getTabByName "BehaviorTree").map
      (fun c => c.scene.nodes.map fun n => (n.model.type, n.model.registration_ID)) =
      some [(.ROOT, "Root"), (.SUBTREE, "Sub")] ∧
    (onDestroySubTree "Sub" Sample.looseProject).isOk = true ∧
    (onDestroySubTree "Sub" Sample.looseProject).state._tab_info.keys = ["BehaviorTree"] ∧
    ((onDestroySubTree "Sub" Sample.looseProject).state.getTabByName "BehaviorTree").map
      (fun c => c.scene.nodes.map fun n => (n.model.type, n.model.registration_ID)) =
      some [(.ROOT, "Root"), (.SUBTREE, "Sub")] := by
  decide

end MainWindow

/-! ## Facts about scenes -/

namespace FlowScene

theorem le_foldl_max (l : List Nat) (a : Nat) :
    a ≤ l.foldl max a ∧ ∀ x ∈ l, x ≤ l.foldl max a := by
  induction l generalizing a with
  | nil => simp
  | cons y rest ih =>
    obtain ⟨h1, h2⟩ := ih (max a y)
    simp only [List.foldl_cons, List.mem_cons]
    refine ⟨le_trans (le_max_left a y) h1, ?_⟩
    rintro x (hx | hx)
    · rw [hx]; exact le_trans (le_max_right a y) h1
    · exact h2 x hx

theorem uid_lt_freshUid (s : FlowScene) (n : Node) (h : n ∈ s.nodes) : n.uid < s.freshUid := by
  unfold freshUid
  have := (le_foldl_max (s.nodes.map Node.uid) 0).2 n.uid (List.mem_map_of_mem _ h)
  omega

theorem findNode_some (s : FlowScene) (u : Nat) (n : Node) (h : s.findNode u = some n) :
    n ∈ s.nodes ∧ n.uid = u := by
  unfold findNode at h
  refine ⟨List.mem_of_find?_eq_some h, ?_⟩
  have := List.find?_some h
  simpa using this

theorem lt_freshUid_of_findNode (s : FlowScene) (u : Nat) (h : (s.findNode u).isSome) :
    u < s.freshUid := by
  cases hn : s.findNode u with
  | none => simp [hn] at h
  | some n =>
    obtain ⟨h1, h2⟩ := findNode_some s u n hn
    rw [← h2]; exact uid_lt_freshUid s n h1

/-- The children of a node, read off a list of connections. -/
theorem childrenOf_eq (s : FlowScene) (u : Nat) :
    s.childrenOf u = (s.connections.filter fun c => c.out_node == u).map Connection.in_node :=
  rfl

end FlowScene

namespace GraphicContainer

theorem copyConnections_children (base j : Nat) (l : List AbstractTreeNode) (i : Nat) :
    ((copyConnections base i l).filter fun c => c.out_node == base + j).map
        Connection.in_node =
      match (if i ≤ j then l[j - i]? else none) with
      | some a => a.children_index.map fun k => base + k
      | none => [] := by
  induction l generalizing i with
  | nil => simp [copyConnections]
  | cons a rest ih =>
    simp only [copyConnections, List.filter_append, List.map_append, ih (i + 1)]
    by_cases hij : i = j
    · subst hij
      have h1 : ¬ (i + 1 ≤ i) := by omega
      simp [h1, List.filter_map, Function.comp_def]
    · have h2 : ∀ k : Nat, ((⟨base + i, base + k⟩ : Connection).out_node == base + j) = false := by
        intro k; simp; omega
      have h3 : (List.filter (fun c => c.out_node == base + j)
          (List.map (fun k => (⟨base + i, base + k⟩ : Connection)) a.children_index)) = [] := by
        rw [List.filter_eq_nil_iff]
        intro c hc
        obtain ⟨k, _, rfl⟩ := List.mem_map.1 hc
        simp [h2 k]
      rw [h3]
      by_cases hle : i ≤ j
      · have hlt : i + 1 ≤ j := by omega
        have hidx : j - i = (j - (i + 1)) + 1 := by omega
        simp only [hle, hlt, if_true, List.map_nil, List.nil_append]
        rw [hidx, List.getElem?_cons_succ]
      · have hlt : ¬ (i + 1 ≤ j) := by omega
        simp [hle, hlt]

theorem copyConnections_out (base : Nat) (l : List AbstractTreeNode) (i : Nat) (c : Connection)
    (h : c ∈ copyConnections base i l) :
    base + i ≤ c.out_node ∧ c.out_node < base + i + l.length := by
  induction l generalizing i with
  | nil => simp [copyConnections] at h
  | cons a rest ih =>
    simp only [copyConnections, List.mem_append, List.mem_map] at h
    rcases h with ⟨k, _, rfl⟩ | h
    · simp
    · have := ih (i + 1) h
      simp only [List.length_cons]
      omega

theorem copyNodes_length (base : Nat) (l : List AbstractTreeNode) (i : Nat) :
    (copyNodes base i l).length = l.length := by
  induction l generalizing i with
  | nil => rfl
  | cons a rest ih => simp [copyNodes, ih]

theorem copyNodes_uid (base : Nat) (l : List AbstractTreeNode) (i : Nat) :
    (copyNodes base i l).map Node.uid = (List.range l.length).map fun k => base + i + k := by
  induction l generalizing i with
  | nil => rfl
  | cons a rest ih =>
    simp only [copyNodes, List.map_cons, ih, List.length_cons, List.range_succ_eq_map,
      List.map_map, copyNode]
    refine congrArg₂ List.cons (by simp) ?_
    apply List.map_congr_left
    intro k _
    simp only [Function.comp]
    omega

end GraphicContainer

namespace FlowScene

/-- What a successful traversal returns: the nodes visited before, then new ones; everything
on the stack is visited; no node is visited twice; every new node is a node of the scene
and its children are visited. -/
theorem visit_spec (s : FlowScene) (fuel : Nat) (todo visited order : List Nat)
    (h : s.visit fuel todo visited = some order) :
    (∃ rest, order = visited ++ rest) ∧ (∀ u ∈ todo, u ∈ order) ∧
    (visited.Nodup → order.Nodup) ∧
    (∀ u ∈ order, u ∉ visited →
      (s.findNode u).isSome ∧ ∀ c ∈ s.childrenOf u, c ∈ order) := by
  induction fuel generalizing todo visited with
  | zero => simp [visit] at h
  | succ fuel ih =>
    cases todo with
    | nil =>
      simp only [visit, Option.some.injEq] at h
      subst h
      exact ⟨⟨[], by simp⟩, by simp, fun hv => hv, fun u hu hn => absurd hu hn⟩
    | cons u todo =>
      simp only [visit] at h
      split at h
      · cases h
      · rename_i hu
        split at h
        · cases h
        · rename_i n hn
          split at h
          · cases h
          · obtain ⟨⟨rest, h1⟩, h2, h3, h4⟩ := ih _ _ h
            have huo : u ∈ order := by rw [h1]; simp
            refine ⟨⟨u :: rest, by rw [h1]; simp⟩, ?_, ?_, ?_⟩
            · intro x hx
              rcases List.mem_cons.1 hx with hx | hx
              · rw [hx]; exact huo
              · exact h2 x (List.mem_append_right _ hx)
            · intro hv
              apply h3
              rw [List.nodup_append]
              refine ⟨hv, by simp, ?_⟩
              intro a ha hb
              simp only [List.mem_singleton] at hb
              subst hb
              exact hu ha
            · intro x hx hxv
              by_cases hxu : x = u
              · subst hxu
                refine ⟨by simp [hn], ?_⟩
                intro c hc
                exact h2 c (List.mem_append_left _ hc)
              · exact h4 x hx (by simp [hxv, hxu])

/-- A traversal that follows a successful `visit` step by step, on a graph that carries a copy
of the visited part under the renaming `f`, reaches exactly the copies of the visited
nodes, in visiting order. -/
theorem reachable_of_visit (s s2 : FlowScene) (f : Nat → Nat) (order : List Nat)
    (hinj : ∀ a ∈ order, ∀ b ∈ order, f a = f b → a = b)
    (fuel : Nat) (todo visited : List Nat)
    (h : s.visit fuel todo visited = some order)
    (hch : ∀ u ∈ order, u ∉ visited → s2.childrenOf (f u) = (s.childrenOf u).map f)
    (F : Nat) (hF : fuel ≤ F) :
    s2.reachable F (todo.map f) (visited.map f) = order.map f := by
  induction fuel generalizing todo visited F with
  | zero => simp [visit] at h
  | succ fuel ih =>
    obtain ⟨⟨rest, h1⟩, h2, _, _⟩ := visit_spec s _ _ _ _ h
    obtain ⟨F, rfl⟩ : ∃ F', F = F' + 1 := ⟨F - 1, by omega⟩
    cases todo with
    | nil =>
      simp only [visit, Option.some.injEq] at h
      subst h
      simp [reachable]
    | cons u todo =>
      have huo : u ∈ order := h2 u (List.mem_cons_self _ _)
      simp only [visit] at h
      split at h
      · cases h
      · rename_i hu
        split at h
        · cases h
        · split at h
          · cases h
          · have hfu : f u ∉ visited.map f := by
              intro hm
              obtain ⟨v, hv, hvu⟩ := List.mem_map.1 hm
              have hvo : v ∈ order := by rw [h1]; exact List.mem_append_left _ hv
              have := hinj v hvo u huo hvu
              subst this
              exact hu hv
            simp only [List.map_cons, reachable, if_neg hfu]
            rw [hch u huo hu]
            have := ih (s.childrenOf u ++ todo) (visited ++ [u]) h
              (fun x hx hxv => hch x hx (fun hv => hxv (List.mem_append_left _ hv)))
              F (by omega)
            simpa using this

theorem map_indexOf_of_nodup (l : List Nat) (h : l.Nodup) :
    l.map (fun u => l.indexOf u) = List.range l.length := by
  apply List.ext_getElem
  · simp
  · intro i h1 h2
    simp only [List.getElem_map, List.getElem_range]
    exact List.indexOf_getElem h i _

theorem indexOf_inj (l : List Nat) (a b : Nat) (ha : a ∈ l) (hb : b ∈ l)
    (h : l.indexOf a = l.indexOf b) : a = b := by
  have h1 := List.getElem_indexOf (List.indexOf_lt_length.2 ha)
  have h2 := List.getElem_indexOf (List.indexOf_lt_length.2 hb)
  rw [← h1, ← h2]
  simp [h]

end FlowScene

namespace FlowScene

theorem filterMap_getElem? {α β : Type} (g : α → Option β) (l : List α)
    (h : ∀ x ∈ l, (g x).isSome) (j : Nat) : (l.filterMap g)[j]? = l[j]?.bind g := by
  induction l generalizing j with
  | nil => simp
  | cons x rest ih =>
    have hx := h x (List.mem_cons_self _ _)
    obtain ⟨y, hy⟩ := Option.isSome_iff_exists.1 hx
    have ih2 := ih (fun z hz => h z (List.mem_cons_of_mem _ hz))
    simp only [List.filterMap_cons, hy]
    cases j with
    | zero => simp [hy]
    | succ j => simpa using ih2 j

theorem filterMap_length {α β : Type} (g : α → Option β) (l : List α)
    (h : ∀ x ∈ l, (g x).isSome) : (l.filterMap g).length = l.length := by
  induction l with
  | nil => rfl
  | cons x rest ih =>
    obtain ⟨y, hy⟩ := Option.isSome_iff_exists.1 (h x (List.mem_cons_self _ _))
    simp [List.filterMap_cons, hy, ih (fun z hz => h z (List.mem_cons_of_mem _ hz))]

/-- What a successful `build` returns: a visiting order that starts at the root, visits every
node once, and one tree node per visited node, whose children are the indices of the
children of that node. -/
theorem build_spec (s : FlowScene) (tree : AbsBehaviorTree) (h : s.build = some tree) :
    ∃ (r : Node) (order : List Nat),
      s.visit (s.nodes.length + 1) [r.uid] [] = some order ∧
      order.length = s.nodes.length ∧ tree.nodes.length = order.length ∧
      order.Nodup ∧ order.indexOf r.uid = 0 ∧ 0 < order.length ∧
      (∀ u ∈ order, ∀ c ∈ s.childrenOf u, c ∈ order) ∧
      ∀ u ∈ order, ∃ a, tree.nodes[order.indexOf u]? = some a ∧
        a.children_index = (s.childrenOf u).map fun c => order.indexOf c := by
  unfold build at h
  split at h
  · cases h
  · rename_i r _
    split at h
    · cases h
    · rename_i order ho
      split at h
      · cases h
      · rename_i hlen
        simp only [Option.some.injEq] at h
        obtain ⟨⟨rest, h1⟩, h2, h3, h4⟩ := visit_spec s _ _ _ _ ho
        have hsome : ∀ u ∈ order, (s.findNode u).isSome := fun u hu =>
          (h4 u hu (by simp)).1
        have hsome2 : ∀ u ∈ order, ((s.findNode u).map fun n =>
            ({ model := n.model, instance_name := n.instance_name,
               ports_mapping := n.ports_mapping,
               children_index := (s.childrenOf u).map fun c => order.indexOf c,
               graphic_node := u } : AbstractTreeNode)).isSome := by
          intro u hu
          simpa using hsome u hu
        have hr : r.uid ∈ order := h2 _ (List.mem_cons_self _ _)
        have hidx : order.indexOf r.uid = 0 := by
          unfold visit at ho
          simp only [List.not_mem_nil, if_false] at ho
          split at ho
          · cases ho
          · split at ho
            · cases ho
            · obtain ⟨⟨rest2, e⟩, _⟩ := visit_spec s _ _ _ _ ho
              rw [e]; simp
        refine ⟨r, order, ho, by simpa using hlen, ?_, h3 List.nodup_nil, hidx,
          List.length_pos_of_mem hr, fun u hu => (h4 u hu (by simp)).2, ?_⟩
        · rw [← h]; exact filterMap_length _ _ hsome2
        · intro u hu
          obtain ⟨n, hn⟩ := Option.isSome_iff_exists.1 (hsome u hu)
          refine ⟨{ model := n.model, instance_name := n.instance_name,
                    ports_mapping := n.ports_mapping,
                    children_index := (s.childrenOf u).map fun c => order.indexOf c,
                    graphic_node := u }, ?_, rfl⟩
          rw [← h]
          simp only
          rw [filterMap_getElem? _ _ hsome2]
          have hlt : order.indexOf u < order.length := List.indexOf_lt_length.2 hu
          rw [List.getElem?_eq_getElem hlt, List.getElem_indexOf hlt]
          simp [hn]

end FlowScene

namespace GraphicContainer

/-- In a scene that holds the copy of a built tree under the handles `base`, `base + 1`, ...,
and whose other connections leave nodes below `base`, the nodes reachable from the copy
of the root are exactly the copies. -/
theorem reachable_copy (sR : FlowScene) (tree : AbsBehaviorTree) (hb : sR.build = some tree)
    (s2 : FlowScene) (base : Nat) (old : List Connection)
    (hold : ∀ c ∈ old, c.out_node < base)
    (hc : s2.connections = old ++ copyConnections base 0 tree.nodes)
    (F : Nat) (hF : sR.nodes.length + 1 ≤ F) :
    s2.reachable F [base] [] = (List.range tree.nodes.length).map (fun k => base + k) ∧
    0 < tree.nodes.length ∧ tree.nodes.length = sR.nodes.length := by
  obtain ⟨r, order, ho, hlen, htl, hnd, hidx, hpos, _, hT⟩ := FlowScene.build_spec sR tree hb
  have hch : ∀ u ∈ order, u ∉ ([] : List Nat) →
      s2.childrenOf (base + order.indexOf u) =
        (sR.childrenOf u).map (fun c => base + order.indexOf c) := by
    intro u hu _
    obtain ⟨a, ha1, ha2⟩ := hT u hu
    rw [FlowScene.childrenOf_eq, hc, List.filter_append, List.map_append]
    have hnil : old.filter (fun c => c.out_node == base + order.indexOf u) = [] := by
      rw [List.filter_eq_nil_iff]
      intro c hcm
      have := hold c hcm
      simp only [beq_iff_eq]
      omega
    rw [hnil, List.map_nil, List.nil_append, copyConnections_children]
    simp only [Nat.zero_le, if_true, Nat.sub_zero, ha1, ha2, List.map_map]
    rfl
  have hsim := FlowScene.reachable_of_visit sR s2 (fun u => base + order.indexOf u) order
    (fun a ha b hb2 hab => FlowScene.indexOf_inj order a b ha hb2 (by
      simp only at hab; omega))
    _ [r.uid] [] ho hch F hF
  simp only [List.map_cons, List.map_nil, hidx, Nat.add_zero] at hsim
  refine ⟨?_, by omega, by omega⟩
  rw [hsim, htl, ← FlowScene.map_indexOf_of_nodup order hnd, List.map_map]
  rfl

end GraphicContainer

namespace FlowScene

/-- In a built tree every child index is the index of a tree node. -/
theorem build_closed (s : FlowScene) (tree : AbsBehaviorTree) (h : s.build = some tree) :
    ∀ (i : Nat) (a : AbstractTreeNode), tree.nodes[i]? = some a →
      ∀ j ∈ a.children_index, j < tree.nodes.length := by
  obtain ⟨r, order, _, _, htl, hnd, _, _, hch, hT⟩ := build_spec s tree h
  intro i a hia j hj
  have hi : i < order.length := by
    rw [← htl]
    exact (List.getElem?_eq_some_iff.1 hia).1
  obtain ⟨a2, ha2, hc2⟩ := hT order[i] (List.getElem_mem _)
  rw [List.indexOf_getElem hnd i hi, hia] at ha2
  cases ha2
  rw [hc2] at hj
  obtain ⟨c, hc, rfl⟩ := List.mem_map.1 hj
  rw [htl]
  exact List.indexOf_lt_length.2 (hch _ (List.getElem_mem _) c hc)

theorem reachable_nil (s : FlowScene) (F : Nat) (acc : List Nat) : s.reachable F [] acc = acc := by
  cases F <;> rfl

end FlowScene

namespace GraphicContainer

theorem find_copyNodes (base k : Nat) (l : List AbstractTreeNode) (i : Nat) :
    (copyNodes base i l).find? (fun n => n.uid == base + k) =
      (if i ≤ k then l[k - i]? else none).map (copyNode (base + k)) := by
  induction l generalizing i with
  | nil => simp [copyNodes]
  | cons a rest ih =>
    simp only [copyNodes, List.find?_cons]
    by_cases hik : i = k
    · subst hik
      simp [copyNode]
    · have h1 : ((copyNode (base + i) a).uid == base + k) = false := by
        simp [copyNode]; omega
      rw [h1, ih (i + 1)]
      by_cases hle : i ≤ k
      · have hlt : i + 1 ≤ k := by omega
        have hidx : k - i = (k - (i + 1)) + 1 := by omega
        simp only [hle, hlt, if_true]
        rw [hidx, List.getElem?_cons_succ]
      · have hlt : ¬ (i + 1 ≤ k) := by omega
        simp [hle, hlt]

theorem copyConnections_mem (base : Nat) (l : List AbstractTreeNode) (i : Nat) (c : Connection)
    (h : c ∈ copyConnections base i l) :
    ∃ (k : Nat) (a : AbstractTreeNode), l[k]? = some a ∧ c.out_node = base + (i + k) ∧
      ∃ j ∈ a.children_index, c.in_node = base + j := by
  induction l generalizing i with
  | nil => simp [copyConnections] at h
  | cons a rest ih =>
    simp only [copyConnections, List.mem_append, List.mem_map] at h
    rcases h with ⟨j, hj, rfl⟩ | h
    · exact ⟨0, a, by simp, by simp, j, hj, rfl⟩
    · obtain ⟨k, a2, h1, h2, h3⟩ := ih (i + 1) h
      exact ⟨k + 1, a2, by simpa using h1, by rw [h2]; omega, h3⟩

theorem mem_range_map_add (base n u : Nat) :
    u ∈ (List.range n).map (fun k => base + k) ↔ base ≤ u ∧ u < base + n := by
  simp only [List.mem_map, List.mem_range]
  constructor
  · rintro ⟨k, hk, rfl⟩; omega
  · intro h; exact ⟨u - base, by omega, by omega⟩

/-- Appending a built tree below a node without children and locking the body: the scene
gains the locked copies and their connections, the node gets the copy of the root as its
only child, and the body of the node is the set of copies. -/
theorem appendTree_lock (c : GraphicContainer) (node : Nat) (sR : FlowScene)
    (tree : AbsBehaviorTree) (hb : sR.build = some tree)
    (hwf : c.scene.connectionsJoinNodes) (hnode : (c.scene.findNode node).isSome)
    (hch : c.scene.childrenOf node = []) :
    (c.appendTreeToNode node tree).lockSubtreeEditing node true =
      { c with scene := { c.scene with
          nodes := c.scene.nodes ++
            (copyNodes c.scene.freshUid 0 tree.nodes).map fun m => { m with locked := true }
          connections := c.scene.connections ++ [⟨node, c.scene.freshUid⟩] ++
            copyConnections c.scene.freshUid 0 tree.nodes } } ∧
    (∀ s2 : FlowScene, s2.connections = c.scene.connections ++ [⟨node, c.scene.freshUid⟩] ++
        copyConnections c.scene.freshUid 0 tree.nodes →
      ∀ F, sR.nodes.length + 1 ≤ F →
        s2.reachable F [c.scene.freshUid] [] =
          (List.range tree.nodes.length).map (fun k => c.scene.freshUid + k) ∧
        s2.childrenOf node = [c.scene.freshUid]) ∧
    0 < tree.nodes.length ∧ tree.nodes.length = sR.nodes.length := by
  have hnb : node < c.scene.freshUid := FlowScene.lt_freshUid_of_findNode _ _ hnode
  have hold : ∀ k ∈ c.scene.connections ++ [(⟨node, c.scene.freshUid⟩ : Connection)],
      k.out_node < c.scene.freshUid := by
    intro k hk
    rcases List.mem_append.1 hk with hk | hk
    · exact FlowScene.lt_freshUid_of_findNode _ _ (hwf k hk).1
    · simp only [List.mem_singleton] at hk
      rw [hk]; exact hnb
  have hreach : ∀ s2 : FlowScene,
      s2.connections = c.scene.connections ++ [⟨node, c.scene.freshUid⟩] ++
        copyConnections c.scene.freshUid 0 tree.nodes →
      ∀ F, sR.nodes.length + 1 ≤ F →
        s2.reachable F [c.scene.freshUid] [] =
          (List.range tree.nodes.length).map (fun k => c.scene.freshUid + k) ∧
        s2.childrenOf node = [c.scene.freshUid] := by
    intro s2 hs2 F hF
    refine ⟨(reachable_copy sR tree hb s2 _ _ hold hs2 F hF).1, ?_⟩
    rw [FlowScene.childrenOf_eq, hs2, List.filter_append, List.filter_append, List.map_append,
      List.map_append]
    have h1 : (c.scene.connections.filter fun k => k.out_node == node).map
        Connection.in_node = [] := hch
    have h3 : (copyConnections c.scene.freshUid 0 tree.nodes).filter
        (fun k => k.out_node == node) = [] := by
      rw [List.filter_eq_nil_iff]
      intro k hk
      have := (copyConnections_out _ _ _ k hk).1
      simp only [beq_iff_eq]
      omega
    rw [h1, h3]
    simp
  obtain ⟨_, hpos, hlen⟩ := reachable_copy sR tree hb
    { c.scene with connections := c.scene.connections ++ [⟨node, c.scene.freshUid⟩] ++
        copyConnections c.scene.freshUid 0 tree.nodes } _ _ hold rfl
    (sR.nodes.length + 1) (Nat.le_refl _)
  refine ⟨?_, hreach, hpos, hlen⟩
  have hne : tree.nodes.isEmpty = false := by
    cases h : tree.nodes with
    | nil => rw [h] at hpos; simp at hpos
    | cons a r => rfl
  have happ : c.appendTreeToNode node tree =
      { c with scene := { c.scene with
        nodes := c.scene.nodes ++ copyNodes c.scene.freshUid 0 tree.nodes
        connections := c.scene.connections ++ [⟨node, c.scene.freshUid⟩] ++
          copyConnections c.scene.freshUid 0 tree.nodes } } := by
    simp [appendTreeToNode, hne]
  have hF : sR.nodes.length + 1 ≤ (c.appendTreeToNode node tree).scene.fuel := by
    rw [happ]
    simp only [FlowScene.fuel, List.length_append, copyNodes_length]
    omega
  obtain ⟨hr, hc2⟩ := hreach (c.appendTreeToNode node tree).scene (by rw [happ]) _ hF
  have hbody : (c.appendTreeToNode node tree).scene.descendants node =
      (List.range tree.nodes.length).map (fun k => c.scene.freshUid + k) := by
    unfold FlowScene.descendants
    rw [hc2, hr]
  have hleft : (c.scene.nodes.map fun n =>
      if ((List.range tree.nodes.length).map (fun k => c.scene.freshUid + k)).contains n.uid
      then { n with locked := true } else n) = c.scene.nodes := by
    conv_rhs => rw [← List.map_id c.scene.nodes]
    apply List.map_congr_left
    intro n hn
    have := FlowScene.uid_lt_freshUid _ n hn
    have hnot : ¬ (n.uid ∈ (List.range tree.nodes.length).map
        (fun k => c.scene.freshUid + k)) := by
      rw [mem_range_map_add]; omega
    have hc : ((List.range tree.nodes.length).map
        (fun k => c.scene.freshUid + k)).contains n.uid = false := by
      simpa using hnot
    rw [hc]
    rfl
  have hright : ((copyNodes c.scene.freshUid 0 tree.nodes).map fun n =>
      if ((List.range tree.nodes.length).map (fun k => c.scene.freshUid + k)).contains n.uid
      then { n with locked := true } else n) =
      (copyNodes c.scene.freshUid 0 tree.nodes).map fun m => { m with locked := true } := by
    apply List.map_congr_left
    intro n hn
    have hu : n.uid ∈ (copyNodes c.scene.freshUid 0 tree.nodes).map Node.uid :=
      List.mem_map_of_mem _ hn
    rw [copyNodes_uid] at hu
    simp only [Nat.add_zero] at hu
    have hc : ((List.range tree.nodes.length).map
        (fun k => c.scene.freshUid + k)).contains n.uid = true := by
      simpa using hu
    rw [hc]
    rfl
  unfold lockSubtreeEditing
  simp only [hbody]
  rw [happ]
  simp only [List.map_append, hleft, hright]

end GraphicContainer

namespace FlowScene

theorem updateNode_uids (s : FlowScene) (node : Nat) (f : Node → Node)
    (hf : ∀ m, (f m).uid = m.uid) :
    (s.updateNode node f).nodes.map Node.uid = s.nodes.map Node.uid := by
  simp only [updateNode, List.map_map]
  apply List.map_congr_left
  intro n _
  simp only [Function.comp]
  split
  · exact hf n
  · rfl

theorem updateNode_freshUid (s : FlowScene) (node : Nat) (f : Node → Node)
    (hf : ∀ m, (f m).uid = m.uid) : (s.updateNode node f).freshUid = s.freshUid := by
  unfold freshUid
  rw [updateNode_uids s node f hf]

theorem findNode_updateNode (s : FlowScene) (node : Nat) (f : Node → Node)
    (hf : ∀ m, (f m).uid = m.uid) (u : Nat) :
    (s.updateNode node f).findNode u =
      (s.findNode u).map fun n => if n.uid = node then f n else n := by
  unfold findNode updateNode
  rw [List.find?_map]
  congr 1
  congr 1
  funext n
  simp only [Function.comp]
  split
  · rw [hf n]
  · rfl

theorem findNode_updateNode_self (s : FlowScene) (node : Nat) (f : Node → Node)
    (hf : ∀ m, (f m).uid = m.uid) (n : Node) (hn : s.findNode node = some n) :
    (s.updateNode node f).findNode node = some (f n) := by
  rw [findNode_updateNode s node f hf, hn]
  simp [(findNode_some _ _ _ hn).2]

theorem updateNode_joins (s : FlowScene) (node : Nat) (f : Node → Node)
    (hf : ∀ m, (f m).uid = m.uid) (h : s.connectionsJoinNodes) :
    (s.updateNode node f).connectionsJoinNodes := by
  intro k hk
  have := h k hk
  rw [findNode_updateNode s node f hf, findNode_updateNode s node f hf]
  simpa using this

theorem updateNode_length (s : FlowScene) (node : Nat) (f : Node → Node) :
    (s.updateNode node f).nodes.length = s.nodes.length := by
  simp [updateNode]

theorem descendants_of_no_children (s : FlowScene) (u : Nat) (h : s.childrenOf u = []) :
    s.descendants u = [] := by
  unfold descendants
  rw [h, reachable_nil]

end FlowScene

namespace GraphicContainer

theorem lockSubtreeEditing_of_no_children (c : GraphicContainer) (node : Nat) (locked : Bool)
    (h : c.scene.childrenOf node = []) : c.lockSubtreeEditing node locked = c := by
  unfold lockSubtreeEditing
  simp only [FlowScene.descendants_of_no_children _ _ h]
  have : (c.scene.nodes.map fun n =>
      if ([] : List Nat).contains n.uid then { n with locked := locked } else n) =
      c.scene.nodes := by
    conv_rhs => rw [← List.map_id c.scene.nodes]
    apply List.map_congr_left
    intro n _
    rfl
  rw [this]

/-- The facts about a document with an attached body that the transitions need. -/
theorem withBody_spec (c : GraphicContainer) (node : Nat) (sR : FlowScene)
    (tree : AbsBehaviorTree) (hb : sR.build = some tree)
    (hwf : c.scene.connectionsJoinNodes) (hnode : (c.scene.findNode node).isSome)
    (hch : c.scene.childrenOf node = []) :
    (c.withBody node tree).scene.childrenOf node = [c.scene.freshUid] ∧
    (c.withBody node tree).scene.reachable (c.withBody node tree).scene.fuel
        [c.scene.freshUid] [] =
      (List.range tree.nodes.length).map (fun k => c.scene.freshUid + k) ∧
    (c.withBody node tree).deleteSubTreeRecursively c.scene.freshUid = c ∧
    0 < tree.nodes.length := by
  obtain ⟨_, hreach, hpos, hlen⟩ := appendTree_lock c node sR tree hb hwf hnode hch
  have hF : sR.nodes.length + 1 ≤ (c.withBody node tree).scene.fuel := by
    simp only [withBody, FlowScene.fuel, List.length_append, List.length_map, copyNodes_length]
    omega
  obtain ⟨hr, hc⟩ := hreach (c.withBody node tree).scene rfl _ hF
  refine ⟨hc, hr, ?_, hpos⟩
  unfold deleteSubTreeRecursively
  rw [hr]
  have hmem : ∀ u, ((List.range tree.nodes.length).map
      (fun k => c.scene.freshUid + k)).contains u =
      decide (c.scene.freshUid ≤ u ∧ u < c.scene.freshUid + tree.nodes.length) := by
    intro u
    rw [List.contains_eq_any_beq, Bool.eq_iff_iff]
    simp only [List.any_eq_true, beq_iff_eq, decide_eq_true_eq]
    rw [← mem_range_map_add]
    constructor
    · rintro ⟨x, hx, rfl⟩; exact hx
    · intro h; exact ⟨u, h, rfl⟩
  have hn1 : c.scene.nodes.filter (fun n => !((List.range tree.nodes.length).map
      (fun k => c.scene.freshUid + k)).contains n.uid) = c.scene.nodes := by
    rw [List.filter_eq_self]
    intro n hn
    have := FlowScene.uid_lt_freshUid _ n hn
    rw [hmem]
    simp only [Bool.not_eq_true', decide_eq_false_iff_not]
    omega
  have hn2 : ((copyNodes c.scene.freshUid 0 tree.nodes).map
      fun m => { m with locked := true }).filter
      (fun n => !((List.range tree.nodes.length).map
        (fun k => c.scene.freshUid + k)).contains n.uid) = [] := by
    rw [List.filter_eq_nil_iff]
    intro n hn
    obtain ⟨m, hm, rfl⟩ := List.mem_map.1 hn
    have hu : m.uid ∈ (copyNodes c.scene.freshUid 0 tree.nodes).map Node.uid :=
      List.mem_map_of_mem _ hm
    rw [copyNodes_uid] at hu
    simp only [Nat.add_zero] at hu
    rw [mem_range_map_add] at hu
    rw [hmem]
    simp only [Bool.not_eq_true', decide_eq_false_iff_not, not_not]
    exact hu
  have hk1 : c.scene.connections.filter (fun k =>
      !((List.range tree.nodes.length).map (fun k => c.scene.freshUid + k)).contains k.out_node
      && !((List.range tree.nodes.length).map
        (fun k => c.scene.freshUid + k)).contains k.in_node) = c.scene.connections := by
    rw [List.filter_eq_self]
    intro k hk
    have h1 := FlowScene.lt_freshUid_of_findNode _ _ (hwf k hk).1
    have h2 := FlowScene.lt_freshUid_of_findNode _ _ (hwf k hk).2
    rw [hmem, hmem]
    simp only [Bool.and_eq_true, Bool.not_eq_true', decide_eq_false_iff_not]
    omega
  have hk2 : ([(⟨node, c.scene.freshUid⟩ : Connection)] ++
      copyConnections c.scene.freshUid 0 tree.nodes).filter (fun k =>
      !((List.range tree.nodes.length).map (fun k => c.scene.freshUid + k)).contains k.out_node
      && !((List.range tree.nodes.length).map
        (fun k => c.scene.freshUid + k)).contains k.in_node) = [] := by
    rw [List.filter_eq_nil_iff]
    intro k hk
    rw [hmem, hmem]
    simp only [Bool.and_eq_true, Bool.not_eq_true', decide_eq_false_iff_not, not_and, not_not]
    rcases List.mem_append.1 hk with hk | hk
    · simp only [List.mem_singleton] at hk
      subst hk
      intro _
      simp only
      omega
    · have := copyConnections_out _ _ _ k hk
      intro h
      omega
  simp only [withBody, FlowScene.removeNodes, List.filter_append, hn1, hn2, hk1,
    List.append_nil]
  rw [List.append_assoc, ← List.filter_append, hk2, List.append_nil]

/-- The nodes of a document with an attached body: the old nodes, and under the handle
`freshUid + k` the locked copy of tree node `k`. -/
theorem withBody_findNode (c : GraphicContainer) (node : Nat) (tree : AbsBehaviorTree) :
    (∀ u, (c.scene.findNode u).isSome →
      (c.withBody node tree).scene.findNode u = c.scene.findNode u) ∧
    (∀ k, (c.withBody node tree).scene.findNode (c.scene.freshUid + k) =
      tree.nodes[k]?.map fun a =>
        { copyNode (c.scene.freshUid + k) a with locked := true }) := by
  constructor
  · intro u hu
    unfold FlowScene.findNode at hu ⊢
    simp only [withBody, List.find?_append]
    cases h : c.scene.nodes.find? (fun n => n.uid == u) with
    | none => rw [h] at hu; simp at hu
    | some n => rfl
  · intro k
    unfold FlowScene.findNode
    simp only [withBody, List.find?_append]
    have h1 : c.scene.nodes.find? (fun n => n.uid == c.scene.freshUid + k) = none := by
      rw [List.find?_eq_none]
      intro n hn
      have := FlowScene.uid_lt_freshUid _ n hn
      simp only [beq_iff_eq]
      omega
    rw [h1, Option.none_or, List.find?_map]
    have h2 : ((fun n : Node => n.uid == c.scene.freshUid + k) ∘
        fun m : Node => { m with locked := true }) =
        fun n : Node => n.uid == c.scene.freshUid + k := rfl
    rw [h2, find_copyNodes]
    simp only [Nat.zero_le, if_true, Nat.sub_zero, Option.map_map]
    rfl

end GraphicContainer

/-! ## The transitions of a subtree node -/

namespace StdMap

variable {V : Type}

theorem findEntry_modify (k t : QString) (f : V → V) (l : List (QString × V)) :
    findEntry t (l.map fun e => (e.1, if e.1 = k then f e.2 else e.2)) =
      (findEntry t l).map fun v => if t = k then f v else v := by
  induction l with
  | nil => rfl
  | cons e rest ih =>
    simp only [List.map_cons, findEntry]
    by_cases h : e.1 = t
    · subst h
      simp
    · simp [h, ih]

theorem find_modify (m : StdMap V) (k t : QString) (f : V → V) :
    (m.modify k f).find t = (m.find t).map fun v => if t = k then f v else v :=
  findEntry_modify k t f m.entries

end StdMap

namespace MainWindow

theorem getTabByName_setContainer (st : MainWindow) (tab t : QString) (c : GraphicContainer) :
    (st.setContainer tab c).getTabByName t =
      (st.getTabByName t).map fun v => if t = tab then c else v :=
  StdMap.find_modify st._tab_info tab t fun _ => c

theorem getTabByName_setContainer_self (st : MainWindow) (tab : QString)
    (c c2 : GraphicContainer) (h : st.getTabByName tab = some c) :
    (st.setContainer tab c2).getTabByName tab = some c2 := by
  rw [getTabByName_setContainer, h]
  simp

theorem getTabByName_setContainer_other (st : MainWindow) (tab t : QString)
    (c : GraphicContainer) (h : t ≠ tab) :
    (st.setContainer tab c).getTabByName t = st.getTabByName t := by
  rw [getTabByName_setContainer]
  cases st.getTabByName t with
  | none => rfl
  | some v => simp [h]

/-- The transition Expand of a collapsed node without children whose document is a valid
tree: the node gets one port and the locked copy of the tree is attached. -/
theorem subTreeExpand_expand (st : MainWindow) (tab : QString) (node : Nat)
    (c cR : GraphicContainer) (n : Node) (tree : AbsBehaviorTree)
    (htab : st.getTabByName tab = some c) (hn : c.scene.findNode node = some n)
    (htype : n.model.type = .SUBTREE) (hcol : n.expanded = false)
    (hR : st.getTabByName n.model.registration_ID = some cR)
    (hb : cR.scene.build = some tree)
    (hwf : c.scene.connectionsJoinNodes) (hch : c.scene.childrenOf node = []) :
    st.subTreeExpand tab node .SUBTREE_EXPAND =
      .ok (some node) (st.setContainer tab
        (GraphicContainer.withBody
          { c with scene := c.scene.updateNode node fun m =>
              { m with expanded := true, out_ports := 1 } } node tree)) := by
  have hv : cR.containsValidTree = true := by
    simp [GraphicContainer.containsValidTree, hb]
  have hT : BuildTreeFromScene cR.scene = tree := by
    simp [BuildTreeFromScene, hb]
  have hlock := (GraphicContainer.appendTree_lock
    { c with scene := c.scene.updateNode node fun m =>
        { m with expanded := true, out_ports := 1 } } node cR.scene tree hb
    (FlowScene.updateNode_joins _ _ _ (fun _ => rfl) hwf)
    (by
      have hf := FlowScene.findNode_updateNode c.scene node
        (fun m => { m with expanded := true, out_ports := 1 }) (fun _ => rfl) node
      show ((c.scene.updateNode node _).findNode node).isSome = true
      rw [hf, hn]; rfl)
    hch).1
  unfold subTreeExpand
  simp only [htab, hn, htype, hcol, hR, hv, hT, ne_eq, not_true_eq_false, if_false, and_self,
    if_true, Bool.not_true, Bool.false_eq_true, GraphicContainer.nodeReorder, ite_self]
  rw [hlock]
  rfl

/-- The transition Collapse of an expanded node with an attached body: the body is deleted
and the node loses its port. -/
theorem subTreeExpand_collapse (st : MainWindow) (tab : QString) (node : Nat)
    (c0 : GraphicContainer) (n0 : Node) (sR : FlowScene) (tree : AbsBehaviorTree)
    (htab : st.getTabByName tab = some (c0.withBody node tree))
    (hn : c0.scene.findNode node = some n0)
    (htype : n0.model.type = .SUBTREE) (hexp : n0.expanded = true)
    (hb : sR.build = some tree)
    (hwf : c0.scene.connectionsJoinNodes) (hch : c0.scene.childrenOf node = []) :
    st.subTreeExpand tab node .SUBTREE_COLLAPSE =
      .ok (some node) (st.setContainer tab
        { c0 with scene := c0.scene.updateNode node fun m =>
            { m with expanded := false, out_ports := 0 } }) := by
  have hsome : (c0.scene.findNode node).isSome = true := by rw [hn]; rfl
  obtain ⟨hc, _, hdel, _⟩ := GraphicContainer.withBody_spec c0 node sR tree hb hwf hsome hch
  have hfind : (c0.withBody node tree).scene.findNode node = some n0 := by
    rw [(GraphicContainer.withBody_findNode c0 node tree).1 node hsome, hn]
  have hlock := GraphicContainer.lockSubtreeEditing_of_no_children
    { c0 with scene := c0.scene.updateNode node fun m =>
        { m with expanded := false, out_ports := 0 } } node false hch
  unfold subTreeExpand
  simp only [htab, hfind, htype, hexp, hc, hdel, ne_eq, not_true_eq_false, if_false,
    Bool.true_eq_false, and_false, and_self, if_true, reduceCtorEq, false_and,
    GraphicContainer.nodeReorder, ite_self, Option.isSome_some]
  rw [hlock]

/-- The transition Refresh of an expanded node with an attached body: the body is replaced by
a new copy of the referenced tree. -/
theorem subTreeExpand_refresh (st : MainWindow) (tab : QString) (node : Nat)
    (c0 cR : GraphicContainer) (n0 : Node) (tree : AbsBehaviorTree) (old : AbsBehaviorTree)
    (sO : FlowScene)
    (htab : st.getTabByName tab = some (c0.withBody node old))
    (hn : c0.scene.findNode node = some n0)
    (htype : n0.model.type = .SUBTREE) (hexp : n0.expanded = true)
    (ho : sO.build = some old)
    (hR : st.getTabByName n0.model.registration_ID = some cR)
    (hb : cR.scene.build = some tree)
    (hwf : c0.scene.connectionsJoinNodes) (hch : c0.scene.childrenOf node = []) :
    st.subTreeExpand tab node .SUBTREE_REFRESH =
      .ok (some node) (st.setContainer tab (c0.withBody node tree)) := by
  have hsome : (c0.scene.findNode node).isSome = true := by rw [hn]; rfl
  obtain ⟨hc, _, hdel, _⟩ := GraphicContainer.withBody_spec c0 node sO old ho hwf hsome hch
  have hfind : (c0.withBody node old).scene.findNode node = some n0 := by
    rw [(GraphicContainer.withBody_findNode c0 node old).1 node hsome, hn]
  have hT : BuildTreeFromScene cR.scene = tree := by
    simp [BuildTreeFromScene, hb]
  have hlock := (GraphicContainer.appendTree_lock c0 node cR.scene tree hb hwf hsome hch).1
  unfold subTreeExpand
  simp only [htab, hfind, htype, hexp, hc, hdel, hR, hT, ne_eq, not_true_eq_false, if_false,
    Bool.true_eq_false, and_false, and_self, if_true, reduceCtorEq, false_and,
    GraphicContainer.nodeReorder]
  rw [hlock]
  rfl

/-- A transition that does not apply returns `nullptr` and changes nothing. -/
theorem subTreeExpand_idle (st : MainWindow) (tab : QString) (node : Nat)
    (c : GraphicContainer) (n : Node) (option : SubtreeExpandOption)
    (htab : st.getTabByName tab = some c) (hn : c.scene.findNode node = some n)
    (htype : n.model.type = .SUBTREE)
    (h : (n.expanded = false ∧ option ≠ .SUBTREE_EXPAND) ∨
      (n.expanded = true ∧ (option = .SUBTREE_EXPAND ∨ option = .SUBTREE_CHANGE))) :
    st.subTreeExpand tab node option = .ok none st := by
  unfold subTreeExpand
  rcases h with ⟨h1, h2⟩ | ⟨h1, h2 | h2⟩
  · simp [htab, hn, htype, h1, h2]
  · simp [htab, hn, htype, h1, h2]
  · simp [htab, hn, htype, h1, h2]

end MainWindow

namespace MainWindow

/-- Every transition keeps the document in one of its two shapes. -/
theorem subTreeExpand_shape (tab : QString) (node : Nat) (R : QString) (hR : R ≠ tab)
    (option : SubtreeExpandOption) (st : MainWindow) (h : expansionShape tab node R st) :
    expansionShape tab node R (st.subTreeExpand tab node option).state := by
  rcases h with ⟨c, n, htab, hwf, hn, htype, hreg, hcol, hports, hch⟩ |
    ⟨c0, n0, cR, tree, htab, hwf, hn, htype, hreg, hexp, hports, hch, hcR, hb⟩
  · -- the node is collapsed
    have hsame : expansionShape tab node R st :=
      Or.inl ⟨c, n, htab, hwf, hn, htype, hreg, hcol, hports, hch⟩
    by_cases ho : option = .SUBTREE_EXPAND
    · subst ho
      cases hcR : st.getTabByName R with
      | none =>
        have : st.subTreeExpand tab node .SUBTREE_EXPAND = .thrown .null_pointer st := by
          unfold subTreeExpand
          simp [htab, hn, htype, hcol, hreg, hcR]
        rw [this]; exact hsame
      | some cR =>
        cases hb : cR.scene.build with
        | none =>
          have : st.subTreeExpand tab node .SUBTREE_EXPAND = .ok (some node) st := by
            unfold subTreeExpand
            simp [htab, hn, htype, hcol, hreg, hcR, GraphicContainer.containsValidTree, hb]
          rw [this]; exact hsame
        | some tree =>
          rw [subTreeExpand_expand st tab node c cR n tree htab hn htype hcol
            (by rw [hreg]; exact hcR) hb hwf hch]
          refine Or.inr ⟨_, { n with expanded := true, out_ports := 1 }, cR, tree,
            getTabByName_setContainer_self st tab c _ htab,
            FlowScene.updateNode_joins _ _ _ (fun _ => rfl) hwf, ?_, htype, hreg, rfl, rfl,
            hch, ?_, hb⟩
          · have hf := FlowScene.findNode_updateNode c.scene node
              (fun m => { m with expanded := true, out_ports := 1 }) (fun _ => rfl) node
            show (c.scene.updateNode node _).findNode node = _
            rw [hf, hn]
            simp [(FlowScene.findNode_some _ _ _ hn).2]
          · show (st.setContainer tab _).getTabByName R = some cR
            rw [getTabByName_setContainer_other _ _ _ _ hR, hcR]
    · rw [subTreeExpand_idle st tab node c n option htab hn htype (Or.inl ⟨hcol, ho⟩)]
      exact hsame
  · -- the node is expanded
    have hsome : (c0.scene.findNode node).isSome = true := by rw [hn]; rfl
    have hfind : (c0.withBody node tree).scene.findNode node = some n0 := by
      rw [(GraphicContainer.withBody_findNode c0 node tree).1 node hsome, hn]
    have hsame : expansionShape tab node R st :=
      Or.inr ⟨c0, n0, cR, tree, htab, hwf, hn, htype, hreg, hexp, hports, hch, hcR, hb⟩
    cases option with
    | SUBTREE_EXPAND =>
      rw [subTreeExpand_idle st tab node _ n0 _ htab hfind htype (Or.inr ⟨hexp, Or.inl rfl⟩)]
      exact hsame
    | SUBTREE_CHANGE =>
      rw [subTreeExpand_idle st tab node _ n0 _ htab hfind htype (Or.inr ⟨hexp, Or.inr rfl⟩)]
      exact hsame
    | SUBTREE_COLLAPSE =>
      rw [subTreeExpand_collapse st tab node c0 n0 cR.scene tree htab hn htype hexp hb hwf hch]
      refine Or.inl ⟨_, { n0 with expanded := false, out_ports := 0 },
        getTabByName_setContainer_self st tab _ _ htab,
        FlowScene.updateNode_joins _ _ _ (fun _ => rfl) hwf, ?_, htype, hreg, rfl, rfl, hch⟩
      have hf := FlowScene.findNode_updateNode c0.scene node
        (fun m => { m with expanded := false, out_ports := 0 }) (fun _ => rfl) node
      show (c0.scene.updateNode node _).findNode node = _
      rw [hf, hn]
      simp [(FlowScene.findNode_some _ _ _ hn).2]
    | SUBTREE_REFRESH =>
      rw [subTreeExpand_refresh st tab node c0 cR n0 tree tree cR.scene htab hn htype hexp hb
        (by rw [hreg]; exact hcR) hb hwf hch]
      refine Or.inr ⟨c0, n0, cR, tree, getTabByName_setContainer_self st tab _ _ htab, hwf, hn,
        htype, hreg, hexp, hports, hch, ?_, hb⟩
      show (st.setContainer tab _).getTabByName R = some cR
      rw [getTabByName_setContainer_other _ _ _ _ hR, hcR]

/-- A sequence of transitions keeps the document in one of its two shapes. -/
theorem run_shape (tab : QString) (node : Nat) (R : QString) (hR : R ≠ tab)
    (options : List SubtreeExpandOption) (st : MainWindow) (h : expansionShape tab node R st) :
    expansionShape tab node R (subTreeExpand.run tab node options st).state := by
  induction options generalizing st with
  | nil => exact h
  | cons o rest ih =>
    have hstep := subTreeExpand_shape tab node R hR o st h
    unfold subTreeExpand.run
    cases hr : st.subTreeExpand tab node o with
    | ok v st1 =>
      rw [hr] at hstep
      exact ih st1 hstep
    | thrown e st1 =>
      rw [hr] at hstep
      exact hstep

/-- In both shapes the expansion invariant holds. -/
theorem expansionInvariant_of_shape (tab : QString) (node : Nat) (R : QString)
    (st : MainWindow) (h : expansionShape tab node R st) :
    expansionInvariant tab node st = true := by
  rcases h with ⟨c, n, htab, hwf, hn, htype, hreg, hcol, hports, hch⟩ |
    ⟨c0, n0, cR, tree, htab, hwf, hn, htype, hreg, hexp, hports, hch, hcR, hb⟩
  · unfold expansionInvariant
    simp [htab, hn, hcol, hports, hch]
  · have hsome : (c0.scene.findNode node).isSome = true := by rw [hn]; rfl
    have hfind : (c0.withBody node tree).scene.findNode node = some n0 := by
      rw [(GraphicContainer.withBody_findNode c0 node tree).1 node hsome, hn]
    obtain ⟨hc, hr, _, hpos⟩ :=
      GraphicContainer.withBody_spec c0 node cR.scene tree hb hwf hsome hch
    have hT : BuildTreeFromScene cR.scene = tree := by
      simp [BuildTreeFromScene, hb]
    have hcopy := (GraphicContainer.withBody_findNode c0 node tree).2
    obtain ⟨root, hroot⟩ : ∃ root, tree.nodes[0]? = some root :=
      ⟨tree.nodes[0], List.getElem?_eq_getElem hpos⟩
    have hhead : tree.nodes.head? = some root := by
      rw [← hroot, List.head?_eq_getElem?]
    have hchild : (c0.withBody node tree).scene.findNode c0.scene.freshUid =
        some { GraphicContainer.copyNode c0.scene.freshUid root with locked := true } := by
      have := hcopy 0
      rw [hroot] at this
      simpa using this
    have hdesc : (c0.withBody node tree).scene.descendants node =
        (List.range tree.nodes.length).map (fun k => c0.scene.freshUid + k) := by
      unfold FlowScene.descendants
      rw [hc, hr]
    have hall : ((c0.withBody node tree).scene.descendants node).all (fun u =>
        match (c0.withBody node tree).scene.findNode u with
        | some m => m.locked
        | none => false) = true := by
      rw [hdesc, List.all_eq_true]
      intro u hu
      obtain ⟨k, hk, rfl⟩ := List.mem_map.1 hu
      rw [hcopy k, List.getElem?_eq_getElem (List.mem_range.1 hk)]
      rfl
    unfold expansionInvariant
    simp only [htab, hfind, hexp, hports, hc, hreg, hcR, hT, hhead, hchild, hall, if_true,
      beq_self_eq_true, decide_True, Bool.and_self]

end MainWindow

namespace MainWindow

/-- C16: Expand followed by Collapse restores the node and the node count.  For a collapsed
subtree node without output connection, in a scene whose connections join its nodes, whose
referenced document contains a valid tree: `SUBTREE_EXPAND` returns the node and adds
nodes to the document; `SUBTREE_COLLAPSE` then returns the node, after which the node is
collapsed with no output port and no output connection, and the document has as many
nodes, and the same connections, as before the Expand. -/
theorem subTreeExpand_expand_collapse (st : MainWindow) (tab : QString) (node : Nat)
    (c cR : GraphicContainer) (n : Node)
    (htab : st.getTabByName tab = some c)
    (hwf : c.scene.connectionsJoinNodes)
    (hn : c.scene.findNode node = some n)
    (htype : n.model.type = .SUBTREE) (hcol : n.expanded = false)
    (hch : c.scene.childrenOf node = [])
    (hR : st.getTabByName n.model.registration_ID = some cR)
    (hv : cR.containsValidTree = true) :
    ∃ (st1 st2 : MainWindow) (c1 c2 : GraphicContainer),
      st.subTreeExpand tab node .SUBTREE_EXPAND = .ok (some node) st1 ∧
      st1.getTabByName tab = some c1 ∧
      c.scene.nodes.length < c1.scene.nodes.length ∧
      st1.subTreeExpand tab node .SUBTREE_COLLAPSE = .ok (some node) st2 ∧
      st2.getTabByName tab = some c2 ∧
      c2.scene.findNode node = some { n with expanded := false, out_ports := 0 } ∧
      c2.scene.childrenOf node = [] ∧
      c2.scene.nodes.length = c.scene.nodes.length ∧
      c2.scene.connections = c.scene.connections := by
  obtain ⟨tree, hb⟩ : ∃ tree, cR.scene.build = some tree := by
    unfold GraphicContainer.containsValidTree at hv
    exact Option.isSome_iff_exists.1 hv
  have hwf1 := FlowScene.updateNode_joins c.scene node
    (fun m => { m with expanded := true, out_ports := 1 }) (fun _ => rfl) hwf
  have hn1 : (c.scene.updateNode node
      fun m => { m with expanded := true, out_ports := 1 }).findNode node =
      some { n with expanded := true, out_ports := 1 } := by
    exact FlowScene.findNode_updateNode_self c.scene node
      (fun m => { m with expanded := true, out_ports := 1 }) (fun _ => rfl) n hn
  have htab1 := getTabByName_setContainer_self st tab c
    (GraphicContainer.withBody
      { c with scene := c.scene.updateNode node fun m =>
          { m with expanded := true, out_ports := 1 } } node tree) htab
  have hpos := (GraphicContainer.withBody_spec
    { c with scene := c.scene.updateNode node fun m =>
        { m with expanded := true, out_ports := 1 } } node cR.scene tree hb hwf1
    (by show ((c.scene.updateNode node _).findNode node).isSome = true
        rw [hn1]; rfl) hch).2.2.2
  refine ⟨_, _, _, _,
    subTreeExpand_expand st tab node c cR n tree htab hn htype hcol hR hb hwf hch,
    htab1, ?_,
    subTreeExpand_collapse _ tab node _ { n with expanded := true, out_ports := 1 }
      cR.scene tree htab1 hn1 htype rfl hb hwf1 hch,
    getTabByName_setContainer_self _ tab _ _ htab1, ?_, hch, ?_, rfl⟩
  · simp only [GraphicContainer.withBody, List.length_append, List.length_map,
      GraphicContainer.copyNodes_length, FlowScene.updateNode_length]
    omega
  · exact FlowScene.findNode_updateNode_self _ node
      (fun m => { m with expanded := false, out_ports := 0 }) (fun _ => rfl)
      { n with expanded := true, out_ports := 1 } hn1
  · show ((c.scene.updateNode node _).updateNode node _).nodes.length = _
    rw [FlowScene.updateNode_length, FlowScene.updateNode_length]

/-- Witness for C16: the reference to `Sub` in the sample project. -/
theorem subTreeExpand_expand_collapse_witness :
    ∃ (st1 st2 : MainWindow) (c1 c2 : GraphicContainer),
      Sample.project.subTreeExpand "BehaviorTree" 2 .SUBTREE_EXPAND = .ok (some 2) st1 ∧
      st1.getTabByName "BehaviorTree" = some c1 ∧
      Sample.mainScene.nodes.length < c1.scene.nodes.length ∧
      st1.subTreeExpand "BehaviorTree" 2 .SUBTREE_COLLAPSE = .ok (some 2) st2 ∧
      st2.getTabByName "BehaviorTree" = some c2 ∧
      c2.scene.findNode 2 = some ⟨2, Sample.subModel, "Sub", StdMap.empty, false, 0, false⟩ ∧
      c2.scene.childrenOf 2 = [] ∧
      c2.scene.nodes.length = Sample.mainScene.nodes.length ∧
      c2.scene.connections = Sample.mainScene.connections :=
  subTreeExpand_expand_collapse Sample.project "BehaviorTree" 2
    { MainWindow.newTabContainer .Vertical with scene := Sample.mainScene }
    { MainWindow.newTabContainer .Vertical with scene := Sample.subScene }
    ⟨2, Sample.subModel, "Sub", StdMap.empty, false, 0, false⟩
    (by decide) (by decide) (by decide) (by decide) (by decide) (by decide) (by decide)
    (by decide)

end MainWindow

/-! ## The removal of a document -/

namespace StdMap

variable {V : Type}

theorem keys_modify (m : StdMap V) (k : QString) (f : V → V) : (m.modify k f).keys = m.keys := by
  simp [modify, keys, List.map_map, Function.comp_def]

theorem keys_mapValues {W : Type} (m : StdMap V) (f : V → W) : (m.mapValues f).keys = m.keys := by
  simp [mapValues, keys, List.map_map, Function.comp_def]

theorem keys_erase (m : StdMap V) (k : QString) :
    (m.erase k).keys = m.keys.filter fun x => !decide (x = k) := by
  simp only [erase, keys, List.filter_map]
  rfl

end StdMap

namespace Res

theorem bind_frame {α β X : Type} (g : MainWindow → X) (x : X) (r : Res α)
    (f : α → MainWindow → Res β) (hr : g r.state = x)
    (hf : ∀ v st1, g st1 = x → g (f v st1).state = x) : g (r.bind f).state = x := by
  cases r with
  | ok v st1 => exact hf v st1 hr
  | thrown e st1 => exact hr

end Res

namespace MainWindow

theorem tabState_setContainer (st : MainWindow) (tab : QString) (c : GraphicContainer) :
    (st.setContainer tab c).tabState = st.tabState := by
  simp [tabState, setContainer, StdMap.keys_modify]

theorem tabState_subTreeExpand (st : MainWindow) (tab : QString) (node : Nat)
    (option : SubtreeExpandOption) :
    (st.subTreeExpand tab node option).state.tabState = st.tabState := by
  unfold subTreeExpand
  repeat' first
    | split
    | dsimp only
  all_goals first
    | rfl
    | exact tabState_setContainer _ _ _

theorem tabState_destroyNode (ID tab : QString) (abs_node : AbstractTreeNode)
    (st : MainWindow) :
    (onDestroySubTree.destroyNode ID tab abs_node st).state.tabState = st.tabState := by
  unfold onDestroySubTree.destroyNode
  split
  · rfl
  · split
    · rfl
    · split
      · apply Res.bind_frame
        · split
          · exact tabState_subTreeExpand _ _ _ _
          · rfl
        · intro v st1 h1
          split
          · show (st1.setContainer tab _).tabState = _
            rw [tabState_setContainer, h1]
          · exact h1
      · rfl

theorem tabState_destroyNodes (ID tab : QString) (nodes : List AbstractTreeNode)
    (st : MainWindow) :
    (onDestroySubTree.destroyNodes ID tab nodes st).state.tabState = st.tabState := by
  induction nodes generalizing st with
  | nil => rfl
  | cons a rest ih =>
    unfold onDestroySubTree.destroyNodes
    apply Res.bind_frame
    · exact tabState_destroyNode _ _ _ _
    · intro _ st1 h1
      rw [ih st1, h1]

theorem tabState_destroyReferences (ID : QString) (tabs : List QString) (st : MainWindow) :
    (onDestroySubTree.destroyReferences ID tabs st).state.tabState = st.tabState := by
  induction tabs generalizing st with
  | nil => rfl
  | cons tab rest ih =>
    unfold onDestroySubTree.destroyReferences
    split
    · exact ih st
    · split
      · rfl
      · apply Res.bind_frame
        · exact tabState_destroyNodes _ _ _ _
        · intro _ st1 h1
          split
          · exact h1
          · rw [ih, tabState_setContainer, h1]

theorem tabState_clearUndoStacks (st : MainWindow) :
    st.clearUndoStacks.state.tabState = st.tabState := by
  unfold clearUndoStacks onPushUndo
  simp only
  split
  · simp [Res.state, tabState, onSceneChanged, lockEditing, updateTreeInfo,
      StdMap.keys_mapValues]
  · simp only [Res.state, pushSnapshot]
    split <;>
      simp [tabState, onSceneChanged, lockEditing, updateTreeInfo, StdMap.keys_mapValues]

/-- The second loop of `onDestroySubTree` removes the first tab labelled `ID` among the given
indices, with the document. -/
theorem removeDocument_spec (ID : QString) (idxs : List Nat) (st : MainWindow)
    (hopen : (st.getTabByName ID).isSome)
    (hex : ∃ i ∈ idxs, st.tabWidget.tabText (i : Nat) = ID) :
    ∃ i ∈ idxs, st.tabWidget.tabText (i : Nat) = ID ∧
      onDestroySubTree.removeDocument ID idxs st =
        .ok () { st with
          tabWidget := st.tabWidget.removeTab i
          _tab_info := st._tab_info.erase ID } := by
  induction idxs with
  | nil => obtain ⟨i, hi, _⟩ := hex; simp at hi
  | cons j rest ih =>
    unfold onDestroySubTree.removeDocument
    by_cases hj : st.tabWidget.tabText (j : Nat) = ID
    · refine ⟨j, List.mem_cons_self _ _, hj, ?_⟩
      rw [if_pos hj]
      cases h : st.getTabByName ID with
      | none => rw [h] at hopen; simp at hopen
      | some c => rfl
    · rw [if_neg hj]
      obtain ⟨i, hi, hti⟩ := hex
      rcases List.mem_cons.1 hi with rfl | hi
      · exact absurd hti hj
      · obtain ⟨i2, hi2, h2, h3⟩ := ih ⟨i, hi, hti⟩
        exact ⟨i2, List.mem_cons_of_mem _ hi2, h2, h3⟩

end MainWindow

namespace MainWindow

/-- The label of a tab in range. -/
theorem tabText_of_lt (w : QTabWidget) (i : Nat) (h : i < w.tabs.length) :
    w.tabText (i : Nat) = (w.tabs[i]).text := by
  rw [QTabWidget.tabText_eq]
  simp [h]

/-- The tab bar and the documents after the second loop of `onDestroySubTree` and the
promotion of the last document. -/
theorem removeTab_spec (tabs : List Tab) (keys : List QString) (ID : QString) (i : Nat)
    (hi : i < tabs.length) (hti : (tabs[i]).text = ID)
    (hsync : (tabs.map Tab.text).Perm keys) (hnd : keys.Nodup) :
    ID ∉ (tabs.eraseIdx i).map Tab.text ∧
    (∀ k, k ≠ ID → k ∈ keys → k ∈ (tabs.eraseIdx i).map Tab.text) ∧
    (∀ k, (keys.filter fun x => !decide (x = ID)) = [k] →
      ∃ t, tabs.eraseIdx i = [t] ∧ t.text = k) := by
  have hndT : (tabs.map Tab.text).Nodup := hsync.nodup_iff.2 hnd
  have hmem : ∀ k, k ∈ (tabs.eraseIdx i).map Tab.text ↔ k ∈ keys ∧ k ≠ ID := by
    intro k
    simp only [List.mem_map, List.mem_eraseIdx_iff_getElem]
    constructor
    · rintro ⟨t, ⟨j, hj, hji, rfl⟩, rfl⟩
      refine ⟨hsync.mem_iff.1 (List.mem_map_of_mem _ (List.getElem_mem _)), ?_⟩
      intro heq
      apply hji
      have hj2 : j < (tabs.map Tab.text).length := by simpa using hj
      have hi2 : i < (tabs.map Tab.text).length := by simpa using hi
      have h1 : (tabs.map Tab.text)[j] = (tabs.map Tab.text)[i] := by
        simp only [List.getElem_map]
        rw [heq, hti]
      exact (hndT.getElem_inj_iff).1 h1
    · rintro ⟨hk, hne⟩
      obtain ⟨j, hj, hjk⟩ := List.getElem_of_mem (hsync.mem_iff.2 hk)
      simp only [List.length_map] at hj
      simp only [List.getElem_map] at hjk
      refine ⟨tabs[j], ⟨j, hj, ?_, rfl⟩, hjk⟩
      rintro rfl
      exact hne (hjk.symm.trans hti)
  refine ⟨fun h => ((hmem ID).1 h).2 rfl, fun k hne hk => (hmem k).2 ⟨hk, hne⟩, ?_⟩
  intro k hk
  have hID : ID ∈ keys := by
    rw [← hti]
    exact hsync.mem_iff.1 (List.mem_map_of_mem _ (List.getElem_mem _))
  have hlen : (tabs.eraseIdx i).length = 1 := by
    have h1 : (keys.filter fun x => !decide (x = ID)).length = 1 := by rw [hk]; rfl
    have h2 : keys.filter (fun x => !decide (x = ID)) = keys.erase ID := by
      rw [hnd.erase_eq_filter]
      apply List.filter_congr
      intro x _
      by_cases hx : x = ID <;> simp [bne, hx]
    rw [h2, List.length_erase_of_mem hID] at h1
    have h3 := hsync.length_eq
    simp only [List.length_map] at h3
    rw [List.length_eraseIdx, if_pos hi, h3]
    exact h1
  obtain ⟨t, ht⟩ := List.length_eq_one.1 hlen
  refine ⟨t, ht, ?_⟩
  have h4 : t.text ∈ (tabs.eraseIdx i).map Tab.text := by
    rw [ht]; simp
  obtain ⟨h5, h6⟩ := (hmem t.text).1 h4
  have h7 : t.text ∈ keys.filter fun x => !decide (x = ID) := by
    simp [List.mem_filter, h5, h6]
  rw [hk] at h7
  simpa using h7

end MainWindow

namespace MainWindow

/-- C12: `onDestroySubTree(ID)` removes the document `ID` and promotes the last document.
The ID names an open document, the tab bar shows the open documents, and the loop over the
references returns; then no document and no tab is named `ID`, every other document is
still open with its tab, and when one document remains `_main_tree` is its name and its
tab, the only one, carries the flag. -/
theorem onDestroySubTree_spec (st : MainWindow) (ID : QString)
    (hopen : ID ∈ st._tab_info.keys)
    (hsync : (st.tabWidget.tabs.map Tab.text).Perm st._tab_info.keys)
    (hrefs : (onDestroySubTree.destroyReferences ID st._tab_info.keys st).isOk = true) :
    ID ∉ (onDestroySubTree ID st).state._tab_info.keys ∧
    ID ∉ (onDestroySubTree ID st).state.tabWidget.tabs.map Tab.text ∧
    (∀ k, k ≠ ID → k ∈ st._tab_info.keys →
      k ∈ (onDestroySubTree ID st).state._tab_info.keys ∧
      k ∈ (onDestroySubTree ID st).state.tabWidget.tabs.map Tab.text) ∧
    (∀ k, (onDestroySubTree ID st).state._tab_info.keys = [k] →
      (onDestroySubTree ID st).state._main_tree = k ∧
      (onDestroySubTree ID st).state.tabWidget.tabs = [⟨k, true⟩]) := by
  cases hr : onDestroySubTree.destroyReferences ID st._tab_info.keys st with
  | thrown e s => rw [hr] at hrefs; exact absurd hrefs (by simp [Res.isOk])
  | ok u st1 =>
    have h1 : st1.tabState = st.tabState := by
      have := tabState_destroyReferences ID st._tab_info.keys st
      rw [hr] at this; exact this
    have hk1 : st1._tab_info.keys = st._tab_info.keys := congrArg Prod.fst h1
    have hw1 : st1.tabWidget = st.tabWidget := congrArg (fun p => p.2.1) h1
    have hopen1 : (st1.getTabByName ID).isSome = true := by
      unfold getTabByName
      rw [StdMap.find_isSome_iff, hk1]; exact hopen
    obtain ⟨i0, hi0, hti0⟩ := List.getElem_of_mem (hsync.mem_iff.2 hopen)
    simp only [List.length_map] at hi0
    simp only [List.getElem_map] at hti0
    obtain ⟨i, hi, hti, hrm⟩ := removeDocument_spec ID (List.range st1.tabWidget.tabs.length)
      st1 hopen1 ⟨i0, by rw [hw1]; exact List.mem_range.2 hi0, by
        rw [hw1, tabText_of_lt _ _ hi0]; exact hti0⟩
    rw [hw1] at hi hti
    have hi2 : i < st.tabWidget.tabs.length := List.mem_range.1 hi
    rw [tabText_of_lt _ _ hi2] at hti
    obtain ⟨ha, hb, hc⟩ := removeTab_spec st.tabWidget.tabs st._tab_info.keys ID i hi2 hti hsync
      (StdMap.keys_nodup _)
    have hrt : (st.tabWidget.removeTab (i : Nat)).tabs = st.tabWidget.tabs.eraseIdx i := by
      unfold QTabWidget.removeTab
      have : (0 : Int) ≤ (i : Nat) ∧ ((i : Nat) : Int) < st.tabWidget.count := by
        simp [QTabWidget.count, hi2]
      simp [this]
    -- the state after the second loop, and after the promotion
    have hfin : ∃ st3 : MainWindow, (onDestroySubTree ID st).state.tabState = st3.tabState ∧
        st3._tab_info.keys = st._tab_info.keys.filter (fun x => !decide (x = ID)) ∧
        st3.tabWidget.tabs.map Tab.text = (st.tabWidget.tabs.eraseIdx i).map Tab.text ∧
        ((st.tabWidget.tabs.eraseIdx i).length = 1 →
          st3._main_tree = ((st.tabWidget.tabs.eraseIdx i).map Tab.text).headD "" ∧
          st3.tabWidget.tabs = (st.tabWidget.tabs.eraseIdx i).map fun t => ⟨t.text, true⟩) := by
      unfold onDestroySubTree
      rw [hr]
      simp only [Res.bind]
      rw [hrm]
      simp only
      refine ⟨_, tabState_clearUndoStacks _, ?_, ?_, ?_⟩
      · split
        · show (st1._tab_info.erase ID).keys = _
          rw [StdMap.keys_erase, hk1]
        · show (st1._tab_info.erase ID).keys = _
          rw [StdMap.keys_erase, hk1]
      · split
        · rw [onTabSetMainTree_texts]
          show (st1.tabWidget.removeTab (i : Nat)).tabs.map Tab.text = _
          rw [hw1, hrt]
        · show (st1.tabWidget.removeTab (i : Nat)).tabs.map Tab.text = _
          rw [hw1, hrt]
      · intro hlen
        have hcount : (st1.tabWidget.removeTab (i : Nat)).count = 1 := by
          rw [hw1]
          unfold QTabWidget.count
          rw [hrt, hlen]; rfl
        rw [if_pos hcount]
        obtain ⟨t, ht⟩ := List.length_eq_one.1 hlen
        have htabs : (st1.tabWidget.removeTab (i : Nat)).tabs = [t] := by
          rw [hw1, hrt, ht]
        constructor
        · simp only [onTabSetMainTree]
          rw [if_pos ⟨le_refl _, by rw [hcount]; decide⟩, QTabWidget.tabText_eq]
          simp [htabs, ht]
        · simp only [onTabSetMainTree]
          rw [htabs, ht]
          rfl
    obtain ⟨st3, hts, hkeys, htexts, hmain⟩ := hfin
    have hk : (onDestroySubTree ID st).state._tab_info.keys = st3._tab_info.keys :=
      congrArg Prod.fst hts
    have hw : (onDestroySubTree ID st).state.tabWidget = st3.tabWidget :=
      congrArg (fun p => p.2.1) hts
    have hm : (onDestroySubTree ID st).state._main_tree = st3._main_tree :=
      congrArg (fun p => p.2.2) hts
    rw [hk, hw, hm, hkeys, htexts]
    refine ⟨by simp, ha, fun k hne hkin => ⟨by simp [List.mem_filter, hkin, hne], hb k hne hkin⟩,
      ?_⟩
    intro k hkk
    obtain ⟨t, ht, htk⟩ := hc k hkk
    obtain ⟨h2, h3⟩ := hmain (by rw [ht]; rfl)
    rw [h2, h3, ht]
    simp [htk]

/-- Witness for C12: the document `Sub` of the sample project, referenced by the main
document, is destroyed; the call returns and `BehaviorTree` remains, flagged main. -/
theorem onDestroySubTree_spec_witness :
    (onDestroySubTree "Sub" Sample.project).isOk = true ∧
    (onDestroySubTree "Sub" Sample.project).state._tab_info.keys = ["BehaviorTree"] ∧
    ("Sub" ∉ (onDestroySubTree "Sub" Sample.project).state._tab_info.keys ∧
    "Sub" ∉ (onDestroySubTree "Sub" Sample.project).state.tabWidget.tabs.map Tab.text ∧
    (∀ k, k ≠ "Sub" → k ∈ Sample.project._tab_info.keys →
      k ∈ (onDestroySubTree "Sub" Sample.project).state._tab_info.keys ∧
      k ∈ (onDestroySubTree "Sub" Sample.project).state.tabWidget.tabs.map Tab.text) ∧
    (∀ k, (onDestroySubTree "Sub" Sample.project).state._tab_info.keys = [k] →
      (onDestroySubTree "Sub" Sample.project).state._main_tree = k ∧
      (onDestroySubTree "Sub" Sample.project).state.tabWidget.tabs = [⟨k, true⟩])) :=
  ⟨by decide, by decide,
    onDestroySubTree_spec Sample.project "Sub" (by decide) (by decide) (by decide)⟩

end MainWindow

/-! ## Refresh and rename of an expanded subtree -/

namespace FlowScene

theorem find_congr_mem {α : Type} (p q : α → Bool) (l : List α)
    (h : ∀ x ∈ l, p x = q x) : l.find? p = l.find? q := by
  induction l with
  | nil => rfl
  | cons a rest ih =>
    simp only [List.find?_cons, h a (List.mem_cons_self _ _)]
    rw [ih fun x hx => h x (List.mem_cons_of_mem _ hx)]

end FlowScene

namespace GraphicContainer

theorem withBody_findNode_old (c : GraphicContainer) (node : Nat) (tree : AbsBehaviorTree)
    (u : Nat) (hu : u < c.scene.freshUid) :
    (c.withBody node tree).scene.findNode u = c.scene.findNode u := by
  unfold FlowScene.findNode
  simp only [withBody, List.find?_append]
  have h : ((copyNodes c.scene.freshUid 0 tree.nodes).map
      fun m => { m with locked := true }).find? (fun n => n.uid == u) = none := by
    rw [List.find?_eq_none]
    intro n hn
    obtain ⟨m, hm, rfl⟩ := List.mem_map.1 hn
    have hmu : m.uid ∈ (copyNodes c.scene.freshUid 0 tree.nodes).map Node.uid :=
      List.mem_map_of_mem _ hm
    rw [copyNodes_uid] at hmu
    simp only [Nat.add_zero] at hmu
    rw [mem_range_map_add] at hmu
    simp only [beq_iff_eq]
    omega
  rw [h]
  cases c.scene.nodes.find? (fun n => n.uid == u) <;> rfl

/-- The substitution of a node without children: the new node stands under the fresh handle,
the old handle is gone, and the scene stays well formed. -/
theorem substituteNode_spec (c : GraphicContainer) (node : Nat) (m : NodeModel) (n : Node)
    (hwf : c.scene.connectionsJoinNodes) (hn : c.scene.findNode node = some n)
    (hch : c.scene.childrenOf node = []) :
    (c.substituteNode node (some m)).2 = some c.scene.freshUid ∧
    (c.substituteNode node (some m)).1.scene.findNode c.scene.freshUid =
      some { n with uid := c.scene.freshUid, model := m, instance_name := m.registration_ID,
                    expanded := false } ∧
    (c.substituteNode node (some m)).1.scene.findNode node = none ∧
    (c.substituteNode node (some m)).1.scene.connectionsJoinNodes ∧
    (c.substituteNode node (some m)).1.scene.childrenOf c.scene.freshUid = [] ∧
    (c.substituteNode node (some m)).1.scene.nodes.length = c.scene.nodes.length := by
  have hnode : node < c.scene.freshUid :=
    FlowScene.lt_freshUid_of_findNode _ _ (by rw [hn]; rfl)
  have hnuid : n.uid = node := (FlowScene.findNode_some _ _ _ hn).2
  -- lookup of a handle of the old scene after the substitution
  have hfind : ∀ u, u < c.scene.freshUid → u ≠ node →
      (c.substituteNode node (some m)).1.scene.findNode u =
      (c.scene.findNode u).map fun n =>
        if n.uid = node then
          { n with uid := c.scene.freshUid, model := m, instance_name := m.registration_ID,
                   expanded := false }
        else n := by
    intro u hu hne
    unfold FlowScene.findNode
    simp only [substituteNode]
    rw [List.find?_map]
    congr 1
    apply FlowScene.find_congr_mem
    intro x _
    simp only [Function.comp]
    split
    · rename_i hx
      simp only [beq_iff_eq]
      have : ¬ (c.scene.freshUid = u) := by omega
      simp [this, hx, Ne.symm hne]
    · rfl
  have hfresh : (c.substituteNode node (some m)).1.scene.findNode c.scene.freshUid =
      some { n with uid := c.scene.freshUid, model := m, instance_name := m.registration_ID,
                    expanded := false } := by
    have hcongr : ∀ x ∈ c.scene.nodes,
        (((fun k : Node => k.uid == c.scene.freshUid) ∘ fun k : Node =>
          if k.uid = node then
            { k with uid := c.scene.freshUid, model := m, instance_name := m.registration_ID,
                     expanded := false }
          else k) x) = (x.uid == node) := by
      intro x hx
      have := FlowScene.uid_lt_freshUid _ x hx
      simp only [Function.comp]
      split
      · rename_i h; simp [h]
      · rename_i h
        have h2 : ¬ (x.uid = c.scene.freshUid) := by omega
        simp [h, h2]
    unfold FlowScene.findNode at hn ⊢
    simp only [substituteNode]
    rw [List.find?_map, FlowScene.find_congr_mem _ _ _ hcongr, hn]
    simp [hnuid]
  refine ⟨rfl, hfresh, ?_, ?_, ?_, by simp [substituteNode]⟩
  · unfold FlowScene.findNode
    simp only [substituteNode]
    rw [List.find?_eq_none]
    intro x hx
    obtain ⟨y, hy, rfl⟩ := List.mem_map.1 hx
    simp only [beq_iff_eq]
    split
    · simp only; omega
    · assumption
  · intro k hk
    simp only [substituteNode] at hk
    obtain ⟨k0, hk0, rfl⟩ := List.mem_map.1 hk
    obtain ⟨h1, h2⟩ := hwf k0 hk0
    have key : ∀ u, (c.scene.findNode u).isSome = true →
        ((c.substituteNode node (some m)).1.scene.findNode
          (if u = node then c.scene.freshUid else u)).isSome = true := by
      intro u hu
      by_cases hun : u = node
      · rw [if_pos hun, hfresh]; rfl
      · rw [if_neg hun, hfind u (FlowScene.lt_freshUid_of_findNode _ _ hu) hun]
        cases h : c.scene.findNode u with
        | none => rw [h] at hu; simp at hu
        | some x => rfl
    exact ⟨key _ h1, key _ h2⟩
  · rw [FlowScene.childrenOf_eq]
    simp only [substituteNode]
    have hnil : (c.scene.connections.map fun k : Connection =>
        ({ out_node := if k.out_node = node then c.scene.freshUid else k.out_node
           in_node := if k.in_node = node then c.scene.freshUid else k.in_node } :
          Connection)).filter (fun k => k.out_node == c.scene.freshUid) = [] := by
      rw [List.filter_eq_nil_iff]
      intro k hk
      obtain ⟨k0, hk0, rfl⟩ := List.mem_map.1 hk
      have hlt := FlowScene.lt_freshUid_of_findNode _ _ (hwf k0 hk0).1
      have hne : k0.out_node ≠ node := by
        intro heq
        have hmem : k0.in_node ∈ c.scene.childrenOf node := by
          rw [FlowScene.childrenOf_eq]
          exact List.mem_map_of_mem _ (List.mem_filter.2 ⟨hk0, by simp [heq]⟩)
        rw [hch] at hmem
        simp at hmem
      simp only [beq_iff_eq, if_neg hne]
      omega
    rw [hnil]
    rfl

end GraphicContainer

namespace MainWindow

/-- One round of `refreshExpandedSubtrees` for an expanded node whose document is not a valid
tree: the node is collapsed, and the refresh that follows does nothing. -/
theorem refreshNode_collapses (st : MainWindow) (tab : QString) (node : Nat)
    (c0 cR : GraphicContainer) (n0 : Node) (sO : FlowScene) (old : AbsBehaviorTree)
    (htab : st.getTabByName tab = some (c0.withBody node old))
    (hwf : c0.scene.connectionsJoinNodes)
    (hn : c0.scene.findNode node = some n0)
    (htype : n0.model.type = .SUBTREE) (hexp : n0.expanded = true)
    (hch : c0.scene.childrenOf node = [])
    (ho : sO.build = some old)
    (hR : st.getTabByName n0.model.registration_ID = some cR)
    (hv : cR.containsValidTree = false) :
    refreshExpandedSubtrees.refreshNode tab node st =
      .ok () (st.setContainer tab
        { c0 with scene := c0.scene.updateNode node fun m =>
            { m with expanded := false, out_ports := 0 } }) := by
  have hsome : (c0.scene.findNode node).isSome = true := by rw [hn]; rfl
  have hfind : (c0.withBody node old).scene.findNode node = some n0 := by
    rw [(GraphicContainer.withBody_findNode c0 node old).1 node hsome, hn]
  have hcol := subTreeExpand_collapse st tab node c0 n0 sO old htab hn htype hexp ho hwf hch
  have hidle := subTreeExpand_idle
    (st.setContainer tab
      { c0 with scene := c0.scene.updateNode node fun m =>
          { m with expanded := false, out_ports := 0 } }) tab node
    { c0 with scene := c0.scene.updateNode node fun m =>
        { m with expanded := false, out_ports := 0 } }
    { n0 with expanded := false, out_ports := 0 } .SUBTREE_REFRESH
    (getTabByName_setContainer_self st tab _ _ htab)
    (FlowScene.findNode_updateNode_self c0.scene node
      (fun m => { m with expanded := false, out_ports := 0 }) (fun _ => rfl) n0 hn)
    htype (Or.inl ⟨rfl, by decide⟩)
  unfold refreshExpandedSubtrees.refreshNode
  simp only [htab, hfind, htype, hR, hexp, hv, ne_eq, not_true_eq_false, if_false, and_self,
    if_true, hcol, Res.bind, hidle]

/-- C18, as stated, fails: in the sample project the reference to `Sub` is expanded and the
document `Sub` is no longer a valid tree; `refreshExpandedSubtrees` returns, and afterwards
the node is collapsed, without port and output connection, and its body is deleted. -/
theorem refreshExpandedSubtrees_collapses_stale :
    (Sample.staleProject.currentTabInfo.map fun c =>
      ((c.scene.findNode 2).map fun n => (n.model.registration_ID, n.expanded),
        c.scene.childrenOf 2, c.scene.nodes.length)) =
      some (some ("Sub", true), [3], 4) ∧
    (Sample.staleProject.getTabByName "Sub").map GraphicContainer.containsValidTree =
      some false ∧
    (refreshExpandedSubtrees Sample.staleProject).isOk = true ∧
    ((refreshExpandedSubtrees Sample.staleProject).state.currentTabInfo.map fun c =>
      ((c.scene.findNode 2).map fun n => (n.model.registration_ID, n.expanded, n.out_ports),
        c.scene.childrenOf 2, c.scene.nodes.length)) =
      some (some ("Sub", false, 0), [], 2) := by
  decide

end MainWindow

namespace MainWindow

/-- C19, as stated, fails: in the sample project the reference to `Sub` is expanded and the
document `Sub` is not a valid tree; the rename of the document `Sub` to `Sub2` returns, and
afterwards the main document holds a reference to `Sub2` that is collapsed, and the body
is gone. -/
theorem onTabRenameRequested_collapses_reference :
    (Sample.staleProject.getTabByName "BehaviorTree").map
      (fun c => c.scene.nodes.map fun n => (n.uid, n.model.registration_ID, n.expanded)) =
      some [(1, "Root", false), (2, "Sub", true), (3, "Root", false), (4, "Act", false)] ∧
    Sample.staleProject.registeredModelsByCategory_count "SubTree" "Sub" = 1 ∧
    (onTabRenameRequested 1 "Sub2" none Sample.staleProject).isOk = true ∧
    (onTabRenameRequested 1 "Sub2" none Sample.staleProject).state._tab_info.keys =
      ["BehaviorTree", "Sub2"] ∧
    ((onTabRenameRequested 1 "Sub2" none Sample.staleProject).state.getTabByName
      "BehaviorTree").map
      (fun c => c.scene.nodes.map fun n => (n.uid, n.model.registration_ID, n.expanded)) =
      some [(1, "Root", false), (3, "Sub2", false)] := by
  decide

end MainWindow

/-! ## Snapshot equality and the undo stack -/

namespace MainWindow

/-- Two ordered maps of the same size, one of which holds every entry of the other, are
equal. -/
theorem StdMap_eq_of_subset {V : Type} (a b : StdMap V) (hsize : a.size = b.size)
    (hsub : ∀ e ∈ a.entries, e ∈ b.entries) : a = b := by
  apply StdMap.ext_entries
  have hnd : a.entries.Nodup := by
    have h := a.sorted
    refine h.imp ?_
    intro x y hxy heq
    rw [heq] at hxy
    exact StdMap.keyLt_irrefl y.1 hxy
  have hperm : a.entries.Perm b.entries :=
    (List.subperm_of_subset hnd hsub).perm_of_length_le (by
      have : b.entries.length = a.entries.length := hsize.symm
      omega)
  haveI : IsAntisymm (QString × V) (fun x y => QString.lt x.1 y.1) :=
    ⟨fun x y h1 h2 => absurd h2 (StdMap.keyLt_asymm h1)⟩
  exact List.eq_of_perm_of_sorted hperm a.sorted b.sorted

/-- The comparison `operator==` holds exactly when the current tab name, the tab map, the
view area and the view transform agree. -/
theorem operator_eq_iff (s t : SavedState) :
    s.operator_eq t = true ↔
      s.current_tab_name = t.current_tab_name ∧ s.json_states = t.json_states ∧
      s.view_area = t.view_area ∧ s.view_transform = t.view_transform := by
  constructor
  · intro h
    unfold SavedState.operator_eq at h
    split at h
    · exact absurd h (by decide)
    · rename_i h1
      split at h
      · exact absurd h (by decide)
      · rename_i h2
        split at h
        · exact absurd h (by decide)
        · rename_i h3
          simp only [not_or, not_not] at h1 h3
          refine ⟨h1.1, ?_, h3.1, h3.2⟩
          apply StdMap_eq_of_subset _ _ h1.2
          intro e he
          simp only [Bool.not_eq_true, Bool.not_eq_false', List.all_eq_true] at h2
          have := h2 e he
          cases hf : t.json_states.find e.1 with
          | none => rw [hf] at this; simp at this
          | some blob =>
            rw [hf] at this
            simp only [decide_eq_true_eq] at this
            have hmem := (StdMap.find_eq_some_iff _ _ _).1 hf
            rw [← this] at hmem
            exact hmem
  · rintro ⟨h1, h2, h3, h4⟩
    have hr := operator_eq_refl s
    unfold SavedState.operator_eq at hr ⊢
    rw [← h1, ← h2, ← h3, ← h4]
    exact hr

theorem operator_eq_symm (s t : SavedState) (h : s.operator_eq t = true) :
    t.operator_eq s = true := by
  obtain ⟨h1, h2, h3, h4⟩ := (operator_eq_iff s t).1 h
  exact (operator_eq_iff t s).2 ⟨h1.symm, h2.symm, h3.symm, h4.symm⟩

theorem operator_eq_trans (s t u : SavedState) (h : s.operator_eq t = true)
    (h2 : t.operator_eq u = true) : s.operator_eq u = true := by
  obtain ⟨a1, a2, a3, a4⟩ := (operator_eq_iff s t).1 h
  obtain ⟨b1, b2, b3, b4⟩ := (operator_eq_iff t u).1 h2
  exact (operator_eq_iff s u).2 ⟨a1.trans b1, a2.trans b2, a3.trans b3, a4.trans b4⟩

/-- C28: `SavedState::operator==` is an equivalence relation on snapshots: reflexive,
symmetric (the size check makes the one-sided loop over the left tab map enough) and
transitive. -/
theorem operator_eq_equivalence :
    (∀ s : SavedState, s.operator_eq s = true) ∧
    (∀ s t : SavedState, s.operator_eq t = true → t.operator_eq s = true) ∧
    (∀ s t u : SavedState, s.operator_eq t = true → t.operator_eq u = true →
      s.operator_eq u = true) :=
  ⟨operator_eq_refl, operator_eq_symm, operator_eq_trans⟩

/-- Witness for C28: the snapshot of the sample window and the same snapshot with other names
for the main tree. -/
theorem operator_eq_equivalence_witness :
    Sample.staleSnapshot.operator_eq { Sample.snapshot with current_tab_name := "C" } = true ∧
    Sample.staleSnapshot.operator_eq
      { Sample.snapshot with current_tab_name := "C", main_tree := "B" } = true :=
  ⟨operator_eq_equivalence.2.1 _ _ (by decide),
    operator_eq_equivalence.2.2 _ { Sample.snapshot with current_tab_name := "C" } _
      (operator_eq_equivalence.2.1 _ _ (by decide)) (by decide)⟩

end MainWindow

namespace MainWindow

theorem managerInvariant_congr (st st2 : MainWindow) (h1 : st2._undo_stack = st._undo_stack)
    (h2 : st2._redo_stack = st._redo_stack) (h3 : st2._current_state = st._current_state)
    (h : managerInvariant st) : managerInvariant st2 := by
  unfold managerInvariant at h ⊢
  rw [h1, h2, h3]
  exact h

theorem operator_eq_false_symm (s t : SavedState) (h : s.operator_eq t = false) :
    t.operator_eq s = false := by
  cases h2 : t.operator_eq s with
  | false => rfl
  | true => rw [operator_eq_symm t s h2] at h; exact absurd h (by decide)

theorem noAdjacentDuplicates_concat (l : List SavedState) (c : SavedState)
    (h : noAdjacentDuplicates l)
    (hlast : ∀ back, l.getLast? = some back → back.operator_eq c = false) :
    noAdjacentDuplicates (l ++ [c]) := by
  unfold noAdjacentDuplicates at h ⊢
  rw [List.chain'_append]
  refine ⟨h, List.chain'_singleton _, ?_⟩
  intro x hx y hy
  simp only [List.head?_cons, Option.mem_def, Option.some.injEq] at hy
  subst hy
  exact hlast x hx

theorem noAdjacentDuplicates_of_concat (l : List SavedState) (c : SavedState)
    (h : noAdjacentDuplicates (l ++ [c])) :
    noAdjacentDuplicates l ∧ ∀ back, l.getLast? = some back → back.operator_eq c = false := by
  unfold noAdjacentDuplicates at h ⊢
  rw [List.chain'_append] at h
  exact ⟨h.1, fun back hb => h.2.2 back hb c rfl⟩

/-- The body of `onPushUndo` keeps the invariant of the manager, whatever the captured
snapshot. -/
theorem managerInvariant_pushSnapshot (st : MainWindow) (saved : SavedState)
    (h : managerInvariant st) : managerInvariant (st.pushSnapshot saved) := by
  obtain ⟨h1, h2, h3, h4⟩ := h
  unfold pushSnapshot
  cases hl : st._undo_stack.getLast? with
  | none =>
    have hnil : st._undo_stack = [] := List.getLast?_eq_none_iff.1 hl
    simp only [hl, if_true]
    refine ⟨?_, List.chain'_nil, ?_, ?_⟩
    · show noAdjacentDuplicates (st._undo_stack ++ [st._current_state])
      rw [hnil]; exact List.chain'_singleton _
    · intro back _ _
      refine ⟨?_, rfl⟩
      show (st._undo_stack ++ [st._current_state]).length = 1
      rw [hnil]; rfl
    · intro top htop
      exact absurd htop (by simp)
  | some back =>
    simp only [hl]
    by_cases hp : (saved.operator_ne st._current_state &&
        back.operator_ne st._current_state) = true
    · rw [if_pos hp]
      simp only [Bool.and_eq_true, SavedState.operator_ne, Bool.not_eq_true'] at hp
      refine ⟨?_, List.chain'_nil, ?_, ?_⟩
      · apply noAdjacentDuplicates_concat _ _ h1
        intro b hb
        rw [hl] at hb
        cases hb
        exact hp.2
      · intro b hb hbs
        simp only [List.getLast?_concat, Option.some.injEq] at hb
        subst hb
        rw [operator_eq_symm _ _ hbs] at hp
        exact absurd hp.1 (by decide)
      · intro top htop
        exact absurd htop (by simp)
    · rw [if_neg hp]
      have hdisc : saved.operator_eq st._current_state = true ∨
          back.operator_eq st._current_state = true := by
        simp only [Bool.not_eq_true, Bool.and_eq_false_iff, SavedState.operator_ne,
          Bool.not_eq_false'] at hp
        exact hp
      refine ⟨h1, h2, ?_, ?_⟩
      · intro b hb hbs
        rcases hdisc with hd | hd
        · exact h3 b hb (operator_eq_trans _ _ _ hbs hd)
        · exact h3 back hl hd
      · intro top htop hts
        rcases hdisc with hd | hd
        · exact h4 top htop (operator_eq_trans _ _ _ hts hd)
        · have := (h3 back hl hd).2
          rw [this] at htop
          exact absurd htop (by simp)

theorem managerInvariant_onPushUndo (st : MainWindow) (h : managerInvariant st) :
    managerInvariant st.onPushUndo.state := by
  unfold onPushUndo
  cases st.saveCurrentState with
  | error e => exact h
  | ok saved => exact managerInvariant_pushSnapshot st saved h

theorem managerInvariant_onUndoInvoked (st : MainWindow) (h : managerInvariant st) :
    managerInvariant st.onUndoInvoked.state := by
  obtain ⟨h1, h2, h3, h4⟩ := h
  unfold onUndoInvoked
  split
  · exact ⟨h1, h2, h3, h4⟩
  · cases hl : st._undo_stack.getLast? with
    | none => exact ⟨h1, h2, h3, h4⟩
    | some back =>
      simp only
      obtain ⟨U, hU⟩ := List.getLast?_eq_some_iff.1 hl
      obtain ⟨st2, he, e1, e2, e3, _, _⟩ := loadSavedStateFromJson_manager back
        { st with
          _redo_stack := st._redo_stack ++ [st._current_state]
          _current_state := back
          _undo_stack := st._undo_stack.dropLast }
      rw [he]
      apply managerInvariant_congr _ _ e1 e2 e3
      rw [hU] at h1
      obtain ⟨hc1, hc2⟩ := noAdjacentDuplicates_of_concat U back h1
      have hdrop : st._undo_stack.dropLast = U := by rw [hU]; simp
      refine ⟨?_, ?_, ?_, ?_⟩
      · show noAdjacentDuplicates st._undo_stack.dropLast
        rw [hdrop]; exact hc1
      · show noAdjacentDuplicates (st._redo_stack ++ [st._current_state])
        apply noAdjacentDuplicates_concat _ _ h2
        intro top htop
        cases ht : top.operator_eq st._current_state with
        | false => rfl
        | true =>
          have := (h4 top htop ht).1
          rw [this] at hl
          exact absurd hl (by simp)
      · intro b hb hbs
        have hb2 : U.getLast? = some b := by rw [← hdrop]; exact hb
        have := hc2 b hb2
        have hbs2 : b.operator_eq back = true := hbs
        rw [hbs2] at this
        exact absurd this (by decide)
      · intro top htop hts
        have htop2 : top = st._current_state := by
          have : (st._redo_stack ++ [st._current_state]).getLast? = some top := htop
          simpa using this.symm
        have hts2 : top.operator_eq back = true := hts
        rw [htop2] at hts2
        obtain ⟨l1, l2⟩ := h3 back hl (operator_eq_symm _ _ hts2)
        refine ⟨?_, ?_⟩
        · show st._undo_stack.dropLast = []
          rw [hdrop]
          rw [hU] at l1
          simp only [List.length_append, List.length_singleton] at l1
          exact List.length_eq_zero.1 (by omega)
        · show (st._redo_stack ++ [st._current_state]).length = 1
          rw [l2]; rfl

theorem managerInvariant_onRedoInvoked (st : MainWindow) (h : managerInvariant st) :
    managerInvariant st.onRedoInvoked.state := by
  obtain ⟨h1, h2, h3, h4⟩ := h
  unfold onRedoInvoked
  split
  · exact ⟨h1, h2, h3, h4⟩
  · cases hl : st._redo_stack.getLast? with
    | none => exact ⟨h1, h2, h3, h4⟩
    | some top =>
      simp only
      obtain ⟨R, hR⟩ := List.getLast?_eq_some_iff.1 hl
      obtain ⟨st2, he, e1, e2, e3, _, _⟩ := loadSavedStateFromJson_manager top
        { st with
          _undo_stack := st._undo_stack ++ [st._current_state]
          _current_state := top
          _redo_stack := st._redo_stack.dropLast }
      rw [he]
      apply managerInvariant_congr _ _ e1 e2 e3
      rw [hR] at h2
      obtain ⟨hc1, hc2⟩ := noAdjacentDuplicates_of_concat R top h2
      have hdrop : st._redo_stack.dropLast = R := by rw [hR]; simp
      refine ⟨?_, ?_, ?_, ?_⟩
      · show noAdjacentDuplicates (st._undo_stack ++ [st._current_state])
        apply noAdjacentDuplicates_concat _ _ h1
        intro back hback
        cases hb : back.operator_eq st._current_state with
        | false => rfl
        | true =>
          have := (h3 back hback hb).2
          rw [this] at hl
          exact absurd hl (by simp)
      · show noAdjacentDuplicates st._redo_stack.dropLast
        rw [hdrop]; exact hc1
      · intro b hb hbs
        have hb2 : b = st._current_state := by
          have : (st._undo_stack ++ [st._current_state]).getLast? = some b := hb
          simpa using this.symm
        have hbs2 : b.operator_eq top = true := hbs
        rw [hb2] at hbs2
        obtain ⟨l1, l2⟩ := h4 top hl (operator_eq_symm _ _ hbs2)
        refine ⟨?_, ?_⟩
        · show (st._undo_stack ++ [st._current_state]).length = 1
          rw [l1]; rfl
        · show st._redo_stack.dropLast = []
          rw [hdrop]
          rw [hR] at l2
          simp only [List.length_append, List.length_singleton] at l2
          exact List.length_eq_zero.1 (by omega)
      · intro t ht hts
        have ht2 : R.getLast? = some t := by rw [← hdrop]; exact ht
        have := hc2 t ht2
        have hts2 : t.operator_eq top = true := hts
        rw [hts2] at this
        exact absurd this (by decide)

theorem managerInvariant_apply (step : ManagerStep) (st : MainWindow)
    (h : managerInvariant st) : managerInvariant (step.apply st) := by
  cases step with
  | edit window => exact managerInvariant_congr st _ rfl rfl rfl h
  | push => exact managerInvariant_onPushUndo st h
  | undo => exact managerInvariant_onUndoInvoked st h
  | redo => exact managerInvariant_onRedoInvoked st h

theorem managerInvariant_runManager (steps : List ManagerStep) (st : MainWindow)
    (h : managerInvariant st) : managerInvariant (runManager steps st) := by
  induction steps generalizing st with
  | nil => exact h
  | cons step rest ih => exact ih _ (managerInvariant_apply step st h)

end MainWindow

/-! ## Saving, loading and the model registry -/

namespace MainWindow

theorem firstInvalid_of_mem (entries : List (QString × GraphicContainer))
    (it : QString × GraphicContainer) (hmem : it ∈ entries)
    (hv : it.2.containsValidTree = false) :
    (saveCurrentTree.firstInvalid entries).isSome = true := by
  induction entries with
  | nil => simp at hmem
  | cons e rest ih =>
    unfold saveCurrentTree.firstInvalid
    by_cases he : e.2.containsValidTree = true
    · simp only [he, Bool.not_true, Bool.false_eq_true, if_false]
      rcases List.mem_cons.1 hmem with h | h
      · rw [h, he] at hv; exact absurd hv (by decide)
      · exact ih h
    · simp [he]

/-- C21: save is gated on validity.  When some open document does not contain a valid tree,
`saveCurrentTree` returns, with either value of `forceSaveAs` and whatever the dialogs and
the file system answer, without any action on the file system and with the window, hence
`_main_tree`, the workspace models, the file name and the saved flag, unchanged. -/
theorem saveCurrentTree_invalid (ext : External) (env : SaveEnvironment) (forceSaveAs : Bool)
    (st : MainWindow) (name : QString) (container : GraphicContainer)
    (hc : st.getTabByName name = some container)
    (hv : container.containsValidTree = false) :
    saveCurrentTree ext env forceSaveAs st = .ok [] st := by
  have hmem : (name, container) ∈ st._tab_info.entries :=
    (StdMap.find_eq_some_iff _ _ _).1 hc
  have h := firstInvalid_of_mem st._tab_info.entries (name, container) hmem hv
  unfold saveCurrentTree
  cases hf : saveCurrentTree.firstInvalid st._tab_info.entries with
  | none => rw [hf] at h; exact absurd h (by decide)
  | some n => rfl

/-- Witness for C21: the project whose main document is not a valid tree, saved under a new
name. -/
theorem saveCurrentTree_invalid_witness :
    saveCurrentTree Sample.ext Sample.saveEnvironment true Sample.looseProject =
      .ok [] Sample.looseProject :=
  saveCurrentTree_invalid Sample.ext Sample.saveEnvironment true Sample.looseProject
    "BehaviorTree" { MainWindow.newTabContainer .Vertical with scene := Sample.looseScene }
    (by decide) (by decide)

theorem findNode_of_mem (ID : QString) (entries : List (QString × GraphicContainer))
    (it : QString × GraphicContainer) (hmem : it ∈ entries) (n : Node)
    (hn : n ∈ it.2.scene.nodes) (hid : n.model.registration_ID = ID) :
    (onModelRemoveRequested.findNode ID entries).isSome = true := by
  induction entries with
  | nil => simp at hmem
  | cons e rest ih =>
    unfold onModelRemoveRequested.findNode
    cases hf : e.2.scene.nodes.find? fun bt_node => bt_node.model.registration_ID = ID with
    | some found => rfl
    | none =>
      simp only
      rcases List.mem_cons.1 hmem with h | h
      · rw [List.find?_eq_none] at hf
        have := hf n (by rw [← h]; exact hn)
        simp [hid] at this
      · exact ih h

/-- C24: a model that is not a subtree and is used by a node of an open document is not
removed.  `onModelRemoveRequested(ID)` returns without passing the removal on, and the
window, hence the registered models and both stacks, is unchanged, whatever the user
would answer. -/
theorem onModelRemoveRequested_in_use (st : MainWindow) (ID : QString) (reply_yes : Bool)
    (model : NodeModel) (tab : QString) (container : GraphicContainer) (n : Node)
    (hmodel : st._treenode_models.find ID = some model)
    (htype : model.type ≠ .SUBTREE)
    (htab : st.getTabByName tab = some container)
    (hn : n ∈ container.scene.nodes)
    (hid : n.model.registration_ID = ID) :
    st.onModelRemoveRequested ID reply_yes = .ok false st := by
  have hmem : (tab, container) ∈ st._tab_info.entries :=
    (StdMap.find_eq_some_iff _ _ _).1 htab
  have h := findNode_of_mem ID st._tab_info.entries (tab, container) hmem n hn hid
  unfold onModelRemoveRequested
  cases hf : onModelRemoveRequested.findNode ID st._tab_info.entries with
  | none => rw [hf] at h; exact absurd h (by decide)
  | some found =>
    simp only [hmodel]
    rw [if_pos htype]

/-- Witness for C24: the action model `Act`, used in the document `Sub` of the sample
project. -/
theorem onModelRemoveRequested_in_use_witness :
    Sample.usedModelProject.onModelRemoveRequested "Act" true =
      .ok false Sample.usedModelProject :=
  onModelRemoveRequested_in_use Sample.usedModelProject "Act" true Sample.actModel "Sub"
    { MainWindow.newTabContainer .Vertical with scene := Sample.subScene }
    ⟨2, Sample.actModel, "Act", StdMap.empty, false, 0, false⟩
    (by decide) (by decide) (by decide) (by decide) (by decide)

end MainWindow

namespace MainWindow

/-- C22 on the code: the second tree of the sample text `broken` uses a model that is not
registered, so the codec throws and `loadFromXML` returns false.  The window had an empty
undo stack and a current snapshot of the document `BehaviorTree`; afterwards the undo
stack holds that snapshot, the current snapshot is the one of the document `A` of the
file, and the model `Act` of the file is still in the model registry. -/
theorem loadFromXML_failed_load_leaves_changes :
    Sample.load "broken" = .ok false (Sample.load "broken").state ∧
    Sample.window._undo_stack = [] ∧
    (Sample.load "broken").state._undo_stack = [Sample.snapshot] ∧
    Sample.window._current_state.json_states.keys = ["BehaviorTree"] ∧
    (Sample.load "broken").state._current_state.json_states.keys = ["A"] ∧
    (Sample.load "broken").state._tab_info.keys = ["BehaviorTree"] ∧
    Sample.window._model_registry.keys = [] ∧
    (Sample.load "broken").state._model_registry.keys = ["Act"] := by
  decide!

/-- C23 on the code: the model `Move` declares the required port `goal`.  For a node whose
port mapping has no entry for `goal`, `checkRequiredPorts` reports nothing; for a node
that maps `goal` to the empty string it reports the port. -/
theorem checkRequiredPorts_misses_unmapped_port :
    (Sample.moveModel.ports.find "goal").map PortModel.required = some true ∧
    ((Sample.portsWindow StdMap.empty).getTabByName "BehaviorTree").map
      (fun c => (BuildTreeFromScene c.scene).nodes.map
        fun node => (node.model.registration_ID, node.ports_mapping.keys)) =
      some [("Root", []), ("Move", [])] ∧
    (Sample.portsWindow StdMap.empty).checkRequiredPorts = [] ∧
    (Sample.portsWindow ((StdMap.empty : StdMap QString).insert "goal" "")).checkRequiredPorts =
      [⟨"BehaviorTree", "Move", "goal"⟩] := by
  decide

/-- C25 on the code: the window right after construction has the main tree `BehaviorTree`.
The sample text `tree` defines the tree `A` and names no main tree; `stray` names the main
tree `Main`, which it does not define.  `loadFromXML` returns true on both; afterwards the
only open document is `A`, `_main_tree` is `BehaviorTree`, respectively `Main`, and no
tab carries the main flag. -/
theorem loadFromXML_main_tree_not_open :
    Sample.window._main_tree = "BehaviorTree" ∧
    Sample.load "tree" = .ok true (Sample.load "tree").state ∧
    (Sample.load "tree").state._tab_info.keys = ["A"] ∧
    (Sample.load "tree").state.tabWidget.tabs = [⟨"A", false⟩] ∧
    (Sample.load "tree").state._main_tree = "BehaviorTree" ∧
    Sample.load "stray" = .ok true (Sample.load "stray").state ∧
    (Sample.load "stray").state._tab_info.keys = ["A"] ∧
    (Sample.load "stray").state.tabWidget.tabs = [⟨"A", false⟩] ∧
    (Sample.load "stray").state._main_tree = "Main" := by
  decide

/-- C27 on the code: the check of `tryLoadWorkspace` looks every port of the local model up in
the local model itself, so two models match exactly when they have the same number of
ports.  In the sample the local model `Move` has the port `goal` and the workspace model
`Move` the port `target`: no question is asked and the local model stays registered. -/
theorem tryLoadWorkspace_misses_port_conflict :
    (∀ treenodeModel workspaceModel : NodeModel,
      tryLoadWorkspace.portsMatch treenodeModel workspaceModel =
        decide (treenodeModel.ports.size = workspaceModel.ports.size)) ∧
    (Sample.moveWindow._treenode_models.find "Move").map (fun m => m.ports.keys) =
      some ["goal"] ∧
    tryLoadWorkspace Sample.ext (fun _ => true) "workspace" true Sample.moveWindow =
      .ok [] (tryLoadWorkspace Sample.ext (fun _ => true) "workspace" true
        Sample.moveWindow).state ∧
    ((tryLoadWorkspace Sample.ext (fun _ => true) "workspace" true
      Sample.moveWindow).state._workspace_models.find "Move").map (fun m => m.ports.keys) =
      some ["target"] ∧
    ((tryLoadWorkspace Sample.ext (fun _ => true) "workspace" true
      Sample.moveWindow).state._treenode_models.find "Move").map (fun m => m.ports.keys) =
      some ["goal"] := by
  refine ⟨?_, by decide, by decide, by decide, by decide⟩
  intro a b
  unfold tryLoadWorkspace.portsMatch
  have hall : (a.ports.entries.all fun wsPortPair =>
      (a.ports.find wsPortPair.1).isSome) = true := by
    rw [List.all_eq_true]
    intro e he
    rw [(StdMap.find_eq_some_iff a.ports e.1 e.2).2 he]
    rfl
  rw [hall]
  by_cases h : a.ports.size = b.ports.size <;> simp [h]

/-- The read `_treenode_models[new_ID]` outside the call after `onAddToModelRegistry`:
`Old` is a workspace model and no model is registered under `New`.
`onTreeNodeEdited("Old", "New")` returns; afterwards the registered models hold a
default-constructed model under `New`, which is also the workspace model `New`. -/
theorem onTreeNodeEdited_registers_default_model :
    Sample.workspaceWindow._workspace_models.keys = ["Old"] ∧
    Sample.workspaceWindow._treenode_models.keys = [] ∧
    (onTreeNodeEdited "Old" "New" Sample.workspaceWindow).isOk = true ∧
    (onTreeNodeEdited "Old" "New" Sample.workspaceWindow).state._treenode_models.entries =
      [("New", ⟨.UNDEFINED, "", StdMap.empty⟩)] ∧
    (onTreeNodeEdited "Old" "New" Sample.workspaceWindow).state._workspace_models.entries =
      [("New", ⟨.UNDEFINED, "", StdMap.empty⟩)] := by
  decide

end MainWindow

/-! ## The canonical form of a document -/

namespace StdMap

variable {V : Type}

theorem insertEntry_perm (k : QString) (v : V) (l : List (QString × V))
    (h : k ∉ l.map Prod.fst) : (insertEntry k v l).Perm ((k, v) :: l) := by
  induction l with
  | nil => simp [insertEntry]
  | cons e rest ih =>
    have hne : k ≠ e.1 := by
      intro he
      exact h (by simp [he])
    have hrest : k ∉ rest.map Prod.fst := by
      intro hk
      exact h (by simp only [List.map_cons]; exact List.mem_cons_of_mem _ hk)
    unfold insertEntry
    by_cases hlt : QString.lt k e.1
    · rw [if_pos hlt]
    · rw [if_neg hlt, if_neg hne]
      exact ((ih hrest).cons e).trans (List.Perm.swap _ _ _)

theorem erase_absent (m : StdMap V) (k : QString) (h : k ∉ m.keys) :
    (m.erase k).entries = m.entries := by
  unfold erase
  simp only
  rw [List.filter_eq_self]
  intro e he
  have : e.1 ≠ k := by
    intro hk
    exact h (by rw [← hk]; exact List.mem_map_of_mem _ he)
  simp [this]

theorem assign_entries_perm (m : StdMap V) (k : QString) (v : V) (h : k ∉ m.keys) :
    (m.assign k v).entries.Perm ((k, v) :: m.entries) := by
  unfold assign insert
  simp only
  rw [erase_absent m k h]
  exact insertEntry_perm k v m.entries h

theorem foldl_assign_perm (l : List (QString × V)) :
    ∀ (m : StdMap V), (l.map Prod.fst).Nodup → (∀ k ∈ l.map Prod.fst, k ∉ m.keys) →
      (l.foldl (fun m item => m.assign item.1 item.2) m).entries.Perm (l ++ m.entries) := by
  induction l with
  | nil => intro m _ _; exact List.Perm.refl _
  | cons a rest ih =>
    intro m hn hd
    rw [List.map_cons, List.nodup_cons] at hn
    have ha : a.1 ∉ m.keys := hd a.1 (by simp)
    have hperm := assign_entries_perm m a.1 a.2 ha
    have hkeys : ∀ k ∈ rest.map Prod.fst, k ∉ (m.assign a.1 a.2).keys := by
      intro k hk hmem
      have hmem2 : k ∈ ((a.1, a.2) :: m.entries).map Prod.fst :=
        (hperm.map Prod.fst).subset hmem
      rcases List.mem_cons.1 hmem2 with h | h
      · exact hn.1 (by rw [← h]; exact hk)
      · exact hd k (by simp only [List.map_cons]; exact List.mem_cons_of_mem _ hk) h
    rw [List.foldl_cons]
    refine (ih (m.assign a.1 a.2) hn.2 hkeys).trans ?_
    refine ((List.Perm.refl rest).append hperm).trans ?_
    exact List.perm_middle

end StdMap

namespace MainWindow

theorem ascendingAttributes_perm (l : List (QString × QString)) :
    (ascendingAttributes l).Perm l :=
  List.perm_insertionSort _ l

theorem ascendingAttributes_sorted (l : List (QString × QString))
    (h : (l.map Prod.fst).Nodup) :
    (ascendingAttributes l).Pairwise (fun a b => QString.lt a.1 b.1) := by
  have hs : (ascendingAttributes l).Pairwise attributeNameLe :=
    List.sorted_insertionSort attributeNameLe l
  have hn : ((ascendingAttributes l).map Prod.fst).Nodup :=
    ((ascendingAttributes_perm l).map Prod.fst).nodup_iff.2 h
  have hn2 : (ascendingAttributes l).Pairwise (fun a b => a.1 ≠ b.1) := by
    unfold List.Nodup at hn
    rw [List.pairwise_map] at hn
    exact hn
  refine (hs.and hn2).imp ?_
  intro a b hab
  unfold attributeNameLe QString.lt at hab
  unfold QString.lt
  rcases lt_or_eq_of_le (not_lt.1 hab.1) with h1 | h1
  · exact h1
  · exact absurd (String.ext h1) hab.2

theorem sorted_perm_eq {l1 l2 : List (QString × QString)} (hp : l1.Perm l2)
    (h1 : l1.Pairwise (fun a b => QString.lt a.1 b.1))
    (h2 : l2.Pairwise (fun a b => QString.lt a.1 b.1)) : l1 = l2 := by
  haveI : IsAntisymm (QString × QString) (fun a b => QString.lt a.1 b.1) :=
    ⟨fun a b hab hba => absurd (@lt_trans (List Char) _ _ _ _ hab hba) (lt_irrefl _)⟩
  exact List.eq_of_perm_of_sorted hp h1 h2

/-- The map that `streamElementAttributes` fills holds the attributes in ascending order
of their names. -/
theorem foldl_assign_ascending (l : List (QString × QString))
    (h : (l.map Prod.fst).Nodup) :
    (l.foldl (fun m item => m.assign item.1 item.2)
      (StdMap.empty : StdMap QString)).entries = ascendingAttributes l := by
  have hp := StdMap.foldl_assign_perm l (StdMap.empty : StdMap QString) h
    (by intro k _ hk; simp [StdMap.keys, StdMap.empty] at hk)
  have hp2 : (l.foldl (fun m item => m.assign item.1 item.2)
      (StdMap.empty : StdMap QString)).entries.Perm l := by
    simpa [StdMap.empty] using hp
  exact sorted_perm_eq (hp2.trans (ascendingAttributes_perm l).symm)
    (StdMap.sorted _) (ascendingAttributes_sorted l h)

theorem foldl_write_calls (l : List XmlWrite) (stream : QXmlStreamWriter) :
    l.foldl (fun s i => s.write i) stream = ⟨stream.calls ++ l, stream.hasError⟩ := by
  induction l generalizing stream with
  | nil => simp
  | cons a rest ih =>
    rw [List.foldl_cons, ih]
    simp [QXmlStreamWriter.write]

theorem streamElementAttributes_calls (stream : QXmlStreamWriter) (element : QDomNode)
    (h : (element.attributes.map Prod.fst).Nodup) :
    streamElementAttributes stream element =
      ⟨stream.calls ++ (ascendingAttributes element.attributes).map
        (fun a => XmlWrite.writeAttribute a.1 a.2), stream.hasError⟩ := by
  unfold streamElementAttributes
  by_cases he : element.attributes.isEmpty = true
  · rw [if_pos he]
    have : element.attributes = [] := List.isEmpty_iff.1 he
    rw [this]
    simp [ascendingAttributes]
  · rw [if_neg he]
    simp only
    rw [foldl_assign_ascending _ h]
    have := foldl_write_calls ((ascendingAttributes element.attributes).map
      (fun a => XmlWrite.writeAttribute a.1 a.2)) stream
    rw [List.foldl_map] at this
    exact this

end MainWindow

namespace MainWindow

theorem ascendingAttributes_congr {a1 a2 : List (QString × QString)} (hp : a1.Perm a2)
    (h : (a1.map Prod.fst).Nodup) :
    ascendingAttributes a1 = ascendingAttributes a2 ∧ (a2.map Prod.fst).Nodup := by
  have h2 : (a2.map Prod.fst).Nodup := (hp.map Prod.fst).nodup_iff.1 h
  exact ⟨sorted_perm_eq
    ((ascendingAttributes_perm a1).trans (hp.trans (ascendingAttributes_perm a2).symm))
    (ascendingAttributes_sorted a1 h) (ascendingAttributes_sorted a2 h2), h2⟩

mutual
theorem recursivelySaveNodeCanonically_calls : ∀ (n : QDomNode) (stream : QXmlStreamWriter),
    stream.hasError = false → distinctAttributeNames n = true →
    recursivelySaveNodeCanonically stream n = ⟨stream.calls ++ canonicalWrites n, false⟩
  | .element t a c, stream, hs, hd => by
    simp only [distinctAttributeNames, Bool.and_eq_true, decide_eq_true_eq] at hd
    have hc := recursivelySaveNodeCanonically_children_calls c
    simp only [recursivelySaveNodeCanonically, hs, Bool.false_eq_true, if_false]
    rw [streamElementAttributes_calls _ (.element t a c) hd.1]
    rw [hc _ (by simp [QXmlStreamWriter.write, hs]) hd.2]
    simp [QXmlStreamWriter.write, canonicalWrites, QDomNode.attributes]
  | .comment v, stream, hs, _ => by
    simp [recursivelySaveNodeCanonically, hs, QXmlStreamWriter.write, canonicalWrites]
  | .text v, stream, hs, _ => by
    simp [recursivelySaveNodeCanonically, hs, QXmlStreamWriter.write, canonicalWrites]
  | .other, stream, hs, _ => by
    cases stream
    simp only at hs
    simp [recursivelySaveNodeCanonically, canonicalWrites, hs]
theorem recursivelySaveNodeCanonically_children_calls :
    ∀ (l : List QDomNode) (stream : QXmlStreamWriter),
    stream.hasError = false → distinctAttributeNames.children l = true →
    recursivelySaveNodeCanonically.children stream l =
      ⟨stream.calls ++ canonicalWrites.children l, false⟩
  | [], stream, hs, _ => by
    cases stream
    simp only at hs
    simp [recursivelySaveNodeCanonically.children, canonicalWrites.children, hs]
  | n :: rest, stream, hs, hd => by
    simp only [distinctAttributeNames.children, Bool.and_eq_true] at hd
    simp only [recursivelySaveNodeCanonically.children]
    rw [recursivelySaveNodeCanonically_calls n stream hs hd.1]
    rw [recursivelySaveNodeCanonically_children_calls rest _ rfl hd.2]
    simp [canonicalWrites.children]
end

theorem xmlDocumentToString_children_calls (l : List QDomNode) :
    ∀ (stream : QXmlStreamWriter), stream.hasError = false →
    distinctAttributeNames.children l = true →
    xmlDocumentToString.children stream l =
      ⟨stream.calls ++ canonicalWrites.children l, false⟩ := by
  induction l with
  | nil =>
    intro stream hs _
    cases stream
    simp only at hs
    simp [xmlDocumentToString.children, canonicalWrites.children, hs]
  | cons n rest ih =>
    intro stream hs hd
    simp only [distinctAttributeNames.children, Bool.and_eq_true] at hd
    simp only [xmlDocumentToString.children]
    rw [recursivelySaveNodeCanonically_calls n stream hs hd.1]
    simp only [Bool.false_eq_true, if_false]
    rw [ih _ rfl hd.2]
    simp [canonicalWrites.children]

theorem distinctAttributeNames_root (n : QDomNode) (h : distinctAttributeNames n = true) :
    (n.attributes.map Prod.fst).Nodup ∧ distinctAttributeNames.children n.childNodes = true := by
  cases n with
  | element t a c =>
    simpa [distinctAttributeNames, QDomNode.attributes, QDomNode.childNodes] using h
  | comment v => simp [QDomNode.attributes, QDomNode.childNodes, distinctAttributeNames.children]
  | text v => simp [QDomNode.attributes, QDomNode.childNodes, distinctAttributeNames.children]
  | other => simp [QDomNode.attributes, QDomNode.childNodes, distinctAttributeNames.children]

theorem xmlDocumentToString_stream_calls (document : QDomDocument)
    (h : distinctAttributeNames document.documentElement = true) :
    (xmlDocumentToString.stream document).calls = canonicalWrites.document document := by
  have hr := distinctAttributeNames_root _ h
  unfold xmlDocumentToString.stream
  simp only
  rw [streamElementAttributes_calls _ _ hr.1]
  rw [xmlDocumentToString_children_calls _ _ rfl hr.2]
  simp [QXmlStreamWriter.write, canonicalWrites.document]

mutual
theorem canonicalWrites_congr : ∀ (n1 n2 : QDomNode),
    distinctAttributeNames n1 = true → sameUpToAttributeOrder n1 n2 = true →
    canonicalWrites n1 = canonicalWrites n2 ∧ distinctAttributeNames n2 = true
  | .element t1 a1 c1, .element t2 a2 c2, hd, hs => by
    simp only [distinctAttributeNames, Bool.and_eq_true, decide_eq_true_eq] at hd
    simp only [sameUpToAttributeOrder, Bool.and_eq_true, decide_eq_true_eq] at hs
    have ha := ascendingAttributes_congr hs.1.2 hd.1
    have hc := canonicalWrites_children_congr c1 c2 hd.2 hs.2
    simp only [canonicalWrites, distinctAttributeNames, Bool.and_eq_true, decide_eq_true_eq]
    rw [ha.1, hc.1, hs.1.1]
    exact ⟨rfl, ha.2, hc.2⟩
  | .comment v1, .comment v2, _, hs => by
    simp only [sameUpToAttributeOrder, decide_eq_true_eq] at hs
    simp [canonicalWrites, distinctAttributeNames, hs]
  | .text v1, .text v2, _, hs => by
    simp only [sameUpToAttributeOrder, decide_eq_true_eq] at hs
    simp [canonicalWrites, distinctAttributeNames, hs]
  | .other, .other, _, _ => by
    simp [canonicalWrites, distinctAttributeNames]
  | .element _ _ _, .comment _, _, hs => by simp [sameUpToAttributeOrder] at hs
  | .element _ _ _, .text _, _, hs => by simp [sameUpToAttributeOrder] at hs
  | .element _ _ _, .other, _, hs => by simp [sameUpToAttributeOrder] at hs
  | .comment _, .element _ _ _, _, hs => by simp [sameUpToAttributeOrder] at hs
  | .comment _, .text _, _, hs => by simp [sameUpToAttributeOrder] at hs
  | .comment _, .other, _, hs => by simp [sameUpToAttributeOrder] at hs
  | .text _, .element _ _ _, _, hs => by simp [sameUpToAttributeOrder] at hs
  | .text _, .comment _, _, hs => by simp [sameUpToAttributeOrder] at hs
  | .text _, .other, _, hs => by simp [sameUpToAttributeOrder] at hs
  | .other, .element _ _ _, _, hs => by simp [sameUpToAttributeOrder] at hs
  | .other, .comment _, _, hs => by simp [sameUpToAttributeOrder] at hs
  | .other, .text _, _, hs => by simp [sameUpToAttributeOrder] at hs
theorem canonicalWrites_children_congr : ∀ (l1 l2 : List QDomNode),
    distinctAttributeNames.children l1 = true → sameUpToAttributeOrder.children l1 l2 = true →
    canonicalWrites.children l1 = canonicalWrites.children l2 ∧
      distinctAttributeNames.children l2 = true
  | [], [], _, _ => by simp [canonicalWrites.children, distinctAttributeNames.children]
  | n1 :: rest1, n2 :: rest2, hd, hs => by
    simp only [distinctAttributeNames.children, Bool.and_eq_true] at hd
    simp only [sameUpToAttributeOrder.children, Bool.and_eq_true] at hs
    have hn := canonicalWrites_congr n1 n2 hd.1 hs.1
    have hr := canonicalWrites_children_congr rest1 rest2 hd.2 hs.2
    simp only [canonicalWrites.children, distinctAttributeNames.children, Bool.and_eq_true]
    rw [hn.1, hr.1]
    exact ⟨rfl, hn.2, hr.2⟩
  | [], _ :: _, _, hs => by simp [sameUpToAttributeOrder.children] at hs
  | _ :: _, [], _, hs => by simp [sameUpToAttributeOrder.children] at hs
end

theorem canonicalWrites_document_congr (d1 d2 : QDomDocument)
    (hd : distinctAttributeNames d1.documentElement = true)
    (hs : sameUpToAttributeOrder d1.documentElement d2.documentElement = true) :
    canonicalWrites.document d1 = canonicalWrites.document d2 ∧
      distinctAttributeNames d2.documentElement = true := by
  have hn := canonicalWrites_congr _ _ hd hs
  refine ⟨?_, hn.2⟩
  cases d1 with
  | mk r1 =>
  cases d2 with
  | mk r2 =>
  cases r1 <;> cases r2 <;>
    simp only [sameUpToAttributeOrder, Bool.and_eq_true, decide_eq_true_eq,
      Bool.false_eq_true] at hs <;>
    simp only [canonicalWrites.document, QDomNode.tagName, QDomNode.attributes,
      QDomNode.childNodes]
  rename_i t1 a1 c1 t2 a2 c2
  simp only [distinctAttributeNames, Bool.and_eq_true, decide_eq_true_eq] at hd
  rw [(ascendingAttributes_congr hs.1.2 hd.1).1,
    (canonicalWrites_children_congr c1 c2 hd.2 hs.2).1, hs.1.1]

end MainWindow

/-! ## The workspace models under `onTreeNodeEdited` -/

namespace StdMap

variable {V : Type}

theorem findEntry_filter_ne (k k' : QString) (l : List (QString × V)) :
    findEntry k' (l.filter fun e => !decide (e.1 = k)) =
      if k' = k then none else findEntry k' l := by
  induction l with
  | nil => simp [findEntry]
  | cons e rest ih =>
    by_cases he : e.1 = k
    · rw [List.filter_cons_of_neg (by simp [he]), ih]
      by_cases hk : k' = k
      · simp [hk]
      · have : e.1 ≠ k' := by rw [he]; exact fun h => hk h.symm
        simp [hk, findEntry, this]
    · rw [List.filter_cons_of_pos (by simp [he])]
      simp only [findEntry]
      by_cases hek : e.1 = k'
      · have : k' ≠ k := by rw [← hek]; exact he
        simp [hek, this]
      · simp [hek, ih]

theorem find_erase (m : StdMap V) (k k' : QString) :
    (m.erase k).find k' = if k' = k then none else m.find k' :=
  findEntry_filter_ne k k' m.entries

end StdMap

namespace MainWindow

/-- What `subTreeExpand` leaves alone: every function of the window that does not depend on
the container of the tab. -/
theorem frame_subTreeExpand {X : Type} (g : MainWindow → X) (tab : QString)
    (hg : ∀ st c, g (setContainer tab c st) = g st)
    (st : MainWindow) (node : Nat) (option : SubtreeExpandOption) :
    g (st.subTreeExpand tab node option).state = g st := by
  unfold subTreeExpand
  repeat' first
    | split
    | dsimp only
  all_goals first
    | rfl
    | exact hg _ _

theorem frame_renameNode {X : Type} (g : MainWindow → X) (tab : QString)
    (hg : ∀ st c, g (setContainer tab c st) = g st)
    (new_ID : QString) (graphic_node : Nat) (st : MainWindow) :
    g (onTreeNodeEdited.renameNode tab new_ID graphic_node st).state = g st := by
  unfold onTreeNodeEdited.renameNode
  split
  · rfl
  · split
    · rfl
    · dsimp only
      apply Res.bind_frame
      · split
        · apply Res.bind_frame
          · exact frame_subTreeExpand g tab hg _ _ _
          · intro _ st1 h1; exact h1
        · rfl
      · intro _ st1 h1
        split
        · exact h1
        · split
          · split
            · show g (setContainer tab _ st1) = _
              rw [hg, h1]
            · apply Res.bind_frame
              · rw [frame_subTreeExpand g tab hg, hg, h1]
              · intro _ st3 h3; exact h3
          · show g (setContainer tab _ st1) = _
            rw [hg, h1]

theorem frame_renameNodes {X : Type} (g : MainWindow → X) (tab : QString)
    (hg : ∀ st c, g (setContainer tab c st) = g st)
    (new_ID : QString) (nodes : List Nat) (st : MainWindow) :
    g (onTreeNodeEdited.renameNodes tab new_ID nodes st).state = g st := by
  induction nodes generalizing st with
  | nil => rfl
  | cons a rest ih =>
    unfold onTreeNodeEdited.renameNodes
    apply Res.bind_frame
    · exact frame_renameNode g tab hg _ _ _
    · intro _ st1 h1
      rw [ih, h1]

theorem frame_renameTabs {X : Type} (g : MainWindow → X)
    (hg : ∀ tab st c, g (setContainer tab c st) = g st)
    (prev_ID new_ID : QString) (tabs : List QString) (st : MainWindow) :
    g (onTreeNodeEdited.renameTabs prev_ID new_ID tabs st).state = g st := by
  induction tabs generalizing st with
  | nil => rfl
  | cons tab rest ih =>
    unfold onTreeNodeEdited.renameTabs
    split
    · rfl
    · dsimp only
      apply Res.bind_frame
      · exact frame_renameNodes g tab (hg tab) _ _ _
      · intro _ st1 h1
        rw [ih, h1]

end MainWindow

namespace MainWindow

theorem onTreeNodeEdited_models (prev_ID new_ID : QString) (st : MainWindow) :
    (onTreeNodeEdited prev_ID new_ID st).state._workspace_models =
      (if isInNodeModels st._workspace_models prev_ID ||
          isInNodeModels st._workspace_models new_ID then
        ((if isInNodeModels st._workspace_models prev_ID then
            (if isInNodeModels st._workspace_models new_ID then
              st._workspace_models.erase new_ID else st._workspace_models).erase prev_ID
          else
            (if isInNodeModels st._workspace_models new_ID then
              st._workspace_models.erase new_ID else st._workspace_models)).insert new_ID
          (st._treenode_models.index new_ID).1)
      else st._workspace_models) ∧
    (onTreeNodeEdited prev_ID new_ID st).state._treenode_models =
      (if isInNodeModels st._workspace_models prev_ID ||
          isInNodeModels st._workspace_models new_ID then
        (st._treenode_models.index new_ID).2
      else st._treenode_models) := by
  have hframe := fun (tabs : List QString) (st3 : MainWindow) => frame_renameTabs
    (fun s : MainWindow => (s._workspace_models, s._treenode_models))
    (fun _ _ _ => rfl) prev_ID new_ID tabs st3
  unfold onTreeNodeEdited
  cases h1 : isInNodeModels st._workspace_models prev_ID <;>
  cases h2 : isInNodeModels st._workspace_models new_ID <;>
  simp only [Bool.false_eq_true, if_false, if_true, Bool.or_false, Bool.or_true, Bool.or_self,
    ↓reduceIte] <;>
  exact ⟨congrArg Prod.fst (hframe _ _), congrArg Prod.snd (hframe _ _)⟩

/-- The workspace models and the registered models after
`onTreeNodeEdited(prev_ID, new_ID)`, in the state in which the call ends, whether or not
a model is registered under `new_ID`: the read `_treenode_models[new_ID]` leaves the
registered models as they are when the ID is registered, and otherwise adds a
default-constructed model under `new_ID`. -/
theorem onTreeNodeEdited_models_spec (prev_ID new_ID : QString) (st : MainWindow) :
    (isInNodeModels st._workspace_models prev_ID = false →
      isInNodeModels st._workspace_models new_ID = false →
      (onTreeNodeEdited prev_ID new_ID st).state._workspace_models = st._workspace_models ∧
      (onTreeNodeEdited prev_ID new_ID st).state._treenode_models = st._treenode_models) ∧
    (isInNodeModels st._workspace_models prev_ID = true ∨
        isInNodeModels st._workspace_models new_ID = true →
      (onTreeNodeEdited prev_ID new_ID st).state._workspace_models.find new_ID =
        (onTreeNodeEdited prev_ID new_ID st).state._treenode_models.find new_ID ∧
      (onTreeNodeEdited prev_ID new_ID st).state._workspace_models.find new_ID ≠ none ∧
      (prev_ID ≠ new_ID →
        (onTreeNodeEdited prev_ID new_ID st).state._workspace_models.find prev_ID = none) ∧
      (∀ ID, ID ≠ prev_ID → ID ≠ new_ID →
        (onTreeNodeEdited prev_ID new_ID st).state._workspace_models.find ID =
          st._workspace_models.find ID) ∧
      (isInNodeModels st._treenode_models new_ID = true →
        (onTreeNodeEdited prev_ID new_ID st).state._treenode_models = st._treenode_models) ∧
      (isInNodeModels st._treenode_models new_ID = false →
        (onTreeNodeEdited prev_ID new_ID st).state._treenode_models =
          st._treenode_models.insert new_ID default)) := by
  obtain ⟨hw, ht⟩ := onTreeNodeEdited_models prev_ID new_ID st
  rw [hw, ht]
  refine ⟨?_, ?_⟩
  · intro h1 h2
    simp [h1, h2]
  · intro h
    have hor : (isInNodeModels st._workspace_models prev_ID ||
        isInNodeModels st._workspace_models new_ID) = true := by
      rcases h with h | h <;> simp [h]
    rw [if_pos hor, if_pos hor]
    -- the workspace without the two IDs
    have herase : ∀ ID : QString,
        (if isInNodeModels st._workspace_models prev_ID = true then
            (if isInNodeModels st._workspace_models new_ID = true then
              st._workspace_models.erase new_ID else st._workspace_models).erase prev_ID
          else
            (if isInNodeModels st._workspace_models new_ID = true then
              st._workspace_models.erase new_ID else st._workspace_models)).find ID =
          if ID = prev_ID ∨ ID = new_ID then none else st._workspace_models.find ID := by
      intro ID
      cases h1 : isInNodeModels st._workspace_models prev_ID <;>
      cases h2 : isInNodeModels st._workspace_models new_ID <;>
      simp only [Bool.false_eq_true, if_false, if_true, ↓reduceIte, StdMap.find_erase]
      · have n1 : st._workspace_models.find prev_ID = none := by
          simpa [isInNodeModels] using h1
        have n2 : st._workspace_models.find new_ID = none := by
          simpa [isInNodeModels] using h2
        by_cases e1 : ID = prev_ID
        · simp [e1, n1]
        · by_cases e2 : ID = new_ID
          · simp [e2, n2]
          · simp [e1, e2]
      · have n1 : st._workspace_models.find prev_ID = none := by
          simpa [isInNodeModels] using h1
        by_cases e2 : ID = new_ID
        · simp [e2]
        · by_cases e1 : ID = prev_ID
          · simp [e1, e2, n1]
          · simp [e1, e2]
      · have n2 : st._workspace_models.find new_ID = none := by
          simpa [isInNodeModels] using h2
        by_cases e1 : ID = prev_ID
        · simp [e1]
        · by_cases e2 : ID = new_ID
          · simp [e1, e2, n2]
          · simp [e1, e2]
      · by_cases e1 : ID = prev_ID
        · simp [e1]
        · by_cases e2 : ID = new_ID
          · simp [e1, e2]
          · simp [e1, e2]
    have hindex : (st._treenode_models.index new_ID).2.find new_ID =
        some (st._treenode_models.index new_ID).1 := by
      unfold StdMap.index
      cases hf : st._treenode_models.find new_ID with
      | some v => simp [hf]
      | none => simp [hf, StdMap.find_insert]
    refine ⟨?_, ?_, ?_, ?_, ?_, ?_⟩
    · rw [StdMap.find_insert, herase, hindex]
      simp
    · rw [StdMap.find_insert, herase]
      simp
    · intro hne
      simp [StdMap.find_insert, herase, hne]
    · intro ID h1 h2
      simp [StdMap.find_insert, herase, h1, h2]
    · intro hreg
      unfold StdMap.index
      cases hf : st._treenode_models.find new_ID with
      | some v => rfl
      | none => simp [isInNodeModels, hf] at hreg
    · intro hreg
      unfold StdMap.index
      cases hf : st._treenode_models.find new_ID with
      | some v => simp [isInNodeModels, hf] at hreg
      | none => rfl

/-- C29: the workspace models and the registered models after
`onTreeNodeEdited(prev_ID, new_ID)`, in the state in which the call ends, for all IDs
`prev_ID` and `new_ID` such that a model is registered under `new_ID`, as it is when the
function is called after `onAddToModelRegistry`.  If neither ID was a workspace model, the
workspace map is unchanged.  Otherwise the workspace maps `new_ID` to the model registered
under `new_ID`, has no entry for `prev_ID` when the two IDs differ, and keeps the entry of
every other ID.  In both cases the registered models are unchanged. -/
theorem onTreeNodeEdited_workspace_models (prev_ID new_ID : QString) (st : MainWindow)
    (model : NodeModel) (hreg : st._treenode_models.find new_ID = some model) :
    (isInNodeModels st._workspace_models prev_ID = false →
      isInNodeModels st._workspace_models new_ID = false →
      (onTreeNodeEdited prev_ID new_ID st).state._workspace_models = st._workspace_models) ∧
    (isInNodeModels st._workspace_models prev_ID = true ∨
        isInNodeModels st._workspace_models new_ID = true →
      (onTreeNodeEdited prev_ID new_ID st).state._workspace_models.find new_ID = some model ∧
      (prev_ID ≠ new_ID →
        (onTreeNodeEdited prev_ID new_ID st).state._workspace_models.find prev_ID = none) ∧
      (∀ ID, ID ≠ prev_ID → ID ≠ new_ID →
        (onTreeNodeEdited prev_ID new_ID st).state._workspace_models.find ID =
          st._workspace_models.find ID)) ∧
    (onTreeNodeEdited prev_ID new_ID st).state._treenode_models = st._treenode_models := by
  have hin : isInNodeModels st._treenode_models new_ID = true := by
    simp [isInNodeModels, hreg]
  obtain ⟨g1, g2⟩ := onTreeNodeEdited_models_spec prev_ID new_ID st
  refine ⟨fun h1 h2 => (g1 h1 h2).1, ?_, ?_⟩
  · intro h
    obtain ⟨a1, _, a3, a4, a5, _⟩ := g2 h
    refine ⟨?_, a3, a4⟩
    rw [a1, a5 hin]
    exact hreg
  · cases h1 : isInNodeModels st._workspace_models prev_ID with
    | true => exact (g2 (Or.inl h1)).2.2.2.2.1 hin
    | false =>
      cases h2 : isInNodeModels st._workspace_models new_ID with
      | true => exact (g2 (Or.inr h2)).2.2.2.2.1 hin
      | false => exact (g1 h1 h2).2

/-- Witness for C29: the workspace model `Old` is renamed to `New`, and the action model is
registered under `New`. -/
theorem onTreeNodeEdited_workspace_models_witness :
    (isInNodeModels Sample.workspaceWindow._workspace_models "Old" = true ∨
        isInNodeModels Sample.workspaceWindow._workspace_models "New" = true) ∧
    (onTreeNodeEdited "Old" "New"
      { Sample.workspaceWindow with
        _treenode_models := (StdMap.empty : NodeModels).insert "New" Sample.actModel }
      ).state._workspace_models.find "New" = some Sample.actModel ∧
    (onTreeNodeEdited "Old" "New"
      { Sample.workspaceWindow with
        _treenode_models := (StdMap.empty : NodeModels).insert "New" Sample.actModel }
      ).state._workspace_models.find "Old" = none ∧
    (onTreeNodeEdited "Old" "New"
      { Sample.workspaceWindow with
        _treenode_models := (StdMap.empty : NodeModels).insert "New" Sample.actModel }
      ).state._treenode_models = (StdMap.empty : NodeModels).insert "New" Sample.actModel :=
  ⟨Or.inl (by decide),
    ((onTreeNodeEdited_workspace_models "Old" "New"
      { Sample.workspaceWindow with
        _treenode_models := (StdMap.empty : NodeModels).insert "New" Sample.actModel }
      Sample.actModel (by decide)).2.1 (Or.inl (by decide))).1,
    ((onTreeNodeEdited_workspace_models "Old" "New"
      { Sample.workspaceWindow with
        _treenode_models := (StdMap.empty : NodeModels).insert "New" Sample.actModel }
      Sample.actModel (by decide)).2.1 (Or.inl (by decide))).2.1 (by decide),
    (onTreeNodeEdited_workspace_models "Old" "New"
      { Sample.workspaceWindow with
        _treenode_models := (StdMap.empty : NodeModels).insert "New" Sample.actModel }
      Sample.actModel (by decide)).2.2⟩

end MainWindow

/-! ## Scenes under the branches of `subTreeExpand` -/

namespace FlowScene

theorem mem_childrenOf (s : FlowScene) (u c : Nat) :
    c ∈ s.childrenOf u ↔ ∃ k ∈ s.connections, k.out_node = u ∧ k.in_node = c := by
  simp only [childrenOf, List.mem_map, List.mem_filter, beq_iff_eq]
  constructor
  · rintro ⟨k, ⟨hk, ho⟩, hi⟩
    exact ⟨k, hk, ho, hi⟩
  · rintro ⟨k, hk, ho, hi⟩
    exact ⟨k, ⟨hk, ho⟩, hi⟩

/-- A traversal that starts outside a set that is closed under parents stays outside it. -/
theorem reachable_avoid (s : FlowScene) (P : List Nat)
    (hP : ∀ k ∈ s.connections, k.in_node ∈ P → k.out_node ∈ P) :
    ∀ (F : Nat) (todo acc : List Nat), (∀ u ∈ todo, u ∉ P) → (∀ u ∈ acc, u ∉ P) →
      ∀ u ∈ s.reachable F todo acc, u ∉ P := by
  intro F
  induction F with
  | zero =>
    intro todo acc _ hacc u hu
    simp only [reachable] at hu
    exact hacc u hu
  | succ F ih =>
    intro todo acc htodo hacc u hu
    cases todo with
    | nil =>
      simp only [reachable] at hu
      exact hacc u hu
    | cons v rest =>
      simp only [reachable] at hu
      split at hu
      · exact ih rest acc (fun x hx => htodo x (List.mem_cons_of_mem _ hx)) hacc u hu
      · refine ih _ _ ?_ ?_ u hu
        · intro x hx
          rcases List.mem_append.1 hx with h | h
          · intro hxP
            obtain ⟨k, hk, ho, hi⟩ := (mem_childrenOf s v x).1 h
            have := hP k hk (by rw [hi]; exact hxP)
            rw [ho] at this
            exact htodo v (List.mem_cons_self _ _) this
          · exact htodo x (List.mem_cons_of_mem _ h)
        · intro x hx
          rcases List.mem_append.1 hx with h | h
          · exact hacc x h
          · rw [List.mem_singleton] at h
            rw [h]
            exact htodo v (List.mem_cons_self _ _)

theorem reachable_acc (s : FlowScene) :
    ∀ (F : Nat) (todo acc : List Nat), ∀ u ∈ acc, u ∈ s.reachable F todo acc := by
  intro F
  induction F with
  | zero => intro todo acc u hu; simp only [reachable]; exact hu
  | succ F ih =>
    intro todo acc u hu
    cases todo with
    | nil => simp only [reachable]; exact hu
    | cons v rest =>
      simp only [reachable]
      split
      · exact ih _ _ u hu
      · exact ih _ _ u (List.mem_append_left _ hu)

theorem reachable_head (s : FlowScene) (F : Nat) (v : Nat) (todo acc : List Nat) :
    v ∈ s.reachable (F + 1) (v :: todo) acc := by
  simp only [reachable]
  split
  · rename_i h
    exact reachable_acc s _ _ _ v h
  · exact reachable_acc s _ _ _ v (List.mem_append_right _ (List.mem_singleton_self v))

/-- The nodes of a guarded list are not reached from the children of a node outside the
list of ancestors. -/
theorem guarded_avoid (s : FlowScene) (P Q : List Nat) (hg : s.guarded P Q) (h : Nat)
    (hh : h ∉ Q) (F : Nat) (todo : List Nat) (htodo : ∀ c ∈ todo, c ∈ s.childrenOf h) :
    ∀ u ∈ s.reachable F todo [], u ∉ P := by
  refine reachable_avoid s P (fun k hk hin => hg.2.1 _ (hg.2.2 k hk hin)) F todo [] ?_
    (fun _ hu => absurd hu (List.not_mem_nil _))
  intro c hc hcP
  obtain ⟨k, hk, ho, hi⟩ := (mem_childrenOf s h c).1 (htodo c hc)
  have := hg.2.2 k hk (by rw [hi]; exact hcP)
  rw [ho] at this
  exact hh this

theorem find_filter_of_imp (l : List Node) (p : Node → Bool) (u : Nat)
    (h : ∀ n ∈ l, n.uid = u → p n = true) :
    (l.filter p).find? (fun n => n.uid == u) = l.find? (fun n => n.uid == u) := by
  induction l with
  | nil => rfl
  | cons a rest ih =>
    have ih2 := ih (fun n hn => h n (List.mem_cons_of_mem _ hn))
    by_cases ha : a.uid = u
    · have hp := h a (List.mem_cons_self _ _) ha
      rw [List.filter_cons_of_pos hp]
      simp [List.find?_cons, ha]
    · by_cases hp : p a = true
      · rw [List.filter_cons_of_pos hp]
        simp only [List.find?_cons]
        have : (a.uid == u) = false := by simpa using ha
        rw [this]
        exact ih2
      · rw [List.filter_cons_of_neg hp]
        simp only [List.find?_cons]
        have : (a.uid == u) = false := by simpa using ha
        rw [this]
        exact ih2

theorem findNode_removeNodes (s : FlowScene) (D : List Nat) (u : Nat) (h : u ∉ D) :
    (s.removeNodes D).findNode u = s.findNode u := by
  unfold findNode removeNodes
  apply find_filter_of_imp
  intro n _ hn
  simp [hn, h]

theorem findNode_removeNodes_mem (s : FlowScene) (D : List Nat) (u : Nat) (h : u ∈ D) :
    (s.removeNodes D).findNode u = none := by
  unfold findNode removeNodes
  rw [List.find?_eq_none]
  intro n hn
  simp only [List.mem_filter] at hn
  intro hu
  have hu2 : n.uid = u := by simpa using hu
  rw [hu2] at hn
  simp [h] at hn

theorem childrenOf_removeNodes (s : FlowScene) (D : List Nat) (u : Nat) (h : u ∉ D) :
    (s.removeNodes D).childrenOf u = (s.childrenOf u).filter fun c => !D.contains c := by
  unfold childrenOf removeNodes
  simp only [List.filter_filter, List.filter_map]
  congr 1
  apply List.filter_congr
  intro k _
  by_cases hk : k.out_node = u
  · simp [hk, h]
  · have : (k.out_node == u) = false := by simpa using hk
    simp [this]

theorem mem_connections_removeNodes (s : FlowScene) (D : List Nat) (k : Connection) :
    k ∈ (s.removeNodes D).connections ↔
      k ∈ s.connections ∧ k.out_node ∉ D ∧ k.in_node ∉ D := by
  simp [removeNodes, List.mem_filter]

theorem findNode_mapNodes (s : FlowScene) (g : Node → Node) (hg : ∀ m, (g m).uid = m.uid)
    (u : Nat) :
    ({ s with nodes := s.nodes.map g } : FlowScene).findNode u = (s.findNode u).map g := by
  unfold findNode
  simp only
  induction s.nodes with
  | nil => rfl
  | cons a rest ih =>
    simp only [List.map_cons, List.find?_cons, hg]
    cases h : (a.uid == u)
    · exact ih
    · rfl

theorem keeps_refl (s : FlowScene) (P : List Nat) : keeps s s P :=
  ⟨fun _ _ => rfl, fun _ hk _ => hk, fun _ _ => ⟨fun _ => true, fun _ _ => rfl, by simp⟩,
    fun _ hk _ _ => hk⟩

theorem keeps_trans (s s2 s3 : FlowScene) (P : List Nat) (h1 : keeps s s2 P)
    (h2 : keeps s2 s3 P) : keeps s s3 P := by
  refine ⟨fun u hu => (h2.1 u hu).trans (h1.1 u hu),
    fun k hk hin => h1.2.1 k (h2.2.1 k hk hin) hin, ?_,
    fun k hk hin hout => h2.2.2.2 k (h1.2.2.2 k hk hin hout) hin hout⟩
  intro u hu
  obtain ⟨k1, hk1, e1⟩ := h1.2.2.1 u hu
  obtain ⟨k2, hk2, e2⟩ := h2.2.2.1 u hu
  refine ⟨fun x => k1 x && k2 x, fun x hx => by simp [hk1 x hx, hk2 x hx], ?_⟩
  rw [e2, e1, List.filter_filter]
  apply List.filter_congr
  intro x _
  exact Bool.and_comm _ _

theorem keeps_mono (s s2 : FlowScene) (P P2 : List Nat) (h : keeps s s2 P)
    (hsub : ∀ u ∈ P2, u ∈ P) : keeps s s2 P2 := by
  refine ⟨fun u hu => h.1 u (hsub u hu), fun k hk hin => h.2.1 k hk (hsub _ hin), ?_,
    fun k hk hin hout => h.2.2.2 k hk (hsub _ hin) (hsub _ hout)⟩
  intro u hu
  obtain ⟨k1, hk1, e1⟩ := h.2.2.1 u (hsub u hu)
  exact ⟨k1, fun x hx => hk1 x (hsub x hx), e1⟩

theorem guarded_of_keeps (s s2 : FlowScene) (P Q : List Nat) (hg : s.guarded P Q)
    (hk : keeps s s2 P) : s2.guarded P Q :=
  ⟨fun u hu => by rw [hk.1 u hu]; exact hg.1 u hu, hg.2.1,
    fun k hk2 hin => hg.2.2 k (hk.2.1 k hk2 hin) hin⟩

theorem keeps_removeNodes (s : FlowScene) (D P : List Nat) (h : ∀ u ∈ P, u ∉ D) :
    keeps s (s.removeNodes D) P := by
  refine ⟨fun u hu => findNode_removeNodes s D u (h u hu),
    fun k hk _ => ((mem_connections_removeNodes s D k).1 hk).1, ?_,
    fun k hk hin hout => (mem_connections_removeNodes s D k).2 ⟨hk, h _ hout, h _ hin⟩⟩
  intro u hu
  refine ⟨fun c => !D.contains c, fun x hx => by simpa using h x hx, ?_⟩
  exact childrenOf_removeNodes s D u (h u hu)

theorem keeps_updateNode (s : FlowScene) (node : Nat) (f : Node → Node)
    (hf : ∀ m, (f m).uid = m.uid) (P : List Nat) (h : node ∉ P) :
    keeps s (s.updateNode node f) P := by
  refine ⟨?_, fun _ hk _ => hk, fun _ _ => ⟨fun _ => true, fun _ _ => rfl, by
    simp [updateNode, childrenOf]⟩, fun _ hk _ _ => hk⟩
  intro u hu
  rw [findNode_updateNode s node f hf u]
  cases hfn : s.findNode u with
  | none => rfl
  | some n =>
    have hne : n.uid ≠ node := by
      rw [(findNode_some s u n hfn).2]
      intro he
      exact h (he ▸ hu)
    simp [hne]

theorem keeps_mapNodes (s : FlowScene) (g : Node → Node) (hg : ∀ m, (g m).uid = m.uid)
    (P : List Nat) (h : ∀ m, m.uid ∈ P → g m = m) :
    keeps s { s with nodes := s.nodes.map g } P := by
  refine ⟨?_, fun _ hk _ => hk, fun _ _ => ⟨fun _ => true, fun _ _ => rfl, by
    simp [childrenOf]⟩, fun _ hk _ _ => hk⟩
  intro u hu
  rw [findNode_mapNodes s g hg u]
  cases hfn : s.findNode u with
  | none => rfl
  | some n =>
    have : n.uid ∈ P := by rw [(findNode_some s u n hfn).2]; exact hu
    simp [h n this]

end FlowScene

namespace GraphicContainer

open FlowScene

theorem keeps_append (c : GraphicContainer) (node : Nat) (tree : AbsBehaviorTree)
    (P : List Nat) (hP : ∀ u ∈ P, (c.scene.findNode u).isSome) (hnode : node ∉ P) :
    keeps c.scene (c.appendTreeToNode node tree).scene P := by
  have hlt : ∀ u ∈ P, u < c.scene.freshUid := fun u hu =>
    lt_freshUid_of_findNode c.scene u (hP u hu)
  have hnew : ∀ k ∈ (if tree.nodes.isEmpty then [] else [(⟨node, c.scene.freshUid⟩ : Connection)]) ++
      copyConnections c.scene.freshUid 0 tree.nodes,
      (k.out_node = node ∨ c.scene.freshUid ≤ k.out_node) ∧ c.scene.freshUid ≤ k.in_node := by
    intro k hk
    rcases List.mem_append.1 hk with h | h
    · split at h
      · exact absurd h (List.not_mem_nil _)
      · rw [List.mem_singleton] at h
        subst h
        exact ⟨Or.inl rfl, Nat.le_refl _⟩
    · obtain ⟨i, a, _, ho, j, _, hi⟩ := copyConnections_mem _ _ _ _ h
      exact ⟨Or.inr (by omega), by omega⟩
  refine ⟨?_, ?_, ?_, ?_⟩
  rotate_left 3
  · intro k hk _ _
    show k ∈ c.scene.connections ++ _ ++ _
    exact List.mem_append_left _ (List.mem_append_left _ hk)
  · intro u hu
    show (c.scene.nodes ++ _).find? _ = _
    rw [List.find?_append]
    have := hP u hu
    unfold findNode at this ⊢
    cases hf : c.scene.nodes.find? fun n => n.uid == u with
    | none => rw [hf] at this; exact absurd this (by decide)
    | some n => rfl
  · intro k hk hin
    have hk2 : k ∈ c.scene.connections ++
        ((if tree.nodes.isEmpty then [] else [(⟨node, c.scene.freshUid⟩ : Connection)]) ++
          copyConnections c.scene.freshUid 0 tree.nodes) := by
      rw [← List.append_assoc]
      exact hk
    rcases List.mem_append.1 hk2 with h | h
    · exact h
    · have := (hnew k h).2
      have := hlt _ hin
      omega
  · intro u hu
    refine ⟨fun _ => true, fun _ _ => rfl, ?_⟩
    have hne : u ≠ node := fun h => hnode (h ▸ hu)
    have hl := hlt u hu
    show ((c.scene.connections ++ _ ++ _).filter _).map _ = _
    rw [List.append_assoc, List.filter_append, List.map_append]
    have hnil : (((if tree.nodes.isEmpty then [] else [(⟨node, c.scene.freshUid⟩ : Connection)]) ++
        copyConnections c.scene.freshUid 0 tree.nodes).filter fun k => k.out_node == u) = [] := by
      rw [List.filter_eq_nil_iff]
      intro k hk
      have := (hnew k hk).1
      simp only [beq_iff_eq]
      rcases this with h | h
      · rw [h]; exact fun h2 => hne h2.symm
      · omega
    rw [hnil]
    simp [childrenOf]

theorem lock_keeps (c : GraphicContainer) (node : Nat) (locked : Bool) (P Q : List Nat)
    (hg : c.scene.guarded P Q) (hn : node ∉ Q) :
    keeps c.scene (c.lockSubtreeEditing node locked).scene P := by
  have havoid := guarded_avoid c.scene P Q hg node hn c.scene.fuel (c.scene.childrenOf node)
    (fun _ h => h)
  apply keeps_mapNodes
  · intro m
    split <;> rfl
  · intro m hm
    have : ¬ (c.scene.descendants node).contains m.uid = true := by
      intro hc
      exact havoid m.uid (by simpa [descendants] using hc) hm
    simp only [this]
    rfl

theorem delete_keeps (c : GraphicContainer) (node child : Nat) (P Q : List Nat)
    (hg : c.scene.guarded P Q) (hn : node ∉ Q) (hc : child ∈ c.scene.childrenOf node) :
    keeps c.scene (c.deleteSubTreeRecursively child).scene P := by
  apply keeps_removeNodes
  intro u hu hD
  exact guarded_avoid c.scene P Q hg node hn c.scene.fuel [child]
    (fun x hx => by rw [List.mem_singleton] at hx; rw [hx]; exact hc) u hD hu

theorem collapsed_keeps (c : GraphicContainer) (node : Nat) (P Q : List Nat)
    (hg : c.scene.guarded P Q) (hn : node ∉ P) :
    keeps c.scene (c.collapsed node).scene P := by
  have hnQ : node ∉ Q := fun h => hn (hg.2.1 _ h)
  have hupd : ∀ c1 : GraphicContainer, c1.scene.guarded P Q →
      keeps c1.scene
        (lockSubtreeEditing { c1 with scene := c1.scene.updateNode node fun m =>
          { m with expanded := false, out_ports := 0 } } node false).scene P := by
    intro c1 hg1
    have h2 := keeps_updateNode c1.scene node
      (fun m => { m with expanded := false, out_ports := 0 }) (fun _ => rfl) P hn
    exact keeps_trans _ _ _ P h2
      (lock_keeps { c1 with scene := c1.scene.updateNode node fun m =>
        { m with expanded := false, out_ports := 0 } } node false P Q
        (guarded_of_keeps _ _ P Q hg1 h2) hnQ)
  unfold collapsed
  cases hch : c.scene.childrenOf node with
  | nil => exact hupd c hg
  | cons child rest =>
    cases rest with
    | nil =>
      have h1 := delete_keeps c node child P Q hg hnQ (by rw [hch]; exact List.mem_singleton_self _)
      exact keeps_trans _ _ _ P h1
        (hupd (c.deleteSubTreeRecursively child) (guarded_of_keeps _ _ P Q hg h1))
    | cons c2 rest2 => exact hupd c hg

theorem refreshed_keeps (c : GraphicContainer) (node child : Nat) (tree : AbsBehaviorTree)
    (P Q : List Nat) (hg : c.scene.guarded P Q) (hn : node ∉ P)
    (hc : child ∈ c.scene.childrenOf node) :
    keeps c.scene (c.refreshed node child tree).scene P := by
  have hnQ : node ∉ Q := fun h => hn (hg.2.1 _ h)
  have h1 := delete_keeps c node child P Q hg hnQ hc
  have g1 := guarded_of_keeps _ _ P Q hg h1
  have h2 := keeps_append (c.deleteSubTreeRecursively child) node tree P g1.1 hn
  have g2 := guarded_of_keeps _ _ P Q g1 h2
  have h3 := lock_keeps ((c.deleteSubTreeRecursively child).appendTreeToNode node tree) node
    true P Q g2 hnQ
  exact keeps_trans _ _ _ P h1 (keeps_trans _ _ _ P h2 h3)

theorem expandedWith_keeps (c : GraphicContainer) (node : Nat) (tree : AbsBehaviorTree)
    (P Q : List Nat) (hg : c.scene.guarded P Q) (hn : node ∉ P) :
    keeps c.scene (c.expandedWith node tree).scene P := by
  have hnQ : node ∉ Q := fun h => hn (hg.2.1 _ h)
  have h1 := keeps_updateNode c.scene node
    (fun m => { m with expanded := true, out_ports := 1 }) (fun _ => rfl) P hn
  have g1 := guarded_of_keeps _ _ P Q hg h1
  have h2 := keeps_append { c with scene := c.scene.updateNode node fun m =>
    { m with expanded := true, out_ports := 1 } } node tree P g1.1 hn
  have g2 := guarded_of_keeps _ _ P Q g1 h2
  have h3 := lock_keeps (appendTreeToNode { c with scene := c.scene.updateNode node fun m =>
    { m with expanded := true, out_ports := 1 } } node tree) node true P Q g2 hnQ
  have h := keeps_trans _ _ _ P h1 (keeps_trans _ _ _ P h2 h3)
  unfold expandedWith
  split
  · exact h
  · exact h

end GraphicContainer

namespace GraphicContainer

open FlowScene

theorem collapsed_connections (c : GraphicContainer) (A : Nat) :
    ∀ k ∈ (c.collapsed A).scene.connections, k ∈ c.scene.connections := by
  intro k hk
  unfold collapsed at hk
  cases hch : c.scene.childrenOf A with
  | nil => rw [hch] at hk; exact hk
  | cons child rest =>
    cases rest with
    | nil =>
      rw [hch] at hk
      exact ((mem_connections_removeNodes c.scene _ k).1 hk).1
    | cons c2 rest2 => rw [hch] at hk; exact hk

/-- The node that is collapsed, when it is not among its own ancestors and has at most one
output connection. -/
theorem collapsed_own (c : GraphicContainer) (A : Nat) (Q : List Nat) (n : Node)
    (hg : c.scene.guarded (A :: Q) Q) (hA : A ∉ Q) (hn : c.scene.findNode A = some n)
    (hone : (c.scene.childrenOf A).length ≤ 1) :
    (c.collapsed A).scene.findNode A = some { n with expanded := false, out_ports := 0 } ∧
    (c.collapsed A).scene.childrenOf A = [] ∧
    keeps c.scene (c.collapsed A).scene Q ∧
    (c.collapsed A).scene.guarded (A :: Q) Q := by
  have hgQ : c.scene.guarded Q Q :=
    ⟨fun u hu => hg.1 u (List.mem_cons_of_mem _ hu), fun _ h => h,
      fun k hk hin => hg.2.2 k hk (List.mem_cons_of_mem _ hin)⟩
  have hkeepsQ := collapsed_keeps c A Q Q hgQ hA
  -- the scene after the deletion
  have hstep : ∀ c1 : GraphicContainer, c1.scene.findNode A = some n →
      c1.scene.childrenOf A = [] →
      (lockSubtreeEditing { c1 with scene := c1.scene.updateNode A fun m =>
          { m with expanded := false, out_ports := 0 } } A false).scene.findNode A =
        some { n with expanded := false, out_ports := 0 } ∧
      (lockSubtreeEditing { c1 with scene := c1.scene.updateNode A fun m =>
          { m with expanded := false, out_ports := 0 } } A false).scene.childrenOf A = [] := by
    intro c1 hn1 hch1
    have hlock := lockSubtreeEditing_of_no_children
      { c1 with scene := c1.scene.updateNode A fun m =>
        { m with expanded := false, out_ports := 0 } } A false hch1
    rw [hlock]
    exact ⟨findNode_updateNode_self c1.scene A
      (fun m => { m with expanded := false, out_ports := 0 }) (fun _ => rfl) n hn1, hch1⟩
  have hfacts : (c.collapsed A).scene.findNode A =
        some { n with expanded := false, out_ports := 0 } ∧
      (c.collapsed A).scene.childrenOf A = [] := by
    unfold collapsed
    cases hch : c.scene.childrenOf A with
    | nil => exact hstep c hn hch
    | cons child rest =>
      cases rest with
      | nil =>
        have hk1 := delete_keeps c A child (A :: Q) Q hg hA
          (by rw [hch]; exact List.mem_singleton_self _)
        have hn1 : (c.deleteSubTreeRecursively child).scene.findNode A = some n := by
          rw [hk1.1 A (List.mem_cons_self _ _), hn]
        have hAD : A ∉ c.scene.reachable c.scene.fuel [child] [] := fun hD =>
          guarded_avoid c.scene (A :: Q) Q hg A hA c.scene.fuel [child]
            (fun x hx => by
              rw [List.mem_singleton] at hx; rw [hx, hch]; exact List.mem_singleton_self _)
            A hD (List.mem_cons_self _ _)
        have hcD : child ∈ c.scene.reachable c.scene.fuel [child] [] := by
          have : c.scene.fuel = (c.scene.nodes.length + 2 * c.scene.connections.length + 1) + 1 :=
            rfl
          rw [this]
          exact reachable_head c.scene _ child [] []
        have hch1 : (c.deleteSubTreeRecursively child).scene.childrenOf A = [] := by
          show (c.scene.removeNodes _).childrenOf A = []
          rw [childrenOf_removeNodes c.scene _ A hAD, hch]
          simp [hcD]
        exact hstep (c.deleteSubTreeRecursively child) hn1 hch1
      | cons c2 rest2 =>
        rw [hch] at hone
        simp at hone
  refine ⟨hfacts.1, hfacts.2, hkeepsQ, ?_, hg.2.1, ?_⟩
  · intro u hu
    rcases List.mem_cons.1 hu with h | h
    · rw [h, hfacts.1]; rfl
    · rw [hkeepsQ.1 u h]; exact hg.1 u hu
  · intro k hk hin
    exact hg.2.2 k (collapsed_connections c A k hk) hin

/-- The node that was collapsed is not expanded, if it is still there. -/
theorem collapsed_expanded (c : GraphicContainer) (A : Nat) (n2 : Node)
    (h : (c.collapsed A).scene.findNode A = some n2) : n2.expanded = false := by
  have hstep : ∀ c1 : GraphicContainer,
      (lockSubtreeEditing { c1 with scene := c1.scene.updateNode A fun m =>
          { m with expanded := false, out_ports := 0 } } A false).scene.findNode A = some n2 →
      n2.expanded = false := by
    intro c1 h1
    have h2 : (lockSubtreeEditing { c1 with scene := c1.scene.updateNode A fun m =>
          { m with expanded := false, out_ports := 0 } } A false).scene.findNode A =
        ((c1.scene.updateNode A fun m =>
          { m with expanded := false, out_ports := 0 }).findNode A).map _ :=
      findNode_mapNodes _ _ (by intro m; split <;> rfl) A
    rw [h2, findNode_updateNode c1.scene A
      (fun m => { m with expanded := false, out_ports := 0 }) (fun _ => rfl) A] at h1
    cases hf : c1.scene.findNode A with
    | none => rw [hf] at h1; simp at h1
    | some n0 =>
      rw [hf] at h1
      have hu := (findNode_some c1.scene A n0 hf).2
      simp only [Option.map_some', hu, if_true, Option.some.injEq] at h1
      rw [← h1]
      split <;> rfl
  unfold collapsed at h
  cases hch : c.scene.childrenOf A with
  | nil => rw [hch] at h; exact hstep c h
  | cons child rest =>
    cases rest with
    | nil => rw [hch] at h; exact hstep _ h
    | cons c2 rest2 => rw [hch] at h; exact hstep c h

end GraphicContainer

namespace MainWindow

open FlowScene GraphicContainer

theorem subTreeExpand_collapse_eq (st : MainWindow) (tab : QString) (node : Nat)
    (c : GraphicContainer) (n : Node)
    (htab : st.getTabByName tab = some c) (hn : c.scene.findNode node = some n)
    (htype : n.model.type = .SUBTREE) (hexp : n.expanded = true) :
    st.subTreeExpand tab node .SUBTREE_COLLAPSE =
      .ok (some node) (st.setContainer tab (c.collapsed node)) := by
  unfold subTreeExpand
  simp only [htab, hn, htype, hexp, ne_eq, not_true_eq_false, if_false,
    Bool.true_eq_false, and_false, and_self, if_true, reduceCtorEq, false_and]
  rfl

theorem subTreeExpand_refresh_eq (st : MainWindow) (tab : QString) (node child : Nat)
    (c cR : GraphicContainer) (n : Node)
    (htab : st.getTabByName tab = some c) (hn : c.scene.findNode node = some n)
    (htype : n.model.type = .SUBTREE) (hexp : n.expanded = true)
    (hch : c.scene.childrenOf node = [child])
    (hR : st.getTabByName n.model.registration_ID = some cR) :
    st.subTreeExpand tab node .SUBTREE_REFRESH =
      .ok (some node)
        (st.setContainer tab (c.refreshed node child (BuildTreeFromScene cR.scene))) := by
  unfold subTreeExpand
  simp only [htab, hn, htype, hexp, hch, hR, ne_eq, not_true_eq_false, if_false,
    Bool.true_eq_false, and_false, and_self, if_true, reduceCtorEq, false_and]
  rfl

theorem subTreeExpand_expand_eq (st : MainWindow) (tab : QString) (node : Nat)
    (c cR : GraphicContainer) (n : Node)
    (htab : st.getTabByName tab = some c) (hn : c.scene.findNode node = some n)
    (htype : n.model.type = .SUBTREE) (hexp : n.expanded = false)
    (hR : st.getTabByName n.model.registration_ID = some cR) :
    st.subTreeExpand tab node .SUBTREE_EXPAND =
      .ok (some node)
        (if cR.containsValidTree then
          st.setContainer tab (c.expandedWith node (BuildTreeFromScene cR.scene))
        else st) := by
  unfold subTreeExpand
  simp only [htab, hn, htype, hexp, hR, ne_eq, not_true_eq_false, if_false,
    and_self, if_true]
  cases hv : cR.containsValidTree
  · simp
  · simp only [Bool.not_true, Bool.false_eq_true, if_false, if_true]
    rfl

/-- The state in which a call of `subTreeExpand` ends, when it returns. -/
theorem subTreeExpand_ok (st st1 : MainWindow) (tab : QString) (node : Nat)
    (option : SubtreeExpandOption) (v : Option Nat)
    (h : st.subTreeExpand tab node option = .ok v st1) :
    ∃ (c : GraphicContainer) (n : Node),
      st.getTabByName tab = some c ∧ c.scene.findNode node = some n ∧
      n.model.type = .SUBTREE := by
  unfold subTreeExpand at h
  cases htab : st.getTabByName tab with
  | none => rw [htab] at h; simp at h
  | some c =>
    cases hn : c.scene.findNode node with
    | none => rw [htab] at h; simp only [hn] at h; simp at h
    | some n =>
      by_cases htype : n.model.type = .SUBTREE
      · exact ⟨c, n, rfl, hn, htype⟩
      · rw [htab] at h
        simp only [hn, ne_eq, htype, not_false_eq_true, if_true] at h
        simp at h

/-- A round of the loop of `refreshExpandedSubtrees` that returns: the node is an expanded
subtree of an invalid document and is collapsed, or it is an expanded subtree of a valid
document with one child and is refreshed, or it is a collapsed subtree and nothing
happens. -/
theorem refreshNode_ok (st st1 : MainWindow) (tab : QString) (B : Nat)
    (h : refreshExpandedSubtrees.refreshNode tab B st = .ok () st1) :
    ∃ (c cRB : GraphicContainer) (nB : Node),
      st.getTabByName tab = some c ∧ c.scene.findNode B = some nB ∧
      nB.model.type = .SUBTREE ∧ st.getTabByName nB.model.registration_ID = some cRB ∧
      ((nB.expanded = true ∧ cRB.containsValidTree = false ∧
          st1 = st.setContainer tab (c.collapsed B)) ∨
        (nB.expanded = true ∧ cRB.containsValidTree = true ∧
          ∃ child, c.scene.childrenOf B = [child] ∧
            st1 = st.setContainer tab (c.refreshed B child (BuildTreeFromScene cRB.scene))) ∨
        (nB.expanded = false ∧ st1 = st)) := by
  unfold refreshExpandedSubtrees.refreshNode at h
  cases htab : st.getTabByName tab with
  | none => rw [htab] at h; simp at h
  | some c =>
    rw [htab] at h
    simp only at h
    cases hn : c.scene.findNode B with
    | none => rw [hn] at h; simp at h
    | some nB =>
      rw [hn] at h
      simp only at h
      by_cases htype : nB.model.type = .SUBTREE
      · simp only [htype, ne_eq, not_true_eq_false, if_false] at h
        cases hR : st.getTabByName nB.model.registration_ID with
        | none => rw [hR] at h; simp at h
        | some cRB =>
          rw [hR] at h
          simp only at h
          refine ⟨c, cRB, nB, rfl, hn, htype, hR, ?_⟩
          cases hexp : nB.expanded
          · -- idle
            refine Or.inr (Or.inr ⟨rfl, ?_⟩)
            have hidle := subTreeExpand_idle st tab B c nB .SUBTREE_REFRESH htab hn htype
              (Or.inl ⟨hexp, by decide⟩)
            simp only [hexp, Bool.false_eq_true, false_and, if_false, Res.bind, hidle] at h
            injection h with _ h2
            exact h2.symm
          · cases hv : cRB.containsValidTree
            · -- collapse, then a refresh that does nothing
              refine Or.inl ⟨rfl, rfl, ?_⟩
              have hcol := subTreeExpand_collapse_eq st tab B c nB htab hn htype hexp
              simp only [hexp, hv, and_self, if_true, Res.bind, hcol] at h
              have htab2 : (st.setContainer tab (c.collapsed B)).getTabByName tab =
                  some (c.collapsed B) := getTabByName_setContainer_self st tab c _ htab
              cases hr : (st.setContainer tab (c.collapsed B)).subTreeExpand tab B
                  .SUBTREE_REFRESH with
              | thrown e st3 => rw [hr] at h; simp at h
              | ok v st3 =>
                rw [hr] at h
                simp only at h
                injection h with _ h2
                obtain ⟨c2, n2, hc2, hn2, ht2⟩ := subTreeExpand_ok _ _ _ _ _ _ hr
                rw [htab2] at hc2
                injection hc2 with hc2
                subst hc2
                have he2 := collapsed_expanded c B n2 hn2
                have hidle := subTreeExpand_idle (st.setContainer tab (c.collapsed B)) tab B
                  (c.collapsed B) n2 .SUBTREE_REFRESH htab2 hn2 ht2 (Or.inl ⟨he2, by decide⟩)
                rw [hidle] at hr
                injection hr with _ h3
                rw [← h2, ← h3]
            · -- refresh
              refine Or.inr (Or.inl ⟨rfl, rfl, ?_⟩)
              simp only [hexp, hv, Bool.true_eq_false, and_false, if_false, Res.bind] at h
              cases hch : c.scene.childrenOf B with
              | nil =>
                unfold subTreeExpand at h
                simp [htab, hn, htype, hexp, hch] at h
              | cons child rest =>
                cases rest with
                | nil =>
                  rw [subTreeExpand_refresh_eq st tab B child c cRB nB htab hn htype hexp hch
                    hR] at h
                  simp only at h
                  injection h with _ h2
                  exact ⟨child, rfl, h2.symm⟩
                | cons c2 rest2 =>
                  unfold subTreeExpand at h
                  simp [htab, hn, htype, hexp, hch] at h
      · simp only [htype, ne_eq, not_false_eq_true, if_true] at h
        simp at h

end MainWindow

namespace MainWindow

open FlowScene GraphicContainer

/-- A round of another node, or of the node itself once it is collapsed, keeps the tracked
node. -/
theorem tracked_of_keeps (st : MainWindow) (tab : QString) (A : Nat) (Q : List Nat)
    (model : NodeModel) (cR c c1 : GraphicContainer) (done : Bool)
    (hRtab : model.registration_ID ≠ tab)
    (htab : st.getTabByName tab = some c)
    (hk : keeps c.scene c1.scene (A :: Q))
    (h : refreshExpandedSubtrees.tracked tab A Q model cR done st) :
    refreshExpandedSubtrees.tracked tab A Q model cR done (st.setContainer tab c1) := by
  obtain ⟨c0, nA, htab0, hR, hg, hQ, hA, hm, hone, hdone, hd⟩ := h
  rw [htab] at htab0
  injection htab0 with htab0
  subst htab0
  have hA1 : c1.scene.findNode A = some nA := by
    rw [hk.1 A (List.mem_cons_self _ _), hA]
  obtain ⟨keep, _, hch⟩ := hk.2.2.1 A (List.mem_cons_self _ _)
  refine ⟨c1, nA, getTabByName_setContainer_self st tab c c1 htab, ?_,
    guarded_of_keeps _ _ _ _ hg hk, ?_, hA1, hm, ?_, ?_, hd⟩
  · rw [getTabByName_setContainer_other st tab _ c1 hRtab, hR]
  · intro q hq m hfm
    rw [hk.1 q (List.mem_cons_of_mem _ hq)] at hfm
    exact hQ q hq m hfm
  · rw [hch]
    exact Nat.le_trans (List.length_filter_le _ _) hone
  · intro he
    refine ⟨(hdone he).1, ?_⟩
    rw [hch, (hdone he).2]
    rfl

theorem tracked_refreshNode (st st1 : MainWindow) (tab : QString) (A B : Nat)
    (Q : List Nat) (model : NodeModel) (cR : GraphicContainer) (done : Bool)
    (hRtab : model.registration_ID ≠ tab) (hv : cR.containsValidTree = false)
    (h : refreshExpandedSubtrees.tracked tab A Q model cR done st)
    (hret : refreshExpandedSubtrees.refreshNode tab B st = .ok () st1) :
    refreshExpandedSubtrees.tracked tab A Q model cR (done || decide (B = A)) st1 := by
  obtain ⟨c, cRB, nB, htab, hnB, htB, hRB, hcase⟩ := refreshNode_ok st st1 tab B hret
  have h0 := h
  obtain ⟨c0, nA, htab0, hR, hg, hQ, hA, hm, hone, hdone, hd⟩ := h
  rw [htab] at htab0
  injection htab0 with htab0
  subst htab0
  -- a node that is an expanded subtree is not an ancestor
  have hBQ : nB.expanded = true → B ∉ Q := fun he hq => hQ B hq nB hnB ⟨htB, he⟩
  have weaken : ∀ d : Bool, (d = true → done = true) →
      ∀ st2, refreshExpandedSubtrees.tracked tab A Q model cR done st2 →
        (B = A → ∃ c2 n2, st2.getTabByName tab = some c2 ∧ c2.scene.findNode A = some n2 ∧
          n2.expanded = false) →
        refreshExpandedSubtrees.tracked tab A Q model cR (done || decide (B = A)) st2 := by
    intro d _ st2 ht hB
    obtain ⟨c2, n2, h1, h2, h3, h4, h5, h6, h7, h8, h9⟩ := ht
    refine ⟨c2, n2, h1, h2, h3, h4, h5, h6, h7, h8, ?_⟩
    intro hor
    rcases Bool.or_eq_true _ _ ▸ hor with hl | hr
    · exact h9 hl
    · obtain ⟨c3, n3, e1, e2, e3⟩ := hB (by simpa using hr)
      rw [h1] at e1
      injection e1 with e1
      subst e1
      rw [h5] at e2
      injection e2 with e2
      subst e2
      exact e3
  by_cases hBA : B = A
  · subst hBA
    rw [hA] at hnB
    injection hnB with hnB
    subst hnB
    rcases hcase with ⟨he, _, hst⟩ | ⟨he, hvB, _⟩ | ⟨he, hst⟩
    · -- the node is collapsed
      have hAQ := hBQ he
      obtain ⟨f1, f2, f3, f4⟩ := collapsed_own c B Q nA hg hAQ hA hone
      rw [hst]
      refine ⟨c.collapsed B, { nA with expanded := false, out_ports := 0 },
        getTabByName_setContainer_self st tab c _ htab, ?_, f4, ?_, f1, hm, ?_, ?_, ?_⟩
      · rw [getTabByName_setContainer_other st tab _ _ hRtab, hR]
      · intro q hq m hfm
        rw [f3.1 q hq] at hfm
        exact hQ q hq m hfm
      · rw [f2]; exact Nat.zero_le _
      · intro _; exact ⟨rfl, f2⟩
      · intro _; rfl
    · -- its document is not a valid tree
      rw [hm, hR] at hRB
      injection hRB with hRB
      rw [← hRB, hv] at hvB
      exact absurd hvB (by decide)
    · rw [hst]
      exact weaken done (fun h => h) st h0 (fun _ => ⟨c, nA, htab, hA, he⟩)
  · have hnot : ∀ st2, refreshExpandedSubtrees.tracked tab A Q model cR done st2 →
        refreshExpandedSubtrees.tracked tab A Q model cR (done || decide (B = A)) st2 :=
      fun st2 ht => weaken done (fun h => h) st2 ht (fun e => absurd e hBA)
    rcases hcase with ⟨he, _, hst⟩ | ⟨he, _, child, hch, hst⟩ | ⟨_, hst⟩
    · rw [hst]
      have hBP : B ∉ A :: Q := by
        intro hmem
        rcases List.mem_cons.1 hmem with e | e
        · exact hBA e
        · exact hBQ he e
      exact hnot _ (tracked_of_keeps st tab A Q model cR c _ done hRtab htab
        (collapsed_keeps c B (A :: Q) Q hg hBP) h0)
    · rw [hst]
      have hBP : B ∉ A :: Q := by
        intro hmem
        rcases List.mem_cons.1 hmem with e | e
        · exact hBA e
        · exact hBQ he e
      exact hnot _ (tracked_of_keeps st tab A Q model cR c _ done hRtab htab
        (refreshed_keeps c B child _ (A :: Q) Q hg hBP
          (by rw [hch]; exact List.mem_singleton_self _)) h0)
    · rw [hst]
      exact hnot st h0

theorem tracked_refreshNodes (tab : QString) (A : Nat) (Q : List Nat) (model : NodeModel)
    (cR : GraphicContainer)
    (hRtab : model.registration_ID ≠ tab) (hv : cR.containsValidTree = false)
    (nodes : List Nat) :
    ∀ (st st1 : MainWindow) (done : Bool),
      refreshExpandedSubtrees.tracked tab A Q model cR done st →
      refreshExpandedSubtrees.refreshNodes tab nodes st = .ok () st1 →
      refreshExpandedSubtrees.tracked tab A Q model cR (done || decide (A ∈ nodes)) st1 := by
  induction nodes with
  | nil =>
    intro st st1 done h hret
    simp only [refreshExpandedSubtrees.refreshNodes] at hret
    injection hret with _ h2
    subst h2
    simpa using h
  | cons B rest ih =>
    intro st st1 done h hret
    simp only [refreshExpandedSubtrees.refreshNodes] at hret
    cases hr : refreshExpandedSubtrees.refreshNode tab B st with
    | thrown e st2 => rw [hr] at hret; simp [Res.bind] at hret
    | ok v st2 =>
      rw [hr] at hret
      simp only [Res.bind] at hret
      have h2 := tracked_refreshNode st st2 tab A B Q model cR done hRtab hv h hr
      have h3 := ih st2 st1 _ h2 hret
      have : (done || decide (B = A) || decide (A ∈ rest)) =
          (done || decide (A ∈ B :: rest)) := by
        rw [Bool.or_assoc]
        congr 1
        by_cases e : B = A
        · subst e; simp
        · have e2 : ¬ A = B := fun h => e h.symm
          simp [e, e2]
      rw [this] at h3
      exact h3

/-- C18, amended: an expanded subtree node whose document is not a valid tree is collapsed by
`refreshExpandedSubtrees`.  The node is one of the nodes that the function collects in the
current document, the expanded subtree nodes reached from the root; it has at most one
output connection, it does not lie below an expanded subtree node (`Q` holds its
ancestors), and the document it refers to is another open document, which is not a valid
tree.  When the function returns, the node is still there with its model, it is
collapsed, and it has no output port and no output connection. -/
theorem refreshExpandedSubtrees_invalid_subtree (st st1 : MainWindow) (tab : QString)
    (c cR : GraphicContainer) (root n : Node) (node : Nat) (Q : List Nat)
    (hcur : st.tabWidget.tabText st.tabWidget.currentIndex = tab)
    (htab : st.getTabByName tab = some c)
    (hroot : c.scene.findRoot = some root)
    (hsel : node ∈ refreshExpandedSubtrees.selectRecursively c.scene c.scene.fuel
      [root.uid] [])
    (hn : c.scene.findNode node = some n)
    (hexp : n.expanded = true)
    (hone : (c.scene.childrenOf node).length ≤ 1)
    (hQ : c.scene.guarded (node :: Q) Q)
    (hQexp : ∀ q ∈ Q, ∀ m, c.scene.findNode q = some m →
      ¬ (m.model.type = .SUBTREE ∧ m.expanded = true))
    (hR : st.getTabByName n.model.registration_ID = some cR)
    (hRtab : n.model.registration_ID ≠ tab)
    (hv : cR.containsValidTree = false)
    (hret : refreshExpandedSubtrees st = .ok () st1) :
    ∃ (c1 : GraphicContainer) (n1 : Node),
      st1.getTabByName tab = some c1 ∧
      c1.scene.findNode node = some n1 ∧ n1.model = n.model ∧
      n1.expanded = false ∧ n1.out_ports = 0 ∧ c1.scene.childrenOf node = [] := by
  unfold refreshExpandedSubtrees currentTabInfo at hret
  simp only [hcur, htab, hroot] at hret
  have h0 : refreshExpandedSubtrees.tracked tab node Q n.model cR false st :=
    ⟨c, n, htab, hR, hQ, hQexp, hn, rfl, hone,
      fun he => absurd (he ▸ hexp) (by decide), fun h => absurd h (by decide)⟩
  have h1 := tracked_refreshNodes tab node Q n.model cR hRtab hv _ st st1 false h0 hret
  obtain ⟨c1, n1, e1, _, _, _, e5, e6, _, e8, e9⟩ := h1
  have hfalse : n1.expanded = false := e9 (by simpa using hsel)
  exact ⟨c1, n1, e1, e5, e6, hfalse, (e8 hfalse).1, (e8 hfalse).2⟩

end MainWindow

namespace MainWindow

/-- Witness for C18, amended: the main document holds two expanded references below a
sequence; the document of `Sub` is broken, the one of `Tools` is a valid tree.  The
reference to `Sub` is collapsed, and it stays so while the reference to `Tools` is
refreshed. -/
theorem refreshExpandedSubtrees_invalid_subtree_witness :
    ∃ (c1 : GraphicContainer) (n1 : Node),
      (refreshExpandedSubtrees Sample.forkStale).state.getTabByName "BehaviorTree" =
        some c1 ∧
      c1.scene.findNode 3 = some n1 ∧ n1.model = Sample.subModel ∧
      n1.expanded = false ∧ n1.out_ports = 0 ∧ c1.scene.childrenOf 3 = [] :=
  refreshExpandedSubtrees_invalid_subtree Sample.forkStale
    (refreshExpandedSubtrees Sample.forkStale).state "BehaviorTree" Sample.forkStaleMain
    { MainWindow.newTabContainer .Vertical with scene := Sample.brokenScene }
    ⟨1, FlowScene.RootNodeModel, "Root", StdMap.empty, false, 1, false⟩
    ⟨3, Sample.subModel, "Sub", StdMap.empty, true, 1, false⟩ 3 [2, 1]
    (by decide) (by decide) (by decide) (by decide) (by decide) (by decide) (by decide)
    (by decide) (by decide) (by decide) (by decide) (by decide) (by decide)

end MainWindow

/-! ## Scenes under `substituteNode` -/

namespace FlowScene

theorem keepsOn_of_keeps (s s2 : FlowScene) (P C : List Nat) (h : keeps s s2 P)
    (hC : ∀ u ∈ C, u ∈ P) : keepsOn s s2 P C :=
  ⟨h.1, h.2.1, fun u hu => h.2.2.1 u (hC u hu), h.2.2.2⟩

theorem keepsOn_refl (s : FlowScene) (P C : List Nat) : keepsOn s s P C :=
  ⟨fun _ _ => rfl, fun _ hk _ => hk, fun _ _ => ⟨fun _ => true, fun _ _ => rfl, by simp⟩,
    fun _ hk _ _ => hk⟩

theorem keepsOn_trans (s s2 s3 : FlowScene) (P C : List Nat) (h1 : keepsOn s s2 P C)
    (h2 : keepsOn s2 s3 P C) : keepsOn s s3 P C := by
  refine ⟨fun u hu => (h2.1 u hu).trans (h1.1 u hu),
    fun k hk hin => h1.2.1 k (h2.2.1 k hk hin) hin, ?_,
    fun k hk hin hout => h2.2.2.2 k (h1.2.2.2 k hk hin hout) hin hout⟩
  intro u hu
  obtain ⟨k1, hk1, e1⟩ := h1.2.2.1 u hu
  obtain ⟨k2, hk2, e2⟩ := h2.2.2.1 u hu
  refine ⟨fun x => k1 x && k2 x, fun x hx => by simp [hk1 x hx, hk2 x hx], ?_⟩
  rw [e2, e1, List.filter_filter]
  apply List.filter_congr
  intro x _
  exact Bool.and_comm _ _

theorem guarded_of_keepsOn (s s2 : FlowScene) (P Q C : List Nat) (hg : s.guarded P Q)
    (hk : keepsOn s s2 P C) : s2.guarded P Q :=
  ⟨fun u hu => by rw [hk.1 u hu]; exact hg.1 u hu, hg.2.1,
    fun k hk2 hin => hg.2.2 k (hk.2.1 k hk2 hin) hin⟩

/-- The children of a node that are all kept. -/
theorem childrenOf_of_keepsOn (s s2 : FlowScene) (P C : List Nat) (hk : keepsOn s s2 P C)
    (u : Nat) (hu : u ∈ C) (hch : ∀ x ∈ s.childrenOf u, x ∈ P) :
    s2.childrenOf u = s.childrenOf u := by
  obtain ⟨keep, hkeep, e⟩ := hk.2.2.1 u hu
  rw [e, List.filter_eq_self]
  intro x hx
  exact hkeep x (hch x hx)

end FlowScene

namespace GraphicContainer

open FlowScene

theorem find_substitute (l : List Node) (g fresh u : Nat) (m : NodeModel)
    (hfresh : ∀ n ∈ l, n.uid < fresh) (hu : u ≠ g) (hlt : u < fresh) :
    (l.map fun n =>
        if n.uid = g then
          { n with uid := fresh, model := m, instance_name := m.registration_ID,
                   expanded := false }
        else n).find? (fun n => n.uid == u) = l.find? (fun n => n.uid == u) := by
  induction l with
  | nil => rfl
  | cons a rest ih =>
    have ih2 := ih (fun n hn => hfresh n (List.mem_cons_of_mem _ hn))
    simp only [List.map_cons, List.find?_cons]
    by_cases ha : a.uid = g
    · have h1 : (fresh == u) = false := by
        simp only [beq_eq_false_iff_ne, ne_eq]; omega
      have h2 : (a.uid == u) = false := by
        simp only [beq_eq_false_iff_ne, ne_eq]; rw [ha]; exact fun h => hu h.symm
      rw [if_pos ha]
      simp only [h1, h2]
      exact ih2
    · simp only [ha, if_false]
      cases h : (a.uid == u)
      · exact ih2
      · rfl

theorem find_substitute_new (l : List Node) (g fresh : Nat) (m : NodeModel)
    (hfresh : ∀ n ∈ l, n.uid < fresh) :
    (l.map fun n =>
        if n.uid = g then
          { n with uid := fresh, model := m, instance_name := m.registration_ID,
                   expanded := false }
        else n).find? (fun n => n.uid == fresh) =
      (l.find? (fun n => n.uid == g)).map fun n =>
        { n with uid := fresh, model := m, instance_name := m.registration_ID,
                 expanded := false } := by
  induction l with
  | nil => rfl
  | cons a rest ih =>
    have ih2 := ih (fun n hn => hfresh n (List.mem_cons_of_mem _ hn))
    have ha2 := hfresh a (List.mem_cons_self _ _)
    simp only [List.map_cons, List.find?_cons]
    by_cases ha : a.uid = g
    · have h2 : (a.uid == g) = true := by simpa using ha
      rw [if_pos ha]
      simp only [h2, beq_self_eq_true, Option.map_some']
    · have h1 : (a.uid == fresh) = false := by
        simp only [beq_eq_false_iff_ne, ne_eq]; omega
      have h2 : (a.uid == g) = false := by simpa using ha
      simp only [ha, if_false, h1, h2]
      exact ih2

theorem find_substitute_old (l : List Node) (g fresh : Nat) (m : NodeModel)
    (hfresh : ∀ n ∈ l, n.uid < fresh) :
    (l.map fun n =>
        if n.uid = g then
          { n with uid := fresh, model := m, instance_name := m.registration_ID,
                   expanded := false }
        else n).find? (fun n => n.uid == g) = none := by
  rw [List.find?_eq_none]
  intro n hn
  obtain ⟨a, ha, rfl⟩ := List.mem_map.1 hn
  have ha2 := hfresh a ha
  by_cases hg : a.uid = g
  · simp only [hg, if_true, beq_iff_eq]
    omega
  · simp only [hg, if_false, beq_iff_eq]
    exact fun h => h

theorem findNode_substitute (c : GraphicContainer) (g u : Nat) (m : NodeModel)
    (hu : u ≠ g) (hlt : u < c.scene.freshUid) :
    (c.substituteNode g (some m)).1.scene.findNode u = c.scene.findNode u :=
  find_substitute c.scene.nodes g c.scene.freshUid u m
    (fun n hn => uid_lt_freshUid c.scene n hn) hu hlt

theorem findNode_substitute_new (c : GraphicContainer) (g : Nat) (m : NodeModel) :
    (c.substituteNode g (some m)).1.scene.findNode c.scene.freshUid =
      (c.scene.findNode g).map fun n =>
        { n with uid := c.scene.freshUid, model := m, instance_name := m.registration_ID,
                 expanded := false } :=
  find_substitute_new c.scene.nodes g c.scene.freshUid m
    (fun n hn => uid_lt_freshUid c.scene n hn)

theorem findNode_substitute_old (c : GraphicContainer) (g : Nat) (m : NodeModel) :
    (c.substituteNode g (some m)).1.scene.findNode g = none :=
  find_substitute_old c.scene.nodes g c.scene.freshUid m
    (fun n hn => uid_lt_freshUid c.scene n hn)

theorem mem_connections_substitute (c : GraphicContainer) (g : Nat) (m : NodeModel)
    (k2 : Connection) (h : k2 ∈ (c.substituteNode g (some m)).1.scene.connections) :
    ∃ k ∈ c.scene.connections,
      k2.out_node = (if k.out_node = g then c.scene.freshUid else k.out_node) ∧
      k2.in_node = (if k.in_node = g then c.scene.freshUid else k.in_node) := by
  obtain ⟨k, hk, rfl⟩ := List.mem_map.1 h
  exact ⟨k, hk, rfl, rfl⟩

/-- The substitution of a node outside a guarded list, which is no child of a node of `C`,
keeps the list. -/
theorem substitute_keepsOn (c : GraphicContainer) (g : Nat) (m : NodeModel)
    (P Q C : List Nat) (hg : c.scene.guarded P Q) (hgP : g ∉ P)
    (hC : ∀ u ∈ C, u ∈ P) (hch : ∀ u ∈ C, g ∉ c.scene.childrenOf u) :
    keepsOn c.scene (c.substituteNode g (some m)).1.scene P C := by
  have hlt : ∀ u ∈ P, u < c.scene.freshUid := fun u hu =>
    lt_freshUid_of_findNode c.scene u (hg.1 u hu)
  have hne : ∀ u ∈ P, u ≠ g := fun u hu h => hgP (h ▸ hu)
  refine ⟨fun u hu => findNode_substitute c g u m (hne u hu) (hlt u hu), ?_, ?_, ?_⟩
  rotate_left 2
  · intro k hk hin hout
    show k ∈ c.scene.connections.map _
    refine List.mem_map.2 ⟨k, hk, ?_⟩
    rw [if_neg (hne _ hout), if_neg (hne _ hin)]
  · intro k2 hk2 hin
    obtain ⟨k, hk, ho, hi⟩ := mem_connections_substitute c g m k2 hk2
    have hin2 : k.in_node = k2.in_node := by
      by_cases e : k.in_node = g
      · rw [if_pos e] at hi
        have := hlt _ hin
        omega
      · rw [if_neg e] at hi
        exact hi.symm
    have hout : k.out_node ∈ Q := hg.2.2 k hk (by rw [hin2]; exact hin)
    have hout2 : k.out_node = k2.out_node := by
      rw [if_neg (hne _ (hg.2.1 _ hout))] at ho
      exact ho.symm
    have : k2 = k := by
      cases k; cases k2
      simp only at hin2 hout2
      rw [hin2, hout2]
    rw [this]
    exact hk
  · intro u hu
    refine ⟨fun _ => true, fun _ _ => rfl, ?_⟩
    have hug := hne u (hC u hu)
    have hul := hlt u (hC u hu)
    have hnc := hch u hu
    rw [List.filter_true]
    show (((c.scene.connections.map _).filter _).map _) = _
    unfold childrenOf
    rw [List.filter_map, List.map_map]
    have hcongr : ∀ k ∈ c.scene.connections,
        ((fun k2 : Connection => k2.out_node == u) ∘ fun k : Connection =>
          ({ out_node := if k.out_node = g then c.scene.freshUid else k.out_node
             in_node := if k.in_node = g then c.scene.freshUid else k.in_node } : Connection)) k =
          (k.out_node == u) := by
      intro k _
      simp only [Function.comp]
      by_cases e : k.out_node = g
      · rw [if_pos e]
        have h1 : (c.scene.freshUid == u) = false := by
          simp only [beq_eq_false_iff_ne, ne_eq]; omega
        have h2 : (k.out_node == u) = false := by
          simp only [beq_eq_false_iff_ne, ne_eq]; rw [e]; exact fun h => hug h.symm
        rw [h1, h2]
      · rw [if_neg e]
    rw [List.filter_congr hcongr]
    apply List.map_congr_left
    intro k hk
    have hk2 := (List.mem_filter.1 hk)
    simp only [Function.comp]
    have : k.in_node ≠ g := by
      intro e
      apply hnc
      rw [mem_childrenOf]
      exact ⟨k, hk2.1, by simpa using hk2.2, e⟩
    rw [if_neg this]

end GraphicContainer

/-! ## Well-formed scenes and the models of their nodes -/

namespace FlowScene

theorem joins_removeNodes (s : FlowScene) (D : List Nat) (h : s.connectionsJoinNodes) :
    (s.removeNodes D).connectionsJoinNodes := by
  intro k hk
  obtain ⟨hk1, ho, hi⟩ := (mem_connections_removeNodes s D k).1 hk
  rw [findNode_removeNodes s D _ ho, findNode_removeNodes s D _ hi]
  exact h k hk1

theorem joins_mapNodes (s : FlowScene) (g : Node → Node) (hg : ∀ m, (g m).uid = m.uid)
    (h : s.connectionsJoinNodes) :
    ({ s with nodes := s.nodes.map g } : FlowScene).connectionsJoinNodes := by
  intro k hk
  rw [findNode_mapNodes s g hg, findNode_mapNodes s g hg]
  have := h k hk
  simpa using this

/-- Every node of `s2` is a node of `s` with the same handle and model. -/
theorem trace_removeNodes (s : FlowScene) (D : List Nat) :
    ∀ n2 ∈ (s.removeNodes D).nodes, ∃ n1 ∈ s.nodes, n2.uid = n1.uid ∧ n2.model = n1.model := by
  intro n2 hn2
  exact ⟨n2, (List.mem_filter.1 hn2).1, rfl, rfl⟩

theorem trace_mapNodes (s : FlowScene) (g : Node → Node)
    (hg : ∀ m, (g m).uid = m.uid ∧ (g m).model = m.model) :
    ∀ n2 ∈ ({ s with nodes := s.nodes.map g } : FlowScene).nodes,
      ∃ n1 ∈ s.nodes, n2.uid = n1.uid ∧ n2.model = n1.model := by
  intro n2 hn2
  obtain ⟨n1, h1, rfl⟩ := List.mem_map.1 hn2
  exact ⟨n1, h1, (hg n1).1, (hg n1).2⟩

theorem build_models (s : FlowScene) :
    ∀ a ∈ (BuildTreeFromScene s).nodes, ∃ n ∈ s.nodes, a.model = n.model := by
  intro a ha
  unfold BuildTreeFromScene at ha
  cases hb : s.build with
  | none => rw [hb] at ha; exact absurd ha (List.not_mem_nil _)
  | some tree =>
    rw [hb] at ha
    simp only at ha
    unfold build at hb
    split at hb
    · exact absurd hb (by simp)
    · split at hb
      · exact absurd hb (by simp)
      · split at hb
        · exact absurd hb (by simp)
        · injection hb with hb
          rw [← hb] at ha
          simp only [List.mem_filterMap] at ha
          obtain ⟨u, _, hu⟩ := ha
          cases hf : s.findNode u with
          | none => rw [hf] at hu; simp at hu
          | some n =>
            rw [hf] at hu
            simp only [Option.map_some', Option.some.injEq] at hu
            exact ⟨n, (findNode_some s u n hf).1, by rw [← hu]⟩

end FlowScene

namespace GraphicContainer

open FlowScene

theorem lock_joins (c : GraphicContainer) (node : Nat) (locked : Bool)
    (h : c.scene.connectionsJoinNodes) :
    (c.lockSubtreeEditing node locked).scene.connectionsJoinNodes :=
  joins_mapNodes c.scene _ (by intro m; split <;> rfl) h

theorem collapsed_joins (c : GraphicContainer) (g : Nat) (h : c.scene.connectionsJoinNodes) :
    (c.collapsed g).scene.connectionsJoinNodes := by
  have hstep : ∀ c1 : GraphicContainer, c1.scene.connectionsJoinNodes →
      (lockSubtreeEditing { c1 with scene := c1.scene.updateNode g fun m =>
          { m with expanded := false, out_ports := 0 } } g false).scene.connectionsJoinNodes :=
    fun c1 h1 => lock_joins _ g false
      (updateNode_joins c1.scene g (fun m => { m with expanded := false, out_ports := 0 })
        (fun _ => rfl) h1)
  unfold collapsed
  cases hch : c.scene.childrenOf g with
  | nil => exact hstep c h
  | cons child rest =>
    cases rest with
    | nil => exact hstep _ (joins_removeNodes c.scene _ h)
    | cons c2 rest2 => exact hstep c h

theorem collapsed_trace (c : GraphicContainer) (g : Nat) :
    ∀ n2 ∈ (c.collapsed g).scene.nodes,
      ∃ n1 ∈ c.scene.nodes, n2.uid = n1.uid ∧ n2.model = n1.model := by
  have hstep : ∀ c1 : GraphicContainer,
      ∀ n2 ∈ (lockSubtreeEditing { c1 with scene := c1.scene.updateNode g fun m =>
          { m with expanded := false, out_ports := 0 } } g false).scene.nodes,
        ∃ n1 ∈ c1.scene.nodes, n2.uid = n1.uid ∧ n2.model = n1.model := by
    intro c1 n2 hn2
    obtain ⟨n1, h1, e1, e2⟩ := trace_mapNodes
      (c1.scene.updateNode g fun m => { m with expanded := false, out_ports := 0 }) _
      (by intro m; split <;> exact ⟨rfl, rfl⟩) n2 hn2
    obtain ⟨n0, h0, rfl⟩ := List.mem_map.1 h1
    refine ⟨n0, h0, ?_, ?_⟩
    · rw [e1]; split <;> rfl
    · rw [e2]; split <;> rfl
  intro n2 hn2
  unfold collapsed at hn2
  cases hch : c.scene.childrenOf g with
  | nil => rw [hch] at hn2; exact hstep c n2 hn2
  | cons child rest =>
    cases rest with
    | nil =>
      rw [hch] at hn2
      obtain ⟨n1, h1, e1, e2⟩ := hstep _ n2 hn2
      exact ⟨n1, (List.mem_filter.1 h1).1, e1, e2⟩
    | cons c2 rest2 => rw [hch] at hn2; exact hstep c n2 hn2

theorem substitute_joins (c : GraphicContainer) (g : Nat) (m : NodeModel)
    (h : c.scene.connectionsJoinNodes) :
    (c.substituteNode g (some m)).1.scene.connectionsJoinNodes := by
  have key : ∀ u, (c.scene.findNode u).isSome = true →
      ((c.substituteNode g (some m)).1.scene.findNode
        (if u = g then c.scene.freshUid else u)).isSome = true := by
    intro u hu
    by_cases hug : u = g
    · rw [if_pos hug, findNode_substitute_new, ← hug]
      cases hf : c.scene.findNode u with
      | none => rw [hf] at hu; exact absurd hu (by decide)
      | some n => rfl
    · rw [if_neg hug, findNode_substitute c g u m hug (lt_freshUid_of_findNode _ _ hu)]
      exact hu
  intro k2 hk2
  obtain ⟨k, hk, ho, hi⟩ := mem_connections_substitute c g m k2 hk2
  rw [ho, hi]
  exact ⟨key _ (h k hk).1, key _ (h k hk).2⟩

theorem substitute_trace (c : GraphicContainer) (g : Nat) (m : NodeModel) :
    ∀ n2 ∈ (c.substituteNode g (some m)).1.scene.nodes,
      (∃ n1 ∈ c.scene.nodes, n1.uid ≠ g ∧ n2 = n1) ∨ n2.model = m := by
  intro n2 hn2
  obtain ⟨n1, h1, rfl⟩ := List.mem_map.1 hn2
  by_cases e : n1.uid = g
  · right; rw [if_pos e]
  · left; rw [if_neg e]; exact ⟨n1, h1, e, rfl⟩

theorem findNode_append (c : GraphicContainer) (node : Nat) (tree : AbsBehaviorTree) (k : Nat) :
    (c.appendTreeToNode node tree).scene.findNode (c.scene.freshUid + k) =
      tree.nodes[k]?.map (copyNode (c.scene.freshUid + k)) := by
  show (c.scene.nodes ++ _).find? _ = _
  rw [List.find?_append]
  have h1 : c.scene.nodes.find? (fun n => n.uid == c.scene.freshUid + k) = none := by
    rw [List.find?_eq_none]
    intro n hn
    have := uid_lt_freshUid c.scene n hn
    simp only [beq_iff_eq]
    omega
  rw [h1, find_copyNodes]
  simp

theorem append_joins (c : GraphicContainer) (node : Nat) (tree : AbsBehaviorTree)
    (h : c.scene.connectionsJoinNodes) (hnode : (c.scene.findNode node).isSome)
    (hclosed : ∀ (i : Nat) (a : AbstractTreeNode), tree.nodes[i]? = some a →
      ∀ j ∈ a.children_index, j < tree.nodes.length) :
    (c.appendTreeToNode node tree).scene.connectionsJoinNodes := by
  have hold : ∀ u, (c.scene.findNode u).isSome = true →
      ((c.appendTreeToNode node tree).scene.findNode u).isSome = true := by
    intro u hu
    show ((c.scene.nodes ++ _).find? _).isSome = true
    rw [List.find?_append]
    unfold findNode at hu
    cases hf : c.scene.nodes.find? fun n => n.uid == u with
    | none => rw [hf] at hu; exact absurd hu (by decide)
    | some n => rfl
  have hnew : ∀ k, k < tree.nodes.length →
      ((c.appendTreeToNode node tree).scene.findNode (c.scene.freshUid + k)).isSome = true := by
    intro k hk
    rw [findNode_append]
    rw [List.getElem?_eq_getElem hk]
    rfl
  intro k hk
  have hk2 : k ∈ c.scene.connections ++
      ((if tree.nodes.isEmpty then [] else [(⟨node, c.scene.freshUid⟩ : Connection)]) ++
        copyConnections c.scene.freshUid 0 tree.nodes) := by
    rw [← List.append_assoc]
    exact hk
  rcases List.mem_append.1 hk2 with h1 | h1
  · exact ⟨hold _ (h k h1).1, hold _ (h k h1).2⟩
  · rcases List.mem_append.1 h1 with h2 | h2
    · split at h2
      · exact absurd h2 (List.not_mem_nil _)
      · rename_i hne
        rw [List.mem_singleton] at h2
        subst h2
        refine ⟨hold _ hnode, ?_⟩
        have hpos : 0 < tree.nodes.length := by
          cases hl : tree.nodes with
          | nil => rw [hl] at hne; simp at hne
          | cons a rest => simp
        simpa using hnew 0 hpos
    · obtain ⟨i, a, hia, ho, j, hj, hi⟩ := copyConnections_mem _ _ _ _ h2
      have hil : i < tree.nodes.length := by
        rcases Nat.lt_or_ge i tree.nodes.length with h | h
        · exact h
        · rw [List.getElem?_eq_none h] at hia; exact absurd hia (by simp)
      rw [ho, hi]
      exact ⟨by simpa using hnew i hil, hnew j (hclosed i a hia j hj)⟩

theorem expandedWith_joins (c : GraphicContainer) (node : Nat) (tree : AbsBehaviorTree)
    (h : c.scene.connectionsJoinNodes) (hnode : (c.scene.findNode node).isSome)
    (hclosed : ∀ (i : Nat) (a : AbstractTreeNode), tree.nodes[i]? = some a →
      ∀ j ∈ a.children_index, j < tree.nodes.length) :
    (c.expandedWith node tree).scene.connectionsJoinNodes := by
  have h1 := updateNode_joins c.scene node
    (fun m => { m with expanded := true, out_ports := 1 }) (fun _ => rfl) h
  have hnode1 : ((c.scene.updateNode node fun m =>
      { m with expanded := true, out_ports := 1 }).findNode node).isSome = true := by
    rw [findNode_updateNode c.scene node
      (fun m => { m with expanded := true, out_ports := 1 }) (fun _ => rfl)]
    simpa using hnode
  have h2 := append_joins { c with scene := c.scene.updateNode node fun m =>
    { m with expanded := true, out_ports := 1 } } node tree h1 hnode1 hclosed
  have h3 := lock_joins _ node true h2
  unfold expandedWith
  split
  · exact h3
  · exact h3

theorem expandedWith_trace (c : GraphicContainer) (node : Nat) (tree : AbsBehaviorTree) :
    ∀ n2 ∈ (c.expandedWith node tree).scene.nodes,
      (∃ n1 ∈ c.scene.nodes, n2.uid = n1.uid ∧ n2.model = n1.model) ∨
      ∃ a ∈ tree.nodes, n2.model = a.model := by
  have hcopy : ∀ (l : List AbstractTreeNode) (base i : Nat), ∀ x ∈ copyNodes base i l,
      ∃ a ∈ l, x.model = a.model := by
    intro l
    induction l with
    | nil => intro base i x hx; exact absurd hx (List.not_mem_nil _)
    | cons a rest ih =>
      intro base i x hx
      simp only [copyNodes, List.mem_cons] at hx
      rcases hx with hx | hx
      · exact ⟨a, List.mem_cons_self _ _, by rw [hx]; rfl⟩
      · obtain ⟨b, hb, e⟩ := ih base (i + 1) x hx
        exact ⟨b, List.mem_cons_of_mem _ hb, e⟩
  have key : ∀ c1 : GraphicContainer,
      (∀ n1 ∈ c1.scene.nodes, ∃ n0 ∈ c.scene.nodes, n1.uid = n0.uid ∧ n1.model = n0.model) →
      ∀ n2 ∈ (lockSubtreeEditing (appendTreeToNode c1 node tree) node true).scene.nodes,
        (∃ n1 ∈ c.scene.nodes, n2.uid = n1.uid ∧ n2.model = n1.model) ∨
        ∃ a ∈ tree.nodes, n2.model = a.model := by
    intro c1 hc1 n2 hn2
    obtain ⟨n1, h1, e1, e2⟩ := trace_mapNodes (appendTreeToNode c1 node tree).scene _
      (by intro m; split <;> exact ⟨rfl, rfl⟩) n2 hn2
    rcases List.mem_append.1 h1 with h | h
    · obtain ⟨n0, h0, e3, e4⟩ := hc1 n1 h
      exact Or.inl ⟨n0, h0, by rw [e1, e3], by rw [e2, e4]⟩
    · obtain ⟨a, ha, e⟩ := hcopy _ _ _ n1 h
      exact Or.inr ⟨a, ha, by rw [e2, e]⟩
  have hupd : ∀ n1 ∈ (c.scene.updateNode node fun m =>
      { m with expanded := true, out_ports := 1 }).nodes,
      ∃ n0 ∈ c.scene.nodes, n1.uid = n0.uid ∧ n1.model = n0.model := by
    intro n1 h1
    obtain ⟨n0, h0, rfl⟩ := List.mem_map.1 h1
    refine ⟨n0, h0, ?_, ?_⟩
    · split <;> rfl
    · split <;> rfl
  intro n2 hn2
  unfold expandedWith at hn2
  split at hn2
  · exact key _ hupd n2 hn2
  · exact key _ hupd n2 hn2

end GraphicContainer

/-! ## One round of the rename loop on a scene -/

namespace GraphicContainer

open FlowScene

theorem withBody_childrenOf_body (c : GraphicContainer) (node : Nat) (tree : AbsBehaviorTree)
    (hW : c.scene.connectionsJoinNodes) (hnode : node < c.scene.freshUid) (j : Nat)
    (a : AbstractTreeNode) (ha : tree.nodes[j]? = some a) :
    (c.withBody node tree).scene.childrenOf (c.scene.freshUid + j) =
      a.children_index.map fun k => c.scene.freshUid + k := by
  have hcopy := copyConnections_children c.scene.freshUid j tree.nodes 0
  simp only [Nat.zero_le, if_true, Nat.sub_zero, ha] at hcopy
  have hold : (c.scene.connections ++ [(⟨node, c.scene.freshUid⟩ : Connection)]).filter
      (fun k => k.out_node == c.scene.freshUid + j) = [] := by
    rw [List.filter_eq_nil_iff]
    intro k hk
    simp only [beq_iff_eq]
    rcases List.mem_append.1 hk with h | h
    · have := lt_freshUid_of_findNode _ _ (hW k h).1
      omega
    · rw [List.mem_singleton] at h
      rw [h]
      simp only
      omega
  show (((c.scene.connections ++ [(⟨node, c.scene.freshUid⟩ : Connection)] ++
    copyConnections c.scene.freshUid 0 tree.nodes).filter _).map _) = _
  rw [List.filter_append, hold, List.nil_append]
  exact hcopy

theorem expandedWith_eq_withBody (c : GraphicContainer) (g2 : Nat) (sR : FlowScene)
    (t : AbsBehaviorTree) (hb : sR.build = some t) (hW : c.scene.connectionsJoinNodes)
    (hnode : (c.scene.findNode g2).isSome) (hch : c.scene.childrenOf g2 = []) :
    c.expandedWith g2 t =
      withBody { c with scene := c.scene.updateNode g2 fun m =>
        { m with expanded := true, out_ports := 1 } } g2 t := by
  have hWu := updateNode_joins c.scene g2
    (fun m => { m with expanded := true, out_ports := 1 }) (fun _ => rfl) hW
  have hnodeu : ((c.scene.updateNode g2 fun m =>
      { m with expanded := true, out_ports := 1 }).findNode g2).isSome = true := by
    rw [findNode_updateNode c.scene g2
      (fun m => { m with expanded := true, out_ports := 1 }) (fun _ => rfl)]
    simpa using hnode
  have hlock := (appendTree_lock { c with scene := c.scene.updateNode g2 fun m =>
    { m with expanded := true, out_ports := 1 } } g2 sR t hb hWu hnodeu hch).1
  unfold expandedWith
  simp only [nodeReorder, ite_self]
  rw [hlock]
  rfl

/-- The node that is expanded: it gets the locked copy of the tree as its body, and together
with its ancestors and its body it forms a list that is closed under parents. -/
theorem expandedWith_own (c : GraphicContainer) (g2 : Nat) (Q : List Nat) (n2 : Node)
    (sR : FlowScene) (t : AbsBehaviorTree)
    (hb : sR.build = some t) (hW : c.scene.connectionsJoinNodes)
    (hg : c.scene.guarded (g2 :: Q) Q) (hgQ : g2 ∉ Q) (hn : c.scene.findNode g2 = some n2)
    (hch : c.scene.childrenOf g2 = []) :
    (c.expandedWith g2 t).scene.findNode g2 =
      some { n2 with expanded := true, out_ports := 1 } ∧
    (c.expandedWith g2 t).scene.childrenOf g2 = [c.scene.freshUid] ∧
    holdsBody (c.expandedWith g2 t).scene c.scene.freshUid t ∧
    (c.expandedWith g2 t).scene.guarded
      (g2 :: Q ++ (List.range t.nodes.length).map fun j => c.scene.freshUid + j)
      (g2 :: Q ++ (List.range t.nodes.length).map fun j => c.scene.freshUid + j) ∧
    (∀ q ∈ Q, (c.expandedWith g2 t).scene.findNode q = c.scene.findNode q) ∧
    (∀ k ∈ c.scene.connections, k ∈ (c.expandedWith g2 t).scene.connections) := by
  have hnode : (c.scene.findNode g2).isSome = true := by rw [hn]; rfl
  have hE := expandedWith_eq_withBody c g2 sR t hb hW hnode hch
  have hWu := updateNode_joins c.scene g2
    (fun m => { m with expanded := true, out_ports := 1 }) (fun _ => rfl) hW
  have hnu := findNode_updateNode_self c.scene g2
    (fun m => { m with expanded := true, out_ports := 1 }) (fun _ => rfl) n2 hn
  have hfresh : (c.scene.updateNode g2 fun m =>
      { m with expanded := true, out_ports := 1 }).freshUid = c.scene.freshUid :=
    updateNode_freshUid _ _ _ (fun _ => rfl)
  have hnodeu : ((c.scene.updateNode g2 fun m =>
      { m with expanded := true, out_ports := 1 }).findNode g2).isSome = true := by
    rw [hnu]; rfl
  obtain ⟨hchild, _, _, _⟩ := withBody_spec { c with scene := c.scene.updateNode g2 fun m =>
    { m with expanded := true, out_ports := 1 } } g2 sR t hb hWu hnodeu hch
  obtain ⟨hfold, hfnew⟩ := withBody_findNode { c with scene := c.scene.updateNode g2 fun m =>
    { m with expanded := true, out_ports := 1 } } g2 t
  have hbody := withBody_childrenOf_body { c with scene := c.scene.updateNode g2 fun m =>
    { m with expanded := true, out_ports := 1 } } g2 t hWu
    (by rw [hfresh]; exact lt_freshUid_of_findNode _ _ hnode)
  simp only [hfresh] at hchild hfnew hbody
  rw [hE]
  have hlt : g2 < c.scene.freshUid := lt_freshUid_of_findNode _ _ hnode
  have hQfind : ∀ q ∈ Q, (withBody { c with scene := c.scene.updateNode g2 fun m =>
      { m with expanded := true, out_ports := 1 } } g2 t).scene.findNode q =
      c.scene.findNode q := by
    intro q hq
    have hqs := hg.1 q (List.mem_cons_of_mem _ hq)
    have hne : q ≠ g2 := fun e => hgQ (e ▸ hq)
    have hu : (c.scene.updateNode g2 fun m =>
        { m with expanded := true, out_ports := 1 }).findNode q = c.scene.findNode q := by
      rw [findNode_updateNode c.scene g2
        (fun m => { m with expanded := true, out_ports := 1 }) (fun _ => rfl)]
      cases hf : c.scene.findNode q with
      | none => rfl
      | some x =>
        have := (findNode_some c.scene q x hf).2
        simp [this, hne]
    rw [hfold q (by show (FlowScene.findNode _ q).isSome = true; rw [hu]; exact hqs)]
    exact hu
  have hconn : ∀ k, k ∈ (withBody { c with scene := c.scene.updateNode g2 fun m =>
      { m with expanded := true, out_ports := 1 } } g2 t).scene.connections ↔
      k ∈ c.scene.connections ∨ k = ⟨g2, c.scene.freshUid⟩ ∨
        k ∈ copyConnections c.scene.freshUid 0 t.nodes := by
    intro k
    show k ∈ c.scene.connections ++ [(⟨g2, FlowScene.freshUid _⟩ : Connection)] ++
      copyConnections (FlowScene.freshUid _) 0 t.nodes ↔ _
    rw [hfresh]
    simp only [List.mem_append, List.mem_singleton, or_assoc]
  refine ⟨?_, hchild, ?_, ?_, hQfind, fun k hk => (hconn k).2 (Or.inl hk)⟩
  · rw [hfold g2 hnodeu]
    exact hnu
  · intro j a ha
    refine ⟨?_, hbody j a ha⟩
    rw [hfnew j, ha]
    rfl
  · refine ⟨?_, fun _ h => h, ?_⟩
    · intro u hu
      rcases List.mem_append.1 hu with h | h
      · rcases List.mem_cons.1 h with e | e
        · rw [e, hfold g2 hnodeu]; exact hnodeu
        · rw [hQfind u e]; exact hg.1 u (List.mem_cons_of_mem _ e)
      · obtain ⟨j, hj, rfl⟩ := List.mem_map.1 h
        rw [hfnew j, List.getElem?_eq_getElem (List.mem_range.1 hj)]
        rfl
    · intro k hk hin
      rcases (hconn k).1 hk with h | h | h
      · -- a connection of the old scene enters the node or an ancestor
        rcases List.mem_append.1 hin with h2 | h2
        · exact List.mem_append_left _ (List.mem_cons_of_mem _ (hg.2.2 k h h2))
        · obtain ⟨j, _, e⟩ := List.mem_map.1 h2
          have := lt_freshUid_of_findNode _ _ (hW k h).2
          omega
      · rw [h]
        exact List.mem_append_left _ (List.mem_cons_self _ _)
      · obtain ⟨i, a, hia, ho, _⟩ := copyConnections_mem _ _ _ _ h
        have hil : i < t.nodes.length := by
          rcases Nat.lt_or_ge i t.nodes.length with h3 | h3
          · exact h3
          · rw [List.getElem?_eq_none h3] at hia; exact absurd hia (by simp)
        refine List.mem_append_right _ (List.mem_map.2 ⟨i, List.mem_range.2 hil, ?_⟩)
        rw [ho]; omega

/-- The node that is substituted, when it is not among its own ancestors: the new node
stands in its place. -/
theorem substitute_own (c : GraphicContainer) (g : Nat) (Q : List Nat) (n : Node)
    (m : NodeModel) (hW : c.scene.connectionsJoinNodes)
    (hg : c.scene.guarded (g :: Q) Q) (hgQ : g ∉ Q) (hn : c.scene.findNode g = some n) :
    (c.substituteNode g (some m)).1.scene.findNode c.scene.freshUid =
      some { n with uid := c.scene.freshUid, model := m, instance_name := m.registration_ID,
                    expanded := false } ∧
    (c.substituteNode g (some m)).1.scene.guarded (c.scene.freshUid :: Q) Q ∧
    c.scene.freshUid ∉ Q ∧
    (∀ q ∈ Q, (c.substituteNode g (some m)).1.scene.findNode q = c.scene.findNode q) ∧
    (∀ q ∈ c.scene.parentsOf g,
      (⟨q, c.scene.freshUid⟩ : Connection) ∈ (c.substituteNode g (some m)).1.scene.connections) ∧
    (c.scene.childrenOf g = [] →
      (c.substituteNode g (some m)).1.scene.childrenOf c.scene.freshUid = []) := by
  have hgQQ : c.scene.guarded Q Q :=
    ⟨fun u hu => hg.1 u (List.mem_cons_of_mem _ hu), fun _ h => h,
      fun k hk hin => hg.2.2 k hk (List.mem_cons_of_mem _ hin)⟩
  have hk := substitute_keepsOn c g m Q Q [] hgQQ hgQ
    (fun _ h => absurd h (List.not_mem_nil _)) (fun _ h => absurd h (List.not_mem_nil _))
  have hnew : (c.substituteNode g (some m)).1.scene.findNode c.scene.freshUid =
      some { n with uid := c.scene.freshUid, model := m, instance_name := m.registration_ID,
                    expanded := false } := by
    rw [findNode_substitute_new, hn]
    rfl
  have hfQ : c.scene.freshUid ∉ Q := by
    intro h
    have := lt_freshUid_of_findNode _ _ (hgQQ.1 _ h)
    omega
  refine ⟨hnew, ⟨?_, fun q h => List.mem_cons_of_mem _ h, ?_⟩, hfQ, hk.1, ?_, ?_⟩
  · intro u hu
    rcases List.mem_cons.1 hu with e | e
    · rw [e, hnew]; rfl
    · rw [hk.1 u e]; exact hgQQ.1 u e
  · intro k2 hk2 hin
    rcases List.mem_cons.1 hin with e | e
    · obtain ⟨k, hk0, ho, hi⟩ := mem_connections_substitute c g m k2 hk2
      have hkin : k.in_node = g := by
        by_cases e2 : k.in_node = g
        · exact e2
        · rw [if_neg e2, e] at hi
          have := lt_freshUid_of_findNode _ _ (hW k hk0).2
          omega
      have hout := hg.2.2 k hk0 (by rw [hkin]; exact List.mem_cons_self _ _)
      have hne : k.out_node ≠ g := fun e3 => hgQ (e3 ▸ hout)
      rw [if_neg hne] at ho
      rw [ho]
      exact hout
    · exact hgQQ.2.2 k2 (hk.2.1 k2 hk2 e) e
  · intro q hq
    simp only [parentsOf, List.mem_map, List.mem_filter, beq_iff_eq] at hq
    obtain ⟨k, ⟨hk0, hin⟩, hout⟩ := hq
    have hqQ : q ∈ Q := by
      rw [← hout]
      exact hg.2.2 k hk0 (by rw [hin]; exact List.mem_cons_self _ _)
    have hne : q ≠ g := fun e3 => hgQ (e3 ▸ hqQ)
    show _ ∈ c.scene.connections.map _
    refine List.mem_map.2 ⟨k, hk0, ?_⟩
    rw [hout, hin, if_neg hne, if_pos rfl]
  · intro hch
    exact (substituteNode_spec c g m n hW hn hch).2.2.2.2.1

end GraphicContainer

namespace GraphicContainer

open FlowScene

/-- A round of the rename loop for a node outside a guarded list keeps the list. -/
theorem renamedAt_keepsOn (c : GraphicContainer) (g : Nat) (m : NodeModel)
    (tree : Option AbsBehaviorTree) (P Q C : List Nat)
    (hg : c.scene.guarded P Q) (hgP : g ∉ P) (hC : ∀ u ∈ C, u ∈ P)
    (hch : ∀ u ∈ C, g ∉ c.scene.childrenOf u) :
    keepsOn c.scene (c.renamedAt g m tree).scene P C := by
  unfold renamedAt
  cases hn : c.scene.findNode g with
  | none => exact keepsOn_refl _ _ _
  | some n =>
    simp only
    split
    · have k1 := keepsOn_of_keeps _ _ P C (collapsed_keeps c g P Q hg hgP) hC
      have g1 := guarded_of_keepsOn _ _ P Q C hg k1
      have hch1 : ∀ u ∈ C, g ∉ (c.collapsed g).scene.childrenOf u := by
        intro u hu hmem
        obtain ⟨keep, _, e⟩ := k1.2.2.1 u hu
        rw [e] at hmem
        exact hch u hu (List.mem_filter.1 hmem).1
      have k2 := substitute_keepsOn (c.collapsed g) g m P Q C g1 hgP hC hch1
      have g2 := guarded_of_keepsOn _ _ P Q C g1 k2
      cases tree with
      | none => exact keepsOn_trans _ _ _ P C k1 k2
      | some t =>
        have hfresh : (c.collapsed g).scene.freshUid ∉ P := by
          intro h
          have := lt_freshUid_of_findNode _ _ (g1.1 _ h)
          omega
        have k3 := keepsOn_of_keeps _ _ P C
          (expandedWith_keeps ((c.collapsed g).substituteNode g (some m)).1
            (c.collapsed g).scene.freshUid t P Q g2 hfresh) hC
        exact keepsOn_trans _ _ _ P C k1 (keepsOn_trans _ _ _ P C k2 k3)
    · exact substitute_keepsOn c g m P Q C hg hgP hC hch

theorem collapsed_parents (c : GraphicContainer) (g : Nat) (Q : List Nat)
    (hg : c.scene.guarded (g :: Q) Q) (hgQ : g ∉ Q) :
    ∀ k ∈ c.scene.connections, k.in_node = g → k ∈ (c.collapsed g).scene.connections := by
  intro k hk hin
  have hout : k.out_node ∈ Q := hg.2.2 k hk (by rw [hin]; exact List.mem_cons_self _ _)
  unfold collapsed
  cases hch : c.scene.childrenOf g with
  | nil => exact hk
  | cons child rest =>
    cases rest with
    | nil =>
      have havoid := guarded_avoid c.scene (g :: Q) Q hg g hgQ c.scene.fuel [child]
        (fun x hx => by
          rw [List.mem_singleton] at hx; rw [hx, hch]; exact List.mem_singleton_self _)
      refine (mem_connections_removeNodes c.scene _ k).2 ⟨hk, ?_, ?_⟩
      · exact fun h => havoid _ h (List.mem_cons_of_mem _ hout)
      · rw [hin]
        exact fun h => havoid _ h (List.mem_cons_self _ _)
    | cons c2 rest2 => exact hk

theorem mem_parentsOf (s : FlowScene) (u q : Nat) :
    q ∈ s.parentsOf u ↔ (⟨q, u⟩ : Connection) ∈ s.connections := by
  simp only [parentsOf, List.mem_map, List.mem_filter, beq_iff_eq]
  constructor
  · rintro ⟨k, ⟨hk, hi⟩, ho⟩
    cases k
    simp only at hi ho
    rw [← hi, ← ho]
    exact hk
  · intro h
    exact ⟨⟨q, u⟩, ⟨h, rfl⟩, rfl⟩

/-- The node for which a round of the rename loop runs. -/
theorem renamedAt_own (c : GraphicContainer) (g : Nat) (Q : List Nat) (n : Node)
    (m : NodeModel) (tree : Option AbsBehaviorTree) (prev_ID : QString)
    (hW : c.scene.connectionsJoinNodes)
    (hn : c.scene.findNode g = some n)
    (hg : c.scene.guarded (g :: Q) Q) (hgQ : g ∉ Q)
    (hQ : ∀ q ∈ Q, ∀ x, c.scene.findNode q = some x → x.model.registration_ID ≠ prev_ID)
    (hone : n.model.type = .SUBTREE → n.expanded = true → (c.scene.childrenOf g).length ≤ 1)
    (hm : m.registration_ID ≠ prev_ID)
    (htree : ∀ t, tree = some t → (∃ sR : FlowScene, sR.build = some t) ∧
      ∀ a ∈ t.nodes, a.model.registration_ID ≠ prev_ID) :
    (c.renamedAt g m tree).scene.connectionsJoinNodes ∧
    ∃ g2, MainWindow.onTreeNodeEdited.renamed (c.renamedAt g m tree).scene prev_ID m tree
      (decide (n.model.type = .SUBTREE) && n.expanded) (c.scene.parentsOf g) g2 := by
  have hparQ : ∀ q ∈ c.scene.parentsOf g, q ∈ Q := by
    intro q hq
    have := hg.2.2 _ ((mem_parentsOf c.scene g q).1 hq) (List.mem_cons_self _ _)
    exact this
  unfold renamedAt
  rw [hn]
  simp only
  by_cases hexp : n.model.type = .SUBTREE ∧ n.expanded = true
  · rw [if_pos hexp]
    have hb : (decide (n.model.type = .SUBTREE) && n.expanded) = true := by
      simp [hexp.1, hexp.2]
    rw [hb]
    obtain ⟨f1, f2, f3, f4⟩ := collapsed_own c g Q n hg hgQ hn (hone hexp.1 hexp.2)
    have hW1 := collapsed_joins c g hW
    obtain ⟨s1, s2, s3, s4, s5, s6⟩ := substitute_own (c.collapsed g) g Q _ m hW1 f4 hgQ f1
    have hW2 := substitute_joins (c.collapsed g) g m hW1
    have hpar1 : ∀ q ∈ c.scene.parentsOf g, q ∈ (c.collapsed g).scene.parentsOf g := by
      intro q hq
      rw [mem_parentsOf] at hq ⊢
      exact collapsed_parents c g Q hg hgQ _ hq rfl
    have hQ2 : ∀ q ∈ Q, ∀ x,
        ((c.collapsed g).substituteNode g (some m)).1.scene.findNode q = some x →
        x.model.registration_ID ≠ prev_ID := by
      intro q hq x hx
      rw [s4 q hq, f3.1 q hq] at hx
      exact hQ q hq x hx
    cases tree with
    | none =>
      refine ⟨hW2, (c.collapsed g).scene.freshUid, _,
        (c.collapsed g).scene.freshUid :: Q, 0, s1, rfl, List.mem_cons_self _ _,
        ⟨s2.1, fun _ h => h, fun k hk hin => List.mem_cons_of_mem _ (s2.2.2 k hk hin)⟩,
        ?_, ?_, fun h => absurd h (by decide), fun _ _ => ⟨rfl, rfl, s6 f2⟩,
        fun _ t ht => absurd ht (by simp)⟩
      · intro u hu x hx
        rcases List.mem_cons.1 hu with e | e
        · rw [e, s1] at hx
          injection hx with hx
          rw [← hx]
          exact hm
        · exact hQ2 u e x hx
      · intro q hq
        exact ⟨List.mem_cons_of_mem _ (hparQ q hq), s5 q (hpar1 q hq)⟩
    | some t =>
      obtain ⟨⟨sR, hbuild⟩, hnonA⟩ := htree t rfl
      obtain ⟨e1, e2, e3, e4, e5, e6⟩ := expandedWith_own
        ((c.collapsed g).substituteNode g (some m)).1 (c.collapsed g).scene.freshUid Q _ sR t
        hbuild hW2 s2 s3 s1 (s6 f2)
      have hW3 := expandedWith_joins ((c.collapsed g).substituteNode g (some m)).1
        (c.collapsed g).scene.freshUid t hW2 (by rw [s1]; rfl) (build_closed sR t hbuild)
      refine ⟨hW3, (c.collapsed g).scene.freshUid, _,
        (c.collapsed g).scene.freshUid :: Q ++ (List.range t.nodes.length).map fun j =>
          ((c.collapsed g).substituteNode g (some m)).1.scene.freshUid + j,
        ((c.collapsed g).substituteNode g (some m)).1.scene.freshUid, e1, rfl,
        List.mem_append_left _ (List.mem_cons_self _ _), e4, ?_, ?_,
        fun h => absurd h (by decide), fun _ ht => absurd ht (by simp), ?_⟩
      · intro u hu x hx
        rcases List.mem_append.1 hu with h | h
        · rcases List.mem_cons.1 h with e | e
          · rw [e, e1] at hx
            injection hx with hx
            rw [← hx]
            exact hm
          · rw [e5 u e] at hx
            exact hQ2 u e x hx
        · obtain ⟨j, hj, rfl⟩ := List.mem_map.1 h
          have hj2 := List.mem_range.1 hj
          have := (e3 j (t.nodes[j]) (List.getElem?_eq_getElem hj2)).1
          rw [this] at hx
          injection hx with hx
          rw [← hx]
          exact hnonA _ (List.getElem_mem hj2)
      · intro q hq
        exact ⟨List.mem_append_left _ (List.mem_cons_of_mem _ (hparQ q hq)),
          e6 _ (s5 q (hpar1 q hq))⟩
      · intro _ t2 ht2
        injection ht2 with ht2
        subst ht2
        refine ⟨rfl, rfl, e2, e3, ?_⟩
        intro j hj
        exact List.mem_append_right _ (List.mem_map.2 ⟨j, List.mem_range.2 hj, rfl⟩)
  · rw [if_neg hexp]
    have hb : (decide (n.model.type = .SUBTREE) && n.expanded) = false := by
      by_cases h1 : n.model.type = .SUBTREE
      · have : n.expanded = false := by
          cases h2 : n.expanded
          · rfl
          · exact absurd ⟨h1, h2⟩ hexp
        simp [this]
      · simp [h1]
    rw [hb]
    obtain ⟨s1, s2, s3, s4, s5, _⟩ := substitute_own c g Q n m hW hg hgQ hn
    refine ⟨substitute_joins c g m hW, c.scene.freshUid, _, c.scene.freshUid :: Q, 0, s1, rfl,
      List.mem_cons_self _ _,
      ⟨s2.1, fun _ h => h, fun k hk hin => List.mem_cons_of_mem _ (s2.2.2 k hk hin)⟩,
      ?_, ?_, fun _ => rfl, fun h => absurd h (by decide), fun h => absurd h (by decide)⟩
    · intro u hu x hx
      rcases List.mem_cons.1 hu with e | e
      · rw [e, s1] at hx
        injection hx with hx
        rw [← hx]
        exact hm
      · rw [s4 u e] at hx
        exact hQ u e x hx
    · intro q hq
      exact ⟨List.mem_cons_of_mem _ (hparQ q hq), s5 q hq⟩

end GraphicContainer
namespace StdMap

variable {V : Type}

theorem modify_modify (m : StdMap V) (k : QString) (f g : V → V) :
    (m.modify k f).modify k g = m.modify k fun v => g (f v) := by
  cases m with
  | mk entries sorted =>
    simp only [modify, List.map_map, mk.injEq]
    apply List.map_congr_left
    intro e _
    by_cases h : e.1 = k <;> simp [h]

end StdMap

namespace Res

theorem bind_ok {α β : Type} (r : Res α) (f : α → MainWindow → Res β) (b : β)
    (st1 : MainWindow) (h : r.bind f = .ok b st1) :
    ∃ a st, r = .ok a st ∧ f a st = .ok b st1 := by
  cases r with
  | ok a st => exact ⟨a, st, rfl, h⟩
  | thrown e st => cases h

end Res

namespace FlowScene

theorem findNode_of_mem_nodup (s : FlowScene) (hnd : (s.nodes.map Node.uid).Nodup) (n : Node)
    (hn : n ∈ s.nodes) : s.findNode n.uid = some n := by
  unfold findNode
  generalize s.nodes = l at hnd hn
  induction l with
  | nil => cases hn
  | cons a rest ih =>
    rw [List.map_cons, List.nodup_cons] at hnd
    rcases List.mem_cons.1 hn with e | e
    · subst e
      simp
    · have hne : a.uid ≠ n.uid := by
        intro h
        exact hnd.1 (h ▸ List.mem_map_of_mem _ e)
      rw [List.find?_cons_of_neg _ (by simpa using hne)]
      exact ih hnd.2 e

theorem mem_of_findNode (s : FlowScene) (u : Nat) (n : Node) (h : s.findNode u = some n) :
    n ∈ s.nodes ∧ n.uid = u := by
  unfold findNode at h
  exact ⟨List.mem_of_find?_eq_some h, by simpa using List.find?_some h⟩

end FlowScene

namespace GraphicContainer

open FlowScene

/-- Where the nodes of the document after a round of the rename loop come from: an old node
other than the renamed one, the new node of the model `m`, or a copy of a tree node. -/
theorem renamedAt_trace (c : GraphicContainer) (g : Nat) (n : Node) (m : NodeModel)
    (tree : Option AbsBehaviorTree) (hn : c.scene.findNode g = some n) :
    ∀ n2 ∈ (c.renamedAt g m tree).scene.nodes,
      (∃ n1 ∈ c.scene.nodes, n1.uid ≠ g ∧ n2.uid = n1.uid ∧ n2.model = n1.model) ∨
      n2.model = m ∨ ∃ t, tree = some t ∧ ∃ a ∈ t.nodes, n2.model = a.model := by
  intro n2 h2
  unfold renamedAt at h2
  rw [hn] at h2
  simp only at h2
  have hsub : ∀ x ∈ ((c.collapsed g).substituteNode g (some m)).1.scene.nodes,
      (∃ n1 ∈ c.scene.nodes, n1.uid ≠ g ∧ x.uid = n1.uid ∧ x.model = n1.model) ∨
      x.model = m := by
    intro x hx
    rcases substitute_trace (c.collapsed g) g m x hx with ⟨n1, h1, hne, e⟩ | e
    · obtain ⟨n0, h0, eu, em⟩ := collapsed_trace c g n1 h1
      exact Or.inl ⟨n0, h0, by rw [← eu]; exact hne, by rw [e, eu], by rw [e, em]⟩
    · exact Or.inr e
  split at h2
  · cases tree with
    | none =>
      rcases hsub n2 h2 with h | h
      · exact Or.inl h
      · exact Or.inr (Or.inl h)
    | some t =>
      rcases expandedWith_trace _ _ t n2 h2 with ⟨x, hx, eu, em⟩ | ⟨a, ha, e⟩
      · rcases hsub x hx with ⟨n1, h1, hne, eu1, em1⟩ | h
        · exact Or.inl ⟨n1, h1, hne, by rw [eu, eu1], by rw [em, em1]⟩
        · exact Or.inr (Or.inl (by rw [em, h]))
      · exact Or.inr (Or.inr ⟨t, rfl, a, ha, e⟩)
  · rcases substitute_trace c g m n2 h2 with ⟨n1, h1, hne, e⟩ | e
    · exact Or.inl ⟨n1, h1, hne, by rw [e], by rw [e]⟩
    · exact Or.inr (Or.inl e)

end GraphicContainer

namespace MainWindow

open FlowScene GraphicContainer

theorem setContainer_setContainer (st : MainWindow) (tab : QString) (a b : GraphicContainer) :
    (st.setContainer tab a).setContainer tab b = st.setContainer tab b := by
  unfold setContainer
  simp only [StdMap.modify_modify]

/-- One round of the rename loop as a change of the document: the container of the tab
becomes `renamedAt`, with the tree of the document `new_ID` if it is a valid tree. -/
theorem renameNode_eq (st : MainWindow) (tab new_ID : QString) (g : Nat) (Q : List Nat)
    (c cB : GraphicContainer) (n : Node) (m : NodeModel)
    (htab : st.getTabByName tab = some c) (hn : c.scene.findNode g = some n)
    (hg : c.scene.guarded (g :: Q) Q) (hgQ : g ∉ Q)
    (hone : n.model.type = .SUBTREE → n.expanded = true → (c.scene.childrenOf g).length ≤ 1)
    (hreg : (st._model_registry.find new_ID).map RegistryItem.model = some m)
    (hm : m.type = .SUBTREE) (hmid : m.registration_ID = new_ID)
    (hB : st.getTabByName new_ID = some cB) (hBtab : new_ID ≠ tab) :
    onTreeNodeEdited.renameNode tab new_ID g st = .ok ()
      (st.setContainer tab (c.renamedAt g m
        (if cB.containsValidTree then some (BuildTreeFromScene cB.scene) else none))) := by
  unfold onTreeNodeEdited.renameNode
  rw [htab]
  simp only
  rw [hn]
  simp only
  by_cases hexp : n.model.type = .SUBTREE ∧ n.expanded = true
  · have hb : (decide (n.model.type = .SUBTREE) && n.expanded) = true := by
      simp [hexp.1, hexp.2]
    rw [hb]
    simp only [if_true]
    rw [subTreeExpand_collapse_eq st tab g c n htab hn hexp.1 hexp.2]
    simp only [Res.bind]
    have htab1 := getTabByName_setContainer_self st tab c (c.collapsed g) htab
    rw [htab1]
    simp only
    have hreg1 : ((st.setContainer tab (c.collapsed g))._model_registry.find new_ID).map
        RegistryItem.model = some m := hreg
    rw [hreg1]
    obtain ⟨f1, f2, f3, f4⟩ := collapsed_own c g Q n hg hgQ hn (hone hexp.1 hexp.2)
    have s1 := findNode_substitute_new (c.collapsed g) g m
    rw [f1] at s1
    have hsnd : ((c.collapsed g).substituteNode g (some m)).2 =
        some (c.collapsed g).scene.freshUid := rfl
    rw [hsnd]
    simp only
    rw [setContainer_setContainer]
    have htab2 := getTabByName_setContainer_self st tab c
      ((c.collapsed g).substituteNode g (some m)).1 htab
    have hB2 : (st.setContainer tab ((c.collapsed g).substituteNode g (some m)).1).getTabByName
        m.registration_ID = some cB := by
      rw [hmid, getTabByName_setContainer_other _ _ _ _ hBtab, hB]
    rw [subTreeExpand_expand_eq _ tab _ _ cB _ htab2 s1 hm rfl hB2]
    simp only [Res.bind]
    unfold renamedAt
    rw [hn]
    simp only
    rw [if_pos hexp]
    by_cases hv : cB.containsValidTree = true
    · rw [if_pos hv, if_pos hv, setContainer_setContainer]
    · rw [if_neg hv, if_neg hv]
  · have hb : (decide (n.model.type = .SUBTREE) && n.expanded) = false := by
      by_cases h1 : n.model.type = .SUBTREE
      · have : n.expanded = false := by
          cases h2 : n.expanded
          · rfl
          · exact absurd ⟨h1, h2⟩ hexp
        simp [this]
      · simp [h1]
    rw [hb]
    simp only [Res.bind, Bool.false_eq_true, if_false]
    rw [htab]
    simp only
    rw [hreg]
    unfold renamedAt
    rw [hn]
    simp only
    rw [if_neg hexp]

end MainWindow
namespace MainWindow

open FlowScene GraphicContainer

/-- A node that is still to rename stays so over the round of another node. -/
theorem pending_step (c : GraphicContainer) (prev_ID : QString) (ancestors : Nat → List Nat)
    (g r : Nat) (m : NodeModel) (tree : Option AbsBehaviorTree)
    (hgp : onTreeNodeEdited.pending c.scene prev_ID ancestors g)
    (hr : onTreeNodeEdited.pending c.scene prev_ID ancestors r) (hne : r ≠ g) :
    onTreeNodeEdited.pending (c.renamedAt g m tree).scene prev_ID ancestors r ∧
    (c.renamedAt g m tree).scene.findNode r = c.scene.findNode r ∧
    ∀ q, (⟨q, r⟩ : Connection) ∈ c.scene.connections →
      (⟨q, r⟩ : Connection) ∈ (c.renamedAt g m tree).scene.connections := by
  obtain ⟨n, hn, hA, hgg, hgQ, _⟩ := hgp
  obtain ⟨nr, hnr, hrA, hrg, hrQ, hrone⟩ := hr
  have hgP : g ∉ r :: ancestors r := by
    intro h
    rcases List.mem_cons.1 h with e | e
    · exact hne e.symm
    · exact hrQ g e n hn hA
  have hch : ∀ u ∈ [r], g ∉ c.scene.childrenOf u := by
    intro u hu hmem
    rw [List.mem_singleton] at hu
    subst hu
    obtain ⟨k, hk, ho, hi⟩ := (mem_childrenOf c.scene u g).1 hmem
    have := hgg.2.2 k hk (by rw [hi]; exact List.mem_cons_self _ _)
    rw [ho] at this
    exact hgQ u this nr hnr hrA
  have K := renamedAt_keepsOn c g m tree (r :: ancestors r) (ancestors r) [r] hrg hgP
    (fun u hu => by rw [List.mem_singleton] at hu; rw [hu]; exact List.mem_cons_self _ _) hch
  have hfind := K.1 r (List.mem_cons_self _ _)
  refine ⟨⟨nr, by rw [hfind, hnr], hrA, guarded_of_keepsOn _ _ _ _ _ hrg K, ?_, ?_⟩, hfind, ?_⟩
  · intro q hq x hx
    rw [K.1 q (List.mem_cons_of_mem _ hq)] at hx
    exact hrQ q hq x hx
  · intro h1 h2
    obtain ⟨keep, _, e⟩ := K.2.2.1 r (List.mem_singleton_self _)
    rw [e]
    exact le_trans (List.length_filter_le _ _) (hrone h1 h2)
  · intro q hq
    exact K.2.2.2 _ hq (List.mem_cons_self _ _)
      (List.mem_cons_of_mem _ (hrg.2.2 _ hq (List.mem_cons_self _ _)))

/-- A node that has been renamed stays as it is over the round of another node. -/
theorem renamed_step (c : GraphicContainer) (prev_ID : QString) (m m2 : NodeModel)
    (tree tree2 : Option AbsBehaviorTree) (b : Bool) (parents : List Nat) (g g2 : Nat)
    (n : Node) (hgn : c.scene.findNode g = some n) (hgA : n.model.registration_ID = prev_ID)
    (htree : ∀ t, tree = some t → ∃ sR : FlowScene, sR.build = some t)
    (h : onTreeNodeEdited.renamed c.scene prev_ID m tree b parents g2) :
    onTreeNodeEdited.renamed (c.renamedAt g m2 tree2).scene prev_ID m tree b parents g2 := by
  obtain ⟨n2, P, base, h1, h2, h3, h4, h5, h6, h7, h8, h9⟩ := h
  have hgP : g ∉ P := fun hmem => h5 g hmem n hgn hgA
  have K := renamedAt_keepsOn c g m2 tree2 P P
    (P.filter fun u => decide (g ∉ c.scene.childrenOf u)) h4 hgP
    (fun u hu => (List.mem_filter.1 hu).1)
    (fun u hu => of_decide_eq_true (List.mem_filter.1 hu).2)
  have hC : ∀ u ∈ P, g ∉ c.scene.childrenOf u →
      u ∈ P.filter fun u => decide (g ∉ c.scene.childrenOf u) :=
    fun u hu hg => List.mem_filter.2 ⟨hu, decide_eq_true hg⟩
  refine ⟨n2, P, base, (K.1 g2 h3).trans h1, h2, h3, guarded_of_keepsOn _ _ _ _ _ h4 K,
    ?_, ?_, h7, ?_, ?_⟩
  · intro u hu x hx
    rw [K.1 u hu] at hx
    exact h5 u hu x hx
  · intro q hq
    exact ⟨(h6 q hq).1, K.2.2.2 _ (h6 q hq).2 h3 (h6 q hq).1⟩
  · intro hb ht
    obtain ⟨a1, a2, a3⟩ := h8 hb ht
    refine ⟨a1, a2, ?_⟩
    rw [childrenOf_of_keepsOn _ _ _ _ K g2 (hC g2 h3 (by rw [a3]; simp))
      (by rw [a3]; intro x hx; cases hx), a3]
  · intro hb t ht
    obtain ⟨a1, a2, a3, a4, a5⟩ := h9 hb t ht
    obtain ⟨sR, hbuild⟩ := htree t ht
    have hclosed := build_closed sR t hbuild
    obtain ⟨_, order, _, _, htl, _, _, hpos, _, _⟩ := build_spec sR t hbuild
    have hbase : base ∈ P := by
      have := a5 0 (by rw [htl]; exact hpos)
      simpa using this
    refine ⟨a1, a2, ?_, ?_, a5⟩
    · rw [childrenOf_of_keepsOn _ _ _ _ K g2
        (hC g2 h3 (by
          rw [a3, List.mem_singleton]
          intro e
          exact hgP (e ▸ hbase)))
        (by
          rw [a3]
          intro x hx
          rw [List.mem_singleton] at hx
          rw [hx]
          exact hbase), a3]
    · intro j a hja
      have hj : j < t.nodes.length := (List.getElem?_eq_some_iff.1 hja).1
      have hchP : ∀ x ∈ c.scene.childrenOf (base + j), x ∈ P := by
        intro x hx
        rw [(a4 j a hja).2] at hx
        obtain ⟨k, hk, rfl⟩ := List.mem_map.1 hx
        exact a5 k (hclosed j a hja k hk)
      refine ⟨(K.1 _ (a5 j hj)).trans (a4 j a hja).1, ?_⟩
      rw [childrenOf_of_keepsOn _ _ _ _ K (base + j)
        (hC _ (a5 j hj) (fun hmem => hgP (hchP g hmem))) hchP]
      exact (a4 j a hja).2

/-- The rename loop of one tab.  Every node of the list is still to rename, the list holds
every node of the model `prev_ID`, and the nodes of `done` have been renamed; when the
loop returns, no node of the model `prev_ID` is left and every node of both lists has been
renamed. -/
theorem renameNodes_spec (tab new_ID prev_ID : QString) (cB : GraphicContainer)
    (m : NodeModel) (ancestors : Nat → List Nat) (c0 : GraphicContainer)
    (tree : Option AbsBehaviorTree)
    (htreedef : tree =
      if cB.containsValidTree then some (BuildTreeFromScene cB.scene) else none)
    (htree : ∀ t, tree = some t → (∃ sR : FlowScene, sR.build = some t) ∧
      ∀ a ∈ t.nodes, a.model.registration_ID ≠ prev_ID)
    (hm : m.type = .SUBTREE) (hmid : m.registration_ID = new_ID)
    (hBtab : new_ID ≠ tab) (hne : new_ID ≠ prev_ID) :
    ∀ (rest : List Nat) (st st1 : MainWindow) (c : GraphicContainer) (done : List Nat),
      rest.Nodup →
      st.getTabByName tab = some c →
      (st._model_registry.find new_ID).map RegistryItem.model = some m →
      st.getTabByName new_ID = some cB →
      c.scene.connectionsJoinNodes →
      (∀ r ∈ rest, onTreeNodeEdited.pending c.scene prev_ID ancestors r ∧
        c.scene.findNode r = c0.scene.findNode r ∧
        ∀ q, (⟨q, r⟩ : Connection) ∈ c0.scene.connections →
          (⟨q, r⟩ : Connection) ∈ c.scene.connections) →
      (∀ x ∈ c.scene.nodes, x.model.registration_ID = prev_ID → x.uid ∈ rest) →
      (∀ r ∈ done, ∃ (n : Node) (parents : List Nat) (g2 : Nat),
        c0.scene.findNode r = some n ∧
        (∀ q, (⟨q, r⟩ : Connection) ∈ c0.scene.connections → q ∈ parents) ∧
        onTreeNodeEdited.renamed c.scene prev_ID m tree
          (decide (n.model.type = .SUBTREE) && n.expanded) parents g2) →
      onTreeNodeEdited.renameNodes tab new_ID rest st = .ok () st1 →
      ∃ c1 : GraphicContainer, st1.getTabByName tab = some c1 ∧
        (∀ x ∈ c1.scene.nodes, x.model.registration_ID ≠ prev_ID) ∧
        ∀ r, r ∈ done ∨ r ∈ rest → ∃ (n : Node) (parents : List Nat) (g2 : Nat),
          c0.scene.findNode r = some n ∧
          (∀ q, (⟨q, r⟩ : Connection) ∈ c0.scene.connections → q ∈ parents) ∧
          onTreeNodeEdited.renamed c1.scene prev_ID m tree
            (decide (n.model.type = .SUBTREE) && n.expanded) parents g2 := by
  intro rest
  induction rest with
  | nil =>
    intro st st1 c done _ htab _ _ _ _ hall hdone hret
    unfold onTreeNodeEdited.renameNodes at hret
    injection hret with _ hst
    subst hst
    refine ⟨c, htab, ?_, ?_⟩
    · intro x hx hA
      exact absurd (hall x hx hA) (List.not_mem_nil _)
    · intro r hr
      rcases hr with h | h
      · exact hdone r h
      · cases h
  | cons g rest ih =>
    intro st st1 c done hnd htab hreg hB hW hpend hall hdone hret
    rw [List.nodup_cons] at hnd
    obtain ⟨hpg, hfg, hcg⟩ := hpend g (List.mem_cons_self _ _)
    have hpg2 := hpg
    obtain ⟨n, hn, hA, hgg, hgQ, hone⟩ := hpg2
    have hgnot : g ∉ ancestors g := fun h => hgQ g h n hn hA
    unfold onTreeNodeEdited.renameNodes at hret
    rw [renameNode_eq st tab new_ID g (ancestors g) c cB n m htab hn hgg hgnot hone hreg hm
      hmid hB hBtab, ← htreedef] at hret
    simp only [Res.bind] at hret
    have hmA : m.registration_ID ≠ prev_ID := by rw [hmid]; exact hne
    obtain ⟨hW2, g2, hren⟩ := renamedAt_own c g (ancestors g) n m tree prev_ID hW hn hgg hgnot
      hgQ hone hmA htree
    obtain ⟨c1, h1, h2, h3⟩ := ih (st.setContainer tab (c.renamedAt g m tree)) st1
      (c.renamedAt g m tree) (done ++ [g]) hnd.2
      (getTabByName_setContainer_self st tab c _ htab) hreg
      (by rw [getTabByName_setContainer_other _ _ _ _ hBtab, hB]) hW2
      (by
        intro r hr
        have hrne : r ≠ g := fun e => hnd.1 (e ▸ hr)
        obtain ⟨p1, p2, p3⟩ := hpend r (List.mem_cons_of_mem _ hr)
        obtain ⟨q1, q2, q3⟩ := pending_step c prev_ID ancestors g r m tree hpg p1 hrne
        exact ⟨q1, q2.trans p2, fun q hq => q3 q (p3 q hq)⟩)
      (by
        intro x hx hxA
        rcases renamedAt_trace c g n m tree hn x hx with ⟨n1, hn1, hne1, eu, em⟩ | e | e
        · have := hall n1 hn1 (by rw [← em]; exact hxA)
          rcases List.mem_cons.1 this with e | e
          · exact absurd e hne1
          · rw [eu]; exact e
        · rw [e] at hxA
          exact absurd hxA hmA
        · obtain ⟨t, ht, a, ha, e2⟩ := e
          rw [e2] at hxA
          exact absurd hxA ((htree t ht).2 a ha))
      (by
        intro r hr
        rcases List.mem_append.1 hr with h | h
        · obtain ⟨nr, parents, gr, d1, d2, d3⟩ := hdone r h
          exact ⟨nr, parents, gr, d1, d2,
            renamed_step c prev_ID m m tree tree _ parents g gr n hn hA
              (fun t ht => (htree t ht).1) d3⟩
        · rw [List.mem_singleton] at h
          subst h
          refine ⟨n, c.scene.parentsOf r, g2, by rw [← hfg, hn], ?_, hren⟩
          intro q hq
          exact (mem_parentsOf c.scene r q).2 (hcg q hq))
      hret
    refine ⟨c1, h1, h2, ?_⟩
    intro r hr
    apply h3
    rcases hr with h | h
    · exact Or.inl (List.mem_append_left _ h)
    · rcases List.mem_cons.1 h with e | e
      · exact Or.inl (List.mem_append_right _ (by rw [e]; exact List.mem_singleton_self _))
      · exact Or.inr e

end MainWindow
namespace MainWindow

open FlowScene GraphicContainer

theorem nodes_to_rename_nil (container : GraphicContainer) (prev_ID : QString)
    (h : ∀ x ∈ container.scene.nodes, x.model.registration_ID ≠ prev_ID) :
    (container.scene.nodes.filter fun n => n.model.registration_ID = prev_ID).map Node.uid =
      [] := by
  rw [List.map_eq_nil_iff, List.filter_eq_nil_iff]
  intro a ha
  simpa using h a ha

/-- The loop over the tabs leaves a document alone that holds no node of the model
`prev_ID`. -/
theorem renameTabs_done (prev_ID new_ID X : QString) (c1 : GraphicContainer)
    (hc1 : ∀ x ∈ c1.scene.nodes, x.model.registration_ID ≠ prev_ID) :
    ∀ (tabs : List QString) (st st1 : MainWindow), st.getTabByName X = some c1 →
      onTreeNodeEdited.renameTabs prev_ID new_ID tabs st = .ok () st1 →
      st1.getTabByName X = some c1 := by
  intro tabs
  induction tabs with
  | nil =>
    intro st st1 h hret
    unfold onTreeNodeEdited.renameTabs at hret
    injection hret with _ hst
    rw [← hst]
    exact h
  | cons tab rest ih =>
    intro st st1 h hret
    unfold onTreeNodeEdited.renameTabs at hret
    cases htabc : st.getTabByName tab with
    | none =>
      rw [htabc] at hret
      cases hret
    | some container =>
      rw [htabc] at hret
      simp only at hret
      obtain ⟨_, st2, h1, h2⟩ := Res.bind_ok _ _ _ _ hret
      refine ih st2 st1 ?_ h2
      by_cases hX : tab = X
      · subst hX
        rw [h] at htabc
        injection htabc with htabc
        subst htabc
        rw [nodes_to_rename_nil _ prev_ID hc1] at h1
        unfold onTreeNodeEdited.renameNodes at h1
        injection h1 with _ hst
        rw [← hst]
        exact h
      · have hf := frame_renameNodes (fun s : MainWindow => s.getTabByName X) tab
          (fun s c => getTabByName_setContainer_other s tab X c (Ne.symm hX)) new_ID
          ((container.scene.nodes.filter fun n => n.model.registration_ID = prev_ID).map
            Node.uid) st
        rw [h1] at hf
        exact hf.trans h

/-- The loop over the tabs, for a document `X` other than the renamed one whose tab is in
the list: when the loop returns, no node of the document is a node of the model `prev_ID`
and every node that was one has been renamed. -/
theorem renameTabs_spec (prev_ID new_ID X : QString) (c cB : GraphicContainer)
    (m : NodeModel) (ancestors : Nat → List Nat)
    (hne : new_ID ≠ prev_ID) (hX : X ≠ new_ID)
    (hm : m.type = .SUBTREE) (hmid : m.registration_ID = new_ID)
    (hBself : ∀ x ∈ cB.scene.nodes, x.model.registration_ID ≠ prev_ID)
    (hW : c.scene.connectionsJoinNodes)
    (hnodup : (c.scene.nodes.map Node.uid).Nodup)
    (hanc : ∀ n ∈ c.scene.nodes, n.model.registration_ID = prev_ID →
      c.scene.guarded (n.uid :: ancestors n.uid) (ancestors n.uid) ∧
      (∀ q ∈ ancestors n.uid, ∀ x, c.scene.findNode q = some x →
        x.model.registration_ID ≠ prev_ID) ∧
      (n.model.type = .SUBTREE → n.expanded = true →
        (c.scene.childrenOf n.uid).length ≤ 1)) :
    ∀ (tabs : List QString) (st st1 : MainWindow), X ∈ tabs →
      st.getTabByName X = some c →
      (st._model_registry.find new_ID).map RegistryItem.model = some m →
      st.getTabByName new_ID = some cB →
      onTreeNodeEdited.renameTabs prev_ID new_ID tabs st = .ok () st1 →
      ∃ c1 : GraphicContainer, st1.getTabByName X = some c1 ∧
        (∀ x ∈ c1.scene.nodes, x.model.registration_ID ≠ prev_ID) ∧
        ∀ n ∈ c.scene.nodes, n.model.registration_ID = prev_ID →
          ∃ (parents : List Nat) (g2 : Nat),
            (∀ q, (⟨q, n.uid⟩ : Connection) ∈ c.scene.connections → q ∈ parents) ∧
            onTreeNodeEdited.renamed c1.scene prev_ID m
              (if cB.containsValidTree then some (BuildTreeFromScene cB.scene) else none)
              (decide (n.model.type = .SUBTREE) && n.expanded) parents g2 := by
  have htree : ∀ t,
      (if cB.containsValidTree then some (BuildTreeFromScene cB.scene) else none) = some t →
      (∃ sR : FlowScene, sR.build = some t) ∧
      ∀ a ∈ t.nodes, a.model.registration_ID ≠ prev_ID := by
    intro t ht
    by_cases hv : cB.containsValidTree = true
    · rw [if_pos hv] at ht
      injection ht with ht
      subst ht
      refine ⟨⟨cB.scene, ?_⟩, ?_⟩
      · unfold containsValidTree at hv
        unfold BuildTreeFromScene
        cases hb : cB.scene.build with
        | none => rw [hb] at hv; cases hv
        | some tree => rfl
      · intro a ha
        obtain ⟨n, hn, e⟩ := build_models cB.scene a ha
        rw [e]
        exact hBself n hn
    · rw [if_neg hv] at ht
      cases ht
  intro tabs
  induction tabs with
  | nil => intro st st1 hmem; cases hmem
  | cons tab rest ih =>
    intro st st1 hmem htab hreg hB hret
    unfold onTreeNodeEdited.renameTabs at hret
    cases htabc : st.getTabByName tab with
    | none =>
      rw [htabc] at hret
      cases hret
    | some container =>
      rw [htabc] at hret
      simp only at hret
      obtain ⟨_, st2, h1, h2⟩ := Res.bind_ok _ _ _ _ hret
      by_cases hXt : tab = X
      · subst hXt
        rw [htab] at htabc
        injection htabc with htabc
        subst htabc
        obtain ⟨c1, e1, e2, e3⟩ := renameNodes_spec tab new_ID prev_ID cB m ancestors c _ rfl
          htree hm hmid (Ne.symm hX) hne
          ((c.scene.nodes.filter fun n => n.model.registration_ID = prev_ID).map Node.uid)
          st st2 c []
          ((hnodup.sublist ((List.filter_sublist _).map _)))
          htab hreg hB hW
          (by
            intro r hr
            obtain ⟨n, hn, rfl⟩ := List.mem_map.1 hr
            have hnA : n.model.registration_ID = prev_ID := by
              simpa using (List.mem_filter.1 hn).2
            have hnmem := (List.mem_filter.1 hn).1
            obtain ⟨a1, a2, a3⟩ := hanc n hnmem hnA
            exact ⟨⟨n, findNode_of_mem_nodup c.scene hnodup n hnmem, hnA, a1, a2, a3⟩, rfl,
              fun _ h => h⟩)
          (by
            intro x hx hxA
            exact List.mem_map.2 ⟨x, List.mem_filter.2 ⟨hx, by simpa using hxA⟩, rfl⟩)
          (by intro r hr; cases hr)
          h1
        refine ⟨c1, renameTabs_done prev_ID new_ID tab c1 e2 rest st2 st1 e1 h2, e2, ?_⟩
        intro n hn hnA
        obtain ⟨n3, parents, g2, f1, f2, f3⟩ := e3 n.uid
          (Or.inr (List.mem_map.2 ⟨n, List.mem_filter.2 ⟨hn, by simpa using hnA⟩, rfl⟩))
        rw [findNode_of_mem_nodup c.scene hnodup n hn] at f1
        injection f1 with f1
        subst f1
        exact ⟨parents, g2, f2, f3⟩
      · have hmem2 : X ∈ rest := by
          rcases List.mem_cons.1 hmem with e | e
          · exact absurd e.symm hXt
          · exact e
        have hfX := frame_renameNodes (fun s : MainWindow => s.getTabByName X) tab
          (fun s c => getTabByName_setContainer_other s tab X c (Ne.symm hXt)) new_ID
          ((container.scene.nodes.filter fun n => n.model.registration_ID = prev_ID).map
            Node.uid) st
        rw [h1] at hfX
        have hfR := frame_renameNodes (fun s : MainWindow => s._model_registry) tab
          (fun _ _ => rfl) new_ID
          ((container.scene.nodes.filter fun n => n.model.registration_ID = prev_ID).map
            Node.uid) st
        rw [h1] at hfR
        have hB2 : st2.getTabByName new_ID = some cB := by
          by_cases hBt : tab = new_ID
          · subst hBt
            rw [hB] at htabc
            injection htabc with htabc
            subst htabc
            rw [nodes_to_rename_nil _ prev_ID hBself] at h1
            unfold onTreeNodeEdited.renameNodes at h1
            injection h1 with _ hst
            rw [← hst]
            exact hB
          · have hfB := frame_renameNodes (fun s : MainWindow => s.getTabByName new_ID) tab
              (fun s c => getTabByName_setContainer_other s tab new_ID c (Ne.symm hBt)) new_ID
              ((container.scene.nodes.filter fun n => n.model.registration_ID = prev_ID).map
                Node.uid) st
            rw [h1] at hfB
            exact hfB.trans hB
        have hreg2 : (st2._model_registry.find new_ID).map RegistryItem.model = some m := by
          have : st2._model_registry = st._model_registry := hfR
          rw [this]
          exact hreg
        exact ih st2 st1 hmem2 (hfX.trans htab) hreg2 hB2 h2

/-- The function `onTreeNodeEdited(prev_ID, new_ID)` in the state in which the rename of a
subtree document calls it, for a document `X` other than the renamed one.  The model
registered under `new_ID` is the subtree model `m`, and the renamed document is open
under `new_ID` and holds no node of the model `prev_ID`.  In the document `X` the
connections join nodes of the scene, the handles are distinct, and every node of the
model `prev_ID` has a list `ancestors` that holds all its ancestors, none of them a node
of the model `prev_ID`, and has at most one child when it is an expanded subtree.  When
the call returns, no node of `X` is a node of the model `prev_ID`, and for every node
that was one there is a node of the model `m` to which every parent of the old node is
connected.  The new node is collapsed if the old node was not an expanded subtree.  If it
was, the new node is expanded exactly when the renamed document contains a valid tree:
then it has one port, one child, and the locked copy of the tree that is built from the
renamed document is its body; otherwise it has no port and no child. -/
theorem onTreeNodeEdited_renames (prev_ID new_ID : QString) (st st1 : MainWindow)
    (X : QString) (c cB : GraphicContainer) (m : NodeModel) (ancestors : Nat → List Nat)
    (hne : new_ID ≠ prev_ID) (hX : X ≠ new_ID)
    (htab : st.getTabByName X = some c)
    (hB : st.getTabByName new_ID = some cB)
    (hreg : (st._model_registry.find new_ID).map RegistryItem.model = some m)
    (hm : m.type = .SUBTREE) (hmid : m.registration_ID = new_ID)
    (hBself : ∀ x ∈ cB.scene.nodes, x.model.registration_ID ≠ prev_ID)
    (hW : c.scene.connectionsJoinNodes)
    (hnodup : (c.scene.nodes.map Node.uid).Nodup)
    (hanc : ∀ n ∈ c.scene.nodes, n.model.registration_ID = prev_ID →
      c.scene.guarded (n.uid :: ancestors n.uid) (ancestors n.uid) ∧
      (∀ q ∈ ancestors n.uid, ∀ x, c.scene.findNode q = some x →
        x.model.registration_ID ≠ prev_ID) ∧
      (n.model.type = .SUBTREE → n.expanded = true →
        (c.scene.childrenOf n.uid).length ≤ 1))
    (hret : onTreeNodeEdited prev_ID new_ID st = .ok () st1) :
    ∃ c1 : GraphicContainer, st1.getTabByName X = some c1 ∧
      (∀ x ∈ c1.scene.nodes, x.model.registration_ID ≠ prev_ID) ∧
      ∀ n ∈ c.scene.nodes, n.model.registration_ID = prev_ID →
        ∃ (g2 : Nat) (n2 : Node), c1.scene.findNode g2 = some n2 ∧ n2.model = m ∧
          (∀ q, (⟨q, n.uid⟩ : Connection) ∈ c.scene.connections →
            (⟨q, g2⟩ : Connection) ∈ c1.scene.connections) ∧
          (¬ (n.model.type = .SUBTREE ∧ n.expanded = true) → n2.expanded = false) ∧
          (n.model.type = .SUBTREE → n.expanded = true → cB.containsValidTree = false →
            n2.expanded = false ∧ n2.out_ports = 0 ∧ c1.scene.childrenOf g2 = []) ∧
          (n.model.type = .SUBTREE → n.expanded = true → cB.containsValidTree = true →
            n2.expanded = true ∧ n2.out_ports = 1 ∧
            ∃ base : Nat, c1.scene.childrenOf g2 = [base] ∧
              holdsBody c1.scene base (BuildTreeFromScene cB.scene)) := by
  have hmem : X ∈ st._tab_info.keys :=
    (StdMap.find_isSome_iff st._tab_info X).1 (by
      show (st.getTabByName X).isSome = true
      rw [htab]; rfl)
  have key : ∀ (st3 : MainWindow) (tabs : List QString), tabs = st._tab_info.keys →
      st3._tab_info = st._tab_info → st3._model_registry = st._model_registry →
      onTreeNodeEdited.renameTabs prev_ID new_ID tabs st3 = .ok () st1 →
      ∃ c1 : GraphicContainer, st1.getTabByName X = some c1 ∧
        (∀ x ∈ c1.scene.nodes, x.model.registration_ID ≠ prev_ID) ∧
        ∀ n ∈ c.scene.nodes, n.model.registration_ID = prev_ID →
          ∃ (parents : List Nat) (g2 : Nat),
            (∀ q, (⟨q, n.uid⟩ : Connection) ∈ c.scene.connections → q ∈ parents) ∧
            onTreeNodeEdited.renamed c1.scene prev_ID m
              (if cB.containsValidTree then some (BuildTreeFromScene cB.scene) else none)
              (decide (n.model.type = .SUBTREE) && n.expanded) parents g2 := by
    intro st3 tabs e0 e1 e2 hret3
    have htab3 : st3.getTabByName X = some c := by
      show st3._tab_info.find X = some c
      rw [e1]; exact htab
    have hB3 : st3.getTabByName new_ID = some cB := by
      show st3._tab_info.find new_ID = some cB
      rw [e1]; exact hB
    exact renameTabs_spec prev_ID new_ID X c cB m ancestors hne hX hm hmid
      hBself hW hnodup hanc tabs st3 st1 (by rw [e0]; exact hmem) htab3
      (by rw [e2]; exact hreg) hB3 hret3
  have hloop : ∃ c1 : GraphicContainer, st1.getTabByName X = some c1 ∧
      (∀ x ∈ c1.scene.nodes, x.model.registration_ID ≠ prev_ID) ∧
      ∀ n ∈ c.scene.nodes, n.model.registration_ID = prev_ID →
        ∃ (parents : List Nat) (g2 : Nat),
          (∀ q, (⟨q, n.uid⟩ : Connection) ∈ c.scene.connections → q ∈ parents) ∧
          onTreeNodeEdited.renamed c1.scene prev_ID m
            (if cB.containsValidTree then some (BuildTreeFromScene cB.scene) else none)
            (decide (n.model.type = .SUBTREE) && n.expanded) parents g2 := by
    unfold onTreeNodeEdited at hret
    cases h1 : isInNodeModels st._workspace_models prev_ID <;>
    cases h2 : isInNodeModels st._workspace_models new_ID <;>
    simp only [h1, h2, Bool.false_eq_true, if_false, if_true, Bool.or_false, Bool.or_true,
      Bool.or_self, ↓reduceIte] at hret <;>
    exact key _ _ (by rfl) (by rfl) (by rfl) hret
  obtain ⟨c1, f1, f2, f3⟩ := hloop
  refine ⟨c1, f1, f2, ?_⟩
  intro n hn hnA
  obtain ⟨parents, g2, p1, n2, P, base, r1, r2, r3, r4, r5, r6, r7, r8, r9⟩ := f3 n hn hnA
  refine ⟨g2, n2, r1, r2, fun q hq => (r6 q (p1 q hq)).2, ?_, ?_, ?_⟩
  · intro hnot
    apply r7
    by_cases h1 : n.model.type = .SUBTREE
    · have : n.expanded = false := by
        cases h2 : n.expanded
        · rfl
        · exact absurd ⟨h1, h2⟩ hnot
      simp [this]
    · simp [h1]
  · intro h1 h2 hv
    exact r8 (by simp [h1, h2]) (by simp [hv])
  · intro h1 h2 hv
    obtain ⟨a1, a2, a3, a4, _⟩ := r9 (by simp [h1, h2]) (BuildTreeFromScene cB.scene)
      (by simp [hv])
    exact ⟨a1, a2, base, a3, a4⟩

end MainWindow
namespace MainWindow

/-- The rename of a document that holds a reference to itself: the main document holds an
expanded reference to `Sub`, and the document `Sub` is the root node with a reference to
`Sub`.  The rename of `Sub` to `Sub2` through `onTabRenameRequested` returns; the tab of
the main document comes first in `onTreeNodeEdited`, so the new body of its reference is
a copy of the renamed document as it is before its own node is renamed, and afterwards
the main document holds a node of the model `Sub`. -/
theorem onTabRenameRequested_copies_self_reference :
    (Sample.selfProject.getTabByName "BehaviorTree").map
      (fun c => c.scene.nodes.map fun n => (n.uid, n.model.registration_ID, n.expanded)) =
      some [(1, "Root", false), (2, "Sub", true), (3, "Root", false), (4, "Act", false)] ∧
    (Sample.selfProject.getTabByName "Sub").map
      (fun c => c.scene.nodes.map fun n => (n.uid, n.model.registration_ID, n.expanded)) =
      some [(1, "Root", false), (2, "Sub", false)] ∧
    (onTabRenameRequested 1 "Sub2" none Sample.selfProject).isOk = true ∧
    ((onTabRenameRequested 1 "Sub2" none Sample.selfProject).state.getTabByName
      "BehaviorTree").map
      (fun c => c.scene.nodes.map fun n => (n.uid, n.model.registration_ID, n.expanded)) =
      some [(1, "Root", false), (3, "Sub2", true), (4, "Root", false), (5, "Sub", false)] ∧
    ((onTabRenameRequested 1 "Sub2" none Sample.selfProject).state.getTabByName "Sub2").map
      (fun c => c.scene.nodes.map fun n => (n.uid, n.model.registration_ID, n.expanded)) =
      some [(1, "Root", false), (3, "Sub2", false)] := by
  decide

end MainWindow
namespace StdMap

variable {V : Type}

theorem find_assign_self (m : StdMap V) (k : QString) (v : V) :
    (m.assign k v).find k = some v := by
  unfold assign
  rw [find_insert, find_erase]
  simp

theorem findEntry_mapValues {W : Type} (f : V → W) (k : QString) (l : List (QString × V)) :
    findEntry k (l.map fun e => (e.1, f e.2)) = (findEntry k l).map f := by
  induction l with
  | nil => rfl
  | cons e rest ih =>
    simp only [List.map_cons, findEntry]
    by_cases h : e.1 = k
    · simp [h]
    · simp [h, ih]

theorem find_mapValues {W : Type} (m : StdMap V) (f : V → W) (k : QString) :
    (m.mapValues f).find k = (m.find k).map f :=
  findEntry_mapValues f k m.entries

end StdMap

namespace MainWindow

open FlowScene GraphicContainer

/-- The documents after `clearUndoStacks`: only the editing lock of a document is set, its
scene stays. -/
theorem clearUndoStacks_scene (st : MainWindow) (X : QString) :
    st.clearUndoStacks.state.getTabByName X =
      (st.getTabByName X).map fun c =>
        c.lockEditing (decide (st._current_mode ≠ GraphicMode.EDITOR)) := by
  unfold clearUndoStacks onPushUndo
  simp only
  split
  · simp only [Res.state, getTabByName, onSceneChanged, lockEditing, updateTreeInfo,
      StdMap.find_mapValues]
  · simp only [Res.state, pushSnapshot]
    split <;>
      simp only [getTabByName, onSceneChanged, lockEditing, updateTreeInfo,
        StdMap.find_mapValues]

theorem onAddToModelRegistry_tab_info (model : NodeModel) (st : MainWindow) :
    (st.onAddToModelRegistry model)._tab_info = st._tab_info := by
  unfold onAddToModelRegistry
  simp only
  split <;> rfl

theorem onAddToModelRegistry_registry (model : NodeModel) (st : MainWindow) :
    (st.onAddToModelRegistry model)._model_registry =
      st._model_registry.assign model.registration_ID ⟨toStr model.type, model⟩ := by
  unfold onAddToModelRegistry
  simp only
  split <;> rfl

end MainWindow
namespace MainWindow

open FlowScene GraphicContainer

/-- C19, amended: the rename of a registered subtree document from `A` to `B` through
`onTabRenameRequested`, which calls `onTreeNodeEdited(A, B)`, in another open document
`X`.  The tab is labelled `A`, the new name `B` is not empty, differs from `A` and is not
the name of an open document, a model of the category `SubTree` is registered under `A`,
and the document `A` holds no node of the model `A`.  In the document `X` the connections
join nodes of the scene, the handles are distinct, and every node of the model `A` has a
list `ancestors` that holds all its ancestors, none of them a node of the model `A`, and
has at most one child when it is an expanded subtree.  When the call returns, no node of
`X` is a node of the model `A`, and for every node that was one there is a node of the
subtree model `B` to which every parent of the old node is connected.  The new node is
collapsed if the old node was not an expanded subtree.  If it was, the body is not kept:
the new node is expanded exactly when the renamed document contains a valid tree, and
then it has one port, one child, and the locked copy of the tree that is built from the
renamed document is its body; otherwise it has no port and no child. -/
theorem onTabRenameRequested_renames_references (tab_index : Int) (A B : QString)
    (dialog : Option QString) (st st1 : MainWindow) (X : QString)
    (c cA : GraphicContainer) (ancestors : Nat → List Nat)
    (hA : st.tabWidget.tabText tab_index = A)
    (hB : B ≠ "") (hne : B ≠ A)
    (hfresh : st.getTabByName B = none)
    (hdoc : st.getTabByName A = some cA)
    (hregA : st.registeredModelsByCategory_count "SubTree" A ≠ 0)
    (hX : X ≠ A) (htab : st.getTabByName X = some c)
    (hAself : ∀ x ∈ cA.scene.nodes, x.model.registration_ID ≠ A)
    (hW : c.scene.connectionsJoinNodes)
    (hnodup : (c.scene.nodes.map Node.uid).Nodup)
    (hanc : ∀ n ∈ c.scene.nodes, n.model.registration_ID = A →
      c.scene.guarded (n.uid :: ancestors n.uid) (ancestors n.uid) ∧
      (∀ q ∈ ancestors n.uid, ∀ x, c.scene.findNode q = some x →
        x.model.registration_ID ≠ A) ∧
      (n.model.type = .SUBTREE → n.expanded = true →
        (c.scene.childrenOf n.uid).length ≤ 1))
    (hret : onTabRenameRequested tab_index B dialog st = .ok () st1) :
    ∃ c1 : GraphicContainer, st1.getTabByName X = some c1 ∧
      (∀ x ∈ c1.scene.nodes, x.model.registration_ID ≠ A) ∧
      ∀ n ∈ c.scene.nodes, n.model.registration_ID = A →
        ∃ (g2 : Nat) (n2 : Node), c1.scene.findNode g2 = some n2 ∧
          n2.model = ⟨.SUBTREE, B, StdMap.empty⟩ ∧
          (∀ q, (⟨q, n.uid⟩ : Connection) ∈ c.scene.connections →
            (⟨q, g2⟩ : Connection) ∈ c1.scene.connections) ∧
          (¬ (n.model.type = .SUBTREE ∧ n.expanded = true) → n2.expanded = false) ∧
          (n.model.type = .SUBTREE → n.expanded = true → cA.containsValidTree = false →
            n2.expanded = false ∧ n2.out_ports = 0 ∧ c1.scene.childrenOf g2 = []) ∧
          (n.model.type = .SUBTREE → n.expanded = true → cA.containsValidTree = true →
            n2.expanded = true ∧ n2.out_ports = 1 ∧
            ∃ base : Nat, c1.scene.childrenOf g2 = [base] ∧
              holdsBody c1.scene base (BuildTreeFromScene cA.scene)) := by
  have hXB : X ≠ B := by
    intro e
    rw [e, hfresh] at htab
    cases htab
  have key : ∀ st3 st7 : MainWindow, st3._model_registry = st._model_registry →
      st7.getTabByName X = some c →
      st7.getTabByName B = some cA →
      (st7._model_registry.find B).map RegistryItem.model =
        some ⟨.SUBTREE, B, StdMap.empty⟩ →
      ((if st3.registeredModelsByCategory_count "SubTree" A ≠ 0 then
          st7.onTreeNodeEdited A B
        else .ok () st3).bind fun _ st8 => st8.clearUndoStacks) = .ok () st1 →
      ∃ c1 : GraphicContainer, st1.getTabByName X = some c1 ∧
        (∀ x ∈ c1.scene.nodes, x.model.registration_ID ≠ A) ∧
        ∀ n ∈ c.scene.nodes, n.model.registration_ID = A →
          ∃ (g2 : Nat) (n2 : Node), c1.scene.findNode g2 = some n2 ∧
            n2.model = ⟨.SUBTREE, B, StdMap.empty⟩ ∧
            (∀ q, (⟨q, n.uid⟩ : Connection) ∈ c.scene.connections →
              (⟨q, g2⟩ : Connection) ∈ c1.scene.connections) ∧
            (¬ (n.model.type = .SUBTREE ∧ n.expanded = true) → n2.expanded = false) ∧
            (n.model.type = .SUBTREE → n.expanded = true → cA.containsValidTree = false →
              n2.expanded = false ∧ n2.out_ports = 0 ∧ c1.scene.childrenOf g2 = []) ∧
            (n.model.type = .SUBTREE → n.expanded = true → cA.containsValidTree = true →
              n2.expanded = true ∧ n2.out_ports = 1 ∧
              ∃ base : Nat, c1.scene.childrenOf g2 = [base] ∧
                holdsBody c1.scene base (BuildTreeFromScene cA.scene)) := by
    intro st3 st7 h0 h1 h2 h3 h4
    have hcount : st3.registeredModelsByCategory_count "SubTree" A ≠ 0 := by
      unfold registeredModelsByCategory_count
      rw [h0]
      exact hregA
    rw [if_pos hcount] at h4
    obtain ⟨_, st8, h5, h6⟩ := Res.bind_ok _ _ _ _ h4
    obtain ⟨c8, e1, e2, e3⟩ := onTreeNodeEdited_renames A B st7 st8 X c cA
      ⟨.SUBTREE, B, StdMap.empty⟩ ancestors hne hXB h1 h2 h3 rfl rfl hAself hW hnodup hanc h5
    have hs := clearUndoStacks_scene st8 X
    rw [h6, e1] at hs
    exact ⟨_, hs, e2, e3⟩
  have hdoc2 : st._tab_info.find A = some cA := hdoc
  have hfresh2 : st._tab_info.find B = none := hfresh
  have htab2 : st._tab_info.find X = some c := htab
  have g1 : ((st._tab_info.insert B cA).erase A).find X = some c := by
    rw [StdMap.find_erase, if_neg hX, StdMap.find_insert, if_neg hXB]
    exact htab2
  have g2 : ((st._tab_info.insert B cA).erase A).find B = some cA := by
    rw [StdMap.find_erase, if_neg hne, StdMap.find_insert, if_pos rfl, hfresh2]
  have g3 : ∀ r : StdMap RegistryItem,
      ((r.assign B ⟨toStr .SUBTREE, ⟨.SUBTREE, B, StdMap.empty⟩⟩).find B).map
        RegistryItem.model = some ⟨.SUBTREE, B, StdMap.empty⟩ := by
    intro r
    rw [StdMap.find_assign_self]
    rfl
  unfold onTabRenameRequested at hret
  simp only [if_neg hB, hA, if_neg hne, hfresh, Option.isSome_none, Bool.false_eq_true,
    if_false, hdoc2] at hret
  by_cases hmain : st._main_tree = A
  · simp only [hmain, if_true] at hret
    refine key _ _ (by rfl) ?_ ?_ ?_ hret
    · unfold getTabByName
      simp only [onAddToModelRegistry_tab_info, unregisterModel]
      exact g1
    · unfold getTabByName
      simp only [onAddToModelRegistry_tab_info, unregisterModel]
      exact g2
    · simp only [onAddToModelRegistry_registry]
      exact g3 _
  · simp only [hmain, if_false] at hret
    refine key _ _ (by rfl) ?_ ?_ ?_ hret
    · unfold getTabByName
      simp only [onAddToModelRegistry_tab_info, unregisterModel]
      exact g1
    · unfold getTabByName
      simp only [onAddToModelRegistry_tab_info, unregisterModel]
      exact g2
    · simp only [onAddToModelRegistry_registry]
      exact g3 _

/-- Witness for C19, amended: the main document of the sample holds a collapsed and an
expanded reference to `Sub` below a sequence; the document `Sub`, a valid tree, is
renamed to `Sub2`. -/
theorem onTabRenameRequested_renames_references_witness :
    ∃ c1 : GraphicContainer,
      (onTabRenameRequested 1 "Sub2" none Sample.pairProject).state.getTabByName
        "BehaviorTree" = some c1 ∧
      (∀ x ∈ c1.scene.nodes, x.model.registration_ID ≠ "Sub") ∧
      ∀ n ∈ Sample.pairMain.scene.nodes, n.model.registration_ID = "Sub" →
        ∃ (g2 : Nat) (n2 : Node), c1.scene.findNode g2 = some n2 ∧
          n2.model = ⟨.SUBTREE, "Sub2", StdMap.empty⟩ ∧
          (∀ q, (⟨q, n.uid⟩ : Connection) ∈ Sample.pairMain.scene.connections →
            (⟨q, g2⟩ : Connection) ∈ c1.scene.connections) ∧
          (¬ (n.model.type = .SUBTREE ∧ n.expanded = true) → n2.expanded = false) ∧
          (n.model.type = .SUBTREE → n.expanded = true →
            GraphicContainer.containsValidTree
              { MainWindow.newTabContainer .Vertical with scene := Sample.subScene } = false →
            n2.expanded = false ∧ n2.out_ports = 0 ∧ c1.scene.childrenOf g2 = []) ∧
          (n.model.type = .SUBTREE → n.expanded = true →
            GraphicContainer.containsValidTree
              { MainWindow.newTabContainer .Vertical with scene := Sample.subScene } = true →
            n2.expanded = true ∧ n2.out_ports = 1 ∧
            ∃ base : Nat, c1.scene.childrenOf g2 = [base] ∧
              holdsBody c1.scene base (BuildTreeFromScene
                (GraphicContainer.scene
                  { MainWindow.newTabContainer .Vertical with scene := Sample.subScene }))) :=
  onTabRenameRequested_renames_references 1 "Sub" "Sub2" none Sample.pairProject
    (onTabRenameRequested 1 "Sub2" none Sample.pairProject).state "BehaviorTree"
    Sample.pairMain
    { MainWindow.newTabContainer .Vertical with scene := Sample.subScene }
    (fun _ => [2, 1])
    (by decide) (by decide) (by decide) (by decide) (by decide) (by decide) (by decide)
    (by decide) (by decide) (by decide) (by decide) (by decide) (by decide)

end MainWindow
